import Mathlib

/-!
# WSPRduino2: the telemetry link (DataTransmitter / DataReceiver)

A shallow embedding of the two interrupt-driven engines of the telemetry link,

* `src/GPS/libs/DataTransmitter/DataTransmitter.cpp` (timer-driven serializer),
* `src/libs/DataReceiver/DataReceiver.cpp` (edge-driven decoder),

followed by theorems about them.

Conventions of the embedding.

* Machine integers are natural numbers; every place where the target (an
  8-bit AVR, `int` is 16 bit) can wrap carries an explicit `% 2^w`.
* Memory behind a pointer is a `List Nat` of bytes that starts at the
  pointer; a read outside the list yields `0`, a write outside is dropped.
* Hardware that the code touches (the output pin, the Timer-2 registers, the
  attached pin-change interrupt) is part of the engine state.
* The checksum library `CRCGenerator` is not part of the sources; the
  engines are parametrised by the checksum function `crc`.
-/

namespace WSPRduino

/-! ## Integer helpers -/

/-- The C operator `!x` on an integer: `1` when `x` is zero, else `0`. -/
def lnot (x : Nat) : Nat := if x = 0 then 1 else 0

/-- Subtraction of two `uint32_t` values (wraps modulo `2^32`). -/
def sub32 (a b : Nat) : Nat := (a + 4294967296 - b) % 4294967296

/-- The comparison operand `DSET.SIZE-POS` (`array_size-POS` in the receiver)
of `dataTransfer`, as the target evaluates it: both bytes are promoted to the 16-bit `int`, the difference is
converted to `unsigned int` for the comparison with the `uint16_t SCOPE`. -/
def remaining16 (SIZE POS : Nat) : Nat := (SIZE + 65536 - POS) % 65536

/-- The copy loop of `dataTransfer` (transmitter lines 210-217, receiver lines
331-338) from index `i` on, `n` iterations left; `X` is the caller's memory,
`D` the engine-side memory, `off` the constant added to the index (`0` in the
transmitter, `2` in the receiver). -/
def copyLoop (WRITE POS off : Nat) : Nat → Nat → List Nat × List Nat → List Nat × List Nat
  | 0, _, m => m
  | n + 1, i, (X, D) =>
    if WRITE ≠ 0 then
      copyLoop WRITE POS off n (i + 1) (X, D.set (POS + i + off) (X.getD i 0))
    else
      copyLoop WRITE POS off n (i + 1) (X.set i (D.getD (POS + i + off) 0), D)

/-! ## Checksum service -/

/-- Modelled from the spec: the Checksum Service interface
`checksum8(id: byte, data: bytes, len: byte) -> byte` of the library
`CRCGenerator`, which is not among the sources.  The service receives the
identifier and the `len` bytes found at the pointer and returns one byte; the
algorithm `crc` itself is a parameter. -/
def checksum8 (crc : Nat → List Nat → Nat) (id : Nat) (data : List Nat) (len : Nat) : Nat :=
  crc id (data.take len) % 256

/-- Modelled from the spec: one byte folded into a Dallas/Maxim CRC-8
(polynomial 0x31 reflected, i.e. 0x8C, processed LSB first); `n` counts the
remaining bit steps. -/
def crc8Bits : Nat → Nat → Nat
  | 0, c => c
  | n + 1, c => crc8Bits n (if c % 2 = 1 then (c / 2) ^^^ 0x8C else c / 2)

/-- Modelled from the spec: the checksum algorithm named in the spec
("Dallas/Maxim-style CRC-8, polynomial 0x31 reflected, seed 0") computed over
`identifier ‖ payload`.  Used for concrete scenarios only. -/
def crc8Maxim (id : Nat) (data : List Nat) : Nat :=
  (id :: data).foldl (fun c b => crc8Bits 8 (c ^^^ (b % 256))) 0

/-! ## Transmit engine (`DataTransmitter.cpp`) -/

/-- The struct `dset_t` of `DataTransmitter.h`: `data` is the memory found at
the pointer. -/
structure dset_t where
  data : List Nat
  ID : Nat
  SIZE : Nat
  deriving DecidableEq, Repr

/-- The private fields of `DataTransmitterClass`, with the hardware it drives:
`pin_level` is the level last written to the output pin, `TCCR2A`, `TCCR2B`,
`TCNT2`, `OCR2A`, `TIMSK2` are the Timer-2 registers. -/
structure DataTransmitterClass where
  pin : Nat
  data : List Nat
  bytes : Nat
  byte_counter : Nat
  step : Nat
  prev_symbol : Nat
  curr_symbol : Nat
  curr_byte : Nat
  block_size : Nat
  pin_value : Nat
  prescaler : Nat
  pin_level : Nat
  TCCR2A : Nat
  TCCR2B : Nat
  TCNT2 : Nat
  OCR2A : Nat
  TIMSK2 : Nat
  deriving DecidableEq, Repr

namespace DataTransmitterClass

/-- The object `DT` before `init`: a global, hence zero-initialised, with the
default member initialisers `bytes = 0`, `pin_value = 0`, `prescaler = 0`. -/
def fresh : DataTransmitterClass :=
  { pin := 0, data := [], bytes := 0, byte_counter := 0, step := 0, prev_symbol := 0,
    curr_symbol := 0, curr_byte := 0, block_size := 0, pin_value := 0, prescaler := 0,
    pin_level := 0, TCCR2A := 0, TCCR2B := 0, TCNT2 := 0, OCR2A := 0, TIMSK2 := 0 }

/-- The body of `DataTransmitterClass::isr` (lines 46-88). -/
def isr (s : DataTransmitterClass) : DataTransmitterClass :=
  let s1 : DataTransmitterClass :=
    if s.step < 4 then
      { s with pin_value := lnot s.pin_value }
    else
      -- each symbol (bit) requires two steps to transmit
      let a : DataTransmitterClass :=
        if s.step &&& 1 = 0 then
          let sym := s.curr_byte &&& 1
          { s with
            curr_symbol := sym
            curr_byte := s.curr_byte >>> 1
            -- toggle output if the symbol value has changed
            pin_value := if s.prev_symbol ^^^ sym ≠ 0 then lnot s.pin_value else s.pin_value
            prev_symbol := sym }
        else s
      if a.step = a.block_size then
        let b : DataTransmitterClass := { a with step := 3 }
        if b.byte_counter = b.bytes then
          if b.block_size = 4 then
            -- stop timer 2
            { b with TCCR2B := 0, bytes := 0 }
          else
            { b with curr_byte := 0, block_size := 4 }
        else
          { b with
            curr_byte := b.data.getD b.byte_counter 0
            block_size := 19
            byte_counter := (b.byte_counter + 1) % 65536 }
      else a
  -- ++step; digitalWrite(pin, pin_value = !pin_value);
  { s1 with
    step := (s1.step + 1) % 256
    pin_value := lnot s1.pin_value
    pin_level := lnot s1.pin_value }

/-- The table `PRE` of `init`. -/
def PRE : List Nat := [0, 3, 2, 1, 1, 1, 2]

/-- The `do ... while(multiplier > 0x100)` loop of `init` (lines 115-119) on
`(i, multiplier)`; `none` when the fuel runs out before the loop ends. -/
def prescalerLoop : Nat → Nat → Nat → Option (Nat × Nat)
  | 0, _, _ => none
  | fuel + 1, i, multiplier =>
    let m := multiplier >>> PRE.getD i 0
    let j := (i + 1) % 256
    if m > 0x100 then prescalerLoop fuel j m else some (j, m)

/-- `DataTransmitterClass::init` (lines 101-130).  `WGM21` and `OCIE2A` are
both bit 1 of their registers. -/
def init (BYTE_RATE TRANSMITTER_PIN IS_LOW_ACTIVE : Nat) (s : DataTransmitterClass) :
    DataTransmitterClass :=
  let r := (prescalerLoop 7 0 (1000000 / max BYTE_RATE 4)).getD (0, 0)
  let multiplier := sub32 r.2 1
  { s with
    pin := TRANSMITTER_PIN
    pin_level := if IS_LOW_ACTIVE = 0 then 0 else 1
    prescaler := r.1
    TCCR2A := 0 ||| 2
    TCCR2B := 0
    OCR2A := multiplier % 256
    TIMSK2 := s.TIMSK2 ||| 2 }

/-- `DataTransmitterClass::createDataset` (lines 142-150). -/
def createDataset (X : List Nat) (ID SCOPE : Nat) : dset_t :=
  { data := X, ID := ID, SIZE := SCOPE }

/-- `DataTransmitterClass::transmitData` (lines 161-188): the new engine state
and the returned flag `commenced`. -/
def transmitData (crc : Nat → List Nat → Nat) (s : DataTransmitterClass) (DSET : dset_t) :
    DataTransmitterClass × Nat :=
  if s.bytes = 0 ∧ DSET.SIZE ≠ 0 then
    -- two sync-bits + ID + CRC
    let c0 := checksum8 crc DSET.ID DSET.data DSET.SIZE
    let c1 := (c0 <<< 8) % 4294967296
    let c2 := (c1 + DSET.ID) % 4294967296
    let c3 := (c2 <<< 2) % 4294967296
    let c4 := (c3 + 3) % 4294967296
    ({ s with
       bytes := DSET.SIZE
       data := DSET.data
       curr_byte := c4
       step := 1
       prev_symbol := 0
       byte_counter := 0
       block_size := 39
       pin_value := 1
       TCNT2 := 0
       TCCR2B := s.prescaler }, 1)
  else (s, 0)

/-- `DataTransmitterClass::dataTransfer` (lines 204-223): the caller's memory
`X`, the dataset memory and the returned byte `next`. -/
def dataTransfer (X : List Nat) (SCOPE : Nat) (DSET : dset_t) (POS WRITE : Nat) :
    List Nat × List Nat × Nat :=
  if SCOPE ≠ 0 ∧ SCOPE ≤ remaining16 DSET.SIZE POS then
    let m := copyLoop WRITE POS 0 SCOPE 0 (X, DSET.data)
    let next := (POS + SCOPE) % 256
    (m.1, m.2, if next = DSET.SIZE then 0xFF else next)
  else (X, DSET.data, 0)

/-- One period of Timer 2: the compare interrupt runs `isr` while the timer is
clocked (`TCCR2B` non-zero); a stopped timer raises no interrupt. -/
def timerTick (s : DataTransmitterClass) : DataTransmitterClass :=
  if s.TCCR2B = 0 then s else isr s

/-- The engine state after `n` timer periods. -/
def ticks : Nat → DataTransmitterClass → DataTransmitterClass
  | 0, s => s
  | n + 1, s => ticks n (timerTick s)

/-- The output level after each of the next `n` timer periods. -/
def levels : Nat → DataTransmitterClass → List Nat
  | 0, _ => []
  | n + 1, s => (timerTick s).pin_level :: levels n (timerTick s)

/-- The symbols emitted during the next `n` timer periods: the value of
`curr_symbol` at each tick that runs the symbol branch of `isr` (the timer is
clocked, `step >= 4` and `step` is even). -/
def symbols : Nat → DataTransmitterClass → List Nat
  | 0, _ => []
  | n + 1, s =>
    (if s.TCCR2B ≠ 0 ∧ ¬ s.step < 4 ∧ s.step &&& 1 = 0 then [(timerTick s).curr_symbol] else [])
      ++ symbols n (timerTick s)

end DataTransmitterClass

/-! ## Receive engine (`DataReceiver.cpp`) -/

/-- The struct `dset_r` of `DataReceiver.h`; `FUNCTION` is the address of the
callback, which the engine never calls. -/
structure dset_r where
  ID : Nat
  SIZE : Nat
  FUNCTION : Nat
  deriving DecidableEq, Repr

instance : Inhabited dset_r := ⟨⟨0, 0, 0⟩⟩

/-- The private fields of `DataReceiverClass`, with `msl`, the function-static
timestamp of `DRisr` (the statics `msc` and `dt` are overwritten before use on
every call and carry no state), and `attached`, which is `1` while the
pin-change interrupt is attached.  `dataset` is the memory found at the
registry pointer; `data_array = []` stands for the null pointer (an allocated
block has at least two bytes). -/
structure DataReceiverClass where
  is_initialized : Nat
  receiver_input : Nat
  T1 : Nat
  T2 : Nat
  T3 : Nat
  Tl : Nat
  int_counter : Nat
  byte_counter : Nat
  bit_value : Nat
  byte_value : Nat
  prev_bit : Nat
  pos : Nat
  skip_next_short : Nat
  dataset : List dset_r
  dataset_count : Nat
  data_array : List Nat
  array_size : Nat
  status : Nat
  timestamp : Nat
  msl : Nat
  attached : Nat
  deriving DecidableEq, Repr

namespace DataReceiverClass

/-- The object `DR` before `init`: a global, hence zero-initialised, with the
default member initialisers `is_initialized = 0`, `array_size = 0`,
`status = 0`, and `msl = 0`. -/
def fresh : DataReceiverClass :=
  { is_initialized := 0, receiver_input := 0, T1 := 0, T2 := 0, T3 := 0, Tl := 0,
    int_counter := 0, byte_counter := 0, bit_value := 0, byte_value := 0, prev_bit := 0,
    pos := 0, skip_next_short := 0, dataset := [], dataset_count := 0, data_array := [],
    array_size := 0, status := 0, timestamp := 0, msl := 0, attached := 0 }

/-- `DataReceiverClass::resetReception` (lines 127-138). -/
def resetReception (s : DataReceiverClass) : DataReceiverClass :=
  { s with
    int_counter := 0
    byte_counter := 0
    bit_value := 1
    byte_value := 0
    prev_bit := 1
    skip_next_short := 1
    -- check if dataset is being written and if so, reset flag
    status := if s.status &&& 1 ≠ 0 then 0 else s.status }

/-- `DataReceiverClass::storeData` (lines 144-149). -/
def storeData (s : DataReceiverClass) : DataReceiverClass :=
  { s with
    data_array := s.data_array.set s.byte_counter s.byte_value
    bit_value := 1
    byte_value := 0
    byte_counter := (s.byte_counter + 1) % 65536 }

/-- The registry scan of `DRisr` (lines 78-88) from index `i` on, `n` entries
left: the first index whose `ID` equals `byte_value`, if any. -/
def idLoop (dataset : List dset_r) (byte_value : Nat) : Nat → Nat → Option Nat
  | 0, _ => none
  | n + 1, i =>
    if (dataset.getD i default).ID = byte_value then some i
    else idLoop dataset byte_value n (i + 1)

/-- Lines 74-106 of `DRisr`: what follows the folding of a bit into
`byte_value`; `millis` is the reading of `millis()`. -/
def bitDone (millis : Nat) (s : DataReceiverClass) : DataReceiverClass :=
  if s.bit_value &&& 0x80 ≠ 0 then
    -- last bit has been reached -> switch to next byte
    if s.byte_counter = 0 then
      -- this is the first Byte (ID-Byte)
      if s.status = 0 then
        match idLoop s.dataset s.byte_value s.dataset_count 0 with
        | some i => storeData { s with pos := i, status := 1, timestamp := sub32 millis s.Tl }
        | none => resetReception s
      else resetReception s
    else
      let a := storeData s
      if a.byte_counter = (a.dataset.getD a.pos default).SIZE + 2 then
        resetReception { a with status := 4 }
      else a
  else { s with bit_value := (s.bit_value <<< 1) % 256 }

/-- `DataReceiverClass::DRisr` (lines 43-121); `micros` and `millis` are the
readings of `micros()` and `millis()` at the edge. -/
def DRisr (micros millis : Nat) (s : DataReceiverClass) : DataReceiverClass :=
  let dt := sub32 micros s.msl
  let s0 : DataReceiverClass := { s with msl := micros }
  if dt < s0.T1 ∨ dt > s0.T3 then resetReception s0
  else if dt > s0.T2 ∨ s0.skip_next_short = 0 then
    let s1 : DataReceiverClass := { s0 with skip_next_short := 1 }
    if s1.int_counter ≠ 0 then
      -- preamble was ok, data is being received
      let s2 : DataReceiverClass :=
        if dt > s1.T2 then { s1 with prev_bit := lnot s1.prev_bit } else s1
      let s3 : DataReceiverClass :=
        if s2.prev_bit ≠ 0 then { s2 with byte_value := (s2.byte_value + s2.bit_value) % 256 }
        else s2
      bitDone millis s3
    else
      -- preamble is being received
      if dt > s1.T2 then resetReception s1
      else { s1 with int_counter := (s1.int_counter + 1) % 256 }
  else { s0 with skip_next_short := 0 }

/-- The loop of `init` (lines 176-178) that finds the biggest dataset, from
index `i` on, `n` entries left. -/
def sizeLoop (dataset : List dset_r) : Nat → Nat → Nat → Nat
  | 0, _, array_size => array_size
  | n + 1, i, array_size => sizeLoop dataset n (i + 1) (max array_size (dataset.getD i default).SIZE)

/-- `DataReceiverClass::init` (lines 165-198): the new engine state and the
returned byte.  `heap` is the outcome of `malloc`: `none` for a null pointer,
`some f` for a block whose byte `i` initially holds `f i % 256`. -/
def init (BYTE_RATE RECEIVER_PIN : Nat) (dsets : List dset_r) (DATASET_COUNT : Nat)
    (heap : Option (Nat → Nat)) (s : DataReceiverClass) : DataReceiverClass × Nat :=
  if s.is_initialized = 0 ∧ BYTE_RATE > 3 ∧ DATASET_COUNT ≠ 0 then
    let s1 : DataReceiverClass :=
      { s with receiver_input := RECEIVER_PIN, dataset := dsets, dataset_count := DATASET_COUNT }
    -- allocate memory matching the size of the biggest dataset
    let s2 : DataReceiverClass :=
      { s1 with array_size := sizeLoop s1.dataset s1.dataset_count 0 0 }
    match heap with
    | none => ({ s2 with data_array := [] }, s2.is_initialized)
    | some f =>
      let s3 : DataReceiverClass :=
        { s2 with data_array := (List.range (s2.array_size + 2)).map (fun i => f i % 256) }
      -- calculate time step threshold [μs] for given Byte-rate
      let t1 := (31250 / BYTE_RATE) % 65536
      let s4 : DataReceiverClass :=
        { s3 with T1 := t1, T2 := (3 * t1) % 65536, T3 := (5 * t1) % 65536,
                  Tl := (1375 / BYTE_RATE) % 65536 }
      let s5 := resetReception s4
      let s6 : DataReceiverClass := { s5 with attached := 1, is_initialized := 1 }
      (s6, s6.is_initialized)
  else (s, s.is_initialized)

/-- `DataReceiverClass::enableReceiverInput` (lines 204-213). -/
def enableReceiverInput (ENABLE : Nat) (s : DataReceiverClass) : DataReceiverClass :=
  if s.is_initialized ≠ 0 then
    if ENABLE ≠ 0 then { s with attached := 1 } else { s with attached := 0 }
  else s

/-- `DataReceiverClass::createDataset` (lines 225-233). -/
def createDataset (ID SIZE FUNCTION : Nat) : dset_r :=
  { ID := ID, SIZE := SIZE, FUNCTION := FUNCTION }

/-- `DataReceiverClass::getStatus` (lines 240-242): the state is not touched. -/
def getStatus (s : DataReceiverClass) : Nat := s.status

/-- `DataReceiverClass::setStatus` (lines 249-251). -/
def setStatus (stat : Nat) (s : DataReceiverClass) : DataReceiverClass :=
  { s with status := stat }

/-- `DataReceiverClass::getTimestamp` (lines 258-260). -/
def getTimestamp (s : DataReceiverClass) : Nat := s.timestamp

/-- `DataReceiverClass::getID` (lines 267-269). -/
def getID (s : DataReceiverClass) : Nat := s.data_array.getD 0 0

/-- `DataReceiverClass::getPos` (lines 277-279). -/
def getPos (s : DataReceiverClass) : Nat := s.pos

/-- `DataReceiverClass::getCRC` (lines 286-288). -/
def getCRC (s : DataReceiverClass) : Nat := s.data_array.getD 1 0

/-- `DataReceiverClass::getDataArray` (lines 295-297): the memory found at
`data_array + 2`. -/
def getDataArray (s : DataReceiverClass) : List Nat := s.data_array.drop 2

/-- `DataReceiverClass::validateData` (lines 304-311). -/
def validateData (crc : Nat → List Nat → Nat) (s : DataReceiverClass) : Nat :=
  if s.data_array.getD 1 0 =
      checksum8 crc (s.dataset.getD s.pos default).ID (s.data_array.drop 2)
        (s.dataset.getD s.pos default).SIZE then 1
  else 0

/-- `DataReceiverClass::dataTransfer` (lines 326-344): the caller's memory `X`,
the receive buffer and the returned byte `next`. -/
def dataTransfer (X : List Nat) (SCOPE POS WRITE : Nat) (s : DataReceiverClass) :
    List Nat × DataReceiverClass × Nat :=
  if SCOPE ≠ 0 ∧ SCOPE ≤ remaining16 s.array_size POS then
    let m := copyLoop WRITE POS 2 SCOPE 0 (X, s.data_array)
    let next := (POS + SCOPE) % 256
    (m.1, { s with data_array := m.2 }, if next = s.array_size then 0xFF else next)
  else (X, s, 0)

end DataReceiverClass

/-! ## The wire between the two engines -/

/-- The Timer-2 clock divisor selected by the clock-select code written to
`TCCR2B` (ATmega328 data sheet: codes 1..7 select 1, 8, 32, 64, 128, 256,
1024; code 0 stops the timer). -/
def timer2Divisor : Nat → Nat
  | 1 => 1
  | 2 => 8
  | 3 => 32
  | 4 => 64
  | 5 => 128
  | 6 => 256
  | 7 => 1024
  | _ => 0

/-- The timer period, in cycles of the 16 MHz clock, that
`DataTransmitterClass::init` programs for `BYTE_RATE`: `(OCR2A + 1)` counts of
the prescaled clock. -/
def tickCycles (BYTE_RATE : Nat) : Nat :=
  ((DataTransmitterClass.init BYTE_RATE 0 0 DataTransmitterClass.fresh).OCR2A + 1) *
    timer2Divisor (DataTransmitterClass.init BYTE_RATE 0 0 DataTransmitterClass.fresh).prescaler

/-- The timer period in whole microseconds (16 cycles each). -/
def tickMicros (BYTE_RATE : Nat) : Nat := tickCycles BYTE_RATE / 16

/-- The reading of `micros()` at the `k`-th timer tick when the ticks are `P`
microseconds apart and tick `0` is at `t0` (the counter is a `uint32_t`). -/
def microsAt (P t0 k : Nat) : Nat := (t0 + k * P) % 4294967296

/-- The edge events on the wire: `levels` are the output levels after the
ticks `k+1, k+2, ...`, `lvl` is the level before them; every change of level
is one event, stamped with the readings `clock` of `micros()` and `millis()`
at its tick. -/
def edgeEvents (clock : Nat → Nat × Nat) : Nat → Nat → List Nat → List (Nat × Nat)
  | _, _, [] => []
  | k, lvl, l :: ls =>
    if l ≠ lvl then clock (k + 1) :: edgeEvents clock (k + 1) l ls
    else edgeEvents clock (k + 1) l ls

/-- The receive engine after the pin-change interrupt has run once per edge
event, in order. -/
def feedEdges : List (Nat × Nat) → DataReceiverClass → DataReceiverClass
  | [], s => s
  | e :: es, s => feedEdges es (DataReceiverClass.DRisr e.1 e.2 s)

/-! ## The frame on the wire -/

/-- The `n` low bits of `w`, least significant first. -/
def bitsLSB : Nat → Nat → List Nat
  | 0, _ => []
  | n + 1, w => w % 2 :: bitsLSB n (w / 2)

/-- The bits of a list of bytes, each byte least significant bit first. -/
def bytesBits : List Nat → List Nat
  | [] => []
  | b :: bs => bitsLSB 8 b ++ bytesBits bs

/-- The value that the symbol branch of `isr` followed by the final toggle
gives `pin_value` (lines 57-59 and 86): `p` is the previous symbol, `lvl` the
value before the tick, `b` the symbol. -/
def lineLevel (p lvl b : Nat) : Nat := lnot (if p ^^^ b ≠ 0 then lnot lvl else lvl)

/-- The output levels of a run of symbols, two ticks per symbol: the level
after the symbol-start tick, then its complement after the mid-symbol tick. -/
def lineCode : Nat → Nat → List Nat → List Nat
  | _, _, [] => []
  | p, lvl, b :: bs =>
    lineLevel p lvl b :: lnot (lineLevel p lvl b) :: lineCode b (lnot (lineLevel p lvl b)) bs

/-- The previous symbol and the output level at the end of a run of symbols. -/
def lineEnd : Nat → Nat → List Nat → Nat × Nat
  | p, lvl, [] => (p, lvl)
  | p, lvl, b :: bs => lineEnd b (lnot (lineLevel p lvl b)) bs

namespace DataTransmitterClass

/-- The engine state after the two ticks of a symbol that does not end its
block. -/
def afterSymbol (s : DataTransmitterClass) : DataTransmitterClass :=
  { s with
    curr_symbol := s.curr_byte % 2
    curr_byte := s.curr_byte / 2
    prev_symbol := s.curr_byte % 2
    step := s.step + 2
    pin_value := lnot (lineLevel s.prev_symbol s.pin_value (s.curr_byte % 2))
    pin_level := lnot (lineLevel s.prev_symbol s.pin_value (s.curr_byte % 2)) }

/-- The invariant of a session in progress: the timer is clocked, the active
size is a non-zero byte, and the serializer is in the header block, in a
payload block or before the trailing tick. -/
def Running (s : DataTransmitterClass) : Prop :=
  s.TCCR2B ≠ 0 ∧ s.bytes ≠ 0 ∧ s.bytes ≤ 255 ∧ s.byte_counter ≤ s.bytes ∧
  ((s.block_size = 39 ∧ 1 ≤ s.step ∧ s.step ≤ 39 ∧ s.byte_counter = 0) ∨
   (s.block_size = 19 ∧ 4 ≤ s.step ∧ s.step ≤ 19 ∧ 1 ≤ s.byte_counter) ∨
   (s.block_size = 4 ∧ s.step = 4 ∧ s.byte_counter = s.bytes))

/-- The number of timer ticks a session in progress still takes. -/
def ticksLeft (s : DataTransmitterClass) : Nat :=
  if s.block_size = 4 then 1
  else (s.block_size - s.step + 1) + 16 * (s.bytes - s.byte_counter) + 1

end DataTransmitterClass

/-! ## The link: transmitter, wire and receiver together -/

/-- The timer period `P` (in microseconds) falls into the receiver's bands
`T1`, `T2`, `T3` as the line code needs: one period is a normal interval, two
periods are a long interval, four periods are a violation; and four periods
fit the 32-bit microsecond counter. -/
def TickInWindow (T1 T2 T3 P : Nat) : Prop :=
  T1 ≤ P ∧ P ≤ T2 ∧ T2 < 2 * P ∧ 2 * P ≤ T3 ∧ T3 < 4 * P ∧ 4 * P < 4294967296

instance (T1 T2 T3 P : Nat) : Decidable (TickInWindow T1 T2 T3 P) := by
  unfold TickInWindow; infer_instance

/-- The readings of `micros()` and `millis()` at the `k`-th timer tick: ticks
are `P` microseconds apart, tick `0` is at `t0`, and `ms k` is the millisecond
reading at tick `k`. -/
def linkClock (P t0 : Nat) (ms : Nat → Nat) (k : Nat) : Nat × Nat := (microsAt P t0 k, ms k)

/-- The receive engine `rx` after a transmission: `transmitData` is called on
the transmit engine `tx` for `DSET`, the timer runs for `n` periods, and every
change of the output level, starting from the level of the pin before the
call, is delivered to `rx` as an edge event. -/
def linkReceive (crc : Nat → List Nat → Nat) (P t0 : Nat) (ms : Nat → Nat) (n : Nat)
    (tx : DataTransmitterClass) (DSET : dset_t) (rx : DataReceiverClass) : DataReceiverClass :=
  feedEdges
    (edgeEvents (linkClock P t0 ms) 0 tx.pin_level
      (DataTransmitterClass.levels n (DataTransmitterClass.transmitData crc tx DSET).1))
    rx

/-- The buffer `da` after the bytes `bs` have been stored from index `i` on. -/
def storeBytes : List Nat → Nat → List Nat → List Nat
  | da, _, [] => da
  | da, i, b :: bs => storeBytes (da.set i b) (i + 1) bs

namespace DataReceiverClass

/-- The effect of `DRisr` at the edge that carries the symbol `b` while data
is being received (lines 64-106): the symbol is folded into `byte_value`, then
`bitDone` runs. -/
def rxBit (b micros millis : Nat) (s : DataReceiverClass) : DataReceiverClass :=
  bitDone millis
    { s with
      msl := micros
      skip_next_short := 1
      prev_bit := b
      byte_value := if b ≠ 0 then (s.byte_value + s.bit_value) % 256 else s.byte_value }

end DataReceiverClass

/-! ## The receive engine: parts of the handler and reachable states -/

namespace DataReceiverClass

/-- Lines 63-119 of `DRisr`: the handling of an edge whose interval `dt` lies
inside the window. -/
def edgeInWindow (dt millis : Nat) (s0 : DataReceiverClass) : DataReceiverClass :=
  if dt > s0.T2 ∨ s0.skip_next_short = 0 then
    let s1 : DataReceiverClass := { s0 with skip_next_short := 1 }
    if s1.int_counter ≠ 0 then
      let s2 : DataReceiverClass :=
        if dt > s1.T2 then { s1 with prev_bit := lnot s1.prev_bit } else s1
      let s3 : DataReceiverClass :=
        if s2.prev_bit ≠ 0 then { s2 with byte_value := (s2.byte_value + s2.bit_value) % 256 }
        else s2
      bitDone millis s3
    else
      if dt > s1.T2 then resetReception s1
      else { s1 with int_counter := (s1.int_counter + 1) % 256 }
  else { s0 with skip_next_short := 0 }

/-- The byte assembled when the bit carried by an edge of interval `dt` is
folded in (lines 67-72 of `DRisr`). -/
def assembledByte (dt : Nat) (s : DataReceiverClass) : Nat :=
  if (if dt > s.T2 then lnot s.prev_bit else s.prev_bit) ≠ 0 then
    (s.byte_value + s.bit_value) % 256
  else s.byte_value

/-- The states of the receive engine that occur in operation: the state after
a successful `init` on an engine that was never initialised (status `Idle`,
registry sizes stored in a byte), and from there every state after an edge
event, at any reading of the clocks, or after the application has set the
status to `Idle` (0) or `Reading` (2) while the engine was not `Writing`. -/
inductive Reachable : DataReceiverClass → Prop
  | init (BYTE_RATE RECEIVER_PIN : Nat) (dsets : List dset_r) (heap : Option (Nat → Nat))
      (s0 : DataReceiverClass) :
      s0.is_initialized = 0 → s0.status = 0 → (∀ e ∈ dsets, e.SIZE ≤ 255) →
      (DataReceiverClass.init BYTE_RATE RECEIVER_PIN dsets dsets.length heap s0).2 = 1 →
      Reachable (DataReceiverClass.init BYTE_RATE RECEIVER_PIN dsets dsets.length heap s0).1
  | edge (micros millis : Nat) (s : DataReceiverClass) :
      Reachable s → Reachable (DRisr micros millis s)
  | ack (stat : Nat) (s : DataReceiverClass) :
      Reachable s → s.status ≠ 1 → (stat = 0 ∨ stat = 2) → Reachable (setStatus stat s)

/-- The invariant of the reachable states: the buffer has `array_size + 2`
bytes, every registered size fits it, the status is one of 0, 1, 2, 4, bytes
are being stored only while `Writing` and at most up to the size of the bound
dataset, and while `Writing` or `DataAvailable` the buffer starts with the
identifier of the bound dataset. -/
def WellFormed (s : DataReceiverClass) : Prop :=
  s.data_array.length = s.array_size + 2 ∧
  s.dataset_count = s.dataset.length ∧
  (∀ e ∈ s.dataset, e.SIZE ≤ s.array_size ∧ e.SIZE ≤ 255) ∧
  (s.status = 0 ∨ s.status = 1 ∨ s.status = 2 ∨ s.status = 4) ∧
  (s.byte_counter ≠ 0 →
    s.status = 1 ∧ s.byte_counter ≤ (s.dataset.getD s.pos default).SIZE + 1) ∧
  ((s.status = 1 ∨ s.status = 4) →
    s.pos < s.dataset_count ∧ s.data_array.getD 0 0 = (s.dataset.getD s.pos default).ID)

end DataReceiverClass

/-! ## WSPR encoder (`WSPR.cpp`) -/

namespace WSPRClass

/-- The body of the loop of `WSPRClass::normalizeCharacter` (lines 187-199) on
the character `c`: the value stored in its place, or `none` when the character
is none of `[space]`, `0-9`, `A-Z`, `a-z` and the loop breaks.  Characters are
given by their codes (`' '` is 32, `'0'` is 48, `'A'` is 65, `'a'` is 97). -/
def normalizeChar (c : Nat) : Option Nat :=
  if c = 32 then some 36
  else if c ≥ 48 ∧ c ≤ 57 then some (c - 48)
  else if c ≥ 65 ∧ c ≤ 90 then some (c - 65 + 10)
  else if c ≥ 97 ∧ c ≤ 122 then some (c - 97 + 10)
  else none

/-- The loop of `WSPRClass::normalizeCharacter` (lines 186-201) from index `i`
on, `n` characters left: the array after the loop and `is_valid`; the `break`
leaves the rest of the array as it is. -/
def normalizeLoop : Nat → Nat → List Nat → List Nat × Nat
  | 0, _, array => (array, 1)
  | n + 1, i, array =>
    match normalizeChar (array.getD i 0) with
    | some v => normalizeLoop n (i + 1) (array.set i v)
    | none => (array, 0)

/-- `WSPRClass::normalizeCharacter` (lines 183-204): the normalised array and
the returned `is_valid`. -/
def normalizeCharacter (array : List Nat) (char_count : Nat) : List Nat × Nat :=
  normalizeLoop char_count 0 array

/-- The value of `is_valid` that `WSPRClass::encodeMessage` returns (lines
43-60 and 156): 1 exactly when the condition of lines 56-58 holds.  `call` and
`locator` are the characters of the two strings before their terminating NUL,
so a read past the end of a string yields the code 0; `power` is the 32-bit
argument. -/
def is_valid (call locator : List Nat) (power : Nat) : Nat :=
  let cl := (List.range 6).map (fun i => call.getD i 0)
  let lo := (List.range 4).map (fun i => locator.getD i 0)
  let a := normalizeCharacter cl 6
  if a.2 ≠ 0 then
    let b := normalizeCharacter lo 4
    if b.2 ≠ 0 ∧ a.1.getD 2 0 ≤ 9 ∧ b.1.getD 2 0 ≤ 9 ∧ b.1.getD 3 0 ≤ 9 ∧
        b.1.getD 0 0 > 9 ∧ b.1.getD 0 0 < 36 ∧ b.1.getD 1 0 > 9 ∧ b.1.getD 1 0 < 36 ∧
        power ≠ 0 ∧ power ≤ 1000000 then 1
    else 0
  else 0

/-- One pass through the body of `while(power < 100000)` (lines 65-68) on
`(power, d)`: `power` is a `uint32_t`, `d` a `uint8_t`. -/
def powerStep (x : Nat × Nat) : Nat × Nat :=
  (x.1 * 10 % 4294967296, (x.2 + 256 - 10) % 256)

/-- The loop `while(power < 100000)` of `encodeMessage` (lines 65-68) on
`(power, d)`; `none` when the fuel runs out before the loop ends. -/
def powerLoop : Nat → Nat × Nat → Option (Nat × Nat)
  | 0, _ => none
  | fuel + 1, x => if x.1 < 100000 then powerLoop fuel (powerStep x) else some x

/-- The conversion of the power level from mW to dBm in `encodeMessage` (lines
63-79): the final value of `power`. -/
def dBm (fuel power : Nat) : Option Nat :=
  (powerLoop fuel (power, 50)).map fun x =>
    ((if x.1 ≤ 150000 then 0
      else if x.1 ≤ 350000 then 3
      else if x.1 ≤ 750000 then 7
      else 10) + x.2) % 4294967296

/-- The dBm value added to the decade offset `d` for the scaled power `x`
(lines 70-77 of `encodeMessage`). -/
def dBmDigit (x : Nat) : Nat :=
  if x ≤ 150000 then 0 else if x ≤ 350000 then 3 else if x ≤ 750000 then 7 else 10

/-- The conversion `dBm` in closed form, decade by decade, for a power level
of 1 to 1000000 mW. -/
def dBmOf (p : Nat) : Nat :=
  if p < 10 then dBmDigit (p * 100000)
  else if p < 100 then dBmDigit (p * 10000) + 10
  else if p < 1000 then dBmDigit (p * 1000) + 20
  else if p < 10000 then dBmDigit (p * 100) + 30
  else if p < 100000 then dBmDigit (p * 10) + 40
  else dBmDigit p + 50

end WSPRClass
/-! ## WSPR encoder: message coding, symbol table -/

namespace WSPRClass

/-- The struct `SymTable` of `WSPR.h`: the two packed bit arrays of 21 bytes
that hold the 162 channel symbols. -/
structure SymTable where
  sym_t_LSB : List Nat
  sym_t_MSB : List Nat
  deriving DecidableEq, Repr

/-- The loop of `WSPRClass::checkParity` (lines 171-174), `n` passes left, on
`(x, p)`: `x` is a `uint32_t`, `p` a `uint8_t`. -/
def parityLoop : Nat → Nat → Nat → Nat
  | 0, _, p => p
  | n + 1, x, p => parityLoop n (x >>> 1) ((p + (x &&& 1)) % 256)

/-- `WSPRClass::checkParity` (lines 168-177). -/
def checkParity (x : Nat) : Nat := parityLoop 32 x 0 &&& 1

/-- The coding of callsign, locator and power into the message array `ma[11]`
(lines 81-108 of `encodeMessage`): `cl` and `lo` are the normalised callsign
and locator, `power` the dBm value.  `n1` and `m1` are `uint32_t`; the bytes of
`ma` are `uint8_t`.  The first value of `m1` is computed in `int` and converted
to `uint32_t`. -/
def messageArray (cl lo : List Nat) (power : Nat) : List Nat :=
  let n1 := cl.getD 0 0 % 4294967296
  let n1 := (n1 * 36 + cl.getD 1 0) % 4294967296
  let n1 := (n1 * 10 + cl.getD 2 0) % 4294967296
  let n1 := (n1 * 27 + cl.getD 3 0 + 4294967296 - 10) % 4294967296
  let n1 := (n1 * 27 + cl.getD 4 0 + 4294967296 - 10) % 4294967296
  let n1 := (n1 * 27 + cl.getD 5 0 + 4294967296 - 10) % 4294967296
  let ma0 := (n1 >>> 20) % 256
  let ma1 := (n1 >>> 12) % 256
  let ma2 := (n1 >>> 4) % 256
  let ma3 := (n1 <<< 4) % 256
  let m1 := (179 + 4294967296 - 10 * (lo.getD 0 0 - 10) - lo.getD 2 0) % 4294967296
  let m1 := (m1 * 180 + 10 * (lo.getD 1 0 - 10) + lo.getD 3 0) % 4294967296
  let m1 := (m1 <<< 7) % 4294967296
  let m1 := (m1 + (power + 64)) % 4294967296
  let ma3 := (ma3 + (0x0f &&& (m1 >>> 18))) % 256
  let ma4 := (m1 >>> 10) % 256
  let ma5 := (m1 >>> 2) % 256
  let ma6 := (m1 <<< 6) % 256
  [ma0, ma1, ma2, ma3, ma4, ma5, ma6, 0, 0, 0, 0]

/-- The state of the convolutional encoder loop of `encodeMessage`: the bit
array `strm[21]`, the `uint16_t` variables `bc`, `cnt`, `cc` and the
`uint32_t` shift register `sh1`. -/
structure ConvState where
  strm : List Nat
  bc : Nat
  cnt : Nat
  cc : Nat
  sh1 : Nat
  deriving DecidableEq, Repr

/-- The loop `for (uint8_t i=0; i < 81; i++)` of `encodeMessage` (lines
115-127) from `i` on, `n` passes left; `setBit` is `BArray.setBit`. -/
def convLoop (setBit : List Nat → Nat → Nat → List Nat) (ma : List Nat) :
    Nat → Nat → ConvState → ConvState
  | 0, _, st => st
  | n + 1, i, st =>
    let st1 : ConvState :=
      if i % 8 = 0 then { st with cc := ma.getD st.bc 0, bc := (st.bc + 1) % 65536 } else st
    let st2 : ConvState :=
      if st1.cc &&& 0x80 ≠ 0 then { st1 with sh1 := st1.sh1 ||| 1 } else st1
    let st3 : ConvState :=
      { st2 with strm := setBit st2.strm st2.cnt (checkParity (st2.sh1 &&& 0xF2D05351))
                 cnt := (st2.cnt + 1) % 65536 }
    let st4 : ConvState :=
      { st3 with strm := setBit st3.strm st3.cnt (checkParity (st3.sh1 &&& 0xE4613C47))
                 cnt := (st3.cnt + 1) % 65536 }
    convLoop setBit ma n (i + 1)
      { st4 with cc := (st4.cc <<< 1) % 65536, sh1 := (st4.sh1 <<< 1) % 4294967296 }

/-- The bit stream `strm` after the convolutional encoding of `ma` (lines
111-127 of `encodeMessage`). -/
def convolve (setBit : List Nat → Nat → Nat → List Nat) (ma : List Nat) : List Nat :=
  (convLoop setBit ma 81 0
    { strm := List.replicate 21 0, bc := 0, cnt := 0, cc := ma.getD 0 0, sh1 := 0 }).strm

/-- The constant `sync_vec` of `encodeMessage` (line 137). -/
def sync_vec : List Nat :=
  [3, 113, 164, 7, 164, 64, 179, 88, 88, 149, 52, 86, 4, 201, 205, 226, 160, 12, 88, 99, 0]

/-- The 162 bit synchronisation vector as the comment of lines 131-136 writes
it out. -/
def syncVector : List Nat :=
  [1,1,0,0,0,0,0,0,1,0,0,0,1,1,1,0,0,0,1,0,0,1,0,1,1,1,1,0,0,0,0,0,0,0,1,0,0,1,0,1,0,0,0,0,0,0,1,0,
   1,1,0,0,1,
   1,0,1,0,0,0,1,1,0,1,0,0,0,0,1,1,0,1,0,1,0,1,0,1,0,0,1,0,0,1,0,1,1,0,0,0,1,1,0,1,0,1,0,0,0,1,0,
   0,0,0,0,1,0,
   0,1,0,0,1,1,1,0,1,1,0,0,1,1,0,1,0,0,0,1,1,1,0,0,0,0,0,1,0,1,0,0,1,1,0,0,0,0,0,0,0,1,1,0,1,0,1,
   1,0,0,0,1,1,
   0,0,0]

/-- The inner loop `for (uint8_t b2=0; b2<8 ; b2++)` of `encodeMessage` (lines
143-146), `n` passes left: `bis` is a `uint16_t`, `j` a `uint8_t`. -/
def reverseLoop (i : Nat) : Nat → Nat → Nat → Nat → Nat
  | 0, _, _, j => j
  | n + 1, b2, bis, j =>
    reverseLoop i n (b2 + 1) ((bis <<< 1) % 65536)
      (if i &&& bis ≠ 0 then (j ||| (0x80 >>> b2)) % 256 else j)

/-- The value of `j` that lines 141-146 of `encodeMessage` compute for `i`:
the 8 bits of `i` in reverse order. -/
def bitReverse (i : Nat) : Nat := reverseLoop i 8 0 1 0

/-- The loop `for (uint16_t i=0; i<256; i++)` of `encodeMessage` (lines
140-153) from `i` on, `n` passes left, on the symbol table and the `uint8_t`
counter `ip`; `getBit` and `setBit` are those of `BArray`. -/
def interleaveLoop (getBit : List Nat → Nat → Nat) (setBit : List Nat → Nat → Nat → List Nat)
    (strm : List Nat) : Nat → Nat → SymTable × Nat → SymTable × Nat
  | 0, _, st => st
  | n + 1, i, st =>
    let j := bitReverse i
    if j < 162 then
      interleaveLoop getBit setBit strm n (i + 1)
        ({ sym_t_LSB := setBit st.1.sym_t_LSB j (getBit sync_vec j)
           sym_t_MSB := setBit st.1.sym_t_MSB j (getBit strm st.2) },
         (st.2 + 1) % 256)
    else interleaveLoop getBit setBit strm n (i + 1) st

/-- `WSPRClass::encodeMessage` (lines 41-157): the symbol table after the call
and the returned `is_valid`.  `getBit` and `setBit` are the two functions of
the library `BitArray`, which is not among the sources; `call` and `locator`
are the characters of the two strings before their terminating NUL, `power`
is the 32-bit argument, `fuel` bounds the passes of `while(power < 100000)`
(`none` when it runs out). -/
def encodeMessage (getBit : List Nat → Nat → Nat) (setBit : List Nat → Nat → Nat → List Nat)
    (fuel : Nat) (call locator : List Nat) (power : Nat) (symt : SymTable) :
    Option (SymTable × Nat) :=
  let cl := (List.range 6).map (fun i => call.getD i 0)
  let lo := (List.range 4).map (fun i => locator.getD i 0)
  let a := normalizeCharacter cl 6
  if a.2 ≠ 0 then
    let b := normalizeCharacter lo 4
    if b.2 ≠ 0 ∧ a.1.getD 2 0 ≤ 9 ∧ b.1.getD 2 0 ≤ 9 ∧ b.1.getD 3 0 ≤ 9 ∧
        b.1.getD 0 0 > 9 ∧ b.1.getD 0 0 < 36 ∧ b.1.getD 1 0 > 9 ∧ b.1.getD 1 0 < 36 ∧
        power ≠ 0 ∧ power ≤ 1000000 then
      match dBm fuel power with
      | none => none
      | some p =>
        let ma := messageArray a.1 b.1 p
        let strm := convolve setBit ma
        some ((interleaveLoop getBit setBit strm 256 0 (symt, 0)).1, 1)
    else some (symt, 0)
  else some (symt, 0)

/-- `WSPRClass::getSymbol` (lines 162-164); the result is an `unsigned char`. -/
def getSymbol (getBit : List Nat → Nat → Nat) (symt : SymTable) (position : Nat) : Nat :=
  (getBit symt.sym_t_LSB position + (getBit symt.sym_t_MSB position <<< 1)) % 256

/-- Modelled from the spec: `BArray.getBit` of the library `BitArray`, which
is not among the sources, with bit `k` of a packed array stored as bit
`k mod 8` of byte `k div 8` (the layout under which the constant `sync_vec`
is the vector that the source comment writes out). -/
def getBitLSB (array : List Nat) (index : Nat) : Nat :=
  (array.getD (index / 8) 0 >>> (index % 8)) &&& 1

/-- Modelled from the spec: `BArray.setBit` of the library `BitArray`, which
is not among the sources, for the same layout: the bit is set when `value` is
not zero and cleared otherwise. -/
def setBitLSB (array : List Nat) (index value : Nat) : List Nat :=
  array.set (index / 8)
    (if value ≠ 0 then array.getD (index / 8) 0 ||| (1 <<< (index % 8))
     else array.getD (index / 8) 0 &&& (255 ^^^ (1 <<< (index % 8))))

/-- The bit stream `strm` of `encodeMessage` for a callsign and a locator that
pass the check and the dBm value `p` (lines 43-50 and 81-127). -/
def messageStream (setBit : List Nat → Nat → Nat → List Nat) (call locator : List Nat)
    (p : Nat) : List Nat :=
  convolve setBit
    (messageArray (normalizeCharacter ((List.range 6).map (fun i => call.getD i 0)) 6).1
      (normalizeCharacter ((List.range 4).map (fun i => locator.getD i 0)) 4).1 p)

/-- The number of indices below `n` whose reversed value is a position of the
symbol table: the value of `ip` when the loop of lines 140-153 reaches
`i == n`. -/
def interleaveCount (n : Nat) : Nat :=
  ((List.range n).filter (fun i => decide (bitReverse i < 162))).length

/-- The index into `strm` of the bit that the loop of lines 140-153 stores at
`position`. -/
def interleaveRank (position : Nat) : Nat := interleaveCount (bitReverse position)

/-- The symbol table of a new `WSPRClass` object (`WSPR.h`, lines 43-44): both
arrays are zero. -/
def fresh : SymTable := { sym_t_LSB := List.replicate 21 0, sym_t_MSB := List.replicate 21 0 }

end WSPRClass

/-! ## DDS control (`AD9850.cpp`) -/

namespace AD9850

/-- `AD9850::calculateClockFrequency` (lines 62-67).  The operands are
`unsigned long`, 32 bits wide on the target, so the product `f_real*clock` is
formed modulo `2^32` before it is stored in the `uint64_t`; the quotient is cast
back to `unsigned long`.  A division by zero has no defined result: `none`. -/
def calculateClockFrequency (f_set f_real clock : Nat) : Option Nat :=
  if f_set = 0 then none
  else
    let dummy := (f_real * clock) % 4294967296
    some (dummy / f_set % 4294967296)

end AD9850

/-! ## Traces of the receive engine and of the interleaver -/

/-- The states of the receive engine after each of the edge events, in
order. -/
def feedTrace : List (Nat × Nat) → DataReceiverClass → List DataReceiverClass
  | [], _ => []
  | e :: es, s =>
    DataReceiverClass.DRisr e.1 e.2 s :: feedTrace es (DataReceiverClass.DRisr e.1 e.2 s)

namespace WSPRClass

/-- The stores of the loop of lines 140-153 of `encodeMessage` from `i` on,
`n` passes left, `ip` being the counter: the pair `(j, ip)` of every pass with
`j < 162`, in the order of the passes. -/
def interleaveTrace : Nat → Nat → Nat → List (Nat × Nat)
  | 0, _, _ => []
  | n + 1, i, ip =>
    if bitReverse i < 162 then (bitReverse i, ip) :: interleaveTrace n (i + 1) ((ip + 1) % 256)
    else interleaveTrace n (i + 1) ip

end WSPRClass

/-! ## The scenario of the specification -/

/-- The payload of the scenario: `[0x11, 0x22, 0x33, 0x44]`. -/
def scenarioPayload : List Nat := [0x11, 0x22, 0x33, 0x44]

/-- The transmit dataset of the scenario: the payload under identifier 7. -/
def scenarioDset : dset_t := DataTransmitterClass.createDataset scenarioPayload 7 4

/-- The transmit engine of the scenario: initialised for byte rate 10, output
at level 0. -/
def scenarioTx : DataTransmitterClass :=
  DataTransmitterClass.init 10 3 0 DataTransmitterClass.fresh

/-- The registry of the scenario: `[{id 7, size 4}]`. -/
def scenarioRegistry : List dset_r := [DataReceiverClass.createDataset 7 4 0]

/-- The receive engine of the scenario: initialised for byte rate 10 with the
registry of the scenario. -/
def scenarioRx : DataReceiverClass :=
  (DataReceiverClass.init 10 2 scenarioRegistry 1 (some fun _ => 0) DataReceiverClass.fresh).1

/-! ## Edges given by their intervals -/

/-- The intervals between the edges on the wire: `levels` are the output
levels after the ticks `k+1, k+2, ...`, `lvl` is the level before them and `g`
the number of ticks since the last change of level; every change of level is
one edge, given with the time since the edge before it (ticks are `P`
microseconds apart) and the reading `ms` of `millis()` at its tick. -/
def edgeIntervals (P : Nat) (ms : Nat → Nat) : Nat → Nat → Nat → List Nat → List (Nat × Nat)
  | _, _, _, [] => []
  | k, g, lvl, l :: ls =>
    if l ≠ lvl then ((g + 1) * P, ms (k + 1)) :: edgeIntervals P ms (k + 1) 0 l ls
    else edgeIntervals P ms (k + 1) (g + 1) l ls

namespace DataReceiverClass

/-- The pin-change interrupt at an edge that comes `dt` microseconds after the
edge before it: `micros()` reads `msl + dt` on the 32-bit counter. -/
def edgeAfter (dt millis : Nat) (s : DataReceiverClass) : DataReceiverClass :=
  DRisr ((s.msl + dt) % 4294967296) millis s

/-- The engine state without the two clock readings it keeps. -/
def strip (s : DataReceiverClass) : DataReceiverClass := { s with msl := 0, timestamp := 0 }

/-- One edge on the state without clock readings. -/
def stepS (dt : Nat) (s : DataReceiverClass) : DataReceiverClass := strip (edgeAfter dt 0 s)

/-- Check that `DataAvailable` is raised after none of the edges `gs` and that
the status is `Idle` after the last of them. -/
def quiet : List Nat → DataReceiverClass → Bool
  | [], s => s.status == 0
  | g :: gs, s => (stepS g s).status != 4 && quiet gs (stepS g s)

/-- Check, for each of the `n` edges that follow the first `skip` ones, that a
timing violation at that edge leaves the status `Idle` and that the edges after
it are `quiet`. -/
def robust : Nat → Nat → List Nat → DataReceiverClass → Bool
  | _, _, [], _ => true
  | skip + 1, n, g :: gs, s => robust skip n gs (stepS g s)
  | 0, n, g :: gs, s =>
    match n with
    | 0 => true
    | n + 1 =>
      (strip (resetReception s)).status == 0 && quiet gs (strip (resetReception s))
        && robust 0 n gs (stepS g s)

end DataReceiverClass

/-- The receive engine after the pin-change interrupt has run once per edge,
the edges given by the time since the edge before them. -/
def feedIntervals : List (Nat × Nat) → DataReceiverClass → DataReceiverClass
  | [], s => s
  | e :: es, s => feedIntervals es (DataReceiverClass.edgeAfter e.1 e.2 s)

/-- The edges of the frame of the scenario: 104 ticks of the transmit engine
after `transmitData` for the payload of the scenario. -/
def scenarioIntervals (ms : Nat → Nat) : List (Nat × Nat) :=
  edgeIntervals (tickMicros 10) ms 0 0 scenarioTx.pin_level
    (DataTransmitterClass.levels 104
      (DataTransmitterClass.transmitData crc8Maxim scenarioTx scenarioDset).1)

/-- The receive engine of the scenario after the first 18 edges of the frame:
seven bits of the identifier byte are in, the edge that carries the eighth is
next. -/
def scenarioAcquiring : DataReceiverClass :=
  feedIntervals ((scenarioIntervals (fun _ => 0)).take 18) scenarioRx

/-- The receive engine of the scenario after the first 30 edges of the frame,
in the middle of the checksum byte. -/
def scenarioWriting : DataReceiverClass :=
  feedIntervals ((scenarioIntervals (fun _ => 0)).take 30) scenarioRx

/-- The engine `scenarioAcquiring` with the registry `[{id 9, size 4}]`, which
does not hold the identifier 7 of the frame. -/
def scenarioUnregistered : DataReceiverClass :=
  { scenarioAcquiring with dataset := [DataReceiverClass.createDataset 9 4 0] }

/-- The receive engine of the scenario after the whole frame. -/
def scenarioDelivered : DataReceiverClass :=
  linkReceive crc8Maxim (tickMicros 10) 0 (fun _ => 0) 104 scenarioTx scenarioDset scenarioRx

/-- The receive engine of the scenario after the first 3 edges of the frame:
the start pulse is over, the preamble counter is 0 and the debounce flag is
clear. -/
def scenarioPreamble : DataReceiverClass :=
  feedIntervals ((scenarioIntervals (fun _ => 0)).take 3) scenarioRx

/-- A dataset for the identifier 9, which the registry of the scenario does
not hold: the single payload byte `0xBF`. -/
def foreignDset : dset_t := DataTransmitterClass.createDataset [0xBF] 9 1

/-! # Theorems -/

/-! ## The transmit session, tick by tick -/

namespace DataTransmitterClass

theorem xor_bit_ne_zero (p b : Nat) : (p ^^^ b ≠ 0) ↔ p ≠ b := by
  rw [Ne, Nat.xor_eq_zero]

theorem running_step (s : DataTransmitterClass) (h : Running s) (hl : 1 < ticksLeft s) :
    Running (timerTick s) ∧ ticksLeft (timerTick s) + 1 = ticksLeft s ∧
    (timerTick s).bytes = s.bytes ∧ (timerTick s).TCCR2B = s.TCCR2B := by
  obtain ⟨h1, h2, h3, h4, h5⟩ := h
  unfold ticksLeft at hl ⊢
  unfold Running
  simp only [timerTick, if_neg h1, isr, Nat.and_one_is_mod]
  rcases h5 with ⟨hb, hs1, hs2, hc⟩ | ⟨hb, hs1, hs2, hc⟩ | ⟨hb, hs1, hs2⟩
  · by_cases c1 : s.step < 4
    · simp only [if_pos c1, hb]
      refine ⟨⟨h1, h2, h3, h4, Or.inl ⟨trivial, ?_, ?_, hc⟩⟩, ?_, trivial, trivial⟩ <;>
        first | omega | (simp; done) | (simp; omega)
    · by_cases c2 : s.step % 2 = 0
      · have c3 : s.step ≠ 39 := by omega
        simp only [if_neg c1, if_pos c2, hb, if_neg c3]
        refine ⟨⟨h1, h2, h3, h4, Or.inl ⟨trivial, ?_, ?_, hc⟩⟩, ?_, trivial, trivial⟩ <;>
          first | omega | (simp; done) | (simp; omega)
      · by_cases c3 : s.step = 39
        · have c4 : s.byte_counter ≠ s.bytes := by omega
          simp only [if_neg c1, if_neg c2, hb, if_pos c3, if_neg c4]
          refine ⟨⟨h1, h2, h3, ?_, Or.inr (Or.inl ⟨trivial, ?_, ?_, ?_⟩)⟩, ?_, trivial, trivial⟩ <;>
            first | omega | (simp; done) | (simp; omega)
        · simp only [if_neg c1, if_neg c2, hb, if_neg c3]
          refine ⟨⟨h1, h2, h3, h4, Or.inl ⟨trivial, ?_, ?_, hc⟩⟩, ?_, trivial, trivial⟩ <;>
            first | omega | (simp; done) | (simp; omega)
  · have c1 : ¬ s.step < 4 := by omega
    by_cases c2 : s.step % 2 = 0
    · have c3 : s.step ≠ 19 := by omega
      simp only [if_neg c1, if_pos c2, hb, if_neg c3]
      refine ⟨⟨h1, h2, h3, h4, Or.inr (Or.inl ⟨trivial, ?_, ?_, hc⟩)⟩, ?_, trivial, trivial⟩ <;>
        first | omega | (simp; done) | (simp; omega)
    · by_cases c3 : s.step = 19
      · by_cases c4 : s.byte_counter = s.bytes
        · have c5 : ¬ ((19 : Nat) = 4) := by decide
          simp only [if_neg c1, if_neg c2, hb, if_pos c3, if_pos c4, if_neg c5]
          refine ⟨⟨h1, h2, h3, h4, Or.inr (Or.inr ⟨trivial, ?_, c4⟩)⟩, ?_, trivial, trivial⟩ <;>
            first | omega | (simp; done) | (simp; omega)
        · simp only [if_neg c1, if_neg c2, hb, if_pos c3, if_neg c4]
          refine ⟨⟨h1, h2, h3, ?_, Or.inr (Or.inl ⟨trivial, ?_, ?_, ?_⟩)⟩, ?_, trivial, trivial⟩ <;>
            first | omega | (simp; done) | (simp; omega)
      · simp only [if_neg c1, if_neg c2, hb, if_neg c3]
        refine ⟨⟨h1, h2, h3, h4, Or.inr (Or.inl ⟨trivial, ?_, ?_, hc⟩)⟩, ?_, trivial, trivial⟩ <;>
          first | omega | (simp; done) | (simp; omega)
  · simp [hb] at hl

theorem running_last (s : DataTransmitterClass) (h : Running s) (hl : ticksLeft s = 1) :
    (timerTick s).bytes = 0 ∧ (timerTick s).TCCR2B = 0 := by
  obtain ⟨h1, h2, h3, h4, h5⟩ := h
  unfold ticksLeft at hl
  have hb : s.block_size = 4 := by
    by_contra hb
    rw [if_neg hb] at hl
    omega
  have hs : s.step = 4 ∧ s.byte_counter = s.bytes := by
    rcases h5 with ⟨hb', -⟩ | ⟨hb', -⟩ | ⟨-, hs, hc⟩
    · omega
    · omega
    · exact ⟨hs, hc⟩
  simp [timerTick, if_neg h1, isr, hb, hs.1, hs.2]

theorem isr_clears_only_at_end (s : DataTransmitterClass) (h : (isr s).bytes ≠ s.bytes) :
    ¬ s.step < 4 ∧ s.step = s.block_size ∧ s.byte_counter = s.bytes ∧ s.block_size = 4 ∧
    (isr s).bytes = 0 ∧ (isr s).TCCR2B = 0 := by
  unfold isr at h ⊢
  simp only at h ⊢
  split_ifs at h ⊢ <;> simp_all

end DataTransmitterClass

theorem bitsLSB_succ_last (m w : Nat) :
    bitsLSB (m + 1) w = bitsLSB m w ++ [w / 2 ^ m % 2] := by
  induction m generalizing w with
  | zero => simp [bitsLSB]
  | succ m ih =>
    rw [bitsLSB, ih (w / 2)]
    simp [bitsLSB, Nat.div_div_eq_div_mul, pow_succ, Nat.mul_comm]

theorem bitsLSB_add (m n w : Nat) :
    bitsLSB (m + n) w = bitsLSB m w ++ bitsLSB n (w / 2 ^ m) := by
  induction m generalizing w with
  | zero => simp [bitsLSB]
  | succ m ih =>
    rw [Nat.succ_add, bitsLSB, ih (w / 2)]
    simp [bitsLSB, Nat.div_div_eq_div_mul, pow_succ, Nat.mul_comm]

theorem bitsLSB_length (n w : Nat) : (bitsLSB n w).length = n := by
  induction n generalizing w with
  | zero => rfl
  | succ n ih => simp [bitsLSB, ih]

theorem lineCode_append (p lvl : Nat) (l1 l2 : List Nat) :
    lineCode p lvl (l1 ++ l2)
      = lineCode p lvl l1 ++ lineCode (lineEnd p lvl l1).1 (lineEnd p lvl l1).2 l2 := by
  induction l1 generalizing p lvl with
  | nil => simp [lineCode, lineEnd]
  | cons b bs ih => simp [lineCode, lineEnd, ih]

theorem lineEnd_append (p lvl : Nat) (l1 l2 : List Nat) :
    lineEnd p lvl (l1 ++ l2) = lineEnd (lineEnd p lvl l1).1 (lineEnd p lvl l1).2 l2 := by
  induction l1 generalizing p lvl with
  | nil => simp [lineEnd]
  | cons b bs ih => simp [lineEnd, ih]

theorem lineCode_length (p lvl : Nat) (l : List Nat) : (lineCode p lvl l).length = 2 * l.length := by
  induction l generalizing p lvl with
  | nil => rfl
  | cons b bs ih => simp [lineCode, ih]; omega

theorem drop_take_succ (l : List Nat) (j n : Nat) (h : j < l.length) :
    (l.drop j).take (n + 1) = l.getD j 0 :: (l.drop (j + 1)).take n := by
  rw [List.drop_eq_getElem_cons h, List.take_succ_cons, List.getD_eq_getElem l 0 h]

namespace DataTransmitterClass

theorem ticks_add (m n : Nat) (s : DataTransmitterClass) :
    ticks (m + n) s = ticks n (ticks m s) := by
  induction m generalizing s with
  | zero => simp [ticks]
  | succ m ih => rw [Nat.succ_add]; simp only [ticks]; exact ih _

theorem levels_add (m n : Nat) (s : DataTransmitterClass) :
    levels (m + n) s = levels m s ++ levels n (ticks m s) := by
  induction m generalizing s with
  | zero => simp [ticks, levels]
  | succ m ih => rw [Nat.succ_add]; simp only [ticks, levels, List.cons_append]; rw [ih]

theorem symbols_add (m n : Nat) (s : DataTransmitterClass) :
    symbols (m + n) s = symbols m s ++ symbols n (ticks m s) := by
  induction m generalizing s with
  | zero => simp [ticks, symbols]
  | succ m ih => rw [Nat.succ_add]; simp only [ticks, symbols, List.append_assoc]; rw [ih]

theorem tick_symbol_start (s : DataTransmitterClass) (hrun : s.TCCR2B ≠ 0) (h4 : 4 ≤ s.step)
    (hev : s.step % 2 = 0) (hne : s.step ≠ s.block_size) (hlt : s.step < 255) :
    timerTick s = { s with
      curr_symbol := s.curr_byte % 2
      curr_byte := s.curr_byte / 2
      prev_symbol := s.curr_byte % 2
      step := s.step + 1
      pin_value := lineLevel s.prev_symbol s.pin_value (s.curr_byte % 2)
      pin_level := lineLevel s.prev_symbol s.pin_value (s.curr_byte % 2) } := by
  have c1 : ¬ s.step < 4 := by omega
  have hm : (s.step + 1) % 256 = s.step + 1 := Nat.mod_eq_of_lt (by omega)
  simp only [timerTick, if_neg hrun, isr, Nat.and_one_is_mod, if_neg c1, if_pos hev, if_neg hne,
    hm, lineLevel, Nat.shiftRight_eq_div_pow, pow_one]

theorem tick_mid_symbol (s : DataTransmitterClass) (hrun : s.TCCR2B ≠ 0) (h4 : 4 ≤ s.step)
    (hodd : s.step % 2 = 1) (hne : s.step ≠ s.block_size) (hlt : s.step < 255) :
    timerTick s = { s with
      step := s.step + 1
      pin_value := lnot s.pin_value
      pin_level := lnot s.pin_value } := by
  have c1 : ¬ s.step < 4 := by omega
  have c2 : ¬ s.step % 2 = 0 := by omega
  have hm : (s.step + 1) % 256 = s.step + 1 := Nat.mod_eq_of_lt (by omega)
  simp only [timerTick, if_neg hrun, isr, Nat.and_one_is_mod, if_neg c1, if_neg c2, if_neg hne, hm]

theorem pair_mid (s : DataTransmitterClass) (hrun : s.TCCR2B ≠ 0) (h4 : 4 ≤ s.step)
    (hev : s.step % 2 = 0) (hne : s.step + 1 < s.block_size) (hlt : s.step < 254) :
    ticks 2 s = afterSymbol s ∧
    levels 2 s = [lineLevel s.prev_symbol s.pin_value (s.curr_byte % 2),
                  lnot (lineLevel s.prev_symbol s.pin_value (s.curr_byte % 2))] ∧
    symbols 2 s = [s.curr_byte % 2] := by
  have c1 : ¬ s.step < 4 := by omega
  have e1 := tick_symbol_start s hrun h4 hev (by omega) (by omega)
  have e2 := tick_mid_symbol (timerTick s) (by rw [e1]; exact hrun) (by rw [e1]; simp; omega)
    (by rw [e1]; simp; omega) (by rw [e1]; simp; omega) (by rw [e1]; simp; omega)
  refine ⟨?_, ?_, ?_⟩
  · simp only [ticks]
    rw [e2, e1]
    simp [afterSymbol]
  · simp only [levels]
    rw [e2, e1]
  · simp only [symbols]
    rw [e1]
    simp [hrun, c1, hev, Nat.and_one_is_mod]
    omega

theorem tick_block_load (s : DataTransmitterClass) (hrun : s.TCCR2B ≠ 0) (h4 : 4 ≤ s.step)
    (hodd : s.step % 2 = 1) (hend : s.step = s.block_size) (hmore : s.byte_counter ≠ s.bytes)
    (hbc : s.byte_counter < 65535) :
    timerTick s = { s with
      step := 4
      curr_byte := s.data.getD s.byte_counter 0
      block_size := 19
      byte_counter := s.byte_counter + 1
      pin_value := lnot s.pin_value
      pin_level := lnot s.pin_value } := by
  have c1 : ¬ s.step < 4 := by omega
  have c2 : ¬ s.step % 2 = 0 := by omega
  have hm : (s.byte_counter + 1) % 65536 = s.byte_counter + 1 := Nat.mod_eq_of_lt (by omega)
  simp only [timerTick, if_neg hrun, isr, Nat.and_one_is_mod, if_neg c1, if_neg c2, if_pos hend,
    if_neg hmore, hm]

theorem tick_block_last (s : DataTransmitterClass) (hrun : s.TCCR2B ≠ 0) (h4 : 4 ≤ s.step)
    (hodd : s.step % 2 = 1) (hend : s.step = s.block_size) (hdone : s.byte_counter = s.bytes) :
    timerTick s = { s with
      step := 4
      curr_byte := 0
      block_size := 4
      pin_value := lnot s.pin_value
      pin_level := lnot s.pin_value } := by
  have c1 : ¬ s.step < 4 := by omega
  have c2 : ¬ s.step % 2 = 0 := by omega
  have c3 : ¬ s.block_size = 4 := by omega
  simp only [timerTick, if_neg hrun, isr, Nat.and_one_is_mod, if_neg c1, if_neg c2, if_pos hend,
    if_pos hdone, if_neg c3]

theorem pairs_mid (m : Nat) (s : DataTransmitterClass) (hrun : s.TCCR2B ≠ 0) (h4 : 4 ≤ s.step)
    (hev : s.step % 2 = 0) (hne : s.step + 2 * m ≤ s.block_size) (hlt : s.block_size ≤ 255) :
    (ticks (2 * m) s).step = s.step + 2 * m ∧
    (ticks (2 * m) s).curr_byte = s.curr_byte / 2 ^ m ∧
    (ticks (2 * m) s).prev_symbol
      = (lineEnd s.prev_symbol s.pin_value (bitsLSB m s.curr_byte)).1 ∧
    (ticks (2 * m) s).pin_value
      = (lineEnd s.prev_symbol s.pin_value (bitsLSB m s.curr_byte)).2 ∧
    (ticks (2 * m) s).block_size = s.block_size ∧
    (ticks (2 * m) s).bytes = s.bytes ∧
    (ticks (2 * m) s).byte_counter = s.byte_counter ∧
    (ticks (2 * m) s).data = s.data ∧
    (ticks (2 * m) s).TCCR2B = s.TCCR2B ∧
    levels (2 * m) s = lineCode s.prev_symbol s.pin_value (bitsLSB m s.curr_byte) ∧
    symbols (2 * m) s = bitsLSB m s.curr_byte := by
  induction m generalizing s with
  | zero => simp [ticks, levels, symbols, lineEnd, lineCode, bitsLSB]
  | succ m ih =>
    obtain ⟨e1, e2, e3⟩ := pair_mid s hrun h4 hev (by omega) (by omega)
    have hmul : 2 * (m + 1) = 2 + 2 * m := by ring
    have ih' := ih (afterSymbol s) hrun (by simp [afterSymbol]; omega)
      (by simp [afterSymbol]; omega) (by simp [afterSymbol]; omega) hlt
    rw [hmul, ticks_add, levels_add, symbols_add, e1, e2, e3]
    obtain ⟨i1, i2, i3, i4, i5, i6, i7, i8, i9, i10, i11⟩ := ih'
    refine ⟨?_, ?_, ?_, ?_, ?_, ?_, ?_, ?_, ?_, ?_, ?_⟩
    · rw [i1]; simp [afterSymbol]; omega
    · rw [i2]; simp [afterSymbol, Nat.div_div_eq_div_mul, pow_succ, Nat.mul_comm]
    · rw [i3]; simp [afterSymbol, bitsLSB, lineEnd]
    · rw [i4]; simp [afterSymbol, bitsLSB, lineEnd]
    · rw [i5]; simp [afterSymbol]
    · rw [i6]; simp [afterSymbol]
    · rw [i7]; simp [afterSymbol]
    · rw [i8]; simp [afterSymbol]
    · rw [i9]; simp [afterSymbol]
    · rw [i10]; simp [afterSymbol, bitsLSB, lineCode]
    · rw [i11]; simp [afterSymbol, bitsLSB]

theorem block_run (m : Nat) (s : DataTransmitterClass) (hrun : s.TCCR2B ≠ 0) (h4 : 4 ≤ s.step)
    (hev : s.step % 2 = 0) (hblk : s.step + 2 * m + 1 = s.block_size) (hlt : s.block_size ≤ 255)
    (hbc : s.byte_counter < 65535) :
    (ticks (2 * (m + 1)) s).step = 4 ∧
    (ticks (2 * (m + 1)) s).prev_symbol
      = (lineEnd s.prev_symbol s.pin_value (bitsLSB (m + 1) s.curr_byte)).1 ∧
    (ticks (2 * (m + 1)) s).pin_value
      = (lineEnd s.prev_symbol s.pin_value (bitsLSB (m + 1) s.curr_byte)).2 ∧
    (ticks (2 * (m + 1)) s).bytes = s.bytes ∧
    (ticks (2 * (m + 1)) s).data = s.data ∧
    (ticks (2 * (m + 1)) s).TCCR2B = s.TCCR2B ∧
    levels (2 * (m + 1)) s = lineCode s.prev_symbol s.pin_value (bitsLSB (m + 1) s.curr_byte) ∧
    symbols (2 * (m + 1)) s = bitsLSB (m + 1) s.curr_byte ∧
    (s.byte_counter ≠ s.bytes →
      (ticks (2 * (m + 1)) s).curr_byte = s.data.getD s.byte_counter 0 ∧
      (ticks (2 * (m + 1)) s).block_size = 19 ∧
      (ticks (2 * (m + 1)) s).byte_counter = s.byte_counter + 1) ∧
    (s.byte_counter = s.bytes →
      (ticks (2 * (m + 1)) s).curr_byte = 0 ∧
      (ticks (2 * (m + 1)) s).block_size = 4 ∧
      (ticks (2 * (m + 1)) s).byte_counter = s.byte_counter) := by
  obtain ⟨i1, i2, i3, i4, i5, i6, i7, i8, i9, i10, i11⟩ :=
    pairs_mid m s hrun h4 hev (by omega) hlt
  generalize ht : ticks (2 * m) s = t at i1 i2 i3 i4 i5 i6 i7 i8 i9
  have hmul : 2 * (m + 1) = 2 * m + (1 + 1) := by ring
  have e1 := tick_symbol_start t (by rw [i9]; exact hrun) (by omega) (by omega) (by omega)
    (by omega)
  generalize hu : timerTick t = u at e1
  have hu4 : 4 ≤ u.step := by rw [e1]; simp; omega
  have huodd : u.step % 2 = 1 := by rw [e1]; simp; omega
  have huend : u.step = u.block_size := by rw [e1]; simp; omega
  have hurun : u.TCCR2B ≠ 0 := by rw [e1]; simp; rw [i9]; exact hrun
  have hlv : levels (1 + 1) t = [u.pin_level, (timerTick u).pin_level] := by
    simp [levels, hu]
  have hsy : symbols (1 + 1) t = [u.curr_symbol] := by
    have c1 : ¬ t.step < 4 := by omega
    have c2 : t.step % 2 = 0 := by omega
    have c3 : ¬ u.step % 2 = 0 := by omega
    simp [symbols, hu, Nat.and_one_is_mod, c1, c2, c3, i9, hrun]
  have hbits := bitsLSB_succ_last m s.curr_byte
  have htk : ticks (2 * (m + 1)) s = timerTick u := by
    rw [hmul, ticks_add, ht]; simp [ticks, hu]
  rw [htk, hmul, levels_add, symbols_add, ht, hlv, hsy, i10, i11, hbits, lineCode_append,
    lineEnd_append]
  by_cases hdone : s.byte_counter = s.bytes
  · have e2 := tick_block_last u hurun hu4 huodd huend (by rw [e1]; simp; omega)
    rw [e2, e1]
    simp [lineCode, lineEnd, i2, i3, i4, i6, i7, i8, i9, hdone]
  · have e2 := tick_block_load u hurun hu4 huodd huend (by rw [e1]; simp; omega)
      (by rw [e1]; simp; omega)
    rw [e2, e1]
    simp [lineCode, lineEnd, i2, i3, i4, i6, i7, i8, i9, hdone]

theorem preamble_run (s : DataTransmitterClass) (hrun : s.TCCR2B ≠ 0) (h1 : s.step = 1)
    (hpv : s.pin_value = 1) :
    ticks 3 s = { s with step := 4, pin_value := 1, pin_level := 1 } ∧
    levels 3 s = [1, 1, 1] ∧ symbols 3 s = [] := by
  simp [ticks, levels, symbols, timerTick, isr, hrun, h1, hpv, lnot]

theorem last_tick (s : DataTransmitterClass) (hrun : s.TCCR2B ≠ 0) (h4 : s.step = 4)
    (hblk : s.block_size = 4) (hdone : s.byte_counter = s.bytes) (hcb : s.curr_byte = 0) :
    (timerTick s).bytes = 0 ∧ (timerTick s).TCCR2B = 0 ∧
    levels 1 s = [lineLevel s.prev_symbol s.pin_value 0] ∧ symbols 1 s = [0] := by
  simp [levels, symbols, timerTick, isr, hrun, h4, hblk, hdone, hcb, lineLevel]

theorem stopped_run (n : Nat) (s : DataTransmitterClass) (hstop : s.TCCR2B = 0) :
    ticks n s = s ∧ levels n s = List.replicate n s.pin_level ∧ symbols n s = [] := by
  induction n with
  | zero => simp [ticks, levels, symbols]
  | succ n ih =>
    have e : timerTick s = s := by simp [timerTick, hstop]
    simp only [ticks, levels, symbols, e, ih, List.replicate_succ]
    simp [hstop]

theorem payload_run (n : Nat) (s : DataTransmitterClass) (j : Nat) (hrun : s.TCCR2B ≠ 0)
    (h4 : s.step = 4) (hblk : s.block_size = 19) (hbc : s.byte_counter = j + 1)
    (hn : j + 1 + n = s.bytes) (hsz : s.bytes ≤ 255) (hlen : s.bytes ≤ s.data.length)
    (hcb : s.curr_byte = s.data.getD j 0) :
    (ticks (16 * (n + 1)) s).step = 4 ∧
    (ticks (16 * (n + 1)) s).block_size = 4 ∧
    (ticks (16 * (n + 1)) s).curr_byte = 0 ∧
    (ticks (16 * (n + 1)) s).byte_counter = s.bytes ∧
    (ticks (16 * (n + 1)) s).bytes = s.bytes ∧
    (ticks (16 * (n + 1)) s).TCCR2B = s.TCCR2B ∧
    (ticks (16 * (n + 1)) s).prev_symbol
      = (lineEnd s.prev_symbol s.pin_value (bytesBits ((s.data.drop j).take (n + 1)))).1 ∧
    (ticks (16 * (n + 1)) s).pin_value
      = (lineEnd s.prev_symbol s.pin_value (bytesBits ((s.data.drop j).take (n + 1)))).2 ∧
    levels (16 * (n + 1)) s
      = lineCode s.prev_symbol s.pin_value (bytesBits ((s.data.drop j).take (n + 1))) ∧
    symbols (16 * (n + 1)) s = bytesBits ((s.data.drop j).take (n + 1)) := by
  induction n generalizing s j with
  | zero =>
    obtain ⟨b1, b2, b3, b4, b5, b6, b7, b8, -, b10⟩ :=
      block_run 7 s hrun (by omega) (by omega) (by omega) (by omega) (by omega)
    obtain ⟨c1, c2, c3⟩ := b10 (by omega)
    rw [drop_take_succ _ _ _ (by omega)]
    simp only [Nat.zero_add, Nat.mul_one, List.take_zero, bytesBits, List.append_nil, ← hcb]
    exact ⟨b1, c2, c1, by rw [c3]; omega, b4, b6, b2, b3, b7, b8⟩
  | succ n ih =>
    obtain ⟨b1, b2, b3, b4, b5, b6, b7, b8, b9, -⟩ :=
      block_run 7 s hrun (by omega) (by omega) (by omega) (by omega) (by omega)
    obtain ⟨c1, c2, c3⟩ := b9 (by omega)
    have hmul : 16 * (n + 1 + 1) = 2 * (7 + 1) + 16 * (n + 1) := by ring
    generalize ht : ticks (2 * (7 + 1)) s = t at b1 b2 b3 b4 b5 b6 c1 c2 c3
    have ih' := ih t (j + 1) (by rw [b6]; exact hrun) b1 c2 (by rw [c3]; omega)
      (by rw [b4]; omega) (by rw [b4]; exact hsz) (by rw [b4, b5]; exact hlen)
      (by rw [c1, b5, hbc])
    obtain ⟨i1, i2, i3, i4, i5, i6, i7, i8, i9, i10⟩ := ih'
    rw [hmul, ticks_add, levels_add, symbols_add, ht, drop_take_succ _ _ _ (by omega)]
    simp only [bytesBits, lineCode_append, lineEnd_append, ← hcb]
    rw [b2, b3, b5] at i7 i8 i9
    rw [b5] at i10
    rw [b4] at i4 i5
    rw [b6] at i6
    exact ⟨i1, i2, i3, i4, i5, i6, i7, i8, by rw [b7, i9], by rw [b8, i10]⟩

theorem session_body (s : DataTransmitterClass) (hrun : s.TCCR2B ≠ 0) (h1 : s.step = 1)
    (hpv : s.pin_value = 1) (hps : s.prev_symbol = 0) (hblk : s.block_size = 39)
    (hbc : s.byte_counter = 0) (hsz1 : 1 ≤ s.bytes) (hsz : s.bytes ≤ 255)
    (hlen : s.bytes ≤ s.data.length) :
    (ticks (39 + 16 * s.bytes) s).step = 4 ∧
    (ticks (39 + 16 * s.bytes) s).block_size = 4 ∧
    (ticks (39 + 16 * s.bytes) s).curr_byte = 0 ∧
    (ticks (39 + 16 * s.bytes) s).byte_counter = s.bytes ∧
    (ticks (39 + 16 * s.bytes) s).bytes = s.bytes ∧
    (ticks (39 + 16 * s.bytes) s).TCCR2B = s.TCCR2B ∧
    (ticks (39 + 16 * s.bytes) s).prev_symbol
      = (lineEnd 0 1 (bitsLSB 18 s.curr_byte ++ bytesBits (s.data.take s.bytes))).1 ∧
    (ticks (39 + 16 * s.bytes) s).pin_value
      = (lineEnd 0 1 (bitsLSB 18 s.curr_byte ++ bytesBits (s.data.take s.bytes))).2 ∧
    levels (39 + 16 * s.bytes) s
      = [1, 1, 1] ++ lineCode 0 1 (bitsLSB 18 s.curr_byte ++ bytesBits (s.data.take s.bytes)) ∧
    symbols (39 + 16 * s.bytes) s
      = bitsLSB 18 s.curr_byte ++ bytesBits (s.data.take s.bytes) := by
  obtain ⟨p1, p2, p3⟩ := preamble_run s hrun h1 hpv
  generalize ht : ticks 3 s = t at p1
  have t1 : t.TCCR2B = s.TCCR2B := by rw [p1]
  have t2 : t.step = 4 := by rw [p1]
  have t3 : t.block_size = 39 := by rw [p1]; exact hblk
  have t4 : t.byte_counter = 0 := by rw [p1]; exact hbc
  have t5 : t.bytes = s.bytes := by rw [p1]
  have t6 : t.data = s.data := by rw [p1]
  have t7 : t.prev_symbol = 0 := by rw [p1]; exact hps
  have t8 : t.pin_value = 1 := by rw [p1]
  have t9 : t.curr_byte = s.curr_byte := by rw [p1]
  obtain ⟨b1, b2, b3, b4, b5, b6, b7, b8, b9, -⟩ :=
    block_run 17 t (by rw [t1]; exact hrun) (by omega) (by omega) (by omega) (by omega)
      (by omega)
  obtain ⟨c1, c2, c3⟩ := b9 (by omega)
  generalize hu : ticks (2 * (17 + 1)) t = u at b1 b2 b3 b4 b5 b6 c1 c2 c3
  rw [t7, t8, t9] at b2 b3 b7
  rw [t9] at b8
  have hk : s.bytes - 1 + 1 = s.bytes := by omega
  have pr := payload_run (s.bytes - 1) u 0 (by rw [b6, t1]; exact hrun) b1 c2 (by rw [c3, t4])
      (by rw [b4, t5]; omega) (by rw [b4, t5]; exact hsz) (by rw [b4, b5, t5, t6]; exact hlen)
      (by rw [c1, t4, b5])
  rw [hk] at pr
  obtain ⟨i1, i2, i3, i4, i5, i6, i7, i8, i9, i10⟩ := pr
  have hN : 39 + 16 * s.bytes = 3 + (2 * (17 + 1) + 16 * s.bytes) := by omega
  rw [hN, ticks_add, ticks_add, levels_add, levels_add, symbols_add, symbols_add, ht, hu, p2, p3,
    b7, b8, i9, i10, b2, b3, b5, t6]
  rw [b4, t5] at i4 i5
  rw [b6, t1] at i6
  rw [b2, b3, b5, t6] at i7 i8
  simp only [List.drop_zero, List.nil_append, lineCode_append, lineEnd_append]
  exact ⟨i1, i2, i3, i4, i5, i6, i7, i8, trivial, trivial⟩

theorem session_run (s : DataTransmitterClass) (hrun : s.TCCR2B ≠ 0) (h1 : s.step = 1)
    (hpv : s.pin_value = 1) (hps : s.prev_symbol = 0) (hblk : s.block_size = 39)
    (hbc : s.byte_counter = 0) (hsz1 : 1 ≤ s.bytes) (hsz : s.bytes ≤ 255)
    (hlen : s.bytes ≤ s.data.length) (r : Nat) :
    (ticks (40 + 16 * s.bytes + r) s).bytes = 0 ∧
    (ticks (40 + 16 * s.bytes + r) s).TCCR2B = 0 ∧
    levels (40 + 16 * s.bytes + r) s
      = [1, 1, 1] ++ lineCode 0 1 (bitsLSB 18 s.curr_byte ++ bytesBits (s.data.take s.bytes))
        ++ List.replicate (r + 1)
            (lineLevel
              (lineEnd 0 1 (bitsLSB 18 s.curr_byte ++ bytesBits (s.data.take s.bytes))).1
              (lineEnd 0 1 (bitsLSB 18 s.curr_byte ++ bytesBits (s.data.take s.bytes))).2 0) ∧
    symbols (40 + 16 * s.bytes + r) s
      = bitsLSB 18 s.curr_byte ++ bytesBits (s.data.take s.bytes) ++ [0] := by
  obtain ⟨i1, i2, i3, i4, i5, i6, i7, i8, i9, i10⟩ :=
    session_body s hrun h1 hpv hps hblk hbc hsz1 hsz hlen
  generalize ht : ticks (39 + 16 * s.bytes) s = t at i1 i2 i3 i4 i5 i6 i7 i8
  obtain ⟨l1, l2, l3, l4⟩ := last_tick t (by rw [i6]; exact hrun) i1 i2 (by rw [i4, i5]) i3
  obtain ⟨q1, q2, q3⟩ := stopped_run r (timerTick t) l2
  have hl : (timerTick t).pin_level = lineLevel t.prev_symbol t.pin_value 0 := by
    simpa [levels] using l3
  have hN : 40 + 16 * s.bytes + r = 39 + 16 * s.bytes + (1 + r) := by omega
  have e1 : ticks (1 + r) t = timerTick t := by
    rw [ticks_add]; simp only [ticks]; exact q1
  have e2 : ticks 1 t = timerTick t := rfl
  rw [hN, ticks_add (39 + 16 * s.bytes) (1 + r) s, levels_add (39 + 16 * s.bytes) (1 + r) s,
    symbols_add (39 + 16 * s.bytes) (1 + r) s, ht, e1, levels_add 1 r t, symbols_add 1 r t, e2,
    l3, l4, i9, i10, q2, q3, hl, i7, i8]
  refine ⟨l1, l2, ?_, ?_⟩
  · simp only [List.replicate_succ, List.append_assoc, List.singleton_append]
  · simp only [List.append_nil, List.append_assoc]

end DataTransmitterClass

theorem bitsLSB_mod (n w : Nat) : bitsLSB n (w % 2 ^ n) = bitsLSB n w := by
  induction n generalizing w with
  | zero => rfl
  | succ n ih =>
    simp only [bitsLSB]
    have h1 : w % 2 ^ (n + 1) % 2 = w % 2 :=
      Nat.mod_mod_of_dvd w (Dvd.intro_left (2 ^ n) rfl)
    have h2 : w % 2 ^ (n + 1) / 2 = (w / 2) % 2 ^ n := by
      rw [pow_succ, Nat.mul_comm, Nat.mod_mul_right_div_self]
    rw [h1, h2, ih]

theorem bitsLSB_header (ID c : Nat) (hid : ID < 256) :
    bitsLSB 18 (3 + 4 * ID + 1024 * c) = [1, 1] ++ bitsLSB 8 ID ++ bitsLSB 8 c := by
  have e : (18 : Nat) = 2 + (8 + 8) := rfl
  rw [e, bitsLSB_add, bitsLSB_add]
  have h1 : bitsLSB 2 (3 + 4 * ID + 1024 * c) = [1, 1] := by
    simp only [bitsLSB]
    have a1 : (3 + 4 * ID + 1024 * c) % 2 = 1 := by omega
    have a2 : (3 + 4 * ID + 1024 * c) / 2 % 2 = 1 := by omega
    rw [a1, a2]
  have h2 : (3 + 4 * ID + 1024 * c) / 2 ^ 2 % 2 ^ 8 = ID := by
    norm_num; omega
  have h3 : (3 + 4 * ID + 1024 * c) / 2 ^ 2 / 2 ^ 8 = c := by
    norm_num; omega
  rw [h1, h3, ← bitsLSB_mod 8 ((3 + 4 * ID + 1024 * c) / 2 ^ 2), h2, List.append_assoc]

theorem bytesBits_length (l : List Nat) : (bytesBits l).length = 8 * l.length := by
  induction l with
  | nil => rfl
  | cons b bs ih => simp [bytesBits, bitsLSB_length, ih]; omega

namespace DataTransmitterClass

theorem ticks_succ_last (k : Nat) (s : DataTransmitterClass) :
    ticks (k + 1) s = timerTick (ticks k s) := by
  rw [ticks_add]; rfl

theorem transmitData_started (crc : Nat → List Nat → Nat) (s : DataTransmitterClass)
    (DSET : dset_t) (hidle : s.bytes = 0) (hsize : 1 ≤ DSET.SIZE) (hid : DSET.ID < 256) :
    (transmitData crc s DSET).1 =
      { s with
        bytes := DSET.SIZE
        data := DSET.data
        curr_byte := 3 + 4 * DSET.ID + 1024 * checksum8 crc DSET.ID DSET.data DSET.SIZE
        step := 1
        prev_symbol := 0
        byte_counter := 0
        block_size := 39
        pin_value := 1
        TCNT2 := 0
        TCCR2B := s.prescaler } := by
  have hc : checksum8 crc DSET.ID DSET.data DSET.SIZE < 256 := by
    unfold checksum8; omega
  have hne : DSET.SIZE ≠ 0 := by omega
  unfold transmitData
  rw [if_pos ⟨hidle, hne⟩]
  simp only [Nat.shiftLeft_eq]
  generalize checksum8 crc DSET.ID DSET.data DSET.SIZE = c at hc ⊢
  have e : ((c * 2 ^ 8 % 4294967296 + DSET.ID) % 4294967296 * 2 ^ 2 % 4294967296 + 3) % 4294967296
      = 3 + 4 * DSET.ID + 1024 * c := by omega
  rw [e]

/-- C4: from an idle, initialised engine, for every identifier byte, every
size in 1..255 and every payload of that size, the symbols emitted over the
session (and over any longer run of the timer) are exactly 1, 1, the 8 bits of
the identifier, the 8 bits of the checksum, the 8 bits of each payload byte in
order, all least significant bit first, and one trailing 0: `18 + 8*size + 1`
symbols. -/
theorem session_symbols (crc : Nat → List Nat → Nat) (s : DataTransmitterClass)
    (ID SIZE : Nat) (payload : List Nat) (hidle : s.bytes = 0) (hpre : s.prescaler ≠ 0)
    (hid : ID < 256) (hsize1 : 1 ≤ SIZE) (hsize : SIZE ≤ 255) (hlen : payload.length = SIZE)
    (n : Nat) (hn : 40 + 16 * SIZE ≤ n) :
    symbols n (transmitData crc s (createDataset payload ID SIZE)).1
      = [1, 1] ++ bitsLSB 8 ID ++ bitsLSB 8 (checksum8 crc ID payload SIZE)
          ++ bytesBits payload ++ [0] ∧
    (symbols n (transmitData crc s (createDataset payload ID SIZE)).1).length
      = 18 + 8 * SIZE + 1 := by
  subst hlen
  have e := transmitData_started crc s (createDataset payload ID payload.length) hidle hsize1 hid
  simp only [createDataset] at e ⊢
  generalize (transmitData crc s ⟨payload, ID, payload.length⟩).1 = st at e
  obtain ⟨r, rfl⟩ : ∃ r, n = 40 + 16 * payload.length + r :=
    ⟨n - (40 + 16 * payload.length), by omega⟩
  have hb : st.bytes = payload.length := by rw [e]
  obtain ⟨-, -, -, q⟩ := session_run st (by rw [e]; exact hpre) (by rw [e]) (by rw [e])
    (by rw [e]) (by rw [e]) (by rw [e]) (by rw [hb]; exact hsize1) (by rw [hb]; exact hsize)
    (by rw [e]) r
  rw [hb] at q
  have hd : st.data = payload := by rw [e]
  have hcb : st.curr_byte = 3 + 4 * ID + 1024 * checksum8 crc ID payload payload.length := by
    rw [e]
  rw [hd, hcb, bitsLSB_header _ _ hid, List.take_length] at q
  refine ⟨q, ?_⟩
  rw [q]
  simp [bitsLSB_length, bytesBits_length]
  omega

/-- C5: from an idle, initialised engine and a dataset of size 1..255, the
active size `bytes` is non-zero and the timer is clocked after each of the
first `39 + 16*size` ticks; tick number `40 + 16*size` clears `bytes` and
stops the timer; and `isr` changes `bytes` on no other path than the one taken
at `step == block_size == 4` with `byte_counter == bytes`. -/
theorem session_ticks (crc : Nat → List Nat → Nat) (s : DataTransmitterClass) (DSET : dset_t)
    (hidle : s.bytes = 0) (hpre : s.prescaler ≠ 0) (hid : DSET.ID < 256)
    (hsize1 : 1 ≤ DSET.SIZE) (hsize : DSET.SIZE ≤ 255) :
    (∀ k, k ≤ 39 + 16 * DSET.SIZE →
      (ticks k (transmitData crc s DSET).1).bytes ≠ 0 ∧
      (ticks k (transmitData crc s DSET).1).TCCR2B ≠ 0) ∧
    (ticks (40 + 16 * DSET.SIZE) (transmitData crc s DSET).1).bytes = 0 ∧
    (ticks (40 + 16 * DSET.SIZE) (transmitData crc s DSET).1).TCCR2B = 0 ∧
    (∀ t : DataTransmitterClass, (isr t).bytes ≠ t.bytes →
      ¬ t.step < 4 ∧ t.step = t.block_size ∧ t.byte_counter = t.bytes ∧ t.block_size = 4) := by
  have e := transmitData_started crc s DSET hidle hsize1 hid
  generalize (transmitData crc s DSET).1 = st at e
  have key : ∀ k, k ≤ 39 + 16 * DSET.SIZE →
      Running (ticks k st) ∧ ticksLeft (ticks k st) + k = 40 + 16 * DSET.SIZE := by
    intro k
    induction k with
    | zero =>
      intro _
      simp only [ticks]
      rw [e]
      refine ⟨⟨hpre, by simp; omega, hsize, by simp, Or.inl ⟨rfl, by simp, by simp, rfl⟩⟩, ?_⟩
      simp [ticksLeft]; omega
    | succ k ih =>
      intro hk
      obtain ⟨r1, r2⟩ := ih (by omega)
      obtain ⟨a1, a2, -, -⟩ := running_step (ticks k st) r1 (by omega)
      rw [ticks_succ_last]
      exact ⟨a1, by omega⟩
  refine ⟨fun k hk => ?_, ?_, ?_, fun t ht => ?_⟩
  · obtain ⟨⟨r1, r2, -⟩, -⟩ := key k hk
    exact ⟨r2, r1⟩
  · obtain ⟨r1, r2⟩ := key (39 + 16 * DSET.SIZE) (le_refl _)
    have h40 : 40 + 16 * DSET.SIZE = 39 + 16 * DSET.SIZE + 1 := by omega
    rw [h40, ticks_succ_last]
    exact (running_last _ r1 (by omega)).1
  · obtain ⟨r1, r2⟩ := key (39 + 16 * DSET.SIZE) (le_refl _)
    have h40 : 40 + 16 * DSET.SIZE = 39 + 16 * DSET.SIZE + 1 := by omega
    rw [h40, ticks_succ_last]
    exact (running_last _ r1 (by omega)).2
  · obtain ⟨h1, h2, h3, h4, -, -⟩ := isr_clears_only_at_end t ht
    exact ⟨h1, h2, h3, h4⟩

/-- C4, at the scenario: the 51 symbols of the frame of identifier 7 with
payload `[0x11, 0x22, 0x33, 0x44]`. -/
theorem session_symbols_witness :
    (scenarioTx.bytes = 0 ∧ scenarioTx.prescaler ≠ 0 ∧ 7 < 256 ∧ 1 ≤ 4 ∧ 4 ≤ 255 ∧
      scenarioPayload.length = 4 ∧ 40 + 16 * 4 ≤ 104) ∧
    symbols 104 (transmitData crc8Maxim scenarioTx (createDataset scenarioPayload 7 4)).1
      = [1, 1] ++ bitsLSB 8 7 ++ bitsLSB 8 (checksum8 crc8Maxim 7 scenarioPayload 4)
          ++ bytesBits scenarioPayload ++ [0] :=
  ⟨by decide,
   (session_symbols crc8Maxim scenarioTx 7 4 scenarioPayload (by decide) (by decide) (by decide)
      (by decide) (by decide) (by decide) 104 (by decide)).1⟩

/-- C5, at the scenario: the session of size 4 is still active after 103
ticks and over after 104. -/
theorem session_ticks_witness :
    (scenarioTx.bytes = 0 ∧ scenarioTx.prescaler ≠ 0 ∧ scenarioDset.ID < 256 ∧
      1 ≤ scenarioDset.SIZE ∧ scenarioDset.SIZE ≤ 255) ∧
    (ticks 103 (transmitData crc8Maxim scenarioTx scenarioDset).1).bytes ≠ 0 ∧
    (ticks (40 + 16 * scenarioDset.SIZE) (transmitData crc8Maxim scenarioTx scenarioDset).1).bytes
      = 0 :=
  ⟨by decide,
   ((session_ticks crc8Maxim scenarioTx scenarioDset (by decide) (by decide) (by decide)
      (by decide) (by decide)).1 103 (by decide)).1,
   (session_ticks crc8Maxim scenarioTx scenarioDset (by decide) (by decide) (by decide)
      (by decide) (by decide)).2.1⟩

end DataTransmitterClass

/-! ## The receive engine on the edges of a frame -/

set_option maxRecDepth 100000 in
theorem tickMicros_inWindow_aux :
    ∀ BR, BR < 256 → 4 ≤ BR →
      TickInWindow (31250 / BR % 65536) (3 * (31250 / BR % 65536) % 65536)
        (5 * (31250 / BR % 65536) % 65536) (tickMicros BR) := by
  decide

theorem lnot_ne_self (x : Nat) : lnot x ≠ x := by
  unfold lnot
  by_cases h : x = 0
  · simp [h]
  · simp only [if_neg h]; exact fun e => h e.symm

theorem lnot_lnot (x : Nat) (h : x < 2) : lnot (lnot x) = x := by
  unfold lnot
  by_cases h0 : x = 0
  · simp [h0]
  · simp only [if_neg h0, if_true]; omega

theorem lnot_lt_two (x : Nat) : lnot x < 2 := by
  unfold lnot
  by_cases h0 : x = 0
  · simp [h0]
  · simp [h0]

theorem lineLevel_same (p lvl : Nat) : lineLevel p lvl p = lnot lvl := by
  simp [lineLevel]

theorem lineLevel_diff (p lvl b : Nat) (h : p ≠ b) (hl : lvl < 2) : lineLevel p lvl b = lvl := by
  have hx : p ^^^ b ≠ 0 := by rw [Ne, Nat.xor_eq_zero]; exact h
  simp only [lineLevel, if_pos hx]
  exact lnot_lnot lvl hl

theorem sub32_microsAt (P t0 k d : Nat) (h : d * P < 4294967296) :
    sub32 (microsAt P t0 (k + d)) (microsAt P t0 k) = d * P := by
  unfold sub32 microsAt
  rw [Nat.add_mul]
  generalize k * P = a
  generalize d * P = b at h ⊢
  omega

namespace DataReceiverClass

theorem DRisr_short_skip (us ms : Nat) (s : DataReceiverClass) (d : Nat)
    (hd : sub32 us s.msl = d) (h1 : s.T1 ≤ d) (h2 : d ≤ s.T2) (h3 : s.T2 ≤ s.T3)
    (hskip : s.skip_next_short = 1) :
    DRisr us ms s = { s with msl := us, skip_next_short := 0 } := by
  have c1 : ¬ (d < s.T1 ∨ d > s.T3) := by omega
  have c2 : ¬ (d > s.T2 ∨ s.skip_next_short = 0) := by omega
  simp only [DRisr, hd, if_neg c1, if_neg c2]

theorem DRisr_short_bit (us ms : Nat) (s : DataReceiverClass) (d : Nat)
    (hd : sub32 us s.msl = d) (h1 : s.T1 ≤ d) (h2 : d ≤ s.T2) (h3 : s.T2 ≤ s.T3)
    (hskip : s.skip_next_short = 0) (hint : s.int_counter ≠ 0) :
    DRisr us ms s = rxBit s.prev_bit us ms s := by
  have c1 : ¬ (d < s.T1 ∨ d > s.T3) := by omega
  have c2 : d > s.T2 ∨ s.skip_next_short = 0 := Or.inr hskip
  have c3 : ¬ d > s.T2 := by omega
  simp only [DRisr, hd, if_neg c1, if_pos c2, if_neg c3, rxBit]
  simp only [hint, ne_eq, not_false_eq_true, if_true]
  by_cases hp : s.prev_bit = 0 <;> simp [hp]

theorem DRisr_long_bit (us ms : Nat) (s : DataReceiverClass) (d : Nat)
    (hd : sub32 us s.msl = d) (h1 : s.T1 ≤ d) (h2 : s.T2 < d) (h3 : d ≤ s.T3)
    (hint : s.int_counter ≠ 0) :
    DRisr us ms s = rxBit (lnot s.prev_bit) us ms s := by
  have c1 : ¬ (d < s.T1 ∨ d > s.T3) := by omega
  have c2 : d > s.T2 ∨ s.skip_next_short = 0 := Or.inl h2
  have c3 : d > s.T2 := h2
  simp only [DRisr, hd, if_neg c1, if_pos c2, if_pos c3, rxBit]
  simp only [hint, ne_eq, not_false_eq_true, if_true]
  by_cases hp : lnot s.prev_bit = 0 <;> simp [hp]

theorem DRisr_violation (us ms : Nat) (s : DataReceiverClass) (d : Nat)
    (hd : sub32 us s.msl = d) (h : d < s.T1 ∨ s.T3 < d) :
    DRisr us ms s = resetReception { s with msl := us } := by
  have c1 : d < s.T1 ∨ d > s.T3 := h
  simp only [DRisr, hd, if_pos c1]

theorem DRisr_short_preamble (us ms : Nat) (s : DataReceiverClass) (d : Nat)
    (hd : sub32 us s.msl = d) (h1 : s.T1 ≤ d) (h2 : d ≤ s.T2) (h3 : s.T2 ≤ s.T3)
    (hskip : s.skip_next_short = 0) (hint : s.int_counter = 0) :
    DRisr us ms s = { s with msl := us, skip_next_short := 1, int_counter := 1 } := by
  have c1 : ¬ (d < s.T1 ∨ d > s.T3) := by omega
  have c2 : d > s.T2 ∨ s.skip_next_short = 0 := Or.inr hskip
  have c3 : ¬ d > s.T2 := by omega
  simp only [DRisr, hd, if_neg c1, if_pos c2, if_neg c3]
  simp [hint]

end DataReceiverClass

theorem feed_symbol (P t0 : Nat) (ms : Nat → Nat) (k lvl p b : Nat) (rest : List Nat)
    (s : DataReceiverClass) (hw : TickInWindow s.T1 s.T2 s.T3 P) (hlvl : lvl < 2) (hp : p < 2)
    (hb : b < 2) (hskip : s.skip_next_short = 1) (hint : s.int_counter ≠ 0)
    (hprev : s.prev_bit = p) (hmsl : s.msl = microsAt P t0 k) :
    feedEdges (edgeEvents (linkClock P t0 ms) k lvl
        (lineLevel p lvl b :: lnot (lineLevel p lvl b) :: rest)) s
      = feedEdges (edgeEvents (linkClock P t0 ms) (k + 2) (lnot (lineLevel p lvl b)) rest)
          (DataReceiverClass.rxBit b (microsAt P t0 (k + 2)) (ms (k + 2)) s) := by
  obtain ⟨w1, w2, w3, w4, w5, w6⟩ := hw
  by_cases hpb : p = b
  · subst hpb
    rw [lineLevel_same]
    have e1 : DataReceiverClass.DRisr (microsAt P t0 (k + 1)) (ms (k + 1)) s
        = { s with msl := microsAt P t0 (k + 1), skip_next_short := 0 } := by
      apply DataReceiverClass.DRisr_short_skip _ _ _ P
      · rw [hmsl]; simpa using sub32_microsAt P t0 k 1 (by omega)
      · exact w1
      · exact w2
      · omega
      · exact hskip
    have e2 : DataReceiverClass.DRisr (microsAt P t0 (k + 1 + 1)) (ms (k + 1 + 1))
          { s with msl := microsAt P t0 (k + 1), skip_next_short := 0 }
        = DataReceiverClass.rxBit p (microsAt P t0 (k + 1 + 1)) (ms (k + 1 + 1))
            { s with msl := microsAt P t0 (k + 1), skip_next_short := 0 } := by
      rw [← hprev]
      apply DataReceiverClass.DRisr_short_bit _ _ _ P
      · simpa using sub32_microsAt P t0 (k + 1) 1 (by omega)
      · exact w1
      · exact w2
      · show s.T2 ≤ s.T3
        omega
      · rfl
      · exact hint
    simp only [edgeEvents, feedEdges, linkClock, if_pos (lnot_ne_self lvl),
      if_pos (lnot_ne_self (lnot lvl)), e1, e2]
    rfl
  · rw [lineLevel_diff p lvl b hpb hlvl]
    have hne : ¬ (lvl ≠ lvl) := fun h => h rfl
    have e2 : DataReceiverClass.DRisr (microsAt P t0 (k + 2)) (ms (k + 2)) s
        = DataReceiverClass.rxBit b (microsAt P t0 (k + 2)) (ms (k + 2)) s := by
      have hb' : lnot s.prev_bit = b := by
        rw [hprev]; unfold lnot; split_ifs <;> omega
      rw [← hb']
      apply DataReceiverClass.DRisr_long_bit _ _ _ (2 * P)
      · rw [hmsl]; exact sub32_microsAt P t0 k 2 (by omega)
      · omega
      · exact w3
      · exact w4
      · exact hint
    simp only [edgeEvents, feedEdges, linkClock, if_neg hne, if_pos (lnot_ne_self lvl), e2]

theorem pow_and_128 (i : Nat) (h : i ≤ 6) : 2 ^ i &&& 128 = 0 := by
  interval_cases i <;> rfl

theorem pow_shift_byte (i : Nat) (h : i ≤ 6) : (2 ^ i <<< 1) % 256 = 2 ^ (i + 1) := by
  interval_cases i <;> rfl

theorem pow_le_64 (i : Nat) (h : i ≤ 6) : 2 ^ i ≤ 64 := by
  interval_cases i <;> norm_num

theorem rxBit_shift (b us ms : Nat) (s : DataReceiverClass) (i a : Nat) (hb : b < 2)
    (hskip : s.skip_next_short = 1) (hbit : s.bit_value = 2 ^ i) (hval : s.byte_value = a)
    (ha : a < 2 ^ i) (hi : i ≤ 6) :
    DataReceiverClass.rxBit b us ms s
      = { s with msl := us, prev_bit := b, bit_value := 2 ^ (i + 1),
                 byte_value := a + 2 ^ i * b } := by
  have h64 := pow_le_64 i hi
  have hv : (if ¬ b = 0 then (s.byte_value + 2 ^ i) % 256 else s.byte_value)
      = a + 2 ^ i * b := by
    rw [hval]
    by_cases h0 : b = 0
    · simp [h0]
    · have h1 : b = 1 := by omega
      rw [if_pos h0, h1, Nat.mul_one]
      exact Nat.mod_eq_of_lt (by omega)
  unfold DataReceiverClass.rxBit DataReceiverClass.bitDone
  simp only [hbit, pow_and_128 i hi, pow_shift_byte i hi, ne_eq, not_true_eq_false,
    if_false, hskip]
  rw [hv]

theorem feed_bits (P t0 : Nat) (ms : Nat → Nat) (n : Nat) :
    ∀ (k lvl p w i a : Nat) (rest : List Nat) (s : DataReceiverClass),
      TickInWindow s.T1 s.T2 s.T3 P → lvl < 2 → p < 2 → s.skip_next_short = 1 →
      s.int_counter ≠ 0 → s.prev_bit = p → s.msl = microsAt P t0 k → s.bit_value = 2 ^ i →
      s.byte_value = a → a < 2 ^ i → i + n ≤ 7 →
      feedEdges (edgeEvents (linkClock P t0 ms) k lvl (lineCode p lvl (bitsLSB n w) ++ rest)) s
        = feedEdges (edgeEvents (linkClock P t0 ms) (k + 2 * n)
              (lineEnd p lvl (bitsLSB n w)).2 rest)
            { s with msl := microsAt P t0 (k + 2 * n)
                     prev_bit := (lineEnd p lvl (bitsLSB n w)).1
                     bit_value := 2 ^ (i + n)
                     byte_value := a + 2 ^ i * (w % 2 ^ n) } := by
  induction n with
  | zero =>
    intro k lvl p w i a rest s _ _ _ _ _ hprev hmsl hbit hval _ _
    simp only [bitsLSB, lineCode, lineEnd, List.nil_append, Nat.mul_zero, Nat.add_zero,
      pow_zero, Nat.mod_one, ← hprev, ← hmsl, ← hbit, ← hval]
  | succ n ih =>
    intro k lvl p w i a rest s hw hlvl hp hskip hint hprev hmsl hbit hval ha hin
    have hb : w % 2 < 2 := Nat.mod_lt _ (by decide)
    have hs1 := rxBit_shift (w % 2) (microsAt P t0 (k + 2)) (ms (k + 2)) s i a hb hskip hbit
      hval ha (by omega)
    have h64 := pow_le_64 i (by omega)
    simp only [bitsLSB, lineCode, lineEnd, List.cons_append]
    rw [feed_symbol P t0 ms k lvl p (w % 2) _ s hw hlvl hp hb hskip hint hprev hmsl, hs1]
    rw [ih (k + 2) (lnot (lineLevel p lvl (w % 2))) (w % 2) (w / 2) (i + 1) (a + 2 ^ i * (w % 2))
      rest { s with msl := microsAt P t0 (k + 2), prev_bit := w % 2, bit_value := 2 ^ (i + 1),
                    byte_value := a + 2 ^ i * (w % 2) }
      hw (lnot_lt_two _) hb hskip hint rfl rfl rfl rfl
      (by rw [pow_succ]; nlinarith) (by omega)]
    have hk : k + 2 + 2 * n = k + 2 * (n + 1) := by ring
    have hi : i + 1 + n = i + (n + 1) := by ring
    have hv : a + 2 ^ i * (w % 2) + 2 ^ (i + 1) * (w / 2 % 2 ^ n)
        = a + 2 ^ i * (w % 2 ^ (n + 1)) := by
      rw [pow_succ' 2 n, Nat.mod_mul, pow_succ]; ring
    simp only [hk, hi, hv]

theorem lineEnd_lt (l : List Nat) (hl : ∀ b ∈ l, b < 2) (p lvl : Nat) (hp : p < 2)
    (hlvl : lvl < 2) : (lineEnd p lvl l).1 < 2 ∧ (lineEnd p lvl l).2 < 2 := by
  induction l generalizing p lvl with
  | nil => exact ⟨hp, hlvl⟩
  | cons b bs ih =>
    simp only [lineEnd]
    exact ih (fun c hc => hl c (List.mem_cons_of_mem _ hc)) b _
      (hl b (List.mem_cons_self _ _)) (lnot_lt_two _)

theorem bitsLSB_lt (n w : Nat) : ∀ b ∈ bitsLSB n w, b < 2 := by
  induction n generalizing w with
  | zero => intro b hb; simp [bitsLSB] at hb
  | succ n ih =>
    intro b hb
    simp only [bitsLSB, List.mem_cons] at hb
    rcases hb with rfl | hb
    · exact Nat.mod_lt _ (by decide)
    · exact ih _ b hb

theorem bytesBits_lt (l : List Nat) : ∀ b ∈ bytesBits l, b < 2 := by
  induction l with
  | nil => intro b hb; simp [bytesBits] at hb
  | cons x xs ih =>
    intro b hb
    simp only [bytesBits, List.mem_append] at hb
    rcases hb with hb | hb
    · exact bitsLSB_lt 8 x b hb
    · exact ih b hb

theorem feed_byte (P t0 : Nat) (ms : Nat → Nat) (k lvl p v : Nat) (rest : List Nat)
    (s : DataReceiverClass) (hw : TickInWindow s.T1 s.T2 s.T3 P) (hlvl : lvl < 2) (hp : p < 2)
    (hskip : s.skip_next_short = 1) (hint : s.int_counter ≠ 0) (hprev : s.prev_bit = p)
    (hmsl : s.msl = microsAt P t0 k) (hbit : s.bit_value = 1) (hval : s.byte_value = 0)
    (hv : v < 256) :
    feedEdges (edgeEvents (linkClock P t0 ms) k lvl (lineCode p lvl (bitsLSB 8 v) ++ rest)) s
      = feedEdges (edgeEvents (linkClock P t0 ms) (k + 16) (lineEnd p lvl (bitsLSB 8 v)).2 rest)
          (DataReceiverClass.bitDone (ms (k + 16))
            { s with msl := microsAt P t0 (k + 16)
                     prev_bit := (lineEnd p lvl (bitsLSB 8 v)).1
                     bit_value := 128
                     byte_value := v }) := by
  have h8 : bitsLSB 8 v = bitsLSB 7 v ++ [v / 2 ^ 7 % 2] := bitsLSB_succ_last 7 v
  obtain ⟨q1, q2⟩ := lineEnd_lt (bitsLSB 7 v) (bitsLSB_lt 7 v) p lvl hp hlvl
  have hb : v / 2 ^ 7 % 2 < 2 := Nat.mod_lt _ (by decide)
  have f7 := feed_bits P t0 ms 7 k lvl p v 0 0
    (lineCode (lineEnd p lvl (bitsLSB 7 v)).1 (lineEnd p lvl (bitsLSB 7 v)).2 [v / 2 ^ 7 % 2]
      ++ rest) s hw hlvl hp hskip hint hprev hmsl hbit hval (by norm_num) (by norm_num)
  rw [h8, lineCode_append, lineEnd_append, List.append_assoc, f7]
  generalize bitsLSB 7 v = l7 at q1 q2 ⊢
  have f1 := feed_symbol P t0 ms (k + 2 * 7) (lineEnd p lvl l7).2 (lineEnd p lvl l7).1
    (v / 2 ^ 7 % 2) rest
    { s with msl := microsAt P t0 (k + 2 * 7)
             prev_bit := (lineEnd p lvl l7).1
             bit_value := 2 ^ (0 + 7)
             byte_value := 0 + 2 ^ 0 * (v % 2 ^ 7) }
    hw q2 q1 hb hskip hint rfl rfl
  simp only [lineCode, lineEnd, List.cons_append, List.nil_append]
  rw [f1]
  have hval' : (if v / 2 ^ 7 % 2 ≠ 0 then (0 + 2 ^ 0 * (v % 2 ^ 7) + 2 ^ (0 + 7)) % 256
      else 0 + 2 ^ 0 * (v % 2 ^ 7)) = v := by
    norm_num
    split_ifs <;> omega
  simp only [DataReceiverClass.rxBit, hval', hskip]
  rfl

namespace DataReceiverClass

theorem bitDone_id (ms : Nat) (s : DataReceiverClass) (i0 : Nat) (hbit : s.bit_value = 128)
    (hc : s.byte_counter = 0) (hst : s.status = 0)
    (hid : idLoop s.dataset s.byte_value s.dataset_count 0 = some i0) :
    bitDone ms s = { s with pos := i0, status := 1, timestamp := sub32 ms s.Tl,
                            data_array := s.data_array.set 0 s.byte_value,
                            bit_value := 1, byte_value := 0, byte_counter := 1 } := by
  simp [bitDone, hbit, hc, hst, hid, storeData]

theorem bitDone_store (ms : Nat) (s : DataReceiverClass) (c : Nat) (hbit : s.bit_value = 128)
    (hc : s.byte_counter = c) (hc0 : c ≠ 0) (hc1 : c < 65535)
    (hmore : c + 1 ≠ (s.dataset.getD s.pos default).SIZE + 2) :
    bitDone ms s = { s with data_array := s.data_array.set c s.byte_value,
                            bit_value := 1, byte_value := 0, byte_counter := c + 1 } := by
  have hm : (c + 1) % 65536 = c + 1 := Nat.mod_eq_of_lt (by omega)
  have h128 : (128 : Nat) &&& 128 ≠ 0 := by decide
  simp only [bitDone, hbit, hc, storeData, if_pos h128, if_neg hc0, hm, if_neg hmore]

theorem bitDone_last (ms : Nat) (s : DataReceiverClass) (c : Nat) (hbit : s.bit_value = 128)
    (hc : s.byte_counter = c) (hc0 : c ≠ 0) (hc1 : c < 65535)
    (hlast : c + 1 = (s.dataset.getD s.pos default).SIZE + 2) :
    bitDone ms s = { s with data_array := s.data_array.set c s.byte_value,
                            int_counter := 0, byte_counter := 0, bit_value := 1, byte_value := 0,
                            prev_bit := 1, skip_next_short := 1, status := 4 } := by
  have hm : (c + 1) % 65536 = c + 1 := Nat.mod_eq_of_lt (by omega)
  have h128 : (128 : Nat) &&& 128 ≠ 0 := by decide
  have h4 : ¬ ((4 : Nat) &&& 1 ≠ 0) := by decide
  simp only [bitDone, hbit, hc, storeData, if_pos h128, if_neg hc0, hm, if_pos hlast,
    resetReception, if_neg h4]

end DataReceiverClass

theorem feed_payload (P t0 : Nat) (ms : Nat → Nat) (bs : List Nat) :
    ∀ (b k lvl p c : Nat) (rest : List Nat) (s : DataReceiverClass),
      TickInWindow s.T1 s.T2 s.T3 P → lvl < 2 → p < 2 → s.skip_next_short = 1 →
      s.int_counter ≠ 0 → s.prev_bit = p → s.msl = microsAt P t0 k → s.bit_value = 1 →
      s.byte_value = 0 → s.byte_counter = c → c ≠ 0 →
      c + (bs.length + 1) = (s.dataset.getD s.pos default).SIZE + 2 →
      (s.dataset.getD s.pos default).SIZE ≤ 255 → (∀ x ∈ b :: bs, x < 256) →
      feedEdges (edgeEvents (linkClock P t0 ms) k lvl
          (lineCode p lvl (bytesBits (b :: bs)) ++ rest)) s
        = feedEdges (edgeEvents (linkClock P t0 ms) (k + 16 * (bs.length + 1))
              (lineEnd p lvl (bytesBits (b :: bs))).2 rest)
            { s with msl := microsAt P t0 (k + 16 * (bs.length + 1))
                     data_array := storeBytes s.data_array c (b :: bs)
                     int_counter := 0, byte_counter := 0, bit_value := 1, byte_value := 0
                     prev_bit := 1, skip_next_short := 1, status := 4 } := by
  induction bs with
  | nil =>
    intro b k lvl p c rest s hw hlvl hp hskip hint hprev hmsl hbit hval hc hc0 hlen hsz hlt
    have hb : b < 256 := hlt b (List.mem_cons_self _ _)
    simp only [bytesBits, List.append_nil, List.length_nil, Nat.zero_add, Nat.mul_one,
      storeBytes]
    have hlen' : c + 1 = (s.dataset.getD s.pos default).SIZE + 2 := by
      simpa only [List.length_nil, Nat.zero_add] using hlen
    rw [feed_byte P t0 ms k lvl p b rest s hw hlvl hp hskip hint hprev hmsl hbit hval hb]
    rw [DataReceiverClass.bitDone_last (ms (k + 16))
      { s with msl := microsAt P t0 (k + 16)
               prev_bit := (lineEnd p lvl (bitsLSB 8 b)).1
               bit_value := 128
               byte_value := b } c rfl hc hc0 (by omega) hlen']
  | cons b' bs ih =>
    intro b k lvl p c rest s hw hlvl hp hskip hint hprev hmsl hbit hval hc hc0 hlen hsz hlt
    have hb : b < 256 := hlt b (List.mem_cons_self _ _)
    obtain ⟨q1, q2⟩ := lineEnd_lt (bitsLSB 8 b) (bitsLSB_lt 8 b) p lvl hp hlvl
    have hu : bytesBits (b :: b' :: bs) = bitsLSB 8 b ++ bytesBits (b' :: bs) := rfl
    rw [hu, lineCode_append, lineEnd_append, List.append_assoc,
      feed_byte P t0 ms k lvl p b _ s hw hlvl hp hskip hint hprev hmsl hbit hval hb]
    have hlen' : c + (bs.length + 1 + 1) = (s.dataset.getD s.pos default).SIZE + 2 := by
      simpa only [List.length_cons] using hlen
    rw [DataReceiverClass.bitDone_store (ms (k + 16))
      { s with msl := microsAt P t0 (k + 16)
               prev_bit := (lineEnd p lvl (bitsLSB 8 b)).1
               bit_value := 128
               byte_value := b } c rfl hc hc0 (by omega)
      (by show c + 1 ≠ (s.dataset.getD s.pos default).SIZE + 2
          omega)]
    have key := ih b' (k + 16) (lineEnd p lvl (bitsLSB 8 b)).2 (lineEnd p lvl (bitsLSB 8 b)).1
      (c + 1) rest
      { s with msl := microsAt P t0 (k + 16)
               prev_bit := (lineEnd p lvl (bitsLSB 8 b)).1
               data_array := s.data_array.set c b
               bit_value := 1, byte_value := 0, byte_counter := c + 1 }
      hw q2 q1 hskip hint rfl rfl rfl rfl rfl (by omega)
      (by show c + 1 + (bs.length + 1) = (s.dataset.getD s.pos default).SIZE + 2
          omega) hsz
      (fun x hx => hlt x (List.mem_cons_of_mem _ hx))
    rw [key]
    have hk : k + 16 + 16 * (bs.length + 1) = k + 16 * ((b' :: bs).length + 1) := by
      simp only [List.length_cons]; ring
    simp only [hk, storeBytes]

namespace DataReceiverClass

theorem DRisr_first_edge (us ms : Nat) (s : DataReceiverClass) (h1 : s.int_counter = 0)
    (h2 : s.byte_counter = 0) (h3 : s.bit_value = 1) (h4 : s.byte_value = 0)
    (h5 : s.prev_bit = 1) (h6 : s.skip_next_short = 1) (hst : s.status = 0) :
    ∃ sk, DRisr us ms s = { s with msl := us, skip_next_short := sk } := by
  by_cases c1 : sub32 us s.msl < s.T1 ∨ sub32 us s.msl > s.T3
  · refine ⟨1, ?_⟩
    simp [DRisr, c1, resetReception, h1, h2, h3, h4, h5, hst]
  · by_cases c2 : sub32 us s.msl > s.T2 ∨ s.skip_next_short = 0
    · have c3 : sub32 us s.msl > s.T2 := by
        rcases c2 with c2 | c2
        · exact c2
        · omega
      refine ⟨1, ?_⟩
      simp [DRisr, c1, c3, resetReception, h1, h2, h3, h4, h5, hst]
    · refine ⟨0, ?_⟩
      simp only [DRisr, if_neg c1, if_neg c2]

end DataReceiverClass

theorem feed_start (P t0 : Nat) (ms : Nat → Nat) (rest : List Nat) (s : DataReceiverClass)
    (hw : TickInWindow s.T1 s.T2 s.T3 P) (h1 : s.int_counter = 0) (h2 : s.byte_counter = 0)
    (h3 : s.bit_value = 1) (h4 : s.byte_value = 0) (h5 : s.prev_bit = 1)
    (h6 : s.skip_next_short = 1) (hst : s.status = 0) :
    feedEdges (edgeEvents (linkClock P t0 ms) 0 0 (1 :: 1 :: 1 :: 1 :: 0 :: 1 :: 0 :: rest)) s
      = feedEdges (edgeEvents (linkClock P t0 ms) 7 0 rest)
          { s with msl := microsAt P t0 7, int_counter := 1 } := by
  obtain ⟨w1, w2, w3, w4, w5, w6⟩ := hw
  obtain ⟨sk, e1⟩ := DataReceiverClass.DRisr_first_edge (microsAt P t0 1) (ms 1) s h1 h2 h3 h4
    h5 h6 hst
  have d5 : sub32 (microsAt P t0 5) (microsAt P t0 1) = 4 * P :=
    sub32_microsAt P t0 1 4 (by omega)
  have d6 : sub32 (microsAt P t0 6) (microsAt P t0 5) = P := by
    simpa using sub32_microsAt P t0 5 1 (by omega)
  have d7 : sub32 (microsAt P t0 7) (microsAt P t0 6) = P := by
    simpa using sub32_microsAt P t0 6 1 (by omega)
  have e5 : DataReceiverClass.DRisr (microsAt P t0 5) (ms 5)
        { s with msl := microsAt P t0 1, skip_next_short := sk }
      = { s with msl := microsAt P t0 5 } := by
    rw [DataReceiverClass.DRisr_violation (microsAt P t0 5) (ms 5)
      { s with msl := microsAt P t0 1, skip_next_short := sk } (4 * P) d5 (Or.inr w5)]
    simp [DataReceiverClass.resetReception, h1, h2, h3, h4, h5, h6, hst]
  have e6 : DataReceiverClass.DRisr (microsAt P t0 6) (ms 6) { s with msl := microsAt P t0 5 }
      = { s with msl := microsAt P t0 6, skip_next_short := 0 } := by
    rw [DataReceiverClass.DRisr_short_skip (microsAt P t0 6) (ms 6)
      { s with msl := microsAt P t0 5 } P d6 w1 w2 (by show s.T2 ≤ s.T3; omega) h6]
  have e7 : DataReceiverClass.DRisr (microsAt P t0 7) (ms 7)
        { s with msl := microsAt P t0 6, skip_next_short := 0 }
      = { s with msl := microsAt P t0 7, int_counter := 1 } := by
    rw [DataReceiverClass.DRisr_short_preamble (microsAt P t0 7) (ms 7)
      { s with msl := microsAt P t0 6, skip_next_short := 0 } P d7 w1 w2
      (by show s.T2 ≤ s.T3; omega) rfl h1]
    simp [h6]
  simp [edgeEvents, feedEdges, linkClock, e1, e5, e6, e7]

theorem edgeEvents_replicate (clock : Nat → Nat × Nat) (n k lvl : Nat) :
    edgeEvents clock k lvl (List.replicate n lvl) = [] := by
  induction n generalizing k with
  | zero => rfl
  | succ n ih => simp [List.replicate_succ, edgeEvents, ih]

theorem feed_tail (P t0 : Nat) (ms : Nat → Nat) (r k lvl trail : Nat) (s : DataReceiverClass)
    (hw : TickInWindow s.T1 s.T2 s.T3 P) (hskip : s.skip_next_short = 1)
    (hmsl : s.msl = microsAt P t0 k) :
    ∃ sk us, feedEdges (edgeEvents (linkClock P t0 ms) k lvl (List.replicate (r + 1) trail)) s
      = { s with msl := us, skip_next_short := sk } := by
  obtain ⟨w1, w2, w3, w4, w5, w6⟩ := hw
  by_cases h : trail = lvl
  · subst h
    rw [edgeEvents_replicate]
    exact ⟨s.skip_next_short, s.msl, rfl⟩
  · refine ⟨0, microsAt P t0 (k + 1), ?_⟩
    simp only [List.replicate_succ, edgeEvents, if_pos h, edgeEvents_replicate, feedEdges,
      linkClock]
    exact DataReceiverClass.DRisr_short_skip _ _ _ P
      (by rw [hmsl]; simpa using sub32_microsAt P t0 k 1 (by omega)) w1 w2 (by omega) hskip

theorem lineCode_sync (X : List Nat) :
    lineCode 0 1 (1 :: 1 :: X) = 1 :: 0 :: 1 :: 0 :: lineCode 1 0 X := by
  simp [lineCode, lineLevel, lnot]

theorem lineEnd_sync (X : List Nat) : lineEnd 0 1 (1 :: 1 :: X) = lineEnd 1 0 X := by
  simp [lineEnd, lineLevel, lnot]

theorem feed_frame (P t0 : Nat) (ms : Nat → Nat) (id c b : Nat) (bs rest : List Nat) (i0 : Nat)
    (s : DataReceiverClass) (hw : TickInWindow s.T1 s.T2 s.T3 P) (h1 : s.int_counter = 0)
    (h2 : s.byte_counter = 0) (h3 : s.bit_value = 1) (h4 : s.byte_value = 0)
    (h5 : s.prev_bit = 1) (h6 : s.skip_next_short = 1) (hst : s.status = 0) (hid : id < 256)
    (hc : c < 256) (hlt : ∀ x ∈ b :: bs, x < 256)
    (hfind : DataReceiverClass.idLoop s.dataset id s.dataset_count 0 = some i0)
    (hsize : (s.dataset.getD i0 default).SIZE = bs.length + 1) (h255 : bs.length + 1 ≤ 255) :
    feedEdges (edgeEvents (linkClock P t0 ms) 0 0
        ([1, 1, 1] ++ lineCode 0 1 ([1, 1] ++ bitsLSB 8 id ++ bitsLSB 8 c ++ bytesBits (b :: bs))
          ++ rest)) s
      = feedEdges (edgeEvents (linkClock P t0 ms) (39 + 16 * (bs.length + 1))
            (lineEnd 0 1 ([1, 1] ++ bitsLSB 8 id ++ bitsLSB 8 c ++ bytesBits (b :: bs))).2 rest)
          { s with msl := microsAt P t0 (39 + 16 * (bs.length + 1))
                   pos := i0
                   status := 4
                   timestamp := sub32 (ms 23) s.Tl
                   data_array := storeBytes ((s.data_array.set 0 id).set 1 c) 2 (b :: bs)
                   int_counter := 0, byte_counter := 0, bit_value := 1, byte_value := 0
                   prev_bit := 1, skip_next_short := 1 } := by
  have hl : [1, 1, 1] ++ lineCode 0 1 ([1, 1] ++ bitsLSB 8 id ++ bitsLSB 8 c ++ bytesBits (b :: bs))
        ++ rest
      = 1 :: 1 :: 1 :: 1 :: 0 :: 1 :: 0 ::
          (lineCode 1 0 (bitsLSB 8 id) ++
            (lineCode (lineEnd 1 0 (bitsLSB 8 id)).1 (lineEnd 1 0 (bitsLSB 8 id)).2 (bitsLSB 8 c) ++
              (lineCode
                  (lineEnd (lineEnd 1 0 (bitsLSB 8 id)).1 (lineEnd 1 0 (bitsLSB 8 id)).2
                    (bitsLSB 8 c)).1
                  (lineEnd (lineEnd 1 0 (bitsLSB 8 id)).1 (lineEnd 1 0 (bitsLSB 8 id)).2
                    (bitsLSB 8 c)).2
                  (bytesBits (b :: bs)) ++ rest))) := by
    have : [1, 1] ++ bitsLSB 8 id ++ bitsLSB 8 c ++ bytesBits (b :: bs)
        = 1 :: 1 :: (bitsLSB 8 id ++ (bitsLSB 8 c ++ bytesBits (b :: bs))) := by
      simp only [List.cons_append, List.nil_append, List.append_assoc]
    rw [this, lineCode_sync, lineCode_append, lineCode_append]
    simp only [List.cons_append, List.nil_append, List.append_assoc]
  have he : lineEnd 0 1 ([1, 1] ++ bitsLSB 8 id ++ bitsLSB 8 c ++ bytesBits (b :: bs))
      = lineEnd
          (lineEnd (lineEnd 1 0 (bitsLSB 8 id)).1 (lineEnd 1 0 (bitsLSB 8 id)).2
            (bitsLSB 8 c)).1
          (lineEnd (lineEnd 1 0 (bitsLSB 8 id)).1 (lineEnd 1 0 (bitsLSB 8 id)).2
            (bitsLSB 8 c)).2
          (bytesBits (b :: bs)) := by
    have : [1, 1] ++ bitsLSB 8 id ++ bitsLSB 8 c ++ bytesBits (b :: bs)
        = 1 :: 1 :: (bitsLSB 8 id ++ (bitsLSB 8 c ++ bytesBits (b :: bs))) := by
      simp only [List.cons_append, List.nil_append, List.append_assoc]
    rw [this, lineEnd_sync, lineEnd_append, lineEnd_append]
  obtain ⟨q1, q2⟩ := lineEnd_lt (bitsLSB 8 id) (bitsLSB_lt 8 id) 1 0 (by decide) (by decide)
  obtain ⟨r1, r2⟩ := lineEnd_lt (bitsLSB 8 c) (bitsLSB_lt 8 c) _ _ q1 q2
  rw [hl, he]
  -- the start pulse and the two sync bits
  rw [feed_start P t0 ms _ s hw h1 h2 h3 h4 h5 h6 hst]
  -- the identifier byte
  rw [feed_byte P t0 ms 7 0 1 id _
    { s with msl := microsAt P t0 7, int_counter := 1 }
    hw (by decide) (by decide) h6 Nat.one_ne_zero h5 rfl h3 h4 hid]
  rw [DataReceiverClass.bitDone_id (ms (7 + 16))
    { s with msl := microsAt P t0 (7 + 16), int_counter := 1
             prev_bit := (lineEnd 1 0 (bitsLSB 8 id)).1, bit_value := 128, byte_value := id }
    i0 rfl h2 hst hfind]
  -- the checksum byte
  rw [feed_byte P t0 ms (7 + 16) _ _ c _
    { s with msl := microsAt P t0 (7 + 16), int_counter := 1
             prev_bit := (lineEnd 1 0 (bitsLSB 8 id)).1
             pos := i0, status := 1, timestamp := sub32 (ms (7 + 16)) s.Tl
             data_array := s.data_array.set 0 id
             bit_value := 1, byte_value := 0, byte_counter := 1 }
    hw q2 q1 h6 Nat.one_ne_zero rfl rfl rfl rfl hc]
  rw [DataReceiverClass.bitDone_store (ms (7 + 16 + 16))
    { s with msl := microsAt P t0 (7 + 16 + 16), int_counter := 1
             prev_bit := (lineEnd (lineEnd 1 0 (bitsLSB 8 id)).1 (lineEnd 1 0 (bitsLSB 8 id)).2
                            (bitsLSB 8 c)).1
             pos := i0, status := 1, timestamp := sub32 (ms (7 + 16)) s.Tl
             data_array := s.data_array.set 0 id
             bit_value := 128, byte_value := c, byte_counter := 1 }
    1 rfl rfl Nat.one_ne_zero (by decide)
    (by show 1 + 1 ≠ (s.dataset.getD i0 default).SIZE + 2
        rw [hsize]; omega)]
  -- the payload bytes
  rw [feed_payload P t0 ms bs b (7 + 16 + 16) _ _ 2 rest
    { s with msl := microsAt P t0 (7 + 16 + 16), int_counter := 1
             prev_bit := (lineEnd (lineEnd 1 0 (bitsLSB 8 id)).1 (lineEnd 1 0 (bitsLSB 8 id)).2
                            (bitsLSB 8 c)).1
             pos := i0, status := 1, timestamp := sub32 (ms (7 + 16)) s.Tl
             data_array := (s.data_array.set 0 id).set 1 c
             bit_value := 1, byte_value := 0, byte_counter := 2 }
    hw r2 r1 h6 Nat.one_ne_zero rfl rfl rfl rfl rfl (by decide)
    (by show 2 + (bs.length + 1) = (s.dataset.getD i0 default).SIZE + 2
        rw [hsize]; omega)
    (by show (s.dataset.getD i0 default).SIZE ≤ 255
        rw [hsize]; exact h255)
    hlt]

theorem storeBytes_length (bs : List Nat) : ∀ (da : List Nat) (i : Nat),
    (storeBytes da i bs).length = da.length := by
  induction bs with
  | nil => intro da i; rfl
  | cons b bs ih => intro da i; simp only [storeBytes]; rw [ih]; simp

theorem storeBytes_getD_lt (bs : List Nat) : ∀ (da : List Nat) (i j : Nat), j < i →
    (storeBytes da i bs).getD j 0 = da.getD j 0 := by
  induction bs with
  | nil => intro da i j _; rfl
  | cons b bs ih =>
    intro da i j hj
    simp only [storeBytes]
    rw [ih (da.set i b) (i + 1) j (by omega)]
    simp only [List.getD_eq_getElem?_getD]
    rw [List.getElem?_set_ne (by omega)]

theorem storeBytes_drop_take (bs : List Nat) : ∀ (da : List Nat) (i : Nat),
    i + bs.length ≤ da.length → ((storeBytes da i bs).drop i).take bs.length = bs := by
  induction bs with
  | nil => intro da i _; simp
  | cons b bs ih =>
    intro da i h
    simp only [List.length_cons] at h ⊢
    have hlen : i < (storeBytes da i (b :: bs)).length := by
      rw [storeBytes_length]; omega
    rw [drop_take_succ _ _ _ hlen]
    simp only [storeBytes]
    rw [storeBytes_getD_lt bs (da.set i b) (i + 1) i (by omega),
      ih (da.set i b) (i + 1) (by simp; omega)]
    congr 1
    simp only [List.getD_eq_getElem?_getD]
    rw [List.getElem?_set_self (by omega)]
    rfl

namespace DataReceiverClass

theorem idLoop_spec (ds : List dset_r) (v n : Nat) : ∀ (i j : Nat),
    idLoop ds v n i = some j → i ≤ j ∧ j < i + n ∧ (ds.getD j default).ID = v := by
  induction n with
  | zero => intro i j h; simp [idLoop] at h
  | succ n ih =>
    intro i j h
    simp only [idLoop] at h
    by_cases hc : (ds.getD i default).ID = v
    · rw [if_pos hc] at h
      have : i = j := by simpa using h
      subst this
      exact ⟨le_refl _, by omega, hc⟩
    · rw [if_neg hc] at h
      obtain ⟨a, b, c⟩ := ih (i + 1) j h
      exact ⟨by omega, by omega, c⟩

theorem idLoop_isSome (ds : List dset_r) (v n : Nat) : ∀ (i j : Nat),
    i ≤ j → j < i + n → (ds.getD j default).ID = v → ∃ j', idLoop ds v n i = some j' := by
  induction n with
  | zero => intro i j h1 h2 _; omega
  | succ n ih =>
    intro i j h1 h2 h3
    simp only [idLoop]
    by_cases hc : (ds.getD i default).ID = v
    · exact ⟨i, by rw [if_pos hc]⟩
    · rw [if_neg hc]
      have hij : i ≠ j := fun e => hc (e ▸ h3)
      exact ih (i + 1) j (by omega) (by omega) h3

theorem sizeLoop_ge (ds : List dset_r) (n : Nat) : ∀ (i a : Nat),
    a ≤ sizeLoop ds n i a ∧
    ∀ j, i ≤ j → j < i + n → (ds.getD j default).SIZE ≤ sizeLoop ds n i a := by
  induction n with
  | zero => intro i a; exact ⟨le_refl _, fun j h1 h2 => by omega⟩
  | succ n ih =>
    intro i a
    simp only [sizeLoop]
    obtain ⟨g1, g2⟩ := ih (i + 1) (max a (ds.getD i default).SIZE)
    refine ⟨le_trans (le_max_left _ _) g1, fun j h1 h2 => ?_⟩
    by_cases hij : i = j
    · subst hij
      exact le_trans (le_max_right _ _) g1
    · exact g2 j (by omega) (by omega)

theorem init_ok (BYTE_RATE RECEIVER_PIN : Nat) (dsets : List dset_r) (DATASET_COUNT : Nat)
    (f : Nat → Nat) (s : DataReceiverClass) (h0 : s.is_initialized = 0) (hst : s.status = 0)
    (hr : 3 < BYTE_RATE) (hn : DATASET_COUNT ≠ 0) :
    (init BYTE_RATE RECEIVER_PIN dsets DATASET_COUNT (some f) s).1 =
      { s with
        receiver_input := RECEIVER_PIN
        dataset := dsets
        dataset_count := DATASET_COUNT
        array_size := sizeLoop dsets DATASET_COUNT 0 0
        data_array := (List.range (sizeLoop dsets DATASET_COUNT 0 0 + 2)).map (fun i => f i % 256)
        T1 := 31250 / BYTE_RATE % 65536
        T2 := 3 * (31250 / BYTE_RATE % 65536) % 65536
        T3 := 5 * (31250 / BYTE_RATE % 65536) % 65536
        Tl := 1375 / BYTE_RATE % 65536
        int_counter := 0, byte_counter := 0, bit_value := 1, byte_value := 0, prev_bit := 1
        skip_next_short := 1, attached := 1, is_initialized := 1 } := by
  have hc : s.is_initialized = 0 ∧ BYTE_RATE > 3 ∧ DATASET_COUNT ≠ 0 := ⟨h0, hr, hn⟩
  simp [init, hc, resetReception, hst]

end DataReceiverClass

theorem link_delivers (crc : Nat → List Nat → Nat) (P t0 : Nat) (ms : Nat → Nat) (ID : Nat)
    (payload : List Nat) (tx : DataTransmitterClass) (rx : DataReceiverClass) (i0 r : Nat)
    (htx : tx.bytes = 0) (hpre : tx.prescaler ≠ 0) (hlevel : tx.pin_level = 0) (hid : ID < 256)
    (hsize1 : 1 ≤ payload.length) (hsize : payload.length ≤ 255)
    (hbytes : ∀ x ∈ payload, x < 256)
    (hw : TickInWindow rx.T1 rx.T2 rx.T3 P) (h1 : rx.int_counter = 0)
    (h2 : rx.byte_counter = 0) (h3 : rx.bit_value = 1) (h4 : rx.byte_value = 0)
    (h5 : rx.prev_bit = 1) (h6 : rx.skip_next_short = 1) (hst : rx.status = 0)
    (hfind : DataReceiverClass.idLoop rx.dataset ID rx.dataset_count 0 = some i0)
    (hregid : (rx.dataset.getD i0 default).ID = ID)
    (hregsize : (rx.dataset.getD i0 default).SIZE = payload.length)
    (hbuf : payload.length + 2 ≤ rx.data_array.length) :
    (linkReceive crc P t0 ms (40 + 16 * payload.length + r) tx
        (DataTransmitterClass.createDataset payload ID payload.length) rx).status = 4 ∧
    DataReceiverClass.getID (linkReceive crc P t0 ms (40 + 16 * payload.length + r) tx
        (DataTransmitterClass.createDataset payload ID payload.length) rx) = ID ∧
    DataReceiverClass.getCRC (linkReceive crc P t0 ms (40 + 16 * payload.length + r) tx
        (DataTransmitterClass.createDataset payload ID payload.length) rx)
      = checksum8 crc ID payload payload.length ∧
    (DataReceiverClass.getDataArray (linkReceive crc P t0 ms (40 + 16 * payload.length + r) tx
        (DataTransmitterClass.createDataset payload ID payload.length) rx)).take payload.length
      = payload ∧
    DataReceiverClass.validateData crc (linkReceive crc P t0 ms (40 + 16 * payload.length + r) tx
        (DataTransmitterClass.createDataset payload ID payload.length) rx) = 1 := by
  have e := DataTransmitterClass.transmitData_started crc tx
    (DataTransmitterClass.createDataset payload ID payload.length) htx hsize1 hid
  simp only [DataTransmitterClass.createDataset] at e
  unfold linkReceive
  simp only [DataTransmitterClass.createDataset]
  generalize (DataTransmitterClass.transmitData crc tx ⟨payload, ID, payload.length⟩).1 = st at e
  have hb : st.bytes = payload.length := by rw [e]
  have hd : st.data = payload := by rw [e]
  have hcb : st.curr_byte = 3 + 4 * ID + 1024 * checksum8 crc ID payload payload.length := by
    rw [e]
  obtain ⟨-, -, L, -⟩ := DataTransmitterClass.session_run st (by rw [e]; exact hpre)
    (by rw [e]) (by rw [e]) (by rw [e]) (by rw [e]) (by rw [e]) (by rw [hb]; exact hsize1)
    (by rw [hb]; exact hsize) (by rw [e]) r
  rw [hb, hd, hcb, bitsLSB_header _ _ hid, List.take_length] at L
  rw [L, hlevel]
  have hck : checksum8 crc ID payload payload.length < 256 := by
    unfold checksum8; omega
  generalize hcdef : checksum8 crc ID payload payload.length = c at hck ⊢
  obtain ⟨b, bs, rfl⟩ : ∃ b bs, payload = b :: bs := by
    cases payload with
    | nil => simp at hsize1
    | cons b bs => exact ⟨b, bs, rfl⟩
  simp only [List.length_cons] at hregsize hsize hbuf hcdef ⊢
  rw [feed_frame P t0 ms ID c b bs _ i0 rx hw h1 h2 h3 h4 h5 h6 hst hid hck hbytes hfind hregsize
    hsize]
  obtain ⟨sk, us, ht⟩ := feed_tail P t0 ms r (39 + 16 * (bs.length + 1))
    (lineEnd 0 1 ([1, 1] ++ bitsLSB 8 ID ++ bitsLSB 8 c ++ bytesBits (b :: bs))).2
    (lineLevel (lineEnd 0 1 ([1, 1] ++ bitsLSB 8 ID ++ bitsLSB 8 c ++ bytesBits (b :: bs))).1
      (lineEnd 0 1 ([1, 1] ++ bitsLSB 8 ID ++ bitsLSB 8 c ++ bytesBits (b :: bs))).2 0)
    { rx with msl := microsAt P t0 (39 + 16 * (bs.length + 1))
              pos := i0
              status := 4
              timestamp := sub32 (ms 23) rx.Tl
              data_array := storeBytes ((rx.data_array.set 0 ID).set 1 c) 2 (b :: bs)
              int_counter := 0, byte_counter := 0, bit_value := 1, byte_value := 0
              prev_bit := 1, skip_next_short := 1 }
    hw rfl rfl
  rw [ht]
  have hlen2 : 2 ≤ rx.data_array.length := by omega
  have g0 : (storeBytes ((rx.data_array.set 0 ID).set 1 c) 2 (b :: bs)).getD 0 0 = ID := by
    rw [storeBytes_getD_lt _ _ 2 0 (by decide)]
    simp only [List.getD_eq_getElem?_getD]
    rw [List.getElem?_set_ne (by decide), List.getElem?_set_self (by omega)]
    rfl
  have g1 : (storeBytes ((rx.data_array.set 0 ID).set 1 c) 2 (b :: bs)).getD 1 0 = c := by
    rw [storeBytes_getD_lt _ _ 2 1 (by decide)]
    simp only [List.getD_eq_getElem?_getD]
    rw [List.getElem?_set_self (by simp; omega)]
    rfl
  have g2 : ((storeBytes ((rx.data_array.set 0 ID).set 1 c) 2 (b :: bs)).drop 2).take
      (bs.length + 1) = b :: bs := by
    have := storeBytes_drop_take (b :: bs) ((rx.data_array.set 0 ID).set 1 c) 2
      (by simp; omega)
    simpa using this
  refine ⟨rfl, g0, g1, g2, ?_⟩
  unfold DataReceiverClass.validateData
  show (if (storeBytes ((rx.data_array.set 0 ID).set 1 c) 2 (b :: bs)).getD 1 0
      = checksum8 crc (rx.dataset.getD i0 default).ID
          ((storeBytes ((rx.data_array.set 0 ID).set 1 c) 2 (b :: bs)).drop 2)
          (rx.dataset.getD i0 default).SIZE then 1 else 0) = 1
  rw [g1, hregid, hregsize]
  have hcrc : checksum8 crc ID
      ((storeBytes ((rx.data_array.set 0 ID).set 1 c) 2 (b :: bs)).drop 2) (bs.length + 1)
      = checksum8 crc ID (b :: bs) (bs.length + 1) := by
    unfold checksum8
    rw [g2]
    have ht : (b :: bs).take (bs.length + 1) = b :: bs := List.take_length (b :: bs)
    rw [ht]
  rw [hcrc, hcdef, if_pos rfl]

theorem tickMicros_inWindow (BYTE_RATE : Nat) (h4 : 4 ≤ BYTE_RATE) (h255 : BYTE_RATE ≤ 255) :
    TickInWindow (31250 / BYTE_RATE % 65536) (3 * (31250 / BYTE_RATE % 65536) % 65536)
      (5 * (31250 / BYTE_RATE % 65536) % 65536) (tickMicros BYTE_RATE) :=
  tickMicros_inWindow_aux BYTE_RATE (by omega) h4

/-- C1: end-to-end round trip.  For every byte rate in 4..255, identifier
byte, size in 1..255 and payload of that size: a transmit engine that is idle
and initialised, with its output at level 0, is asked to transmit the dataset
and its timer runs to the end of the session (any `n >= 40 + 16*size`
periods, one period being the tick period programmed for the byte rate); every
change of the output level is delivered as an edge event, at any start time
`t0`, to a receive engine freshly and successfully initialised with the same
byte rate, status Idle, and a registry with unique identifiers that contains
an entry `{id, size}`.  Then the session is over (`bytes == 0`), the receiver
has status DataAvailable (4), `getID()` is the identifier, `getCRC()` is the
transmitted checksum, the first `size` bytes at `getDataArray()` are the
payload and `validateData()` is 1. -/
theorem link_round_trip (crc : Nat → List Nat → Nat) (BYTE_RATE RECEIVER_PIN ID SIZE : Nat)
    (payload : List Nat) (dsets : List dset_r) (e : dset_r) (heap : Nat → Nat)
    (tx : DataTransmitterClass) (rx : DataReceiverClass) (t0 : Nat) (ms : Nat → Nat) (n : Nat)
    (hrate : 4 ≤ BYTE_RATE) (hrate' : BYTE_RATE ≤ 255) (hid : ID < 256) (hsize1 : 1 ≤ SIZE)
    (hsize : SIZE ≤ 255) (hlen : payload.length = SIZE) (hbytes : ∀ x ∈ payload, x < 256)
    (hnodup : (dsets.map dset_r.ID).Nodup) (hmem : e ∈ dsets) (heid : e.ID = ID)
    (hesize : e.SIZE = SIZE)
    (htx : tx.bytes = 0) (hpre : tx.prescaler ≠ 0) (hlevel : tx.pin_level = 0)
    (hrx : rx.is_initialized = 0) (hst : rx.status = 0) (hn : 40 + 16 * SIZE ≤ n) :
    (DataReceiverClass.init BYTE_RATE RECEIVER_PIN dsets dsets.length (some heap) rx).2 = 1 ∧
    (DataTransmitterClass.ticks n (DataTransmitterClass.transmitData crc tx
        (DataTransmitterClass.createDataset payload ID SIZE)).1).bytes = 0 ∧
    (linkReceive crc (tickMicros BYTE_RATE) t0 ms n tx
        (DataTransmitterClass.createDataset payload ID SIZE)
        (DataReceiverClass.init BYTE_RATE RECEIVER_PIN dsets dsets.length (some heap) rx).1).status
      = 4 ∧
    DataReceiverClass.getID (linkReceive crc (tickMicros BYTE_RATE) t0 ms n tx
        (DataTransmitterClass.createDataset payload ID SIZE)
        (DataReceiverClass.init BYTE_RATE RECEIVER_PIN dsets dsets.length (some heap) rx).1)
      = ID ∧
    DataReceiverClass.getCRC (linkReceive crc (tickMicros BYTE_RATE) t0 ms n tx
        (DataTransmitterClass.createDataset payload ID SIZE)
        (DataReceiverClass.init BYTE_RATE RECEIVER_PIN dsets dsets.length (some heap) rx).1)
      = checksum8 crc ID payload SIZE ∧
    (DataReceiverClass.getDataArray (linkReceive crc (tickMicros BYTE_RATE) t0 ms n tx
        (DataTransmitterClass.createDataset payload ID SIZE)
        (DataReceiverClass.init BYTE_RATE RECEIVER_PIN dsets dsets.length (some heap) rx).1)).take
        SIZE = payload ∧
    DataReceiverClass.validateData crc (linkReceive crc (tickMicros BYTE_RATE) t0 ms n tx
        (DataTransmitterClass.createDataset payload ID SIZE)
        (DataReceiverClass.init BYTE_RATE RECEIVER_PIN dsets dsets.length (some heap) rx).1)
      = 1 := by
  subst hlen
  have hne : dsets.length ≠ 0 := by
    intro h0
    rw [List.length_eq_zero] at h0
    rw [h0] at hmem
    exact absurd hmem (List.not_mem_nil _)
  have hinit := DataReceiverClass.init_ok BYTE_RATE RECEIVER_PIN dsets dsets.length heap rx hrx hst
    (by omega) hne
  have hret : (DataReceiverClass.init BYTE_RATE RECEIVER_PIN dsets dsets.length (some heap) rx).2
      = 1 := by
    have hc : rx.is_initialized = 0 ∧ BYTE_RATE > 3 ∧ dsets.length ≠ 0 := ⟨hrx, by omega, hne⟩
    simp [DataReceiverClass.init, hc]
  generalize (DataReceiverClass.init BYTE_RATE RECEIVER_PIN dsets dsets.length (some heap) rx).1
    = rx0 at hinit ⊢
  -- the registry entry found by the scan is the entry `e`
  obtain ⟨j, hj, hje⟩ := List.getElem_of_mem hmem
  have hgj : dsets.getD j default = e := by rw [List.getD_eq_getElem dsets default hj, hje]
  obtain ⟨i0, hfind⟩ := DataReceiverClass.idLoop_isSome dsets ID dsets.length 0 j (Nat.zero_le _)
    (by omega) (by rw [hgj, heid])
  obtain ⟨-, hi0, hi0id⟩ := DataReceiverClass.idLoop_spec dsets ID dsets.length 0 i0 hfind
  have hi0' : i0 < dsets.length := by omega
  have hgi : dsets.getD i0 default = e := by
    rw [List.getD_eq_getElem dsets default hi0'] at hi0id ⊢
    exact List.inj_on_of_nodup_map hnodup (List.getElem_mem _) hmem (by rw [hi0id, heid])
  have hsz : payload.length ≤ DataReceiverClass.sizeLoop dsets dsets.length 0 0 := by
    have := (DataReceiverClass.sizeLoop_ge dsets dsets.length 0 0).2 i0 (Nat.zero_le _) (by omega)
    rw [hgi, hesize] at this
    exact this
  obtain ⟨r, rfl⟩ : ∃ r, n = 40 + 16 * payload.length + r :=
    ⟨n - (40 + 16 * payload.length), by omega⟩
  have hdone : (DataTransmitterClass.ticks (40 + 16 * payload.length + r)
      (DataTransmitterClass.transmitData crc tx
        (DataTransmitterClass.createDataset payload ID payload.length)).1).bytes = 0 := by
    have e := DataTransmitterClass.transmitData_started crc tx
      (DataTransmitterClass.createDataset payload ID payload.length) htx hsize1 hid
    simp only [DataTransmitterClass.createDataset] at e ⊢
    generalize (DataTransmitterClass.transmitData crc tx ⟨payload, ID, payload.length⟩).1 = st
      at e
    have hb : st.bytes = payload.length := by rw [e]
    obtain ⟨d, -, -, -⟩ := DataTransmitterClass.session_run st (by rw [e]; exact hpre)
      (by rw [e]) (by rw [e]) (by rw [e]) (by rw [e]) (by rw [e]) (by rw [hb]; exact hsize1)
      (by rw [hb]; exact hsize) (by rw [e]) r
    rw [hb] at d
    exact d
  have hw := tickMicros_inWindow BYTE_RATE hrate hrate'
  have key := link_delivers crc (tickMicros BYTE_RATE) t0 ms ID payload tx rx0 i0 r htx hpre
    hlevel hid hsize1 hsize hbytes (by rw [hinit]; exact hw) (by rw [hinit]) (by rw [hinit])
    (by rw [hinit]) (by rw [hinit]) (by rw [hinit]) (by rw [hinit]) (by rw [hinit]; exact hst)
    (by rw [hinit]; exact hfind) (by rw [hinit]; show (dsets.getD i0 default).ID = ID
                                     rw [hgi, heid])
    (by rw [hinit]; show (dsets.getD i0 default).SIZE = payload.length
        rw [hgi, hesize])
    (by rw [hinit]; simp; omega)
  exact ⟨hret, hdone, key⟩

/-- C1, at the scenario of the specification: byte rate 10, registry
`[{id 7, size 4}]`, payload `[0x11, 0x22, 0x33, 0x44]` under identifier 7. -/
theorem link_round_trip_witness :
    (4 ≤ 10 ∧ 10 ≤ 255 ∧ 7 < 256 ∧ 1 ≤ 4 ∧ 4 ≤ 255 ∧ scenarioPayload.length = 4 ∧
      (∀ x ∈ scenarioPayload, x < 256) ∧ (scenarioRegistry.map dset_r.ID).Nodup ∧
      DataReceiverClass.createDataset 7 4 0 ∈ scenarioRegistry ∧
      scenarioTx.bytes = 0 ∧ scenarioTx.prescaler ≠ 0 ∧ scenarioTx.pin_level = 0 ∧
      DataReceiverClass.fresh.is_initialized = 0 ∧ DataReceiverClass.fresh.status = 0 ∧
      40 + 16 * 4 ≤ 104) ∧
    (linkReceive crc8Maxim (tickMicros 10) 0 (fun _ => 0) 104 scenarioTx scenarioDset
      scenarioRx).status = 4 ∧
    DataReceiverClass.getID (linkReceive crc8Maxim (tickMicros 10) 0 (fun _ => 0) 104 scenarioTx
      scenarioDset scenarioRx) = 7 ∧
    (DataReceiverClass.getDataArray (linkReceive crc8Maxim (tickMicros 10) 0 (fun _ => 0) 104
      scenarioTx scenarioDset scenarioRx)).take 4 = scenarioPayload ∧
    DataReceiverClass.validateData crc8Maxim (linkReceive crc8Maxim (tickMicros 10) 0
      (fun _ => 0) 104 scenarioTx scenarioDset scenarioRx) = 1 :=
  have h := link_round_trip crc8Maxim 10 2 7 4 scenarioPayload scenarioRegistry
    (DataReceiverClass.createDataset 7 4 0) (fun _ => 0) scenarioTx DataReceiverClass.fresh 0
    (fun _ => 0) 104 (by decide) (by decide) (by decide) (by decide) (by decide) (by decide)
    (by decide) (by decide) (by decide) rfl rfl (by decide) (by decide) (by decide) (by decide)
    (by decide) (by decide)
  ⟨by decide, h.2.2.1, h.2.2.2.1, h.2.2.2.2.2.1, h.2.2.2.2.2.2⟩

/-! ## transmitData -/

/-- C2: `transmitData` returns 0 exactly when a session is active
(`bytes != 0`) or `DSET.SIZE == 0`, and whenever it returns 0 the whole engine
state, hardware registers included, is the state before the call. -/
theorem transmitData_refused_iff (crc : Nat → List Nat → Nat) (s : DataTransmitterClass)
    (DSET : dset_t) :
    ((DataTransmitterClass.transmitData crc s DSET).2 = 0 ↔ (s.bytes ≠ 0 ∨ DSET.SIZE = 0)) ∧
    ((DataTransmitterClass.transmitData crc s DSET).2 = 0 →
      (DataTransmitterClass.transmitData crc s DSET).1 = s) := by
  unfold DataTransmitterClass.transmitData
  by_cases h : s.bytes = 0 ∧ DSET.SIZE ≠ 0
  · rw [if_pos h]
    obtain ⟨h1, h2⟩ := h
    simp [h1, h2]
  · rw [if_neg h]
    simp only [true_iff, forall_const, and_true]
    by_cases h1 : s.bytes = 0
    · right
      by_contra h2
      exact h ⟨h1, h2⟩
    · left; exact h1

/-- C2, at a concrete input: a second request while the session of the
scenario is active is refused and changes nothing. -/
theorem transmitData_refused_iff_witness :
    (DataTransmitterClass.transmitData crc8Maxim
        (DataTransmitterClass.transmitData crc8Maxim scenarioTx scenarioDset).1 scenarioDset).2 = 0 ∧
    (DataTransmitterClass.transmitData crc8Maxim
        (DataTransmitterClass.transmitData crc8Maxim scenarioTx scenarioDset).1 scenarioDset).1
      = (DataTransmitterClass.transmitData crc8Maxim scenarioTx scenarioDset).1 :=
  have h := transmitData_refused_iff crc8Maxim
    (DataTransmitterClass.transmitData crc8Maxim scenarioTx scenarioDset).1 scenarioDset
  have h0 := h.1.2 (Or.inl (by decide))
  ⟨h0, h.2 h0⟩

/-- C3: on an idle engine and a dataset of size at least 1, `transmitData`
returns 1 and builds the frame word `3 + 4*ID + 1024*checksum`: bits 0-1 are
the two sync bits (both 1), bits 2-9 the identifier, bits 10-17 the checksum,
nothing above; the active size is `SIZE`, the byte counter 0, the step 1. -/
theorem transmitData_header (crc : Nat → List Nat → Nat) (s : DataTransmitterClass)
    (DSET : dset_t) (hidle : s.bytes = 0) (hsize : 1 ≤ DSET.SIZE) (hid : DSET.ID < 256) :
    (DataTransmitterClass.transmitData crc s DSET).2 = 1 ∧
    (DataTransmitterClass.transmitData crc s DSET).1.curr_byte
      = 3 + 4 * DSET.ID + 1024 * checksum8 crc DSET.ID DSET.data DSET.SIZE ∧
    (DataTransmitterClass.transmitData crc s DSET).1.curr_byte % 2 = 1 ∧
    (DataTransmitterClass.transmitData crc s DSET).1.curr_byte / 2 % 2 = 1 ∧
    (DataTransmitterClass.transmitData crc s DSET).1.curr_byte / 4 % 256 = DSET.ID ∧
    (DataTransmitterClass.transmitData crc s DSET).1.curr_byte / 1024 % 256
      = checksum8 crc DSET.ID DSET.data DSET.SIZE ∧
    (DataTransmitterClass.transmitData crc s DSET).1.curr_byte < 262144 ∧
    (DataTransmitterClass.transmitData crc s DSET).1.bytes = DSET.SIZE ∧
    (DataTransmitterClass.transmitData crc s DSET).1.byte_counter = 0 ∧
    (DataTransmitterClass.transmitData crc s DSET).1.step = 1 := by
  have hc : checksum8 crc DSET.ID DSET.data DSET.SIZE < 256 := by
    unfold checksum8; omega
  have hne : DSET.SIZE ≠ 0 := by omega
  unfold DataTransmitterClass.transmitData
  rw [if_pos ⟨hidle, hne⟩]
  simp only [Nat.shiftLeft_eq]
  generalize checksum8 crc DSET.ID DSET.data DSET.SIZE = c at hc ⊢
  refine ⟨trivial, ?_, ?_, ?_, ?_, ?_, ?_, trivial, trivial, trivial⟩ <;> omega

/-- C3, at the scenario: the frame word of identifier 7 with the payload of
the scenario is `3 + 4*7 + 1024*checksum`. -/
theorem transmitData_header_witness :
    (scenarioTx.bytes = 0 ∧ 1 ≤ scenarioDset.SIZE ∧ scenarioDset.ID < 256) ∧
    (DataTransmitterClass.transmitData crc8Maxim scenarioTx scenarioDset).1.curr_byte
      = 3 + 4 * scenarioDset.ID
        + 1024 * checksum8 crc8Maxim scenarioDset.ID scenarioDset.data scenarioDset.SIZE :=
  ⟨by decide,
   (transmitData_header crc8Maxim scenarioTx scenarioDset (by decide) (by decide)
      (by decide)).2.1⟩

/-! ## dataTransfer -/

/-- C6, the claim as stated fails: with `SCOPE = 0` and `POS = SIZE = 4` the
sum `POS + SCOPE` equals `SIZE`, yet the transmit-side `dataTransfer` returns
0, not the sentinel 0xFF. -/
theorem dataTransfer_zero_scope_not_sentinel :
    4 + 0 = (DataTransmitterClass.createDataset [1, 2, 3, 4] 9 4).SIZE ∧
    (DataTransmitterClass.dataTransfer [] 0
        (DataTransmitterClass.createDataset [1, 2, 3, 4] 9 4) 4 0).2.2 = 0 := by
  decide

/-- C6, amended: for `POS <= SIZE <= 255` the transmit-side `dataTransfer`
returns 0 when `SCOPE = 0`; for `SCOPE >= 1` it returns 0xFF exactly when
`POS + SCOPE = SIZE`, 0 when `SCOPE` exceeds the remaining space `SIZE - POS`,
and `POS + SCOPE` otherwise. -/
theorem dataTransfer_tx_next (X : List Nat) (SCOPE : Nat) (DSET : dset_t) (POS WRITE : Nat)
    (hsize : DSET.SIZE ≤ 255) (hpos : POS ≤ DSET.SIZE) (hscope : SCOPE ≤ 65535) :
    (SCOPE = 0 → (DataTransmitterClass.dataTransfer X SCOPE DSET POS WRITE).2.2 = 0) ∧
    (1 ≤ SCOPE →
      (((DataTransmitterClass.dataTransfer X SCOPE DSET POS WRITE).2.2 = 0xFF
          ↔ POS + SCOPE = DSET.SIZE) ∧
       (DSET.SIZE - POS < SCOPE →
          (DataTransmitterClass.dataTransfer X SCOPE DSET POS WRITE).2.2 = 0) ∧
       (SCOPE ≤ DSET.SIZE - POS → POS + SCOPE ≠ DSET.SIZE →
          (DataTransmitterClass.dataTransfer X SCOPE DSET POS WRITE).2.2 = POS + SCOPE))) := by
  have hrem : remaining16 DSET.SIZE POS = DSET.SIZE - POS := by
    unfold remaining16; omega
  unfold DataTransmitterClass.dataTransfer
  rw [hrem]
  by_cases hc : SCOPE ≠ 0 ∧ SCOPE ≤ DSET.SIZE - POS
  · rw [if_pos hc]
    obtain ⟨hc1, hc2⟩ := hc
    have hmod : (POS + SCOPE) % 256 = POS + SCOPE := Nat.mod_eq_of_lt (by omega)
    simp only [hmod]
    refine ⟨fun h => absurd h hc1, fun _ => ⟨?_, ?_, ?_⟩⟩
    · by_cases he : POS + SCOPE = DSET.SIZE
      · simp [he]
      · simp only [he, if_false, iff_false]
        omega
    · intro h; omega
    · intro _ he
      simp [he]
  · rw [if_neg hc]
    refine ⟨fun _ => rfl, fun h1 => ⟨?_, fun _ => rfl, ?_⟩⟩
    · simp only [Nat.reduceEqDiff, false_iff]
      intro he
      apply hc
      omega
    · intro h2
      exfalso
      apply hc
      omega

/-- C6, amended, at a concrete input: in a dataset of size 4, two bytes at
position 1 give 3, two bytes at position 2 give the sentinel. -/
theorem dataTransfer_tx_next_witness :
    ((DataTransmitterClass.createDataset [1, 2, 3, 4] 9 4).SIZE ≤ 255 ∧
      2 ≤ (DataTransmitterClass.createDataset [1, 2, 3, 4] 9 4).SIZE ∧ 2 ≤ 65535) ∧
    ((DataTransmitterClass.dataTransfer [0, 0] 2
        (DataTransmitterClass.createDataset [1, 2, 3, 4] 9 4) 2 0).2.2 = 0xFF
      ↔ 2 + 2 = (DataTransmitterClass.createDataset [1, 2, 3, 4] 9 4).SIZE) :=
  ⟨by decide,
   ((dataTransfer_tx_next [0, 0] 2 (DataTransmitterClass.createDataset [1, 2, 3, 4] 9 4) 2 0
      (by decide) (by decide) (by decide)).2 (by decide)).1⟩

/-- C7, the code at the failing input: a dataset of size 4 that lies in an
eight-byte memory, `POS = 5`, `SCOPE = 1`, writing.  `SIZE - POS` is -1, which
the comparison reads as 65535, so the check passes: the byte at index 5, past
the end of the dataset, is overwritten and 6 is returned. -/
theorem dataTransfer_tx_pos_beyond_size :
    DataTransmitterClass.dataTransfer [0xEE] 1
        (DataTransmitterClass.createDataset [1, 2, 3, 4, 5, 6, 7, 8] 9 4) 5 1
      = ([0xEE], [1, 2, 3, 4, 5, 0xEE, 7, 8], 6) := by
  decide

/-- C8, the code at the failing input: the receive engine of the scenario
(`array_size = 4`, a buffer of 6 bytes), `POS = 5`, `SCOPE = 1`, reading.
`array_size - POS` is -1, read as 65535, so the check passes: the caller's
byte is overwritten with what lies at buffer index 7, outside the buffer, and
6 is returned. -/
theorem dataTransfer_rx_pos_beyond_size :
    scenarioRx.array_size = 4 ∧ scenarioRx.data_array.length = 6 ∧
    (DataReceiverClass.dataTransfer [0xEE] 1 5 0 scenarioRx).1 ≠ [0xEE] ∧
    (DataReceiverClass.dataTransfer [0xEE] 1 5 0 scenarioRx).2.2 = 6 := by
  decide

/-! ## Receiver initialisation -/

/-- C9, the claim as stated fails: a second `init` on the initialised engine
of the scenario returns 1, not 0. -/
theorem init_again_returns_one :
    scenarioRx.is_initialized = 1 ∧
    (DataReceiverClass.init 20 2 scenarioRegistry 1 (some fun _ => 0) scenarioRx).2 = 1 := by
  decide

/-- C9, amended: `init` on an engine whose `is_initialized` flag is set
returns the value of that flag (which is not 0) and leaves the engine state
unchanged, for every byte rate, registry and allocation outcome. -/
theorem init_again_unchanged (BYTE_RATE RECEIVER_PIN : Nat) (dsets : List dset_r)
    (DATASET_COUNT : Nat) (heap : Option (Nat → Nat)) (s : DataReceiverClass)
    (h : s.is_initialized ≠ 0) :
    DataReceiverClass.init BYTE_RATE RECEIVER_PIN dsets DATASET_COUNT heap s
      = (s, s.is_initialized) ∧
    (DataReceiverClass.init BYTE_RATE RECEIVER_PIN dsets DATASET_COUNT heap s).2 ≠ 0 := by
  have hc : ¬ (s.is_initialized = 0 ∧ BYTE_RATE > 3 ∧ DATASET_COUNT ≠ 0) := fun hc => h hc.1
  unfold DataReceiverClass.init
  rw [if_neg hc]
  exact ⟨rfl, h⟩

/-- C9, amended, at the scenario: a second `init` with another byte rate on
the initialised engine changes nothing and returns the flag. -/
theorem init_again_unchanged_witness :
    scenarioRx.is_initialized ≠ 0 ∧
    DataReceiverClass.init 20 2 scenarioRegistry 1 none scenarioRx
      = (scenarioRx, scenarioRx.is_initialized) :=
  ⟨by decide, (init_again_unchanged 20 2 scenarioRegistry 1 none scenarioRx (by decide)).1⟩

/-- C10: on an engine that is not initialised, `init` with `BYTE_RATE < 4` or
`DATASET_COUNT == 0` returns 0 and leaves every field unchanged, in particular
`is_initialized` stays 0 and the interrupt stays as it was; on the resulting
engine `enableReceiverInput` does nothing. -/
theorem init_rejected_inert (BYTE_RATE RECEIVER_PIN : Nat) (dsets : List dset_r)
    (DATASET_COUNT : Nat) (heap : Option (Nat → Nat)) (s : DataReceiverClass)
    (h0 : s.is_initialized = 0) (h : BYTE_RATE < 4 ∨ DATASET_COUNT = 0) :
    DataReceiverClass.init BYTE_RATE RECEIVER_PIN dsets DATASET_COUNT heap s = (s, 0) ∧
    (DataReceiverClass.init BYTE_RATE RECEIVER_PIN dsets DATASET_COUNT heap s).1.is_initialized
      = 0 ∧
    (DataReceiverClass.init BYTE_RATE RECEIVER_PIN dsets DATASET_COUNT heap s).1.attached
      = s.attached ∧
    ∀ ENABLE : Nat,
      DataReceiverClass.enableReceiverInput ENABLE
          (DataReceiverClass.init BYTE_RATE RECEIVER_PIN dsets DATASET_COUNT heap s).1
        = s := by
  have hc : ¬ (s.is_initialized = 0 ∧ BYTE_RATE > 3 ∧ DATASET_COUNT ≠ 0) := by
    rintro ⟨-, h1, h2⟩
    rcases h with h | h
    · omega
    · exact h2 h
  have hi : DataReceiverClass.init BYTE_RATE RECEIVER_PIN dsets DATASET_COUNT heap s = (s, 0) := by
    unfold DataReceiverClass.init
    rw [if_neg hc, h0]
  rw [hi]
  refine ⟨rfl, h0, rfl, fun ENABLE => ?_⟩
  unfold DataReceiverClass.enableReceiverInput
  simp [h0]

/-- C10, at a concrete input: `init` with byte rate 3 on the fresh engine
returns 0 and leaves it fresh, with no interrupt attached. -/
theorem init_rejected_inert_witness :
    (DataReceiverClass.fresh.is_initialized = 0 ∧ ((3 : Nat) < 4 ∨ (1 : Nat) = 0)) ∧
    DataReceiverClass.init 3 2 scenarioRegistry 1 (some fun _ => 0) DataReceiverClass.fresh
      = (DataReceiverClass.fresh, 0) ∧
    (DataReceiverClass.init 3 2 scenarioRegistry 1 (some fun _ => 0)
      DataReceiverClass.fresh).1.attached = 0 :=
  ⟨⟨by decide, Or.inl (by decide)⟩,
   (init_rejected_inert 3 2 scenarioRegistry 1 (some fun _ => 0) DataReceiverClass.fresh
      (by decide) (Or.inl (by decide))).1,
   (init_rejected_inert 3 2 scenarioRegistry 1 (some fun _ => 0) DataReceiverClass.fresh
      (by decide) (Or.inl (by decide))).2.2.1⟩

/-! ## The receive engine: successful init, edges, validateData -/

namespace DataReceiverClass

theorem DRisr_eq_window (us ms : Nat) (s : DataReceiverClass) :
    DRisr us ms s =
      if sub32 us s.msl < s.T1 ∨ sub32 us s.msl > s.T3 then resetReception { s with msl := us }
      else edgeInWindow (sub32 us s.msl) ms { s with msl := us } := rfl

theorem sizeLoop_attained (ds : List dset_r) (n : Nat) : ∀ (i a : Nat),
    sizeLoop ds n i a = a ∨
      ∃ j, i ≤ j ∧ j < i + n ∧ (ds.getD j default).SIZE = sizeLoop ds n i a := by
  induction n with
  | zero => intro i a; exact Or.inl rfl
  | succ n ih =>
    intro i a
    simp only [sizeLoop]
    rcases ih (i + 1) (max a (ds.getD i default).SIZE) with h | ⟨j, h1, h2, h3⟩
    · rw [h]
      rcases le_total a (ds.getD i default).SIZE with hle | hle
      · right
        exact ⟨i, le_refl _, by omega, (max_eq_right hle).symm⟩
      · left
        exact max_eq_left hle
    · right
      exact ⟨j, by omega, by omega, h3⟩

theorem init_some (BYTE_RATE RECEIVER_PIN : Nat) (dsets : List dset_r) (DATASET_COUNT : Nat)
    (f : Nat → Nat) (s : DataReceiverClass) (h0 : s.is_initialized = 0)
    (hr : 3 < BYTE_RATE) (hn : DATASET_COUNT ≠ 0) :
    init BYTE_RATE RECEIVER_PIN dsets DATASET_COUNT (some f) s =
      ({ s with
        receiver_input := RECEIVER_PIN
        dataset := dsets
        dataset_count := DATASET_COUNT
        array_size := sizeLoop dsets DATASET_COUNT 0 0
        data_array := (List.range (sizeLoop dsets DATASET_COUNT 0 0 + 2)).map (fun i => f i % 256)
        T1 := 31250 / BYTE_RATE % 65536
        T2 := 3 * (31250 / BYTE_RATE % 65536) % 65536
        T3 := 5 * (31250 / BYTE_RATE % 65536) % 65536
        Tl := 1375 / BYTE_RATE % 65536
        int_counter := 0, byte_counter := 0, bit_value := 1, byte_value := 0, prev_bit := 1
        skip_next_short := 1, attached := 1, is_initialized := 1
        status := if s.status &&& 1 ≠ 0 then 0 else s.status }, 1) := by
  have hc : s.is_initialized = 0 ∧ BYTE_RATE > 3 ∧ DATASET_COUNT ≠ 0 := ⟨h0, hr, hn⟩
  simp only [init, if_pos hc, resetReception]

theorem init_returns_one (BYTE_RATE RECEIVER_PIN : Nat) (dsets : List dset_r)
    (DATASET_COUNT : Nat) (heap : Option (Nat → Nat)) (s : DataReceiverClass)
    (h0 : s.is_initialized = 0)
    (hret : (init BYTE_RATE RECEIVER_PIN dsets DATASET_COUNT heap s).2 = 1) :
    3 < BYTE_RATE ∧ DATASET_COUNT ≠ 0 ∧ ∃ f, heap = some f := by
  by_cases hc : s.is_initialized = 0 ∧ BYTE_RATE > 3 ∧ DATASET_COUNT ≠ 0
  · cases heap with
    | none =>
      unfold init at hret
      rw [if_pos hc] at hret
      simp only [h0] at hret
      exact absurd hret (by decide)
    | some f => exact ⟨hc.2.1, hc.2.2, f, rfl⟩
  · unfold init at hret
    rw [if_neg hc] at hret
    simp only [h0] at hret
    exact absurd hret (by decide)

/-- C11: when `init`, called on an engine that is not yet initialised with a
registry of `n` datasets, returns 1, then `n >= 1`, `array_size` is the maximum
`SIZE` over the `n` registry entries (no entry is bigger and one entry attains
it), the buffer holds exactly `array_size + 2` bytes, and the session state is
the reset state: preamble count 0, byte offset 0, bit mask 1, byte-in-progress
0, previous symbol 1, debounce set, a `Writing` status cleared. -/
theorem init_success (BYTE_RATE RECEIVER_PIN : Nat) (dsets : List dset_r)
    (heap : Option (Nat → Nat)) (s : DataReceiverClass) (h0 : s.is_initialized = 0)
    (hret : (init BYTE_RATE RECEIVER_PIN dsets dsets.length heap s).2 = 1) :
    ∃ r, init BYTE_RATE RECEIVER_PIN dsets dsets.length heap s = (r, 1) ∧
      1 ≤ dsets.length ∧
      (∀ e ∈ dsets, e.SIZE ≤ r.array_size) ∧ (∃ e ∈ dsets, e.SIZE = r.array_size) ∧
      r.data_array.length = r.array_size + 2 ∧
      r.int_counter = 0 ∧ r.byte_counter = 0 ∧ r.bit_value = 1 ∧ r.byte_value = 0 ∧
      r.prev_bit = 1 ∧ r.skip_next_short = 1 ∧
      r.status = (if s.status &&& 1 ≠ 0 then 0 else s.status) ∧
      r.is_initialized = 1 ∧ r.dataset = dsets ∧ r.dataset_count = dsets.length := by
  obtain ⟨hr, hn, f, rfl⟩ := init_returns_one _ _ _ _ _ _ h0 hret
  refine ⟨_, init_some BYTE_RATE RECEIVER_PIN dsets dsets.length f s h0 hr hn, by omega, ?_, ?_,
    ?_, rfl, rfl, rfl, rfl, rfl, rfl, rfl, rfl, rfl, rfl⟩
  · intro e he
    obtain ⟨j, hj, hje⟩ := List.getElem_of_mem he
    have := (sizeLoop_ge dsets dsets.length 0 0).2 j (Nat.zero_le _) (by omega)
    rw [List.getD_eq_getElem dsets default hj, hje] at this
    exact this
  · show ∃ e ∈ dsets, e.SIZE = sizeLoop dsets dsets.length 0 0
    rcases sizeLoop_attained dsets dsets.length 0 0 with h | ⟨j, -, hj, hje⟩
    · have h1 : 0 < dsets.length := by omega
      refine ⟨dsets[0], List.getElem_mem _, ?_⟩
      have := (sizeLoop_ge dsets dsets.length 0 0).2 0 (le_refl _) (by omega)
      rw [List.getD_eq_getElem dsets default h1] at this
      omega
    · have hj' : j < dsets.length := by omega
      rw [List.getD_eq_getElem dsets default hj'] at hje
      exact ⟨dsets[j], List.getElem_mem _, hje⟩
  · show ((List.range (sizeLoop dsets dsets.length 0 0 + 2)).map _).length = _
    simp

/-- C11, at the scenario: `init` with byte rate 10 and the registry
`[{id 7, size 4}]` on the fresh engine returns 1 with a buffer of
`array_size + 2` bytes, `array_size` being the size of the one entry. -/
theorem init_success_witness :
    (fresh.is_initialized = 0 ∧
      (init 10 2 scenarioRegistry scenarioRegistry.length (some fun _ => 0) fresh).2 = 1) ∧
    ∃ r, init 10 2 scenarioRegistry scenarioRegistry.length (some fun _ => 0) fresh = (r, 1) ∧
      (∃ e ∈ scenarioRegistry, e.SIZE = r.array_size) ∧
      r.data_array.length = r.array_size + 2 :=
  ⟨⟨by decide, by decide⟩,
   match init_success 10 2 scenarioRegistry (some fun _ => 0) fresh (by decide) (by decide) with
   | ⟨r, h1, _, _, h4, h5, _⟩ => ⟨r, h1, h4, h5⟩⟩

theorem resetReception_fields (s : DataReceiverClass) :
    (resetReception s).int_counter = 0 ∧ (resetReception s).byte_counter = 0 ∧
    (resetReception s).bit_value = 1 ∧ (resetReception s).byte_value = 0 ∧
    (resetReception s).prev_bit = 1 ∧ (resetReception s).skip_next_short = 1 ∧
    (resetReception s).data_array = s.data_array ∧ (resetReception s).pos = s.pos ∧
    (resetReception s).timestamp = s.timestamp ∧
    (resetReception s).status = (if s.status &&& 1 ≠ 0 then 0 else s.status) :=
  ⟨rfl, rfl, rfl, rfl, rfl, rfl, rfl, rfl, rfl, rfl⟩

/-- C12: for every receiver state and every edge whose interval `dt` (the
32-bit difference of `micros()` and the time of the last edge) satisfies
`dt < T1` or `dt > T3`, the handler leaves the decoder in the reset state
(preamble count 0, byte offset 0, bit mask 1, byte-in-progress 0, previous
symbol 1, debounce set), turns the status `Writing` (1) into `Idle` (0), leaves
the status `Idle`, `DataAvailable` (4) and `Reading` (2) as it is, and leaves
the buffer unchanged.  An interval equal to `T1` or to `T3` is not a violation:
the edge is handled as an edge inside the window. -/
theorem DRisr_timing_violation (us ms : Nat) (s : DataReceiverClass) :
    ((sub32 us s.msl < s.T1 ∨ s.T3 < sub32 us s.msl) →
      (DRisr us ms s).int_counter = 0 ∧ (DRisr us ms s).byte_counter = 0 ∧
      (DRisr us ms s).bit_value = 1 ∧ (DRisr us ms s).byte_value = 0 ∧
      (DRisr us ms s).prev_bit = 1 ∧ (DRisr us ms s).skip_next_short = 1 ∧
      (DRisr us ms s).data_array = s.data_array ∧
      (s.status = 1 → (DRisr us ms s).status = 0) ∧
      (s.status = 0 → (DRisr us ms s).status = 0) ∧
      (s.status = 4 → (DRisr us ms s).status = 4) ∧
      (s.status = 2 → (DRisr us ms s).status = 2)) ∧
    (s.T1 ≤ s.T3 → (sub32 us s.msl = s.T1 ∨ sub32 us s.msl = s.T3) →
      DRisr us ms s = edgeInWindow (sub32 us s.msl) ms { s with msl := us }) := by
  refine ⟨fun h => ?_, fun h13 h => ?_⟩
  · rw [DRisr_violation us ms s _ rfl h]
    refine ⟨rfl, rfl, rfl, rfl, rfl, rfl, rfl, ?_, ?_, ?_, ?_⟩ <;>
      · intro hs
        simp [resetReception, hs]
  · rw [DRisr_eq_window]
    have hc : ¬ (sub32 us s.msl < s.T1 ∨ sub32 us s.msl > s.T3) := by
      rcases h with h | h <;> omega
    rw [if_neg hc]

set_option maxRecDepth 100000 in
/-- C12, at the scenario: in the middle of the frame (status `Writing`, one
byte stored) an edge 100 microseconds after the last one resets the decoder,
sets the status `Idle` and leaves the buffer as it is. -/
theorem DRisr_timing_violation_witness :
    (sub32 229796 scenarioWriting.msl < scenarioWriting.T1 ∧ scenarioWriting.status = 1) ∧
    (DRisr 229796 0 scenarioWriting).status = 0 ∧
    (DRisr 229796 0 scenarioWriting).byte_counter = 0 ∧
    (DRisr 229796 0 scenarioWriting).data_array = scenarioWriting.data_array :=
  have h := (DRisr_timing_violation 229796 0 scenarioWriting).1 (Or.inl (by decide))
  ⟨by decide, h.2.2.2.2.2.2.2.1 (by decide), h.2.1, h.2.2.2.2.2.2.1⟩

theorem bitDone_status4 (ms : Nat) (s : DataReceiverClass) (h : s.status = 4) :
    (bitDone ms s).status = 4 := by
  have h0 : ¬ s.status = 0 := by omega
  have h41 : ¬ ((4 : Nat) &&& 1 ≠ 0) := by decide
  unfold bitDone
  by_cases c1 : s.bit_value &&& 0x80 ≠ 0
  · rw [if_pos c1]
    by_cases c2 : s.byte_counter = 0
    · rw [if_pos c2, if_neg h0]
      simp only [resetReception, h, if_neg h41]
    · rw [if_neg c2]
      simp only
      split_ifs
      · simp only [resetReception, if_neg h41]
      · exact h
  · rw [if_neg c1]
    exact h

theorem DRisr_status4 (us ms : Nat) (s : DataReceiverClass) (h : s.status = 4) :
    (DRisr us ms s).status = 4 := by
  unfold DRisr
  simp only
  split_ifs
  all_goals first
    | exact bitDone_status4 _ _ h
    | exact h
    | simp only [resetReception, h, if_neg (by decide : ¬ ((4 : Nat) &&& 1 ≠ 0))]

theorem feedEdges_status4 (evs : List (Nat × Nat)) : ∀ (s : DataReceiverClass),
    s.status = 4 → (feedEdges evs s).status = 4 := by
  induction evs with
  | nil => intro s h; exact h
  | cons e es ih => intro s h; exact ih _ (DRisr_status4 e.1 e.2 s h)

/-- C13: in every state with status `DataAvailable` (4), reachable or not,
`getStatus` returns 4 (it is a pure read of the state), every further edge
event, at any reading of the clocks, and every run of edge events leaves the
status 4, and so do `dataTransfer` and `enableReceiverInput`; `setStatus`
changes it to the value it is given. -/
theorem dataAvailable_stable (s : DataReceiverClass) (h : s.status = 4) :
    getStatus s = 4 ∧
    (∀ us ms : Nat, (DRisr us ms s).status = 4) ∧
    (∀ evs : List (Nat × Nat), (feedEdges evs s).status = 4) ∧
    (∀ (X : List Nat) (SCOPE POS WRITE : Nat), (dataTransfer X SCOPE POS WRITE s).2.1.status = 4) ∧
    (∀ ENABLE : Nat, (enableReceiverInput ENABLE s).status = 4) ∧
    (∀ stat : Nat, (setStatus stat s).status = stat) := by
  refine ⟨h, fun us ms => DRisr_status4 us ms s h, fun evs => feedEdges_status4 evs s h, ?_, ?_,
    fun stat => rfl⟩
  · intro X SCOPE POS WRITE
    unfold dataTransfer
    split_ifs <;> exact h
  · intro ENABLE
    unfold enableReceiverInput
    split_ifs <;> exact h

set_option maxRecDepth 100000 in
/-- C13, at the scenario: after the frame the status is `DataAvailable`, and
it stays so at a further edge. -/
theorem dataAvailable_stable_witness :
    scenarioDelivered.status = 4 ∧
    getStatus scenarioDelivered = 4 ∧
    (DRisr 0 0 scenarioDelivered).status = 4 :=
  ⟨by decide, (dataAvailable_stable scenarioDelivered (by decide)).1,
   (dataAvailable_stable scenarioDelivered (by decide)).2.1 0 0⟩

theorem idLoop_min (ds : List dset_r) (v n : Nat) : ∀ (i j : Nat),
    idLoop ds v n i = some j → ∀ k, i ≤ k → k < j → (ds.getD k default).ID ≠ v := by
  induction n with
  | zero => intro i j h; simp [idLoop] at h
  | succ n ih =>
    intro i j h k hik hkj
    simp only [idLoop] at h
    by_cases hc : (ds.getD i default).ID = v
    · rw [if_pos hc] at h
      have : i = j := by simpa using h
      omega
    · rw [if_neg hc] at h
      by_cases hki : k = i
      · rw [hki]; exact hc
      · exact ih (i + 1) j h k (by omega) hkj

theorem idLoop_none (ds : List dset_r) (v n i : Nat)
    (h : ∀ j, i ≤ j → j < i + n → (ds.getD j default).ID ≠ v) : idLoop ds v n i = none := by
  cases hr : idLoop ds v n i with
  | none => rfl
  | some j =>
    obtain ⟨a, b, c⟩ := idLoop_spec ds v n i j hr
    exact absurd c (h j a b)

theorem DRisr_data_edge (us ms : Nat) (s : DataReceiverClass)
    (h1 : s.T1 ≤ sub32 us s.msl) (h3 : sub32 us s.msl ≤ s.T3)
    (hinfo : s.T2 < sub32 us s.msl ∨ s.skip_next_short = 0) (hint : s.int_counter ≠ 0) :
    DRisr us ms s = bitDone ms
      { s with msl := us
               skip_next_short := 1
               prev_bit := if sub32 us s.msl > s.T2 then lnot s.prev_bit else s.prev_bit
               byte_value := assembledByte (sub32 us s.msl) s } := by
  have c1 : ¬ (sub32 us s.msl < s.T1 ∨ sub32 us s.msl > s.T3) := by omega
  have c2 : sub32 us s.msl > s.T2 ∨ s.skip_next_short = 0 := hinfo
  simp only [DRisr, if_neg c1, if_pos c2, assembledByte]
  simp only [hint, ne_eq, not_false_eq_true, if_true]
  by_cases c3 : sub32 us s.msl > s.T2
  · simp only [if_pos c3]
    by_cases hp : lnot s.prev_bit = 0 <;> simp [hp]
  · simp only [if_neg c3]
    by_cases hp : s.prev_bit = 0 <;> simp [hp]

/-- C14: at an edge inside the window that carries a bit (`dt > T2` or the
debounce flag clear) after the preamble, when that bit is the eighth of the
first byte of a session (`bit_value == 0x80`, `byte_counter == 0`), the status
is `Idle` and the assembled byte is the `ID` of at least one registry entry,
the handler sets `pos` to the smallest registry index whose `ID` is that byte,
sets the status to `Writing` (1) and the timestamp to `millis() - Tl`, stores
the byte at buffer index 0 and leaves the byte offset 1, the bit mask 1 and the
byte-in-progress 0. -/
theorem DRisr_identifier_found (us ms : Nat) (s : DataReceiverClass)
    (h1 : s.T1 ≤ sub32 us s.msl) (h3 : sub32 us s.msl ≤ s.T3)
    (hinfo : s.T2 < sub32 us s.msl ∨ s.skip_next_short = 0) (hint : s.int_counter ≠ 0)
    (hbit : s.bit_value = 128) (hfirst : s.byte_counter = 0) (hidle : s.status = 0)
    (hreg : ∃ j, j < s.dataset_count ∧
      (s.dataset.getD j default).ID = assembledByte (sub32 us s.msl) s) :
    (DRisr us ms s).pos < s.dataset_count ∧
    ((DRisr us ms s).dataset.getD (DRisr us ms s).pos default).ID
      = assembledByte (sub32 us s.msl) s ∧
    (∀ k, k < (DRisr us ms s).pos →
      (s.dataset.getD k default).ID ≠ assembledByte (sub32 us s.msl) s) ∧
    (DRisr us ms s).status = 1 ∧
    (DRisr us ms s).timestamp = sub32 ms s.Tl ∧
    (DRisr us ms s).data_array = s.data_array.set 0 (assembledByte (sub32 us s.msl) s) ∧
    (DRisr us ms s).byte_counter = 1 ∧
    (DRisr us ms s).bit_value = 1 ∧
    (DRisr us ms s).byte_value = 0 := by
  obtain ⟨j, hj, hjid⟩ := hreg
  obtain ⟨i0, hfind⟩ := idLoop_isSome s.dataset (assembledByte (sub32 us s.msl) s)
    s.dataset_count 0 j (Nat.zero_le _) (by omega) hjid
  obtain ⟨-, hi0, hi0id⟩ := idLoop_spec _ _ _ _ _ hfind
  have hmin := idLoop_min _ _ _ _ _ hfind
  rw [DRisr_data_edge us ms s h1 h3 hinfo hint,
    bitDone_id ms
      { s with msl := us
               skip_next_short := 1
               prev_bit := if sub32 us s.msl > s.T2 then lnot s.prev_bit else s.prev_bit
               byte_value := assembledByte (sub32 us s.msl) s }
      i0 hbit hfirst hidle hfind]
  have hi0' : i0 < s.dataset_count := by omega
  exact ⟨hi0', hi0id, fun k hk => hmin k (Nat.zero_le _) hk, rfl, rfl, rfl, rfl, rfl, rfl⟩

set_option maxRecDepth 100000 in
/-- C14, at the scenario: the nineteenth edge of the frame completes the
identifier byte 7, which the registry holds: the engine is `Writing` with one
byte stored. -/
theorem DRisr_identifier_found_witness :
    (scenarioAcquiring.T1 ≤ sub32 142784 scenarioAcquiring.msl ∧
      sub32 142784 scenarioAcquiring.msl ≤ scenarioAcquiring.T3 ∧
      scenarioAcquiring.skip_next_short = 0 ∧ scenarioAcquiring.int_counter ≠ 0 ∧
      scenarioAcquiring.bit_value = 128 ∧ scenarioAcquiring.byte_counter = 0 ∧
      scenarioAcquiring.status = 0 ∧
      (scenarioAcquiring.dataset.getD 0 default).ID
        = assembledByte (sub32 142784 scenarioAcquiring.msl) scenarioAcquiring) ∧
    (DRisr 142784 1000 scenarioAcquiring).status = 1 ∧
    (DRisr 142784 1000 scenarioAcquiring).timestamp = sub32 1000 scenarioAcquiring.Tl ∧
    (DRisr 142784 1000 scenarioAcquiring).byte_counter = 1 :=
  have h := DRisr_identifier_found 142784 1000 scenarioAcquiring (by decide) (by decide)
    (Or.inr (by decide)) (by decide) (by decide) (by decide) (by decide)
    ⟨0, by decide, by decide⟩
  ⟨by decide, h.2.2.2.1, h.2.2.2.2.1, h.2.2.2.2.2.2.1⟩

/-- C15: at an edge inside the window that carries a bit after the preamble,
when that bit is the eighth of the first byte of a session, the status is
`Idle` and no registry entry has the assembled byte as its `ID`, the handler
leaves the decoder in the reset state, the status `Idle`, and the buffer, `pos`
and the timestamp unchanged. -/
theorem DRisr_identifier_unknown (us ms : Nat) (s : DataReceiverClass)
    (h1 : s.T1 ≤ sub32 us s.msl) (h3 : sub32 us s.msl ≤ s.T3)
    (hinfo : s.T2 < sub32 us s.msl ∨ s.skip_next_short = 0) (hint : s.int_counter ≠ 0)
    (hbit : s.bit_value = 128) (hfirst : s.byte_counter = 0) (hidle : s.status = 0)
    (hreg : ∀ j, j < s.dataset_count →
      (s.dataset.getD j default).ID ≠ assembledByte (sub32 us s.msl) s) :
    (DRisr us ms s).int_counter = 0 ∧ (DRisr us ms s).byte_counter = 0 ∧
    (DRisr us ms s).bit_value = 1 ∧ (DRisr us ms s).byte_value = 0 ∧
    (DRisr us ms s).prev_bit = 1 ∧ (DRisr us ms s).skip_next_short = 1 ∧
    (DRisr us ms s).status = 0 ∧
    (DRisr us ms s).data_array = s.data_array ∧
    (DRisr us ms s).pos = s.pos ∧
    (DRisr us ms s).timestamp = s.timestamp := by
  have hnone := idLoop_none s.dataset (assembledByte (sub32 us s.msl) s) s.dataset_count 0
    (fun j _ hj => hreg j (by omega))
  rw [DRisr_data_edge us ms s h1 h3 hinfo hint]
  have h128 : (128 : Nat) &&& 128 ≠ 0 := by decide
  simp only [bitDone, hbit, hfirst, hidle, hnone, if_pos h128, if_true, resetReception]
  simp

set_option maxRecDepth 100000 in
/-- C15, at the scenario with the registry `[{id 9, size 4}]`: the nineteenth
edge of the frame completes the identifier byte 7, which is not registered; the
engine stays `Idle` with nothing stored. -/
theorem DRisr_identifier_unknown_witness :
    (scenarioUnregistered.T1 ≤ sub32 142784 scenarioUnregistered.msl ∧
      sub32 142784 scenarioUnregistered.msl ≤ scenarioUnregistered.T3 ∧
      scenarioUnregistered.skip_next_short = 0 ∧ scenarioUnregistered.int_counter ≠ 0 ∧
      scenarioUnregistered.bit_value = 128 ∧ scenarioUnregistered.byte_counter = 0 ∧
      scenarioUnregistered.status = 0 ∧
      (scenarioUnregistered.dataset.getD 0 default).ID
        ≠ assembledByte (sub32 142784 scenarioUnregistered.msl) scenarioUnregistered) ∧
    (DRisr 142784 1000 scenarioUnregistered).status = 0 ∧
    (DRisr 142784 1000 scenarioUnregistered).byte_counter = 0 ∧
    (DRisr 142784 1000 scenarioUnregistered).data_array = scenarioUnregistered.data_array :=
  have h := DRisr_identifier_unknown 142784 1000 scenarioUnregistered (by decide) (by decide)
    (Or.inr (by decide)) (by decide) (by decide) (by decide) (by decide) (by decide)
  ⟨by decide, h.2.2.2.2.2.2.1, h.2.1, h.2.2.2.2.2.2.2.1⟩

theorem wellFormed_congr (s t : DataReceiverClass) (h1 : t.data_array = s.data_array)
    (h2 : t.array_size = s.array_size) (h3 : t.dataset_count = s.dataset_count)
    (h4 : t.dataset = s.dataset) (h5 : t.status = s.status)
    (h6 : t.byte_counter = s.byte_counter) (h7 : t.pos = s.pos) (h : WellFormed s) :
    WellFormed t := by
  unfold WellFormed at h ⊢
  rw [h1, h2, h3, h4, h5, h6, h7]
  exact h

theorem wellFormed_reset (s : DataReceiverClass) (h : WellFormed s) :
    WellFormed (resetReception s) := by
  obtain ⟨a1, a2, a3, a4, a5, a6⟩ := h
  refine ⟨a1, a2, a3, ?_, ?_, ?_⟩
  · show (if s.status &&& 1 ≠ 0 then 0 else s.status) = 0 ∨ _
    rcases a4 with h | h | h | h <;> simp [resetReception, h]
  · intro hc
    exact absurd rfl hc
  · show ((if s.status &&& 1 ≠ 0 then 0 else s.status) = 1 ∨
        (if s.status &&& 1 ≠ 0 then 0 else s.status) = 4) → _
    intro hs
    apply a6
    rcases a4 with h | h | h | h <;> simp [resetReception, h] at hs ⊢

theorem wellFormed_bitDone (ms : Nat) (s : DataReceiverClass) (h : WellFormed s) :
    WellFormed (bitDone ms s) := by
  unfold bitDone
  by_cases c1 : s.bit_value &&& 0x80 ≠ 0
  · rw [if_pos c1]
    by_cases c2 : s.byte_counter = 0
    · rw [if_pos c2]
      by_cases c3 : s.status = 0
      · rw [if_pos c3]
        cases hfind : idLoop s.dataset s.byte_value s.dataset_count 0 with
        | none => exact wellFormed_reset s h
        | some i =>
          obtain ⟨a1, a2, a3, a4, a5, a6⟩ := h
          obtain ⟨-, hi, hid⟩ := idLoop_spec _ _ _ _ _ hfind
          refine ⟨?_, a2, a3, Or.inr (Or.inl rfl), fun _ => ⟨rfl, ?_⟩, fun _ => ⟨?_, ?_⟩⟩
          · show (s.data_array.set s.byte_counter s.byte_value).length = s.array_size + 2
            rw [List.length_set]; exact a1
          · show (s.byte_counter + 1) % 65536 ≤ (s.dataset.getD i default).SIZE + 1
            rw [c2]; simp
          · show i < s.dataset_count
            omega
          · show (s.data_array.set s.byte_counter s.byte_value).getD 0 0
              = (s.dataset.getD i default).ID
            rw [c2, hid]
            simp only [List.getD_eq_getElem?_getD]
            rw [List.getElem?_set_self (by omega)]
            rfl
      · rw [if_neg c3]
        exact wellFormed_reset s h
    · rw [if_neg c2]
      obtain ⟨a1, a2, a3, a4, a5, a6⟩ := h
      obtain ⟨hs1, hbc⟩ := a5 c2
      obtain ⟨hpos, hid⟩ := a6 (Or.inl hs1)
      have hmem : s.dataset.getD s.pos default ∈ s.dataset := by
        rw [List.getD_eq_getElem s.dataset default (by omega)]
        exact List.getElem_mem _
      have hsz := (a3 _ hmem).2
      have hm : (s.byte_counter + 1) % 65536 = s.byte_counter + 1 :=
        Nat.mod_eq_of_lt (by omega)
      have hlen : (s.data_array.set s.byte_counter s.byte_value).length = s.array_size + 2 := by
        rw [List.length_set]; exact a1
      have h0 : (s.data_array.set s.byte_counter s.byte_value).getD 0 0
          = (s.dataset.getD s.pos default).ID := by
        rw [← hid]
        simp only [List.getD_eq_getElem?_getD]
        rw [List.getElem?_set_ne c2]
      simp only [storeData, hm]
      by_cases c4 : s.byte_counter + 1 = (s.dataset.getD s.pos default).SIZE + 2
      · rw [if_pos c4]
        have h41 : ¬ ((4 : Nat) &&& 1 ≠ 0) := by decide
        refine ⟨hlen, a2, a3, Or.inr (Or.inr (Or.inr ?_)), fun hc => absurd rfl hc,
          fun _ => ⟨hpos, h0⟩⟩
        simp only [resetReception, if_neg h41]
      · rw [if_neg c4]
        refine ⟨hlen, a2, a3, Or.inr (Or.inl hs1), fun _ => ⟨hs1, ?_⟩, fun _ => ⟨hpos, h0⟩⟩
        show s.byte_counter + 1 ≤ (s.dataset.getD s.pos default).SIZE + 1
        omega
  · rw [if_neg c1]
    exact wellFormed_congr s _ rfl rfl rfl rfl rfl rfl rfl h

theorem wellFormed_DRisr (us ms : Nat) (s : DataReceiverClass) (h : WellFormed s) :
    WellFormed (DRisr us ms s) := by
  have hs0 : WellFormed { s with msl := us } := wellFormed_congr s _ rfl rfl rfl rfl rfl rfl rfl h
  rw [DRisr_eq_window]
  split_ifs
  · exact wellFormed_reset _ hs0
  · unfold edgeInWindow
    simp only
    split_ifs
    all_goals first
      | exact wellFormed_reset _ (wellFormed_congr s _ rfl rfl rfl rfl rfl rfl rfl h)
      | exact wellFormed_bitDone _ _ (wellFormed_congr s _ rfl rfl rfl rfl rfl rfl rfl h)
      | exact wellFormed_congr s _ rfl rfl rfl rfl rfl rfl rfl h

theorem reachable_wellFormed (s : DataReceiverClass) (h : Reachable s) : WellFormed s := by
  induction h with
  | init BYTE_RATE RECEIVER_PIN dsets heap s0 h0 hst hsz hret =>
    obtain ⟨hr, hn, f, rfl⟩ := init_returns_one _ _ _ _ _ _ h0 hret
    rw [init_some BYTE_RATE RECEIVER_PIN dsets dsets.length f s0 h0 hr hn]
    refine ⟨?_, rfl, ?_, ?_, fun hc => absurd rfl hc, ?_⟩
    · show ((List.range (sizeLoop dsets dsets.length 0 0 + 2)).map _).length = _
      simp
    · intro e he
      obtain ⟨j, hj, hje⟩ := List.getElem_of_mem he
      have hj0 : j < 0 + dsets.length := by rw [Nat.zero_add]; exact hj
      have := (sizeLoop_ge dsets dsets.length 0 0).2 j (Nat.zero_le _) hj0
      rw [List.getD_eq_getElem dsets default hj, hje] at this
      exact ⟨this, hsz e he⟩
    · left
      show (if s0.status &&& 1 ≠ 0 then 0 else s0.status) = 0
      simp [hst]
    · show ((if s0.status &&& 1 ≠ 0 then 0 else s0.status) = 1 ∨
          (if s0.status &&& 1 ≠ 0 then 0 else s0.status) = 4) → _
      intro hs
      simp [hst] at hs
  | edge us ms s _ ih => exact wellFormed_DRisr us ms s ih
  | ack stat s _ hw hstat ih =>
    obtain ⟨a1, a2, a3, a4, a5, a6⟩ := ih
    refine ⟨a1, a2, a3, ?_, ?_, ?_⟩
    · show stat = 0 ∨ stat = 1 ∨ stat = 2 ∨ stat = 4
      omega
    · intro hc
      exact absurd (a5 hc).1 hw
    · show (stat = 1 ∨ stat = 4) → _
      intro hs
      omega

theorem reachable_feedEdges (evs : List (Nat × Nat)) : ∀ (s : DataReceiverClass),
    Reachable s → Reachable (feedEdges evs s) := by
  induction evs with
  | nil => intro s h; exact h
  | cons e es ih => intro s h; exact ih _ (Reachable.edge e.1 e.2 s h)

theorem scenarioRx_reachable : Reachable scenarioRx :=
  Reachable.init 10 2 scenarioRegistry (some fun _ => 0) fresh (by decide) (by decide)
    (by decide) (by decide)

theorem scenarioDelivered_reachable : Reachable scenarioDelivered := by
  unfold scenarioDelivered linkReceive
  exact reachable_feedEdges _ _ scenarioRx_reachable

/-- C16: in every reachable state with status `DataAvailable`, the bound
index `pos` lies in the registry, the stored identifier `buffer[0]` is
`registry[pos].ID` (the value the code passes to the checksum), the `SIZE`
payload bytes read from `buffer[2]` on lie inside the buffer, and
`validateData` returns 1 exactly when `buffer[1]` equals
`checksum8(buffer[0], buffer[2 .. 2+SIZE), SIZE)` with `SIZE` the size of the
bound dataset, and 0 exactly when it differs. -/
theorem validateData_reachable (crc : Nat → List Nat → Nat) (s : DataReceiverClass)
    (hreach : Reachable s) (havail : s.status = 4) :
    s.pos < s.dataset_count ∧
    s.data_array.getD 0 0 = (s.dataset.getD s.pos default).ID ∧
    (s.dataset.getD s.pos default).SIZE + 2 ≤ s.data_array.length ∧
    (validateData crc s = 1 ↔
      s.data_array.getD 1 0
        = checksum8 crc (s.data_array.getD 0 0) (s.data_array.drop 2)
            (s.dataset.getD s.pos default).SIZE) ∧
    (validateData crc s = 0 ↔
      s.data_array.getD 1 0
        ≠ checksum8 crc (s.data_array.getD 0 0) (s.data_array.drop 2)
            (s.dataset.getD s.pos default).SIZE) := by
  obtain ⟨a1, a2, a3, -, -, a6⟩ := reachable_wellFormed s hreach
  obtain ⟨hpos, hid⟩ := a6 (Or.inr havail)
  have hmem : s.dataset.getD s.pos default ∈ s.dataset := by
    rw [List.getD_eq_getElem s.dataset default (by omega)]
    exact List.getElem_mem _
  have hsz := (a3 _ hmem).1
  refine ⟨hpos, hid, by omega, ?_, ?_⟩
  · unfold validateData
    rw [hid]
    by_cases hc : s.data_array.getD 1 0 =
        checksum8 crc (s.dataset.getD s.pos default).ID (s.data_array.drop 2)
          (s.dataset.getD s.pos default).SIZE
    · rw [if_pos hc]
      exact ⟨fun _ => hc, fun _ => rfl⟩
    · rw [if_neg hc]
      exact ⟨fun h => absurd h (by decide), fun h => absurd h hc⟩
  · unfold validateData
    rw [hid]
    by_cases hc : s.data_array.getD 1 0 =
        checksum8 crc (s.dataset.getD s.pos default).ID (s.data_array.drop 2)
          (s.dataset.getD s.pos default).SIZE
    · rw [if_pos hc]
      exact ⟨fun h => absurd h (by decide), fun h => absurd hc h⟩
    · rw [if_neg hc]
      exact ⟨fun _ => hc, fun _ => rfl⟩

set_option maxRecDepth 100000 in
/-- C16, at the scenario: the state after the frame is reachable with status
`DataAvailable`; the stored identifier is that of the bound dataset and, the
stored checksum being the CRC-8 of identifier and payload, `validateData`
returns 1. -/
theorem validateData_reachable_witness :
    (Reachable scenarioDelivered ∧ scenarioDelivered.status = 4) ∧
    scenarioDelivered.data_array.getD 0 0
      = (scenarioDelivered.dataset.getD scenarioDelivered.pos default).ID ∧
    validateData crc8Maxim scenarioDelivered = 1 :=
  have h := validateData_reachable crc8Maxim scenarioDelivered scenarioDelivered_reachable
    (by decide)
  ⟨⟨scenarioDelivered_reachable, by decide⟩, h.2.1, h.2.2.2.1.2 (by decide)⟩

end DataReceiverClass

/-! ## The corrupted frame -/

theorem edgeIntervals_fst (P : Nat) (ms : Nat → Nat) (ls : List Nat) : ∀ (k g lvl : Nat),
    (edgeIntervals P ms k g lvl ls).map Prod.fst
      = (edgeIntervals P (fun _ => 0) k g lvl ls).map Prod.fst := by
  induction ls with
  | nil => intro k g lvl; rfl
  | cons l ls ih =>
    intro k g lvl
    simp only [edgeIntervals]
    by_cases h : l ≠ lvl
    · rw [if_pos h, if_pos h, List.map_cons, List.map_cons, ih]
    · rw [if_neg h, if_neg h, ih]

namespace DataReceiverClass

theorem bitDone_msl (ms : Nat) (s : DataReceiverClass) :
    (bitDone ms s).msl = s.msl ∧ (bitDone ms s).T1 = s.T1 ∧ (bitDone ms s).T3 = s.T3 := by
  unfold bitDone
  by_cases c1 : s.bit_value &&& 0x80 ≠ 0
  · rw [if_pos c1]
    by_cases c2 : s.byte_counter = 0
    · rw [if_pos c2]
      by_cases c3 : s.status = 0
      · rw [if_pos c3]
        cases idLoop s.dataset s.byte_value s.dataset_count 0 <;> exact ⟨rfl, rfl, rfl⟩
      · rw [if_neg c3]
        exact ⟨rfl, rfl, rfl⟩
    · rw [if_neg c2]
      simp only
      split_ifs <;> exact ⟨rfl, rfl, rfl⟩
  · rw [if_neg c1]
    exact ⟨rfl, rfl, rfl⟩

theorem DRisr_msl (us ms : Nat) (s : DataReceiverClass) :
    (DRisr us ms s).msl = us ∧ (DRisr us ms s).T1 = s.T1 ∧ (DRisr us ms s).T3 = s.T3 := by
  rw [DRisr_eq_window]
  unfold edgeInWindow
  simp only
  split_ifs
  all_goals first
    | exact ⟨rfl, rfl, rfl⟩
    | exact bitDone_msl _ _

theorem strip_bitDone (ms : Nat) (s : DataReceiverClass) :
    strip (bitDone ms s) = strip (bitDone 0 (strip s)) := by
  unfold bitDone
  by_cases c1 : s.bit_value &&& 0x80 ≠ 0
  · rw [if_pos c1, if_pos (show (strip s).bit_value &&& 0x80 ≠ 0 from c1)]
    by_cases c2 : s.byte_counter = 0
    · rw [if_pos c2, if_pos (show (strip s).byte_counter = 0 from c2)]
      by_cases c3 : s.status = 0
      · rw [if_pos c3, if_pos (show (strip s).status = 0 from c3)]
        show strip (match idLoop s.dataset s.byte_value s.dataset_count 0 with
            | some i => storeData { s with pos := i, status := 1, timestamp := sub32 ms s.Tl }
            | none => resetReception s)
          = strip (match idLoop s.dataset s.byte_value s.dataset_count 0 with
            | some i => storeData
                { strip s with pos := i, status := 1, timestamp := sub32 0 s.Tl }
            | none => resetReception (strip s))
        cases idLoop s.dataset s.byte_value s.dataset_count 0 <;>
          simp only [strip, storeData, resetReception]
      · rw [if_neg c3, if_neg (show ¬ (strip s).status = 0 from c3)]
        simp only [strip, storeData, resetReception]
    · rw [if_neg c2, if_neg (show ¬ (strip s).byte_counter = 0 from c2)]
      simp only
      by_cases c4 : (storeData s).byte_counter
          = ((storeData s).dataset.getD (storeData s).pos default).SIZE + 2
      · rw [if_pos c4, if_pos (show (storeData (strip s)).byte_counter
          = ((storeData (strip s)).dataset.getD (storeData (strip s)).pos default).SIZE + 2
          from c4)]
        simp only [strip, storeData, resetReception]
      · rw [if_neg c4, if_neg (show ¬ (storeData (strip s)).byte_counter
          = ((storeData (strip s)).dataset.getD (storeData (strip s)).pos default).SIZE + 2
          from c4)]
        simp only [strip, storeData, resetReception]
  · rw [if_neg c1, if_neg (show ¬ (strip s).bit_value &&& 0x80 ≠ 0 from c1)]
    simp only [strip]

theorem strip_edgeInWindow (dt ms : Nat) (s : DataReceiverClass) :
    strip (edgeInWindow dt ms s) = strip (edgeInWindow dt 0 (strip s)) := by
  unfold edgeInWindow
  simp only
  by_cases c1 : dt > s.T2 ∨ s.skip_next_short = 0
  · rw [if_pos c1, if_pos (show dt > (strip s).T2 ∨ (strip s).skip_next_short = 0 from c1)]
    by_cases c2 : s.int_counter ≠ 0
    · rw [if_pos c2, if_pos (show (strip s).int_counter ≠ 0 from c2)]
      rw [strip_bitDone]
      by_cases c3 : dt > s.T2
      · rw [if_pos c3, if_pos (show dt > (strip s).T2 from c3)]
        by_cases c4 : lnot s.prev_bit ≠ 0
        · rw [if_pos c4, if_pos (show lnot (strip s).prev_bit ≠ 0 from c4)]
          rfl
        · rw [if_neg c4, if_neg (show ¬ lnot (strip s).prev_bit ≠ 0 from c4)]
          rfl
      · rw [if_neg c3, if_neg (show ¬ dt > (strip s).T2 from c3)]
        by_cases c4 : s.prev_bit ≠ 0
        · rw [if_pos c4, if_pos (show (strip s).prev_bit ≠ 0 from c4)]
          rfl
        · rw [if_neg c4, if_neg (show ¬ (strip s).prev_bit ≠ 0 from c4)]
          rfl
    · rw [if_neg c2, if_neg (show ¬ (strip s).int_counter ≠ 0 from c2)]
      by_cases c3 : dt > s.T2
      · rw [if_pos c3, if_pos (show dt > (strip s).T2 from c3)]
        rfl
      · rw [if_neg c3, if_neg (show ¬ dt > (strip s).T2 from c3)]
        rfl
  · rw [if_neg c1, if_neg (show ¬ (dt > (strip s).T2 ∨ (strip s).skip_next_short = 0) from c1)]
    rfl

theorem sub32_edgeAfter (m dt : Nat) (hm : m < 4294967296) (hdt : dt < 4294967296) :
    sub32 ((m + dt) % 4294967296) m = dt := by
  unfold sub32
  omega

theorem strip_edgeAfter (dt ms : Nat) (s : DataReceiverClass) (hm : s.msl < 4294967296)
    (hdt : dt < 4294967296) : strip (edgeAfter dt ms s) = stepS dt (strip s) := by
  unfold stepS edgeAfter
  rw [DRisr_eq_window, DRisr_eq_window, sub32_edgeAfter s.msl dt hm hdt]
  have e : sub32 (((strip s).msl + dt) % 4294967296) (strip s).msl = dt :=
    sub32_edgeAfter 0 dt (by decide) hdt
  rw [e]
  by_cases c : dt < s.T1 ∨ dt > s.T3
  · rw [if_pos c, if_pos (show dt < (strip s).T1 ∨ dt > (strip s).T3 from c)]
    rfl
  · rw [if_neg c, if_neg (show ¬ (dt < (strip s).T1 ∨ dt > (strip s).T3) from c)]
    have e1 := strip_edgeInWindow dt ms { s with msl := (s.msl + dt) % 4294967296 }
    have e2 := strip_edgeInWindow dt 0
      { strip s with msl := ((strip s).msl + dt) % 4294967296 }
    have e3 : strip { s with msl := (s.msl + dt) % 4294967296 }
        = strip { strip s with msl := ((strip s).msl + dt) % 4294967296 } := by
      simp only [strip]
    rw [e1, e2, e3]

theorem edgeAfter_msl (dt ms : Nat) (s : DataReceiverClass) :
    (edgeAfter dt ms s).msl < 4294967296 ∧ (edgeAfter dt ms s).T1 = s.T1 ∧
      (edgeAfter dt ms s).T3 = s.T3 := by
  unfold edgeAfter
  obtain ⟨a, b, c⟩ := DRisr_msl ((s.msl + dt) % 4294967296) ms s
  rw [a]
  exact ⟨Nat.mod_lt _ (by decide), b, c⟩

theorem strip_violation (d ms : Nat) (s : DataReceiverClass) (hm : s.msl < 4294967296)
    (hd : d < 4294967296) (h : d < s.T1 ∨ s.T3 < d) :
    strip (edgeAfter d ms s) = strip (resetReception (strip s)) := by
  unfold edgeAfter
  rw [DRisr_violation _ ms s d (sub32_edgeAfter s.msl d hm hd) h]
  rfl

end DataReceiverClass

theorem feedEdges_eq_feedIntervals (P t0 : Nat) (ms : Nat → Nat) (ls : List Nat) :
    ∀ (k g lvl : Nat) (s : DataReceiverClass), g ≤ k → s.msl = microsAt P t0 (k - g) →
      feedEdges (edgeEvents (linkClock P t0 ms) k lvl ls) s
        = feedIntervals (edgeIntervals P ms k g lvl ls) s := by
  induction ls with
  | nil => intro k g lvl s _ _; rfl
  | cons l ls ih =>
    intro k g lvl s hg hs
    simp only [edgeEvents, edgeIntervals]
    by_cases h : l ≠ lvl
    · rw [if_pos h, if_pos h]
      simp only [feedEdges, feedIntervals, linkClock, DataReceiverClass.edgeAfter]
      have e : (s.msl + (g + 1) * P) % 4294967296 = microsAt P t0 (k + 1) := by
        rw [hs]
        unfold microsAt
        have : (k - g) * P + (g + 1) * P = (k + 1) * P := by
          rw [← Nat.add_mul]
          congr 1
          omega
        rw [Nat.mod_add_mod, Nat.add_assoc, this]
      rw [e]
      exact ih (k + 1) 0 l _ (Nat.zero_le _) (DataReceiverClass.DRisr_msl _ _ _).1
    · rw [if_neg h, if_neg h]
      have hl : l = lvl := not_not.mp h
      rw [hl]
      refine ih (k + 1) (g + 1) lvl s (by omega) ?_
      rw [hs]
      congr 1
      omega

theorem quiet_sound : ∀ (l : List (Nat × Nat)) (s : DataReceiverClass),
    DataReceiverClass.quiet (l.map Prod.fst) (DataReceiverClass.strip s) = true →
    s.msl < 4294967296 → (∀ e ∈ l, e.1 < 4294967296) →
    (∀ n, 1 ≤ n → n ≤ l.length → (feedIntervals (l.take n) s).status ≠ 4) ∧
    (feedIntervals l s).status = 0 := by
  intro l
  induction l with
  | nil =>
    intro s hq _ _
    refine ⟨fun n h1 h2 => ?_, ?_⟩
    · simp only [List.length_nil] at h2
      omega
    · simp only [List.map_nil, DataReceiverClass.quiet, beq_iff_eq] at hq
      exact hq
  | cons e es ih =>
    intro s hq hm hl
    simp only [List.map_cons, DataReceiverClass.quiet, Bool.and_eq_true, bne_iff_ne] at hq
    obtain ⟨hq1, hq2⟩ := hq
    have hs := DataReceiverClass.strip_edgeAfter e.1 e.2 s hm (hl e (List.mem_cons_self _ _))
    rw [← hs] at hq1 hq2
    obtain ⟨i1, i2⟩ := ih (DataReceiverClass.edgeAfter e.1 e.2 s) hq2
      (DataReceiverClass.edgeAfter_msl e.1 e.2 s).1 (fun x hx => hl x (List.mem_cons_of_mem _ hx))
    refine ⟨fun n h1 h2 => ?_, i2⟩
    obtain ⟨n, rfl⟩ : ∃ k, n = k + 1 := ⟨n - 1, by omega⟩
    rw [List.take_succ_cons]
    show (feedIntervals (es.take n) (DataReceiverClass.edgeAfter e.1 e.2 s)).status ≠ 4
    by_cases hn : n = 0
    · subst hn
      exact hq1
    · refine i1 n (by omega) ?_
      simp only [List.length_cons] at h2
      omega

theorem robust_sound : ∀ (l : List (Nat × Nat)) (skip n : Nat) (s : DataReceiverClass),
    DataReceiverClass.robust skip n (l.map Prod.fst) (DataReceiverClass.strip s) = true →
    s.msl < 4294967296 → (∀ e ∈ l, e.1 < 4294967296) →
    ∀ j d m : Nat, skip ≤ j → j < skip + n → j < l.length → d < 4294967296 →
      (d < s.T1 ∨ s.T3 < d) →
      (feedIntervals ((l.set j (d, m)).take (j + 1)) s).status = 0 ∧
      (∀ k, j < k → k ≤ l.length → (feedIntervals ((l.set j (d, m)).take k) s).status ≠ 4) ∧
      (feedIntervals (l.set j (d, m)) s).status = 0 := by
  intro l
  induction l with
  | nil =>
    intro skip n s _ _ _ j d m _ _ hj
    simp only [List.length_nil] at hj
    omega
  | cons e es ih =>
    intro skip n s hr hm hl j d m hs hn hj hd hout
    have hs1 := DataReceiverClass.strip_edgeAfter e.1 e.2 s hm (hl e (List.mem_cons_self _ _))
    have hl1 : ∀ x ∈ es, x.1 < 4294967296 := fun x hx => hl x (List.mem_cons_of_mem _ hx)
    cases j with
    | zero =>
      have hskip : skip = 0 := by omega
      subst hskip
      obtain ⟨n, rfl⟩ : ∃ k, n = k + 1 := ⟨n - 1, by omega⟩
      simp only [List.map_cons, DataReceiverClass.robust, Bool.and_eq_true, beq_iff_eq] at hr
      obtain ⟨⟨hr0, hrq⟩, -⟩ := hr
      have hv := DataReceiverClass.strip_violation d m s hm hd hout
      rw [← hv] at hr0 hrq
      obtain ⟨q1, q2⟩ := quiet_sound es (DataReceiverClass.edgeAfter d m s) hrq
        (DataReceiverClass.edgeAfter_msl d m s).1 hl1
      simp only [List.set_cons_zero]
      refine ⟨hr0, fun k hk1 hk2 => ?_, q2⟩
      obtain ⟨k, rfl⟩ : ∃ i, k = i + 1 := ⟨k - 1, by omega⟩
      rw [List.take_succ_cons]
      show (feedIntervals (es.take k) (DataReceiverClass.edgeAfter d m s)).status ≠ 4
      by_cases hk : k = 0
      · subst hk
        show (DataReceiverClass.edgeAfter d m s).status ≠ 4
        have : (DataReceiverClass.edgeAfter d m s).status = 0 := hr0
        omega
      · refine q1 k (by omega) ?_
        simp only [List.length_cons] at hk2
        omega
    | succ j =>
      simp only [List.length_cons] at hj
      have hT := DataReceiverClass.edgeAfter_msl e.1 e.2 s
      have hout1 : d < (DataReceiverClass.edgeAfter e.1 e.2 s).T1 ∨
          (DataReceiverClass.edgeAfter e.1 e.2 s).T3 < d := by
        rw [hT.2.1, hT.2.2]
        exact hout
      have key : ∃ skip1 n1, DataReceiverClass.robust skip1 n1 (es.map Prod.fst)
          (DataReceiverClass.strip (DataReceiverClass.edgeAfter e.1 e.2 s)) = true ∧
          skip1 ≤ j ∧ j < skip1 + n1 := by
        cases skip with
        | zero =>
          obtain ⟨n, rfl⟩ : ∃ k, n = k + 1 := ⟨n - 1, by omega⟩
          simp only [List.map_cons, DataReceiverClass.robust, Bool.and_eq_true] at hr
          refine ⟨0, n, ?_, Nat.zero_le _, by omega⟩
          rw [hs1]
          exact hr.2
        | succ skip =>
          simp only [List.map_cons, DataReceiverClass.robust] at hr
          refine ⟨skip, n, ?_, by omega, by omega⟩
          rw [hs1]
          exact hr
      obtain ⟨skip1, n1, hr1, hsk1, hn1⟩ := key
      obtain ⟨a, b, c⟩ := ih skip1 n1 (DataReceiverClass.edgeAfter e.1 e.2 s) hr1 hT.1 hl1 j d m
        hsk1 hn1 (by omega) hd hout1
      simp only [List.set_cons_succ]
      refine ⟨?_, fun k hk1 hk2 => ?_, c⟩
      · rw [List.take_succ_cons]
        exact a
      · obtain ⟨k, rfl⟩ : ∃ i, k = i + 1 := ⟨k - 1, by omega⟩
        rw [List.take_succ_cons]
        simp only [List.length_cons] at hk2
        exact b k (by omega) (by omega)

set_option maxRecDepth 1000000 in
theorem scenario_robust :
    DataReceiverClass.robust 2 77 ((scenarioIntervals (fun _ => 0)).map Prod.fst)
      (DataReceiverClass.strip scenarioRx) = true := by
  decide

set_option maxRecDepth 1000000 in
theorem scenario_intervals_bounded :
    ((scenarioIntervals (fun _ => 0)).map Prod.fst).length = 80 ∧
    ∀ x ∈ (scenarioIntervals (fun _ => 0)).map Prod.fst, x < 4294967296 := by
  decide

/-- C17: byte rate 10, registry `[{id 7, size 4}]`, the frame of the payload
`[0x11, 0x22, 0x33, 0x44]` under identifier 7, which has 80 edges.  The
mid-frame edges are the edges 2 to 78, counted from 0: edge 1 ends the start
pulse, whose length is itself outside the window, and edge 79 follows the edge
that completes the last payload bit.  When the interval of one mid-frame edge
`j` is replaced by any interval `d` outside the window (`d < T1` or `d > T3`),
whatever `millis()` reads at the edges, the status is `Idle` right after edge
`j`, it is not `DataAvailable` after any later edge of the frame, and it is
`Idle` after the last edge. -/
theorem corrupted_frame (ms : Nat → Nat) (j d m : Nat) (hlo : 2 ≤ j) (hhi : j ≤ 78)
    (hd : d < 4294967296) (hout : d < scenarioRx.T1 ∨ scenarioRx.T3 < d) :
    (scenarioIntervals ms).length = 80 ∧
    (feedIntervals (((scenarioIntervals ms).set j (d, m)).take (j + 1)) scenarioRx).status = 0 ∧
    (∀ k, j < k → k ≤ 80 →
      (feedIntervals (((scenarioIntervals ms).set j (d, m)).take k) scenarioRx).status ≠ 4) ∧
    (feedIntervals ((scenarioIntervals ms).set j (d, m)) scenarioRx).status = 0 := by
  have hfst : (scenarioIntervals ms).map Prod.fst
      = (scenarioIntervals (fun _ => 0)).map Prod.fst := edgeIntervals_fst _ _ _ _ _ _
  have hlen : (scenarioIntervals ms).length = 80 := by
    rw [← List.length_map (scenarioIntervals ms) Prod.fst, hfst]
    exact scenario_intervals_bounded.1
  have hb : ∀ e ∈ scenarioIntervals ms, e.1 < 4294967296 := by
    intro e he
    apply scenario_intervals_bounded.2
    rw [← hfst]
    exact List.mem_map_of_mem _ he
  have hr : DataReceiverClass.robust 2 77 ((scenarioIntervals ms).map Prod.fst)
      (DataReceiverClass.strip scenarioRx) = true := by
    rw [hfst]
    exact scenario_robust
  obtain ⟨a, b, c⟩ := robust_sound (scenarioIntervals ms) 2 77 scenarioRx hr (by decide) hb j d m
    hlo (by omega) (by omega) hd hout
  exact ⟨hlen, a, fun k hk1 hk2 => b k hk1 (by omega), c⟩

/-- C17, at one edge: the interval of edge 40 replaced by 100000 microseconds,
which is above `T3`; after the last edge the status is `Idle`. -/
theorem corrupted_frame_witness :
    ((2 : Nat) ≤ 40 ∧ (40 : Nat) ≤ 78 ∧ (100000 : Nat) < 4294967296 ∧
      scenarioRx.T3 < 100000) ∧
    (feedIntervals ((scenarioIntervals (fun _ => 0)).set 40 (100000, 0)) scenarioRx).status
      = 0 :=
  ⟨by decide,
   (corrupted_frame (fun _ => 0) 40 100000 0 (by decide) (by decide) (by decide)
      (Or.inr (by decide))).2.2.2⟩

/-- The edges of the scenario given by their intervals are the edges of the
link: fed to the receive engine they leave it in the state `linkReceive`
describes, whatever `millis()` reads. -/
theorem scenarioIntervals_link (ms : Nat → Nat) :
    feedIntervals (scenarioIntervals ms) scenarioRx
      = linkReceive crc8Maxim (tickMicros 10) 0 ms 104 scenarioTx scenarioDset scenarioRx := by
  unfold linkReceive scenarioIntervals
  exact (feedEdges_eq_feedIntervals (tickMicros 10) 0 ms _ 0 0 scenarioTx.pin_level scenarioRx
    (le_refl 0) (by decide)).symm

set_option maxRecDepth 1000000 in
/-- The edges next to the mid-frame edges: edge 1 closes the start pulse, whose
interval is outside the window in the intact frame too, and edge 79 follows the
edge that raises `DataAvailable`; with either interval replaced by 100000
microseconds the frame is still delivered. -/
theorem frame_border_edges :
    scenarioRx.T3 < ((scenarioIntervals (fun _ => 0)).getD 1 (0, 0)).1 ∧
    (feedIntervals ((scenarioIntervals (fun _ => 0)).set 1 (100000, 0)) scenarioRx).status = 4 ∧
    (feedIntervals ((scenarioIntervals (fun _ => 0)).take 79) scenarioRx).status = 4 ∧
    (feedIntervals ((scenarioIntervals (fun _ => 0)).set 79 (100000, 0)) scenarioRx).status
      = 4 := by
  decide

/-! ## The line code, edge by edge -/

namespace DataTransmitterClass

theorem isr_pin (s : DataTransmitterClass) :
    (isr s).pin_level = (isr s).pin_value ∧ (isr s).pin_value < 2 :=
  ⟨rfl, lnot_lt_two _⟩

theorem isr_prev_symbol (s : DataTransmitterClass) (h : s.prev_symbol < 2) :
    (isr s).prev_symbol < 2 := by
  have hb : s.curr_byte &&& 1 < 2 := by
    rw [Nat.and_one_is_mod]
    omega
  unfold isr
  simp only
  split_ifs <;> first | exact h | exact hb

theorem isr_step_ge (s : DataTransmitterClass) (h : s.step < 255) :
    min (s.step + 1) 4 ≤ (isr s).step := by
  unfold isr
  simp only
  split_ifs <;> first | omega | (simp; done) | (simp; omega)

theorem isr_pin_level (s : DataTransmitterClass) (h4 : 4 ≤ s.step) :
    (isr s).pin_level
      = lnot (if s.step &&& 1 = 0 then
          (if s.prev_symbol ^^^ (s.curr_byte &&& 1) ≠ 0 then lnot s.pin_value else s.pin_value)
        else s.pin_value) ∧
    (s.step &&& 1 = 0 → (isr s).curr_symbol = s.curr_byte &&& 1) := by
  have c : ¬ s.step < 4 := by omega
  unfold isr
  simp only [if_neg c]
  split_ifs <;> simp_all

theorem session_invariant (crc : Nat → List Nat → Nat) (s : DataTransmitterClass) (DSET : dset_t)
    (hidle : s.bytes = 0) (hpre : s.prescaler ≠ 0) (hid : DSET.ID < 256)
    (hsize1 : 1 ≤ DSET.SIZE) (hsize : DSET.SIZE ≤ 255) :
    ∀ k, k ≤ 39 + 16 * DSET.SIZE →
      Running (ticks k (transmitData crc s DSET).1) ∧
      ticksLeft (ticks k (transmitData crc s DSET).1) + k = 40 + 16 * DSET.SIZE ∧
      min (k + 1) 4 ≤ (ticks k (transmitData crc s DSET).1).step ∧
      (ticks k (transmitData crc s DSET).1).prev_symbol < 2 ∧
      (1 ≤ k →
        (ticks k (transmitData crc s DSET).1).pin_level
          = (ticks k (transmitData crc s DSET).1).pin_value ∧
        (ticks k (transmitData crc s DSET).1).pin_value < 2) := by
  have e := transmitData_started crc s DSET hidle hsize1 hid
  generalize (transmitData crc s DSET).1 = st at e
  intro k
  induction k with
  | zero =>
    intro _
    simp only [ticks]
    rw [e]
    refine ⟨⟨hpre, by simp; omega, hsize, by simp, Or.inl ⟨rfl, by simp, by simp, rfl⟩⟩, ?_, ?_,
      ?_, ?_⟩
    · simp [ticksLeft]; omega
    · simp
    · simp
    · intro h; omega
  | succ k ih =>
    intro hk
    obtain ⟨r1, r2, r3, r4, -⟩ := ih (by omega)
    obtain ⟨a1, a2, -, -⟩ := running_step (ticks k st) r1 (by omega)
    have hstep : (ticks k st).step < 255 := by
      obtain ⟨-, -, -, -, h5⟩ := r1
      rcases h5 with ⟨-, -, h, -⟩ | ⟨-, -, h, -⟩ | ⟨-, h, -⟩ <;> omega
    have ht : timerTick (ticks k st) = isr (ticks k st) := by
      unfold timerTick
      rw [if_neg r1.1]
    rw [ticks_succ_last]
    refine ⟨a1, by omega, ?_, ?_, fun _ => ?_⟩
    · rw [ht]
      have := isr_step_ge (ticks k st) hstep
      omega
    · rw [ht]
      exact isr_prev_symbol _ r4
    · rw [ht]
      exact isr_pin _

set_option maxRecDepth 100000 in
/-- C18, counterexample: in the session of the scenario, tick 14 starts the
symbol 0 after the symbol 1 and the output level does not change, and tick 6
starts the symbol 1 after the symbol 1 and the output level changes. -/
theorem line_code_data_edge_inverted :
    (ticks 13 (transmitData crc8Maxim scenarioTx scenarioDset).1).step = 14 ∧
    (ticks 14 (transmitData crc8Maxim scenarioTx scenarioDset).1).curr_symbol = 0 ∧
    (ticks 13 (transmitData crc8Maxim scenarioTx scenarioDset).1).prev_symbol = 1 ∧
    (ticks 14 (transmitData crc8Maxim scenarioTx scenarioDset).1).pin_level
      = (ticks 13 (transmitData crc8Maxim scenarioTx scenarioDset).1).pin_level ∧
    (ticks 5 (transmitData crc8Maxim scenarioTx scenarioDset).1).step = 6 ∧
    (ticks 6 (transmitData crc8Maxim scenarioTx scenarioDset).1).curr_symbol = 1 ∧
    (ticks 5 (transmitData crc8Maxim scenarioTx scenarioDset).1).prev_symbol = 1 ∧
    (ticks 6 (transmitData crc8Maxim scenarioTx scenarioDset).1).pin_level
      ≠ (ticks 5 (transmitData crc8Maxim scenarioTx scenarioDset).1).pin_level := by
  decide

/-- C18, amended: in a session, at every tick after the three ticks of the
preamble (`step >= 4`), the output level changes at a mid-symbol tick (`step`
odd), and at a symbol-start tick (`step` even) it changes exactly when the
symbol being sent equals the symbol sent before it. -/
theorem line_code_edges (crc : Nat → List Nat → Nat) (s : DataTransmitterClass) (DSET : dset_t)
    (hidle : s.bytes = 0) (hpre : s.prescaler ≠ 0) (hid : DSET.ID < 256)
    (hsize1 : 1 ≤ DSET.SIZE) (hsize : DSET.SIZE ≤ 255) (k : Nat) (hk3 : 3 ≤ k)
    (hk : k ≤ 39 + 16 * DSET.SIZE) :
    4 ≤ (ticks k (transmitData crc s DSET).1).step ∧
    ((ticks k (transmitData crc s DSET).1).step &&& 1 ≠ 0 →
      (ticks (k + 1) (transmitData crc s DSET).1).pin_level
        ≠ (ticks k (transmitData crc s DSET).1).pin_level) ∧
    ((ticks k (transmitData crc s DSET).1).step &&& 1 = 0 →
      (ticks (k + 1) (transmitData crc s DSET).1).curr_symbol
        = (ticks k (transmitData crc s DSET).1).curr_byte &&& 1 ∧
      ((ticks (k + 1) (transmitData crc s DSET).1).pin_level
          ≠ (ticks k (transmitData crc s DSET).1).pin_level ↔
        (ticks (k + 1) (transmitData crc s DSET).1).curr_symbol
          = (ticks k (transmitData crc s DSET).1).prev_symbol)) := by
  obtain ⟨r1, -, r3, r4, r5⟩ := session_invariant crc s DSET hidle hpre hid hsize1 hsize k hk
  obtain ⟨hpl, hpv⟩ := r5 (by omega)
  rw [ticks_succ_last]
  generalize ticks k (transmitData crc s DSET).1 = t at r1 r3 r4 hpl hpv
  have h4 : 4 ≤ t.step := by omega
  have ht : timerTick t = isr t := by
    unfold timerTick
    rw [if_neg r1.1]
  obtain ⟨e1, e2⟩ := isr_pin_level t h4
  rw [ht, e1, hpl]
  refine ⟨h4, fun hodd => ?_, fun hev => ?_⟩
  · rw [if_neg hodd]
    exact lnot_ne_self _
  · rw [if_pos hev, e2 hev]
    refine ⟨rfl, ?_⟩
    have hb : t.curr_byte &&& 1 < 2 := by
      rw [Nat.and_one_is_mod]
      omega
    generalize t.curr_byte &&& 1 = b at hb
    generalize t.prev_symbol = p at r4
    generalize t.pin_value = v at hpv
    have hp : p = 0 ∨ p = 1 := by omega
    have hb' : b = 0 ∨ b = 1 := by omega
    have hv : v = 0 ∨ v = 1 := by omega
    rcases hp with rfl | rfl <;> rcases hb' with rfl | rfl <;> rcases hv with rfl | rfl <;>
      decide

set_option maxRecDepth 100000 in
/-- C18, amended, at the scenario: tick 14 is a symbol-start tick, and the
output level changes there exactly when the symbol equals the one before. -/
theorem line_code_edges_witness :
    (scenarioTx.bytes = 0 ∧ scenarioTx.prescaler ≠ 0 ∧ scenarioDset.ID < 256 ∧
      1 ≤ scenarioDset.SIZE ∧ scenarioDset.SIZE ≤ 255 ∧ (3 : Nat) ≤ 13 ∧
      13 ≤ 39 + 16 * scenarioDset.SIZE ∧
      (ticks 13 (transmitData crc8Maxim scenarioTx scenarioDset).1).step &&& 1 = 0) ∧
    ((ticks (13 + 1) (transmitData crc8Maxim scenarioTx scenarioDset).1).pin_level
        ≠ (ticks 13 (transmitData crc8Maxim scenarioTx scenarioDset).1).pin_level ↔
      (ticks (13 + 1) (transmitData crc8Maxim scenarioTx scenarioDset).1).curr_symbol
        = (ticks 13 (transmitData crc8Maxim scenarioTx scenarioDset).1).prev_symbol) :=
  ⟨by decide,
   ((line_code_edges crc8Maxim scenarioTx scenarioDset (by decide) (by decide) (by decide)
      (by decide) (by decide) 13 (by decide) (by decide)).2.2 (by decide)).2⟩

end DataTransmitterClass

/-! ## WSPR: input check and power conversion -/

namespace WSPRClass

theorem powerLoop_decade (power k : Nat) (hk : k ≤ 5) (hlo : 100000 ≤ power * 10 ^ k)
    (hhi : power * 10 ^ k < 1000000 ∨ (k = 0 ∧ power < 4294967296)) (fuel : Nat) :
    ∀ j, j ≤ k → powerLoop (fuel + j + 1) (power * 10 ^ (k - j), 50 - 10 * (k - j))
      = some (power * 10 ^ k, 50 - 10 * k) := by
  intro j
  induction j with
  | zero =>
    intro _
    simp only [Nat.sub_zero, Nat.add_zero, powerLoop]
    rw [if_neg (by omega)]
  | succ j ih =>
    intro hj
    have h1 : k - j = (k - (j + 1)) + 1 := by omega
    have hp : power * 10 ^ (k - j) = power * 10 ^ (k - (j + 1)) * 10 := by
      rw [h1, pow_succ, Nat.mul_assoc]
    have hlt : power * 10 ^ (k - (j + 1)) < 100000 := by
      have : power * 10 ^ (k - j) ≤ power * 10 ^ k :=
        Nat.mul_le_mul_left _ (Nat.pow_le_pow_right (by decide) (by omega))
      rcases hhi with h | ⟨h, -⟩
      · omega
      · omega
    have e : fuel + (j + 1) + 1 = (fuel + j + 1) + 1 := by omega
    rw [e, powerLoop]
    simp only
    rw [if_pos hlt]
    have hs : powerStep (power * 10 ^ (k - (j + 1)), 50 - 10 * (k - (j + 1)))
        = (power * 10 ^ (k - j), 50 - 10 * (k - j)) := by
      unfold powerStep
      simp only
      rw [hp]
      congr 1
      · omega
      · omega
    rw [hs]
    exact ih (by omega)

theorem powerStep_iterate (power k : Nat) (hk : k ≤ 5) (hhi : power * 10 ^ k < 4294967296) :
    ∀ j, j ≤ k → powerStep^[j] (power, 50) = (power * 10 ^ j, 50 - 10 * j) := by
  intro j
  induction j with
  | zero => intro _; simp
  | succ j ih =>
    intro hj
    rw [Function.iterate_succ_apply', ih (by omega)]
    have : power * 10 ^ (j + 1) ≤ power * 10 ^ k :=
      Nat.mul_le_mul_left _ (Nat.pow_le_pow_right (by decide) hj)
    unfold powerStep
    simp only
    rw [pow_succ, ← Nat.mul_assoc] at this ⊢
    congr 1
    · omega
    · omega

theorem power_decade (power : Nat) (h1 : 1 ≤ power) (h2 : power ≤ 1000000) :
    ∃ k, k ≤ 5 ∧ 100000 ≤ power * 10 ^ k ∧
      (power * 10 ^ k < 1000000 ∨ (k = 0 ∧ power < 4294967296)) ∧
      (∀ j, j < k → power * 10 ^ j < 100000) ∧
      dBmOf power = dBmDigit (power * 10 ^ k) + (50 - 10 * k) := by
  have hmono : ∀ j k : Nat, j < k → power * 10 ^ j * 10 ≤ power * 10 ^ k := by
    intro j k hjk
    rw [Nat.mul_assoc, ← pow_succ]
    exact Nat.mul_le_mul_left _ (Nat.pow_le_pow_right (by decide) hjk)
  unfold dBmOf
  by_cases c1 : power < 10
  · refine ⟨5, le_refl _, by omega, Or.inl (by omega), fun j hj => ?_, ?_⟩
    · have := hmono j 5 hj
      omega
    · rw [if_pos c1]; norm_num
  by_cases c2 : power < 100
  · refine ⟨4, by omega, by omega, Or.inl (by omega), fun j hj => ?_, ?_⟩
    · have := hmono j 4 hj
      omega
    · rw [if_neg c1, if_pos c2]; norm_num
  by_cases c3 : power < 1000
  · refine ⟨3, by omega, by omega, Or.inl (by omega), fun j hj => ?_, ?_⟩
    · have := hmono j 3 hj
      omega
    · rw [if_neg c1, if_neg c2, if_pos c3]; norm_num
  by_cases c4 : power < 10000
  · refine ⟨2, by omega, by omega, Or.inl (by omega), fun j hj => ?_, ?_⟩
    · have := hmono j 2 hj
      omega
    · rw [if_neg c1, if_neg c2, if_neg c3, if_pos c4]; norm_num
  by_cases c5 : power < 100000
  · refine ⟨1, by omega, by omega, Or.inl (by omega), fun j hj => ?_, ?_⟩
    · have := hmono j 1 hj
      omega
    · rw [if_neg c1, if_neg c2, if_neg c3, if_neg c4, if_pos c5]; norm_num
  · refine ⟨0, by omega, by omega, Or.inr ⟨rfl, by omega⟩, fun j hj => by omega, ?_⟩
    rw [if_neg c1, if_neg c2, if_neg c3, if_neg c4, if_neg c5]; norm_num

theorem dBmDigit_le (x : Nat) :
    dBmDigit x ≤ 10 ∧
      (dBmDigit x % 10 = 0 ∨ dBmDigit x % 10 = 3 ∨ dBmDigit x % 10 = 7) := by
  unfold dBmDigit
  split_ifs <;> simp

theorem dBm_eq (power fuel : Nat) (h1 : 1 ≤ power) (h2 : power ≤ 1000000) (hf : 6 ≤ fuel) :
    dBm fuel power = some (dBmOf power) := by
  obtain ⟨k, hk, hlo, hhi, -, hd⟩ := power_decade power h1 h2
  obtain ⟨f, rfl⟩ : ∃ f, fuel = f + k + 1 := ⟨fuel - k - 1, by omega⟩
  have hl := powerLoop_decade power k hk hlo hhi f k (le_refl _)
  simp only [Nat.sub_self, pow_zero, Nat.mul_one, Nat.mul_zero, Nat.sub_zero] at hl
  unfold dBm
  rw [hl, Option.map_some', hd]
  have := (dBmDigit_le (power * 10 ^ k)).1
  congr 1
  show (dBmDigit (power * 10 ^ k) + (50 - 10 * k)) % 4294967296 = _
  omega

theorem dBmDigit_mono (x y : Nat) (h : x ≤ y) : dBmDigit x ≤ dBmDigit y := by
  unfold dBmDigit
  split_ifs <;> omega

theorem dBmOf_mono (p q : Nat) (hpq : p ≤ q) : dBmOf p ≤ dBmOf q := by
  have hp := dBmDigit_le
  have hm := dBmDigit_mono
  unfold dBmOf
  by_cases p1 : p < 10
  · rw [if_pos p1]
    by_cases q1 : q < 10
    · rw [if_pos q1]
      exact hm _ _ (by omega)
    · rw [if_neg q1]
      have := (hp (p * 100000)).1
      split_ifs <;> omega
  rw [if_neg p1]
  have q1 : ¬ q < 10 := by omega
  rw [if_neg q1]
  by_cases p2 : p < 100
  · rw [if_pos p2]
    by_cases q2 : q < 100
    · rw [if_pos q2]
      exact Nat.add_le_add_right (hm _ _ (by omega)) _
    · rw [if_neg q2]
      have := (hp (p * 10000)).1
      split_ifs <;> omega
  rw [if_neg p2]
  have q2 : ¬ q < 100 := by omega
  rw [if_neg q2]
  by_cases p3 : p < 1000
  · rw [if_pos p3]
    by_cases q3 : q < 1000
    · rw [if_pos q3]
      exact Nat.add_le_add_right (hm _ _ (by omega)) _
    · rw [if_neg q3]
      have := (hp (p * 1000)).1
      split_ifs <;> omega
  rw [if_neg p3]
  have q3 : ¬ q < 1000 := by omega
  rw [if_neg q3]
  by_cases p4 : p < 10000
  · rw [if_pos p4]
    by_cases q4 : q < 10000
    · rw [if_pos q4]
      exact Nat.add_le_add_right (hm _ _ (by omega)) _
    · rw [if_neg q4]
      have := (hp (p * 100)).1
      split_ifs <;> omega
  rw [if_neg p4]
  have q4 : ¬ q < 10000 := by omega
  rw [if_neg q4]
  by_cases p5 : p < 100000
  · rw [if_pos p5]
    by_cases q5 : q < 100000
    · rw [if_pos q5]
      exact Nat.add_le_add_right (hm _ _ (by omega)) _
    · rw [if_neg q5]
      have := (hp (p * 10)).1
      omega
  rw [if_neg p5]
  have q5 : ¬ q < 100000 := by omega
  rw [if_neg q5]
  exact Nat.add_le_add_right (hm _ _ hpq) _


theorem normalizeChar_isSome (c : Nat) :
    (normalizeChar c).isSome = true ↔
      (c = 32 ∨ (48 ≤ c ∧ c ≤ 57) ∨ (65 ≤ c ∧ c ≤ 90) ∨ (97 ≤ c ∧ c ≤ 122)) := by
  unfold normalizeChar
  split_ifs <;> simp <;> omega

theorem normalizeChar_value (c v : Nat) (h : normalizeChar c = some v) :
    (v ≤ 9 ↔ (48 ≤ c ∧ c ≤ 57)) ∧
    ((9 < v ∧ v < 36) ↔ ((65 ≤ c ∧ c ≤ 90) ∨ (97 ≤ c ∧ c ≤ 122))) ∧
    ((9 < v ∧ v < 28) ↔ ((65 ≤ c ∧ c ≤ 82) ∨ (97 ≤ c ∧ c ≤ 114))) := by
  unfold normalizeChar at h
  split_ifs at h <;> simp at h <;> omega

theorem normalizeLoop_below (n : Nat) : ∀ (i : Nat) (array : List Nat) (k : Nat), k < i →
    (normalizeLoop n i array).1.getD k 0 = array.getD k 0 := by
  induction n with
  | zero => intro i array k _; rfl
  | succ n ih =>
    intro i array k hk
    unfold normalizeLoop
    cases normalizeChar (array.getD i 0) with
    | none => rfl
    | some v =>
      show (normalizeLoop n (i + 1) (array.set i v)).1.getD k 0 = _
      rw [ih (i + 1) _ k (by omega)]
      simp only [List.getD_eq_getElem?_getD]
      rw [List.getElem?_set_ne (by omega)]

theorem normalizeLoop_spec (n : Nat) : ∀ (i : Nat) (array : List Nat), i + n ≤ array.length →
    ((normalizeLoop n i array).2 = 0 ∨ (normalizeLoop n i array).2 = 1) ∧
    ((normalizeLoop n i array).2 = 1 ↔
      ∀ k, i ≤ k → k < i + n → (normalizeChar (array.getD k 0)).isSome = true) ∧
    ((normalizeLoop n i array).2 = 1 → ∀ k, i ≤ k → k < i + n →
      normalizeChar (array.getD k 0) = some ((normalizeLoop n i array).1.getD k 0)) := by
  induction n with
  | zero =>
    intro i array _
    refine ⟨Or.inr rfl, ⟨fun _ k h1 h2 => by omega, fun _ => rfl⟩, fun _ k h1 h2 => by omega⟩
  | succ n ih =>
    intro i array hlen
    unfold normalizeLoop
    cases hc : normalizeChar (array.getD i 0) with
    | none =>
      show ((0 : Nat) = 0 ∨ (0 : Nat) = 1) ∧ ((0 : Nat) = 1 ↔ _) ∧ ((0 : Nat) = 1 → _)
      refine ⟨Or.inl rfl, ⟨fun h => absurd h (by decide), fun h => ?_⟩,
        fun h => absurd h (by decide)⟩
      have := h i (le_refl _) (by omega)
      rw [hc] at this
      exact absurd this (by decide)
    | some v =>
      show ((normalizeLoop n (i + 1) (array.set i v)).2 = 0 ∨ _) ∧
        ((normalizeLoop n (i + 1) (array.set i v)).2 = 1 ↔ _) ∧
        ((normalizeLoop n (i + 1) (array.set i v)).2 = 1 → ∀ k, i ≤ k → k < i + (n + 1) →
          normalizeChar (array.getD k 0)
            = some ((normalizeLoop n (i + 1) (array.set i v)).1.getD k 0))
      have hget : ∀ k, i + 1 ≤ k → (array.set i v).getD k 0 = array.getD k 0 := by
        intro k hk
        simp only [List.getD_eq_getElem?_getD]
        rw [List.getElem?_set_ne (by omega)]
      have hself : (array.set i v).getD i 0 = v := by
        simp only [List.getD_eq_getElem?_getD]
        rw [List.getElem?_set_self (by omega)]
        rfl
      obtain ⟨a, b, c⟩ := ih (i + 1) (array.set i v) (by rw [List.length_set]; omega)
      refine ⟨a, ⟨fun h k h1 h2 => ?_, fun h => ?_⟩, fun h k h1 h2 => ?_⟩
      · by_cases hk : k = i
        · rw [hk, hc]; rfl
        · have := b.1 h k (by omega) (by omega)
          rw [hget k (by omega)] at this
          exact this
      · refine b.2 (fun k h1 h2 => ?_)
        rw [hget k h1]
        exact h k (by omega) (by omega)
      · by_cases hk : k = i
        · rw [hk, hc, normalizeLoop_below n (i + 1) _ i (by omega), hself]
        · have := c h k (by omega) (by omega)
          rw [hget k (by omega)] at this
          exact this

theorem copy_getD (s : List Nat) (m k : Nat) (hk : k < m) :
    ((List.range m).map (fun i => s.getD i 0)).getD k 0 = s.getD k 0 := by
  simp only [List.getD_eq_getElem?_getD, List.getElem?_map, List.getElem?_range hk]
  rfl

theorem is_valid_eq_one (call locator : List Nat) (power : Nat) :
    (is_valid call locator power = 0 ∨ is_valid call locator power = 1) ∧
    (is_valid call locator power = 1 ↔
      (∀ k, k < 6 → (call.getD k 0 = 32 ∨ (48 ≤ call.getD k 0 ∧ call.getD k 0 ≤ 57) ∨
        (65 ≤ call.getD k 0 ∧ call.getD k 0 ≤ 90) ∨
        (97 ≤ call.getD k 0 ∧ call.getD k 0 ≤ 122))) ∧
      (48 ≤ call.getD 2 0 ∧ call.getD 2 0 ≤ 57) ∧
      (∀ k, k < 2 → ((65 ≤ locator.getD k 0 ∧ locator.getD k 0 ≤ 90) ∨
        (97 ≤ locator.getD k 0 ∧ locator.getD k 0 ≤ 122))) ∧
      (∀ k, 2 ≤ k → k < 4 → (48 ≤ locator.getD k 0 ∧ locator.getD k 0 ≤ 57)) ∧
      1 ≤ power ∧ power ≤ 1000000) := by
  obtain ⟨a1, a2, a3⟩ := normalizeLoop_spec 6 0
    ((List.range 6).map (fun i => call.getD i 0)) (by simp)
  obtain ⟨b1, b2, b3⟩ := normalizeLoop_spec 4 0
    ((List.range 4).map (fun i => locator.getD i 0)) (by simp)
  unfold is_valid normalizeCharacter
  simp only
  generalize normalizeLoop 6 0 ((List.range 6).map (fun i => call.getD i 0)) = A at a1 a2 a3
  generalize normalizeLoop 4 0 ((List.range 4).map (fun i => locator.getD i 0)) = B at b1 b2 b3
  have ha : ∀ k, k < 6 → (normalizeChar (call.getD k 0)).isSome = true →
      (call.getD k 0 = 32 ∨ (48 ≤ call.getD k 0 ∧ call.getD k 0 ≤ 57) ∨
        (65 ≤ call.getD k 0 ∧ call.getD k 0 ≤ 90) ∨
        (97 ≤ call.getD k 0 ∧ call.getD k 0 ≤ 122)) :=
    fun k _ h => (normalizeChar_isSome _).1 h
  by_cases hA : A.2 = 1
  · have hA0 : A.2 ≠ 0 := by omega
    rw [if_pos hA0]
    have hcall := a2.1 hA
    have hAv := a3 hA
    by_cases hB : B.2 = 1
    · have hB0 : B.2 ≠ 0 := by omega
      have hloc := b2.1 hB
      have hBv := b3 hB
      have c2 := hAv 2 (by omega) (by omega)
      have l0 := hBv 0 (by omega) (by omega)
      have l1 := hBv 1 (by omega) (by omega)
      have l2 := hBv 2 (by omega) (by omega)
      have l3 := hBv 3 (by omega) (by omega)
      rw [copy_getD _ 6 2 (by omega)] at c2
      rw [copy_getD _ 4 0 (by omega)] at l0
      rw [copy_getD _ 4 1 (by omega)] at l1
      rw [copy_getD _ 4 2 (by omega)] at l2
      rw [copy_getD _ 4 3 (by omega)] at l3
      have vc2 := normalizeChar_value _ _ c2
      have vl0 := normalizeChar_value _ _ l0
      have vl1 := normalizeChar_value _ _ l1
      have vl2 := normalizeChar_value _ _ l2
      have vl3 := normalizeChar_value _ _ l3
      have hcallall : ∀ k, k < 6 → (call.getD k 0 = 32 ∨
          (48 ≤ call.getD k 0 ∧ call.getD k 0 ≤ 57) ∨
          (65 ≤ call.getD k 0 ∧ call.getD k 0 ≤ 90) ∨
          (97 ≤ call.getD k 0 ∧ call.getD k 0 ≤ 122)) := by
        intro k hk
        have := hcall k (Nat.zero_le _) (by omega)
        rw [copy_getD _ 6 k hk] at this
        exact (normalizeChar_isSome _).1 this
      constructor
      · split_ifs
        · exact Or.inr rfl
        · exact Or.inl rfl
      · constructor
        · intro h
          split_ifs at h with hc
          · obtain ⟨-, h1, h2, h3, h4, h5, h6, h7, h8, h9⟩ := hc
            refine ⟨hcallall, vc2.1.1 h1, ?_, ?_, by omega, h9⟩
            · intro k hk
              have hk' : k = 0 ∨ k = 1 := by omega
              rcases hk' with rfl | rfl
              · exact vl0.2.1.1 ⟨h4, h5⟩
              · exact vl1.2.1.1 ⟨h6, h7⟩
            · intro k hk1 hk2
              have hk' : k = 2 ∨ k = 3 := by omega
              rcases hk' with rfl | rfl
              · exact vl2.1.1 h2
              · exact vl3.1.1 h3
        · rintro ⟨-, g1, g2, g3, g4, g5⟩
          have hc : B.2 ≠ 0 ∧ A.1.getD 2 0 ≤ 9 ∧ B.1.getD 2 0 ≤ 9 ∧ B.1.getD 3 0 ≤ 9 ∧
              B.1.getD 0 0 > 9 ∧ B.1.getD 0 0 < 36 ∧ B.1.getD 1 0 > 9 ∧ B.1.getD 1 0 < 36 ∧
              power ≠ 0 ∧ power ≤ 1000000 :=
            ⟨hB0, vc2.1.2 g1, vl2.1.2 (g3 2 (by omega) (by omega)),
              vl3.1.2 (g3 3 (by omega) (by omega)), (vl0.2.1.2 (g2 0 (by omega))).1,
              (vl0.2.1.2 (g2 0 (by omega))).2, (vl1.2.1.2 (g2 1 (by omega))).1,
              (vl1.2.1.2 (g2 1 (by omega))).2, by omega, g5⟩
          rw [if_pos hc]
    · have hc : ¬ (B.2 ≠ 0 ∧ A.1.getD 2 0 ≤ 9 ∧ B.1.getD 2 0 ≤ 9 ∧ B.1.getD 3 0 ≤ 9 ∧
          B.1.getD 0 0 > 9 ∧ B.1.getD 0 0 < 36 ∧ B.1.getD 1 0 > 9 ∧ B.1.getD 1 0 < 36 ∧
          power ≠ 0 ∧ power ≤ 1000000) := by
        rintro ⟨h, -⟩
        omega
      rw [if_neg hc]
      refine ⟨Or.inl rfl, fun h => absurd h (by decide), ?_⟩
      rintro ⟨-, -, g2, g3, -, -⟩
      exfalso
      apply hB
      apply b2.2
      intro k _ hk
      rw [copy_getD _ 4 k (by omega)]
      apply (normalizeChar_isSome _).2
      by_cases hk2 : k < 2
      · exact Or.inr (Or.inr (g2 k hk2))
      · exact Or.inr (Or.inl (g3 k (by omega) (by omega)))
  · have hA0 : ¬ A.2 ≠ 0 := by omega
    rw [if_neg hA0]
    refine ⟨Or.inl rfl, fun h => absurd h (by decide), ?_⟩
    rintro ⟨g, -⟩
    exfalso
    apply hA
    apply a2.2
    intro k _ hk
    rw [copy_getD _ 6 k (by omega)]
    exact (normalizeChar_isSome _).2 (g k (by omega))

/-- C19, counterexample: the callsign `" W1XY "`, the locator `"jo61"` and
1000 mW are accepted, although the first locator character is not in
`'A'..'R'`. -/
theorem is_valid_lowercase_locator :
    is_valid [32, 87, 49, 88, 89, 32] [106, 111, 54, 49] 1000 = 1 ∧
    ¬ (65 ≤ [106, 111, 54, 49].getD 0 0 ∧ [106, 111, 54, 49].getD 0 0 ≤ 82) := by
  decide

/-- The locator `"ZZ00"` is accepted as well: the check of lines 57-58 admits
every letter, not only `'A'..'R'`. -/
theorem is_valid_locator_past_R :
    is_valid [32, 87, 49, 88, 89, 32] [90, 90, 48, 48] 1000 = 1 := by
  decide

/-- C19, amended: for a locator whose first two characters are outside
`'S'..'Z'` and `'s'..'z'`, `encodeMessage` returns 1 exactly when all six
callsign characters are in `A-Z`, `a-z`, `0-9` or space, the third callsign
character is a digit, the first two locator characters are each in `'A'..'R'`
or `'a'..'r'`, the last two locator characters are digits and
`1 <= power <= 1000000`; otherwise it returns 0. -/
theorem is_valid_iff (call locator : List Nat) (power : Nat)
    (h0 : ¬ (83 ≤ locator.getD 0 0 ∧ locator.getD 0 0 ≤ 90) ∧
      ¬ (115 ≤ locator.getD 0 0 ∧ locator.getD 0 0 ≤ 122))
    (h1 : ¬ (83 ≤ locator.getD 1 0 ∧ locator.getD 1 0 ≤ 90) ∧
      ¬ (115 ≤ locator.getD 1 0 ∧ locator.getD 1 0 ≤ 122)) :
    (is_valid call locator power = 1 ↔
      (∀ k, k < 6 → ((65 ≤ call.getD k 0 ∧ call.getD k 0 ≤ 90) ∨
        (97 ≤ call.getD k 0 ∧ call.getD k 0 ≤ 122) ∨
        (48 ≤ call.getD k 0 ∧ call.getD k 0 ≤ 57) ∨ call.getD k 0 = 32)) ∧
      (48 ≤ call.getD 2 0 ∧ call.getD 2 0 ≤ 57) ∧
      (∀ k, k < 2 → ((65 ≤ locator.getD k 0 ∧ locator.getD k 0 ≤ 82) ∨
        (97 ≤ locator.getD k 0 ∧ locator.getD k 0 ≤ 114))) ∧
      (∀ k, 2 ≤ k → k < 4 → (48 ≤ locator.getD k 0 ∧ locator.getD k 0 ≤ 57)) ∧
      1 ≤ power ∧ power ≤ 1000000) ∧
    (is_valid call locator power ≠ 1 → is_valid call locator power = 0) := by
  obtain ⟨hb, hiff⟩ := is_valid_eq_one call locator power
  refine ⟨?_, fun h => by omega⟩
  rw [hiff]
  constructor
  · rintro ⟨g0, g1, g2, g3, g4, g5⟩
    refine ⟨fun k hk => ?_, g1, fun k hk => ?_, g3, g4, g5⟩
    · rcases g0 k hk with h | h | h | h
      · exact Or.inr (Or.inr (Or.inr h))
      · exact Or.inr (Or.inr (Or.inl h))
      · exact Or.inl h
      · exact Or.inr (Or.inl h)
    · have hk' : k = 0 ∨ k = 1 := by omega
      have := g2 k hk
      rcases hk' with rfl | rfl <;> omega
  · rintro ⟨g0, g1, g2, g3, g4, g5⟩
    refine ⟨fun k hk => ?_, g1, fun k hk => ?_, g3, g4, g5⟩
    · rcases g0 k hk with h | h | h | h
      · exact Or.inr (Or.inr (Or.inl h))
      · exact Or.inr (Or.inr (Or.inr h))
      · exact Or.inr (Or.inl h)
      · exact Or.inl h
    · have := g2 k hk
      omega

/-- C19, amended, at a concrete input: the callsign `" W1XY "`, the locator
`"JO61"` and 1000 mW are accepted. -/
theorem is_valid_iff_witness :
    ((¬ (83 ≤ [74, 79, 54, 49].getD 0 0 ∧ [74, 79, 54, 49].getD 0 0 ≤ 90) ∧
        ¬ (115 ≤ [74, 79, 54, 49].getD 0 0 ∧ [74, 79, 54, 49].getD 0 0 ≤ 122)) ∧
      (¬ (83 ≤ [74, 79, 54, 49].getD 1 0 ∧ [74, 79, 54, 49].getD 1 0 ≤ 90) ∧
        ¬ (115 ≤ [74, 79, 54, 49].getD 1 0 ∧ [74, 79, 54, 49].getD 1 0 ≤ 122))) ∧
    is_valid [32, 87, 49, 88, 89, 32] [74, 79, 54, 49] 1000 = 1 :=
  ⟨by decide,
   (is_valid_iff [32, 87, 49, 88, 89, 32] [74, 79, 54, 49] 1000 (by decide) (by decide)).1.2
     (by decide)⟩

/-- C20: for every power level of 1 to 1000000 mW the loop
`while(power < 100000)` ends after `k <= 5` passes (6 units of fuel suffice);
before pass `j + 1` the counter `d` is `50 - 10 * j >= 10`, so `d -= 10` never
wraps; the dBm value `v` that results lies in 0..60 and its last decimal digit
is 0, 3 or 7; and the value for a power level `q >= power` is not smaller. -/
theorem power_to_dBm (power q fuel : Nat) (h1 : 1 ≤ power) (hpq : power ≤ q)
    (h2 : q ≤ 1000000) (hf : 6 ≤ fuel) :
    ∃ k v w, k ≤ 5 ∧
      (∀ j, j ≤ k → powerStep^[j] (power, 50) = (power * 10 ^ j, 50 - 10 * j)) ∧
      (∀ j, j < k → power * 10 ^ j < 100000 ∧ 10 ≤ 50 - 10 * j) ∧
      100000 ≤ power * 10 ^ k ∧
      powerLoop fuel (power, 50) = some (powerStep^[k] (power, 50)) ∧
      dBm fuel power = some v ∧ v ≤ 60 ∧ (v % 10 = 0 ∨ v % 10 = 3 ∨ v % 10 = 7) ∧
      dBm fuel q = some w ∧ v ≤ w := by
  obtain ⟨k, hk, hlo, hhi, hlt, hd⟩ := power_decade power h1 (by omega)
  have hbound : power * 10 ^ k < 4294967296 := by
    rcases hhi with h | ⟨rfl, h⟩
    · omega
    · simpa using h
  have hit := powerStep_iterate power k hk hbound
  obtain ⟨f, rfl⟩ : ∃ f, fuel = f + k + 1 := ⟨fuel - k - 1, by omega⟩
  have hl := powerLoop_decade power k hk hlo hhi f k (le_refl _)
  simp only [Nat.sub_self, pow_zero, Nat.mul_one, Nat.mul_zero, Nat.sub_zero] at hl
  have hdig := dBmDigit_le (power * 10 ^ k)
  refine ⟨k, dBmOf power, dBmOf q, hk, hit, fun j hj => ⟨hlt j hj, by omega⟩, hlo, ?_,
    dBm_eq power _ h1 (by omega) hf, ?_, ?_, dBm_eq q _ (by omega) h2 hf,
    dBmOf_mono power q hpq⟩
  · rw [hl, hit k (le_refl _)]
  · rw [hd]; omega
  · rw [hd]; omega

/-- C20, at concrete inputs: 5 mW and 20 mW. -/
theorem power_to_dBm_witness :
    ((1 : Nat) ≤ 5 ∧ (5 : Nat) ≤ 20 ∧ (20 : Nat) ≤ 1000000 ∧ (6 : Nat) ≤ 6) ∧
    ∃ v w, dBm 6 5 = some v ∧ dBm 6 20 = some w ∧ v ≤ w ∧ v ≤ 60 :=
  ⟨by decide,
   match power_to_dBm 5 20 6 (by decide) (by decide) (by decide) (by decide) with
   | ⟨_, v, w, _, _, _, _, _, hv, h60, _, hw, hvw⟩ => ⟨v, w, hv, hw, hvw, h60⟩⟩

end WSPRClass

/-! ## The receive engine: status transitions, frozen buffer, preamble, debounce -/

namespace DataReceiverClass

theorem resetReception_status (s : DataReceiverClass)
    (h : s.status = 0 ∨ s.status = 1 ∨ s.status = 2 ∨ s.status = 4) :
    (s.status = 1 → (resetReception s).status = 0) ∧
    (s.status ≠ 1 → (resetReception s).status = s.status) := by
  rcases h with h | h | h | h <;> simp [resetReception, h]

theorem bitDone_transition (ms : Nat) (s : DataReceiverClass)
    (h : s.status = 0 ∨ s.status = 1 ∨ s.status = 2 ∨ s.status = 4)
    (hbc : s.byte_counter ≠ 0 → s.status = 1) :
    (bitDone ms s).status = s.status ∨ (s.status = 0 ∧ (bitDone ms s).status = 1) ∨
    (s.status = 1 ∧ (bitDone ms s).status = 4) ∨ (s.status = 1 ∧ (bitDone ms s).status = 0) := by
  obtain ⟨r1, r2⟩ := resetReception_status s h
  have hr : (resetReception s).status = s.status ∨ (s.status = 1 ∧ (resetReception s).status = 0) := by
    by_cases c : s.status = 1
    · exact Or.inr ⟨c, r1 c⟩
    · exact Or.inl (r2 c)
  have h41 : ¬ ((4 : Nat) &&& 1 ≠ 0) := by decide
  unfold bitDone
  by_cases c1 : s.bit_value &&& 0x80 ≠ 0
  · rw [if_pos c1]
    by_cases c2 : s.byte_counter = 0
    · rw [if_pos c2]
      by_cases c3 : s.status = 0
      · rw [if_pos c3]
        cases idLoop s.dataset s.byte_value s.dataset_count 0 with
        | none =>
          rcases hr with hr | hr
          · exact Or.inl hr
          · exact Or.inr (Or.inr (Or.inr hr))
        | some i => exact Or.inr (Or.inl ⟨c3, rfl⟩)
      · rw [if_neg c3]
        rcases hr with hr | hr
        · exact Or.inl hr
        · exact Or.inr (Or.inr (Or.inr hr))
    · rw [if_neg c2]
      have hs1 := hbc c2
      simp only
      split_ifs
      · refine Or.inr (Or.inr (Or.inl ⟨hs1, ?_⟩))
        simp only [resetReception, storeData, if_neg h41]
      · exact Or.inl rfl
  · rw [if_neg c1]
    exact Or.inl rfl

theorem DRisr_transition (us ms : Nat) (s : DataReceiverClass)
    (h : s.status = 0 ∨ s.status = 1 ∨ s.status = 2 ∨ s.status = 4)
    (hbc : s.byte_counter ≠ 0 → s.status = 1) :
    (DRisr us ms s).status = s.status ∨ (s.status = 0 ∧ (DRisr us ms s).status = 1) ∨
    (s.status = 1 ∧ (DRisr us ms s).status = 4) ∨ (s.status = 1 ∧ (DRisr us ms s).status = 0) := by
  obtain ⟨r1, r2⟩ := resetReception_status s h
  have hr : (resetReception s).status = s.status ∨ (s.status = 1 ∧ (resetReception s).status = 0) := by
    by_cases c : s.status = 1
    · exact Or.inr ⟨c, r1 c⟩
    · exact Or.inl (r2 c)
  have hr' : ∀ t : DataReceiverClass, t.status = s.status →
      (resetReception t).status = s.status ∨
        (s.status = 0 ∧ (resetReception t).status = 1) ∨
        (s.status = 1 ∧ (resetReception t).status = 4) ∨
        (s.status = 1 ∧ (resetReception t).status = 0) := by
    intro t ht
    have e : (resetReception t).status = (resetReception s).status := by
      simp only [resetReception, ht]
    rw [e]
    rcases hr with hr | hr
    · exact Or.inl hr
    · exact Or.inr (Or.inr (Or.inr hr))
  have hb : ∀ t : DataReceiverClass, t.status = s.status → t.byte_counter = s.byte_counter →
      (bitDone ms t).status = s.status ∨
        (s.status = 0 ∧ (bitDone ms t).status = 1) ∨
        (s.status = 1 ∧ (bitDone ms t).status = 4) ∨
        (s.status = 1 ∧ (bitDone ms t).status = 0) := by
    intro t ht hc
    have := bitDone_transition ms t (by rw [ht]; exact h) (by rw [ht, hc]; exact hbc)
    rw [ht] at this
    exact this
  rw [DRisr_eq_window]
  split_ifs
  · exact hr' _ rfl
  · unfold edgeInWindow
    simp only
    split_ifs
    all_goals first
      | exact hr' _ rfl
      | exact hb _ rfl rfl
      | exact Or.inl rfl

/-- C23: in every reachable state (a successful init, then edge events and
acknowledgements made while the status is not `Writing`), one edge event, at
any reading of the clocks, leaves the status unchanged or moves it along
`Idle -> Writing` (0 -> 1), `Writing -> DataAvailable` (1 -> 4) or
`Writing -> Idle` (1 -> 0); it yields `Reading` (2) only from `Reading`, and it
leaves `DataAvailable` and `Reading` as they are. -/
theorem DRisr_status_transitions (us ms : Nat) (s : DataReceiverClass) (hreach : Reachable s) :
    ((DRisr us ms s).status = s.status ∨ (s.status = 0 ∧ (DRisr us ms s).status = 1) ∨
      (s.status = 1 ∧ (DRisr us ms s).status = 4) ∨
      (s.status = 1 ∧ (DRisr us ms s).status = 0)) ∧
    ((DRisr us ms s).status = 2 → s.status = 2) ∧
    (s.status = 4 → (DRisr us ms s).status = 4) ∧
    (s.status = 2 → (DRisr us ms s).status = 2) := by
  obtain ⟨-, -, -, a4, a5, -⟩ := reachable_wellFormed s hreach
  have key := DRisr_transition us ms s a4 (fun h => (a5 h).1)
  refine ⟨key, fun h => ?_, fun h => ?_, fun h => ?_⟩ <;> omega

theorem reachable_feedIntervals (ivs : List (Nat × Nat)) : ∀ (s : DataReceiverClass),
    Reachable s → Reachable (feedIntervals ivs s) := by
  induction ivs with
  | nil => intro s h; exact h
  | cons e es ih => intro s h; exact ih _ (Reachable.edge _ e.2 s h)

theorem scenarioAcquiring_reachable : Reachable scenarioAcquiring :=
  reachable_feedIntervals _ _ scenarioRx_reachable

set_option maxRecDepth 100000 in
/-- C23, at the scenario: the nineteenth edge of the frame, which completes the
identifier byte, moves the status from `Idle` to `Writing`. -/
theorem DRisr_status_transitions_witness :
    (Reachable scenarioAcquiring ∧ scenarioAcquiring.status = 0) ∧
    (DRisr 142784 1000 scenarioAcquiring).status = 1 ∧
    ((DRisr 142784 1000 scenarioAcquiring).status = scenarioAcquiring.status ∨
      (scenarioAcquiring.status = 0 ∧ (DRisr 142784 1000 scenarioAcquiring).status = 1) ∨
      (scenarioAcquiring.status = 1 ∧ (DRisr 142784 1000 scenarioAcquiring).status = 4) ∨
      (scenarioAcquiring.status = 1 ∧ (DRisr 142784 1000 scenarioAcquiring).status = 0)) :=
  ⟨⟨scenarioAcquiring_reachable, by decide⟩, by decide,
   (DRisr_status_transitions 142784 1000 scenarioAcquiring scenarioAcquiring_reachable).1⟩

theorem DRisr_frozen (us ms : Nat) (s : DataReceiverClass) (hbc : s.byte_counter = 0)
    (hst : s.status = 4 ∨ s.status = 2) :
    (DRisr us ms s).data_array = s.data_array ∧ (DRisr us ms s).pos = s.pos ∧
    (DRisr us ms s).timestamp = s.timestamp ∧ (DRisr us ms s).status = s.status ∧
    (DRisr us ms s).byte_counter = 0 := by
  have hreset : ∀ t : DataReceiverClass, t.status = s.status →
      (resetReception t).status = s.status := by
    intro t ht
    rcases hst with h | h <;> simp [resetReception, ht, h]
  have h0 : ¬ s.status = 0 := by omega
  have hb : ∀ t : DataReceiverClass, t.status = s.status → t.byte_counter = 0 →
      (bitDone ms t).data_array = t.data_array ∧ (bitDone ms t).pos = t.pos ∧
      (bitDone ms t).timestamp = t.timestamp ∧ (bitDone ms t).status = s.status ∧
      (bitDone ms t).byte_counter = 0 := by
    intro t ht hc
    have ht0 : ¬ t.status = 0 := by rw [ht]; exact h0
    unfold bitDone
    by_cases c1 : t.bit_value &&& 0x80 ≠ 0
    · rw [if_pos c1, if_pos hc, if_neg ht0]
      exact ⟨rfl, rfl, rfl, hreset t ht, rfl⟩
    · rw [if_neg c1]
      exact ⟨rfl, rfl, rfl, ht, hc⟩
  rw [DRisr_eq_window]
  split_ifs
  · exact ⟨rfl, rfl, rfl, hreset _ rfl, rfl⟩
  · unfold edgeInWindow
    simp only
    split_ifs
    all_goals first
      | exact ⟨rfl, rfl, rfl, hreset _ rfl, rfl⟩
      | exact hb _ rfl hbc
      | exact ⟨rfl, rfl, rfl, rfl, hbc⟩

theorem feedEdges_frozen (evs : List (Nat × Nat)) : ∀ (s : DataReceiverClass),
    s.byte_counter = 0 → (s.status = 4 ∨ s.status = 2) →
    (feedEdges evs s).data_array = s.data_array ∧ (feedEdges evs s).pos = s.pos ∧
    (feedEdges evs s).timestamp = s.timestamp ∧ (feedEdges evs s).status = s.status := by
  induction evs with
  | nil => intro s _ _; exact ⟨rfl, rfl, rfl, rfl⟩
  | cons e es ih =>
    intro s hbc hst
    obtain ⟨a, b, c, d, f⟩ := DRisr_frozen e.1 e.2 s hbc hst
    obtain ⟨a', b', c', d'⟩ := ih (DRisr e.1 e.2 s) f (by rw [d]; exact hst)
    exact ⟨a'.trans a, b'.trans b, c'.trans c, d'.trans d⟩

/-- C24: in every reachable state with status `DataAvailable` (4) or
`Reading` (2), every edge event and every sequence of edge events, at any
readings of the clocks (the edges of a complete valid frame for a registered
identifier among them), leaves the receive buffer, the bound index `pos`, the
timestamp and the status unchanged. -/
theorem buffer_frozen (s : DataReceiverClass) (hreach : Reachable s)
    (hst : s.status = 4 ∨ s.status = 2) :
    (∀ us ms : Nat, (DRisr us ms s).data_array = s.data_array ∧ (DRisr us ms s).pos = s.pos ∧
      (DRisr us ms s).timestamp = s.timestamp ∧ (DRisr us ms s).status = s.status) ∧
    (∀ evs : List (Nat × Nat), (feedEdges evs s).data_array = s.data_array ∧
      (feedEdges evs s).pos = s.pos ∧ (feedEdges evs s).timestamp = s.timestamp ∧
      (feedEdges evs s).status = s.status) := by
  obtain ⟨-, -, -, -, a5, -⟩ := reachable_wellFormed s hreach
  have hbc : s.byte_counter = 0 := by
    by_contra hc
    have := (a5 hc).1
    omega
  refine ⟨fun us ms => ?_, fun evs => feedEdges_frozen evs s hbc hst⟩
  obtain ⟨a, b, c, d, -⟩ := DRisr_frozen us ms s hbc hst
  exact ⟨a, b, c, d⟩

set_option maxRecDepth 100000 in
/-- C24, at the scenario: with the delivered frame undrained, the edges of the
same frame sent once more leave buffer, `pos` and timestamp as they are. -/
theorem buffer_frozen_witness :
    (Reachable scenarioDelivered ∧ scenarioDelivered.status = 4) ∧
    (feedEdges
        (edgeEvents (linkClock (tickMicros 10) 1000000 (fun _ => 5000)) 0 0
          (DataTransmitterClass.levels 104
            (DataTransmitterClass.transmitData crc8Maxim scenarioTx scenarioDset).1))
        scenarioDelivered).data_array = scenarioDelivered.data_array ∧
    (feedEdges
        (edgeEvents (linkClock (tickMicros 10) 1000000 (fun _ => 5000)) 0 0
          (DataTransmitterClass.levels 104
            (DataTransmitterClass.transmitData crc8Maxim scenarioTx scenarioDset).1))
        scenarioDelivered).timestamp = scenarioDelivered.timestamp :=
  have h := (buffer_frozen scenarioDelivered scenarioDelivered_reachable (Or.inl (by decide))).2
    (edgeEvents (linkClock (tickMicros 10) 1000000 (fun _ => 5000)) 0 0
      (DataTransmitterClass.levels 104
        (DataTransmitterClass.transmitData crc8Maxim scenarioTx scenarioDset).1))
  ⟨⟨scenarioDelivered_reachable, by decide⟩, h.1, h.2.2.1⟩

theorem bitDone_skip (ms : Nat) (s : DataReceiverClass) (h : s.skip_next_short = 1) :
    (bitDone ms s).skip_next_short = 1 := by
  unfold bitDone
  by_cases c1 : s.bit_value &&& 0x80 ≠ 0
  · rw [if_pos c1]
    by_cases c2 : s.byte_counter = 0
    · rw [if_pos c2]
      by_cases c3 : s.status = 0
      · rw [if_pos c3]
        cases idLoop s.dataset s.byte_value s.dataset_count 0 with
        | none => rfl
        | some i => exact h
      · rw [if_neg c3]
        rfl
    · rw [if_neg c2]
      simp only
      split_ifs
      · rfl
      · exact h
  · rw [if_neg c1]
    exact h

/-- C29: at an edge inside the window (`T1 <= dt <= T3`) that carries
information (`dt > T2` or the debounce flag clear) while the preamble counter is
0: a long interval (`dt > T2`) resets the decoder, the counter stays 0, a
`Writing` status becomes `Idle` and any other status is kept; a normal interval
(`dt <= T2`) sets the preamble counter to 1 and the debounce flag and changes
nothing else but the time of the last edge. -/
theorem DRisr_preamble (us ms : Nat) (s : DataReceiverClass)
    (h1 : s.T1 ≤ sub32 us s.msl) (h3 : sub32 us s.msl ≤ s.T3)
    (hinfo : s.T2 < sub32 us s.msl ∨ s.skip_next_short = 0) (hint : s.int_counter = 0) :
    (s.T2 < sub32 us s.msl →
      DRisr us ms s = resetReception { s with msl := us, skip_next_short := 1 } ∧
      (DRisr us ms s).int_counter = 0 ∧ (DRisr us ms s).byte_counter = 0 ∧
      (DRisr us ms s).bit_value = 1 ∧ (DRisr us ms s).byte_value = 0 ∧
      (DRisr us ms s).prev_bit = 1 ∧ (DRisr us ms s).skip_next_short = 1 ∧
      (DRisr us ms s).data_array = s.data_array ∧
      (s.status = 1 → (DRisr us ms s).status = 0) ∧
      (s.status = 0 ∨ s.status = 2 ∨ s.status = 4 → (DRisr us ms s).status = s.status)) ∧
    (sub32 us s.msl ≤ s.T2 →
      DRisr us ms s = { s with msl := us, skip_next_short := 1, int_counter := 1 }) := by
  have c1 : ¬ (sub32 us s.msl < s.T1 ∨ sub32 us s.msl > s.T3) := by omega
  have c2 : sub32 us s.msl > s.T2 ∨ s.skip_next_short = 0 := hinfo
  have c3 : ¬ s.int_counter ≠ 0 := fun h => h hint
  have e : DRisr us ms s =
      if sub32 us s.msl > s.T2 then resetReception { s with msl := us, skip_next_short := 1 }
      else { s with msl := us, skip_next_short := 1, int_counter := (s.int_counter + 1) % 256 } := by
    rw [DRisr_eq_window, if_neg c1]
    unfold edgeInWindow
    simp only
    rw [if_pos c2, if_neg c3]
  refine ⟨fun hl => ?_, fun hn => ?_⟩
  · have hl' : sub32 us s.msl > s.T2 := hl
    rw [e, if_pos hl']
    refine ⟨rfl, rfl, rfl, rfl, rfl, rfl, rfl, rfl, fun hs => ?_, fun hs => ?_⟩
    · simp [resetReception, hs]
    · rcases hs with hs | hs | hs <;> simp [resetReception, hs]
  · have hn' : ¬ sub32 us s.msl > s.T2 := by omega
    rw [e, if_neg hn', hint]

set_option maxRecDepth 100000 in
/-- C29, at the scenario: the fourth edge of the frame comes one tick after
the third, with the preamble counter 0 and the debounce flag clear: the counter
becomes 1 and the flag is set. -/
theorem DRisr_preamble_witness :
    (scenarioPreamble.T1 ≤ sub32 43456 scenarioPreamble.msl ∧
      sub32 43456 scenarioPreamble.msl ≤ scenarioPreamble.T3 ∧
      scenarioPreamble.skip_next_short = 0 ∧ scenarioPreamble.int_counter = 0 ∧
      sub32 43456 scenarioPreamble.msl ≤ scenarioPreamble.T2) ∧
    DRisr 43456 0 scenarioPreamble
      = { scenarioPreamble with msl := 43456, skip_next_short := 1, int_counter := 1 } :=
  ⟨by decide,
   (DRisr_preamble 43456 0 scenarioPreamble (by decide) (by decide) (Or.inr (by decide))
      (by decide)).2 (by decide)⟩

/-- C30: at an edge inside the window (`T1 <= dt <= T3`): when `dt > T2` or
the debounce flag is clear, the data action (after the preamble) or the preamble
action is taken and the debounce flag is set afterwards; otherwise the only
changes are the debounce flag, which is cleared, and the time of the last edge;
so the flag is set after the edge exactly when an action was taken. -/
theorem DRisr_debounce (us ms : Nat) (s : DataReceiverClass)
    (h1 : s.T1 ≤ sub32 us s.msl) (h3 : sub32 us s.msl ≤ s.T3) :
    ((s.T2 < sub32 us s.msl ∨ s.skip_next_short = 0) →
      (DRisr us ms s).skip_next_short = 1 ∧
      DRisr us ms s =
        if s.int_counter ≠ 0 then
          bitDone ms
            { s with msl := us
                     skip_next_short := 1
                     prev_bit := if sub32 us s.msl > s.T2 then lnot s.prev_bit else s.prev_bit
                     byte_value := assembledByte (sub32 us s.msl) s }
        else if sub32 us s.msl > s.T2 then
          resetReception { s with msl := us, skip_next_short := 1 }
        else { s with msl := us, skip_next_short := 1, int_counter := (s.int_counter + 1) % 256 }) ∧
    (¬ (s.T2 < sub32 us s.msl ∨ s.skip_next_short = 0) →
      DRisr us ms s = { s with msl := us, skip_next_short := 0 }) ∧
    ((DRisr us ms s).skip_next_short = 1 ↔ (s.T2 < sub32 us s.msl ∨ s.skip_next_short = 0)) := by
  have c1 : ¬ (sub32 us s.msl < s.T1 ∨ sub32 us s.msl > s.T3) := by omega
  have hA : (s.T2 < sub32 us s.msl ∨ s.skip_next_short = 0) →
      (DRisr us ms s).skip_next_short = 1 ∧
      DRisr us ms s =
        if s.int_counter ≠ 0 then
          bitDone ms
            { s with msl := us
                     skip_next_short := 1
                     prev_bit := if sub32 us s.msl > s.T2 then lnot s.prev_bit else s.prev_bit
                     byte_value := assembledByte (sub32 us s.msl) s }
        else if sub32 us s.msl > s.T2 then
          resetReception { s with msl := us, skip_next_short := 1 }
        else { s with msl := us, skip_next_short := 1, int_counter := (s.int_counter + 1) % 256 } := by
    intro hinfo
    by_cases c3 : s.int_counter ≠ 0
    · have e := DRisr_data_edge us ms s h1 h3 hinfo c3
      rw [if_pos c3]
      refine ⟨?_, e⟩
      rw [e]
      exact bitDone_skip _ _ rfl
    · have c2 : sub32 us s.msl > s.T2 ∨ s.skip_next_short = 0 := hinfo
      have e : DRisr us ms s =
          if sub32 us s.msl > s.T2 then resetReception { s with msl := us, skip_next_short := 1 }
          else { s with msl := us, skip_next_short := 1,
                        int_counter := (s.int_counter + 1) % 256 } := by
        rw [DRisr_eq_window, if_neg c1]
        unfold edgeInWindow
        simp only
        rw [if_pos c2, if_neg c3]
      rw [if_neg c3]
      refine ⟨?_, e⟩
      rw [e]
      split_ifs <;> rfl
  have hB : ¬ (s.T2 < sub32 us s.msl ∨ s.skip_next_short = 0) →
      DRisr us ms s = { s with msl := us, skip_next_short := 0 } := by
    intro hn
    have c2 : ¬ (sub32 us s.msl > s.T2 ∨ s.skip_next_short = 0) := hn
    rw [DRisr_eq_window, if_neg c1]
    unfold edgeInWindow
    simp only
    rw [if_neg c2]
  refine ⟨hA, hB, ⟨fun h => ?_, fun h => (hA h).1⟩⟩
  by_contra hn
  rw [hB hn] at h
  exact absurd h Nat.zero_ne_one

set_option maxRecDepth 100000 in
/-- C30, at the scenario: in the middle of the frame the debounce flag is set;
an edge one tick after the last one only clears it. -/
theorem DRisr_debounce_witness :
    (scenarioWriting.T1 ≤ sub32 235904 scenarioWriting.msl ∧
      sub32 235904 scenarioWriting.msl ≤ scenarioWriting.T3 ∧
      ¬ (scenarioWriting.T2 < sub32 235904 scenarioWriting.msl ∨
        scenarioWriting.skip_next_short = 0)) ∧
    DRisr 235904 0 scenarioWriting
      = { scenarioWriting with msl := 235904, skip_next_short := 0 } :=
  ⟨by decide,
   (DRisr_debounce 235904 0 scenarioWriting (by decide) (by decide)).2.1 (by decide)⟩

end DataReceiverClass

/-! ## The line code: DC balance, preamble, end of session, timer setup -/

theorem lnot_add_self (x : Nat) (h : x < 2) : x + lnot x = 1 := by
  have : x = 0 ∨ x = 1 := by omega
  rcases this with rfl | rfl <;> decide

theorem lineLevel_lt_two (p lvl b : Nat) : lineLevel p lvl b < 2 := lnot_lt_two _

theorem lineLevel_manchester (p b : Nat) (hp : p < 2) (hb : b < 2) :
    lineLevel p (lnot p) b = b := by
  have h1 : p = 0 ∨ p = 1 := by omega
  have h2 : b = 0 ∨ b = 1 := by omega
  rcases h1 with rfl | rfl <;> rcases h2 with rfl | rfl <;> decide

theorem lineCode_pairs (l : List Nat) : ∀ (p lvl m : Nat), m < l.length →
    (lineCode p lvl l).getD (2 * m) 0 < 2 ∧
    (lineCode p lvl l).getD (2 * m + 1) 0 = lnot ((lineCode p lvl l).getD (2 * m) 0) := by
  induction l with
  | nil => intro p lvl m hm; simp at hm
  | cons b bs ih =>
    intro p lvl m hm
    cases m with
    | zero => exact ⟨lineLevel_lt_two _ _ _, rfl⟩
    | succ m =>
      have e1 : 2 * (m + 1) = (2 * m) + 1 + 1 := by omega
      rw [e1]
      simp only [lineCode, List.getD_cons_succ]
      exact ih b _ m (by simpa using hm)

theorem lineCode_manchester (l : List Nat) (hl : ∀ b ∈ l, b < 2) : ∀ (p m : Nat), p < 2 →
    m < l.length → (lineCode p (lnot p) l).getD (2 * m) 0 = l.getD m 0 := by
  induction l with
  | nil => intro p m _ hm; simp at hm
  | cons b bs ih =>
    intro p m hp hm
    have hb := hl b (List.mem_cons_self _ _)
    have e := lineLevel_manchester p b hp hb
    cases m with
    | zero =>
      simp only [lineCode, Nat.mul_zero, List.getD_cons_zero]
      exact e
    | succ m =>
      have e1 : 2 * (m + 1) = (2 * m) + 1 + 1 := by omega
      rw [e1]
      simp only [lineCode, List.getD_cons_succ, e]
      exact ih (fun c hc => hl c (List.mem_cons_of_mem _ hc)) b m hb (by simpa using hm)

theorem lineEnd_manchester (l : List Nat) (hl : ∀ b ∈ l, b < 2) : ∀ (p : Nat), p < 2 →
    (lineEnd p (lnot p) l).1 < 2 ∧ (lineEnd p (lnot p) l).2 = lnot (lineEnd p (lnot p) l).1 := by
  induction l with
  | nil => intro p hp; exact ⟨hp, rfl⟩
  | cons b bs ih =>
    intro p hp
    have hb := hl b (List.mem_cons_self _ _)
    simp only [lineEnd, lineLevel_manchester p b hp hb]
    exact ih (fun c hc => hl c (List.mem_cons_of_mem _ hc)) b hb

namespace DataTransmitterClass

theorem levels_getD (n : Nat) : ∀ (s : DataTransmitterClass) (k : Nat), k < n →
    (levels n s).getD k 0 = (ticks (k + 1) s).pin_level := by
  induction n with
  | zero => intro s k hk; omega
  | succ n ih =>
    intro s k hk
    cases k with
    | zero => rfl
    | succ k =>
      simp only [levels, List.getD_cons_succ]
      rw [ih (timerTick s) k (by omega)]
      rfl

theorem symbols_getD_prefix (a b : List Nat) (m : Nat) (h : m < a.length) :
    (a ++ b).getD m 0 = a.getD m 0 := by
  simp only [List.getD_eq_getElem?_getD]
  rw [List.getElem?_append_left h]

end DataTransmitterClass

namespace DataTransmitterClass

theorem getD_mid (a x y : List Nat) (i : Nat) (h : i < x.length) :
    (a ++ x ++ y).getD (a.length + i) 0 = x.getD i 0 := by
  simp only [List.getD_eq_getElem?_getD]
  rw [List.append_assoc, List.getElem?_append_right (by omega), Nat.add_sub_cancel_left,
    List.getElem?_append_left h]

theorem getD_tail (a x y : List Nat) (i : Nat) :
    (a ++ x ++ y).getD (a.length + x.length + i) 0 = y.getD i 0 := by
  simp only [List.getD_eq_getElem?_getD]
  rw [List.getElem?_append_right (by simp), List.length_append, Nat.add_sub_cancel_left]

theorem session_levels (s : DataTransmitterClass) (hrun : s.TCCR2B ≠ 0) (h1 : s.step = 1)
    (hpv : s.pin_value = 1) (hps : s.prev_symbol = 0) (hblk : s.block_size = 39)
    (hbc : s.byte_counter = 0) (hsz1 : 1 ≤ s.bytes) (hsz : s.bytes ≤ 255)
    (hlen : s.bytes ≤ s.data.length) :
    (∀ m, m < 18 + 8 * s.bytes →
      (ticks (4 + 2 * m) s).pin_level
        = (bitsLSB 18 s.curr_byte ++ bytesBits (s.data.take s.bytes)).getD m 0 ∧
      (ticks (4 + 2 * m) s).pin_level < 2 ∧
      (ticks (4 + 2 * m + 1) s).pin_level = lnot (ticks (4 + 2 * m) s).pin_level) ∧
    (∀ r, (ticks (40 + 16 * s.bytes + r) s).pin_level = 0) := by
  have hB : ∀ b ∈ bitsLSB 18 s.curr_byte ++ bytesBits (s.data.take s.bytes), b < 2 := by
    intro b hb
    rcases List.mem_append.1 hb with h | h
    · exact bitsLSB_lt _ _ b h
    · exact bytesBits_lt _ b h
  have hBlen : (bitsLSB 18 s.curr_byte ++ bytesBits (s.data.take s.bytes)).length
      = 18 + 8 * s.bytes := by
    rw [List.length_append, bitsLSB_length, bytesBits_length, List.length_take]
    omega
  have h01 : (1 : Nat) = lnot 0 := rfl
  refine ⟨fun m hm => ?_, fun r => ?_⟩
  · obtain ⟨-, -, q, -⟩ := session_run s hrun h1 hpv hps hblk hbc hsz1 hsz hlen 0
    generalize bitsLSB 18 s.curr_byte ++ bytesBits (s.data.take s.bytes) = B at hB hBlen q ⊢
    have hclen : (lineCode 0 1 B).length = 2 * B.length := lineCode_length _ _ _
    have k1 := levels_getD (40 + 16 * s.bytes + 0) s (3 + 2 * m) (by omega)
    have k2 := levels_getD (40 + 16 * s.bytes + 0) s (3 + (2 * m + 1)) (by omega)
    rw [q] at k1 k2
    have g1 := getD_mid [1, 1, 1] (lineCode 0 1 B) (List.replicate (0 + 1)
      (lineLevel (lineEnd 0 1 B).1 (lineEnd 0 1 B).2 0)) (2 * m) (by omega)
    have g2 := getD_mid [1, 1, 1] (lineCode 0 1 B) (List.replicate (0 + 1)
      (lineLevel (lineEnd 0 1 B).1 (lineEnd 0 1 B).2 0)) (2 * m + 1) (by omega)
    simp only [List.length_cons, List.length_nil] at g1 g2
    rw [g1] at k1
    rw [g2] at k2
    obtain ⟨p1, p2⟩ := lineCode_pairs B 0 1 m (by omega)
    have p3 : (lineCode 0 1 B).getD (2 * m) 0 = B.getD m 0 := by
      have := lineCode_manchester B hB 0 m (by decide) (by omega)
      rw [← h01] at this
      exact this
    have e1 : 4 + 2 * m = 3 + 2 * m + 1 := by omega
    have e2 : 3 + 2 * m + 1 + 1 = 3 + (2 * m + 1) + 1 := by omega
    rw [e1, e2, ← k1, ← k2]
    exact ⟨p3, p1, p2⟩
  · obtain ⟨-, -, q, -⟩ := session_run s hrun h1 hpv hps hblk hbc hsz1 hsz hlen r
    generalize bitsLSB 18 s.curr_byte ++ bytesBits (s.data.take s.bytes) = B at hB hBlen q ⊢
    have hclen : (lineCode 0 1 B).length = 2 * B.length := lineCode_length _ _ _
    obtain ⟨z1, z2⟩ := lineEnd_manchester B hB 0 (by decide)
    rw [← h01] at z1 z2
    have hF : lineLevel (lineEnd 0 1 B).1 (lineEnd 0 1 B).2 0 = 0 := by
      rw [z2]
      exact lineLevel_manchester _ 0 z1 (by decide)
    cases r with
    | zero =>
      have k1 := levels_getD (40 + 16 * s.bytes + 0) s (39 + 16 * s.bytes) (by omega)
      rw [q] at k1
      have g := getD_tail [1, 1, 1] (lineCode 0 1 B) (List.replicate (0 + 1)
        (lineLevel (lineEnd 0 1 B).1 (lineEnd 0 1 B).2 0)) 0
      have e : [1, 1, 1].length + (lineCode 0 1 B).length + 0 = 39 + 16 * s.bytes := by
        rw [hclen, hBlen]; simp; omega
      rw [e] at g
      rw [g, hF] at k1
      rw [show 40 + 16 * s.bytes + 0 = 39 + 16 * s.bytes + 1 by omega, ← k1]
      rfl
    | succ r =>
      have k1 := levels_getD (40 + 16 * s.bytes + (r + 1)) s (39 + 16 * s.bytes + (r + 1))
        (by omega)
      rw [q] at k1
      have g := getD_tail [1, 1, 1] (lineCode 0 1 B) (List.replicate (r + 1 + 1)
        (lineLevel (lineEnd 0 1 B).1 (lineEnd 0 1 B).2 0)) (r + 1)
      have e : [1, 1, 1].length + (lineCode 0 1 B).length + (r + 1)
          = 39 + 16 * s.bytes + (r + 1) := by
        rw [hclen, hBlen]; simp; omega
      rw [e] at g
      rw [g, hF] at k1
      rw [show 40 + 16 * s.bytes + (r + 1) = 39 + 16 * s.bytes + (r + 1) + 1 by omega, ← k1]
      simp [List.getD_eq_getElem?_getD, List.getElem?_replicate]

end DataTransmitterClass

namespace DataTransmitterClass

theorem preamble_steps (s : DataTransmitterClass) (hrun : s.TCCR2B ≠ 0) (h1 : s.step = 1)
    (hpv : s.pin_value = 1) :
    (ticks 1 s).step = 2 ∧ (ticks 2 s).step = 3 ∧ (ticks 3 s).step = 4 ∧
    (ticks 1 s).pin_level = 1 ∧ (ticks 2 s).pin_level = 1 ∧ (ticks 3 s).pin_level = 1 := by
  simp [ticks, timerTick, isr, hrun, h1, hpv, lnot]

/-- C25: in every session, for each of the `18 + 8*size` symbols that follow
the preamble (sync, identifier, checksum, payload), the output level after the
mid-symbol tick is the complement of the level after the symbol-start tick, so
the output is high for exactly one of the two half-symbols; the level of the
first half-symbol is the symbol itself.  The trailing idle half-symbol that ends
the session is not a symbol period. -/
theorem dc_balance (crc : Nat → List Nat → Nat) (s : DataTransmitterClass)
    (ID SIZE : Nat) (payload : List Nat) (hidle : s.bytes = 0) (hpre : s.prescaler ≠ 0)
    (hid : ID < 256) (hsize1 : 1 ≤ SIZE) (hsize : SIZE ≤ 255) (hlen : payload.length = SIZE)
    (m : Nat) (hm : m < 18 + 8 * SIZE) :
    (ticks (4 + 2 * m + 1) (transmitData crc s (createDataset payload ID SIZE)).1).pin_level
      = lnot (ticks (4 + 2 * m) (transmitData crc s (createDataset payload ID SIZE)).1).pin_level ∧
    (ticks (4 + 2 * m) (transmitData crc s (createDataset payload ID SIZE)).1).pin_level
      + (ticks (4 + 2 * m + 1) (transmitData crc s (createDataset payload ID SIZE)).1).pin_level
      = 1 ∧
    (ticks (4 + 2 * m) (transmitData crc s (createDataset payload ID SIZE)).1).pin_level
      = (symbols (40 + 16 * SIZE) (transmitData crc s (createDataset payload ID SIZE)).1).getD
          m 0 := by
  subst hlen
  have e := transmitData_started crc s (createDataset payload ID payload.length) hidle hsize1 hid
  simp only [createDataset] at e ⊢
  generalize (transmitData crc s ⟨payload, ID, payload.length⟩).1 = st at e
  have hb : st.bytes = payload.length := by rw [e]
  obtain ⟨a, -⟩ := session_levels st (by rw [e]; exact hpre) (by rw [e]) (by rw [e])
    (by rw [e]) (by rw [e]) (by rw [e]) (by rw [hb]; exact hsize1) (by rw [hb]; exact hsize)
    (by rw [e])
  obtain ⟨-, -, -, q⟩ := session_run st (by rw [e]; exact hpre) (by rw [e]) (by rw [e])
    (by rw [e]) (by rw [e]) (by rw [e]) (by rw [hb]; exact hsize1) (by rw [hb]; exact hsize)
    (by rw [e]) 0
  rw [hb] at a q
  obtain ⟨a1, a2, a3⟩ := a m hm
  have hBlen : (bitsLSB 18 st.curr_byte ++ bytesBits (st.data.take payload.length)).length
      = 18 + 8 * payload.length := by
    rw [List.length_append, bitsLSB_length, bytesBits_length, List.length_take]
    have : payload.length ≤ st.data.length := by rw [e]
    omega
  refine ⟨a3, ?_, ?_⟩
  · rw [a3]
    exact lnot_add_self _ a2
  · rw [Nat.add_zero] at q
    rw [q, symbols_getD_prefix _ _ m (by omega)]
    exact a1

set_option maxRecDepth 100000 in
/-- C25, at the scenario: the sixth symbol of the frame. -/
theorem dc_balance_witness :
    (scenarioTx.bytes = 0 ∧ scenarioTx.prescaler ≠ 0 ∧ (7 : Nat) < 256 ∧ (1 : Nat) ≤ 4 ∧
      (4 : Nat) ≤ 255 ∧ scenarioPayload.length = 4 ∧ (5 : Nat) < 18 + 8 * 4) ∧
    (ticks (4 + 2 * 5 + 1)
        (transmitData crc8Maxim scenarioTx (createDataset scenarioPayload 7 4)).1).pin_level
      = lnot (ticks (4 + 2 * 5)
          (transmitData crc8Maxim scenarioTx (createDataset scenarioPayload 7 4)).1).pin_level :=
  ⟨by decide,
   (dc_balance crc8Maxim scenarioTx 7 4 scenarioPayload (by decide) (by decide) (by decide)
      (by decide) (by decide) (by decide) 5 (by decide)).1⟩

/-- C27: for every identifier, every size in 1..255 and every payload of that
size, the tick `40 + 16*size` is the one that stops the timer (it is clocked
before that tick and stopped after it), and the level it writes to the pin is
0; the output stays at 0 afterwards. -/
theorem session_end_level (crc : Nat → List Nat → Nat) (s : DataTransmitterClass)
    (ID SIZE : Nat) (payload : List Nat) (hidle : s.bytes = 0) (hpre : s.prescaler ≠ 0)
    (hid : ID < 256) (hsize1 : 1 ≤ SIZE) (hsize : SIZE ≤ 255) (hlen : payload.length = SIZE) :
    (ticks (39 + 16 * SIZE) (transmitData crc s (createDataset payload ID SIZE)).1).TCCR2B ≠ 0 ∧
    (ticks (40 + 16 * SIZE) (transmitData crc s (createDataset payload ID SIZE)).1).TCCR2B = 0 ∧
    (ticks (40 + 16 * SIZE) (transmitData crc s (createDataset payload ID SIZE)).1).pin_level
      = 0 ∧
    ∀ r, (ticks (40 + 16 * SIZE + r)
      (transmitData crc s (createDataset payload ID SIZE)).1).pin_level = 0 := by
  subst hlen
  have hinv := session_invariant crc s (createDataset payload ID payload.length) hidle hpre hid
    hsize1 hsize (39 + 16 * payload.length) (le_refl _)
  have e := transmitData_started crc s (createDataset payload ID payload.length) hidle hsize1 hid
  simp only [createDataset] at e hinv ⊢
  generalize (transmitData crc s ⟨payload, ID, payload.length⟩).1 = st at e hinv
  have hb : st.bytes = payload.length := by rw [e]
  obtain ⟨-, b⟩ := session_levels st (by rw [e]; exact hpre) (by rw [e]) (by rw [e])
    (by rw [e]) (by rw [e]) (by rw [e]) (by rw [hb]; exact hsize1) (by rw [hb]; exact hsize)
    (by rw [e])
  obtain ⟨-, q, -, -⟩ := session_run st (by rw [e]; exact hpre) (by rw [e]) (by rw [e])
    (by rw [e]) (by rw [e]) (by rw [e]) (by rw [hb]; exact hsize1) (by rw [hb]; exact hsize)
    (by rw [e]) 0
  rw [hb] at b q
  exact ⟨hinv.1.1, q, b 0, b⟩

set_option maxRecDepth 100000 in
/-- C27, at the scenario: tick 104 writes the level 0. -/
theorem session_end_level_witness :
    (scenarioTx.bytes = 0 ∧ scenarioTx.prescaler ≠ 0 ∧ (7 : Nat) < 256 ∧ (1 : Nat) ≤ 4 ∧
      (4 : Nat) ≤ 255 ∧ scenarioPayload.length = 4) ∧
    (ticks (40 + 16 * 4)
      (transmitData crc8Maxim scenarioTx (createDataset scenarioPayload 7 4)).1).pin_level = 0 :=
  ⟨by decide,
   (session_end_level crc8Maxim scenarioTx 7 4 scenarioPayload (by decide) (by decide)
      (by decide) (by decide) (by decide) (by decide)).2.2.1⟩

set_option maxRecDepth 100000 in
/-- C26, counterexample: in the session of the scenario the second tick runs
with `step < 4` and does not change the output level: it is 1 after the first,
the second and the third tick. -/
theorem preamble_no_toggle :
    (ticks 1 (transmitData crc8Maxim scenarioTx scenarioDset).1).step < 4 ∧
    (ticks 1 (transmitData crc8Maxim scenarioTx scenarioDset).1).pin_level = 1 ∧
    (ticks 2 (transmitData crc8Maxim scenarioTx scenarioDset).1).pin_level = 1 ∧
    (ticks 2 (transmitData crc8Maxim scenarioTx scenarioDset).1).step < 4 ∧
    (ticks 3 (transmitData crc8Maxim scenarioTx scenarioDset).1).pin_level = 1 := by
  decide

/-- C26, amended: in every session the ticks that run with `step < 4` are the
first three, and the output level is 1 after each of them: the output is driven
high by the first tick and held there, without an edge at the second and the
third tick. -/
theorem preamble_levels (crc : Nat → List Nat → Nat) (s : DataTransmitterClass) (DSET : dset_t)
    (hidle : s.bytes = 0) (hpre : s.prescaler ≠ 0) (hid : DSET.ID < 256)
    (hsize1 : 1 ≤ DSET.SIZE) (hsize : DSET.SIZE ≤ 255) :
    (∀ k, k ≤ 39 + 16 * DSET.SIZE →
      ((ticks k (transmitData crc s DSET).1).step < 4 ↔ k < 3)) ∧
    (∀ k, k < 3 → (ticks (k + 1) (transmitData crc s DSET).1).pin_level = 1) := by
  have hinv := session_invariant crc s DSET hidle hpre hid hsize1 hsize
  have e := transmitData_started crc s DSET hidle hsize1 hid
  generalize (transmitData crc s DSET).1 = st at e hinv
  obtain ⟨s1, s2, s3, l1, l2, l3⟩ := preamble_steps st (by rw [e]; exact hpre) (by rw [e])
    (by rw [e])
  have s0 : (ticks 0 st).step = 1 := by
    show st.step = 1
    rw [e]
  refine ⟨fun k hk => ⟨fun h => ?_, fun h => ?_⟩, fun k hk => ?_⟩
  · have := (hinv k hk).2.2.1
    omega
  · have hk' : k = 0 ∨ k = 1 ∨ k = 2 := by omega
    rcases hk' with rfl | rfl | rfl
    · rw [s0]; decide
    · rw [s1]; decide
    · rw [s2]; decide
  · have hk' : k = 0 ∨ k = 1 ∨ k = 2 := by omega
    rcases hk' with rfl | rfl | rfl
    · exact l1
    · exact l2
    · exact l3

set_option maxRecDepth 100000 in
/-- C26, amended, at the scenario: the level after the second tick is 1. -/
theorem preamble_levels_witness :
    (scenarioTx.bytes = 0 ∧ scenarioTx.prescaler ≠ 0 ∧ scenarioDset.ID < 256 ∧
      1 ≤ scenarioDset.SIZE ∧ scenarioDset.SIZE ≤ 255 ∧ (1 : Nat) < 3) ∧
    (ticks (1 + 1) (transmitData crc8Maxim scenarioTx scenarioDset).1).pin_level = 1 :=
  ⟨by decide,
   (preamble_levels crc8Maxim scenarioTx scenarioDset (by decide) (by decide) (by decide)
      (by decide) (by decide)).2 1 (by decide)⟩

set_option maxRecDepth 100000 in
theorem init_timer_aux :
    ∀ BR, BR < 256 →
      (prescalerLoop 7 0 (1000000 / max BR 4)).isSome = true ∧
      1 ≤ ((prescalerLoop 7 0 (1000000 / max BR 4)).getD (0, 0)).1 ∧
      ((prescalerLoop 7 0 (1000000 / max BR 4)).getD (0, 0)).1 ≤ 7 ∧
      1 ≤ ((prescalerLoop 7 0 (1000000 / max BR 4)).getD (0, 0)).2 ∧
      ((prescalerLoop 7 0 (1000000 / max BR 4)).getD (0, 0)).2 ≤ 256 ∧
      2 ^ (PRE.take ((prescalerLoop 7 0 (1000000 / max BR 4)).getD (0, 0)).1).sum
        = timer2Divisor ((prescalerLoop 7 0 (1000000 / max BR 4)).getD (0, 0)).1 ∧
      ((prescalerLoop 7 0 (1000000 / max BR 4)).getD (0, 0)).2
          * timer2Divisor ((prescalerLoop 7 0 (1000000 / max BR 4)).getD (0, 0)).1
        ≤ 1000000 / max BR 4 ∧
      1000000 / max BR 4
        < ((prescalerLoop 7 0 (1000000 / max BR 4)).getD (0, 0)).2
            * timer2Divisor ((prescalerLoop 7 0 (1000000 / max BR 4)).getD (0, 0)).1
          + timer2Divisor ((prescalerLoop 7 0 (1000000 / max BR 4)).getD (0, 0)).1 := by
  decide

/-- C28: for every `BYTE_RATE` in 0..255 (a value below 4 counts as 4), with
`M = 1000000 / max(BYTE_RATE, 4)`: the prescaler loop of `init` ends within 7
passes, so it reads the entries 0..6 of `PRE` only; the prescaler code `i` is in
1..7 and the divisor `N` accumulated from the entries read, `2` to the sum of
`PRE[0..i)`, is the Timer-2 divisor of that code; the final `multiplier` is
`M / N`, in 1..256, so `OCR2A = multiplier - 1` is in 0..255; and the tick
period `P = (OCR2A + 1) * N` satisfies `P <= M < P + N`. -/
theorem init_timer (BYTE_RATE TRANSMITTER_PIN IS_LOW_ACTIVE : Nat) (s : DataTransmitterClass)
    (hbr : BYTE_RATE < 256) :
    ∃ i m, prescalerLoop 7 0 (1000000 / max BYTE_RATE 4) = some (i, m) ∧
      1 ≤ i ∧ i ≤ 7 ∧ 1 ≤ m ∧ m ≤ 256 ∧
      2 ^ (PRE.take i).sum = timer2Divisor i ∧
      m = 1000000 / max BYTE_RATE 4 / timer2Divisor i ∧
      (init BYTE_RATE TRANSMITTER_PIN IS_LOW_ACTIVE s).prescaler = i ∧
      (init BYTE_RATE TRANSMITTER_PIN IS_LOW_ACTIVE s).OCR2A = m - 1 ∧
      (init BYTE_RATE TRANSMITTER_PIN IS_LOW_ACTIVE s).OCR2A ≤ 255 ∧
      ((init BYTE_RATE TRANSMITTER_PIN IS_LOW_ACTIVE s).OCR2A + 1) * timer2Divisor i
        ≤ 1000000 / max BYTE_RATE 4 ∧
      1000000 / max BYTE_RATE 4
        < ((init BYTE_RATE TRANSMITTER_PIN IS_LOW_ACTIVE s).OCR2A + 1) * timer2Divisor i
          + timer2Divisor i := by
  obtain ⟨h0, h1, h2, h3, h4, h5, h6, h7⟩ := init_timer_aux BYTE_RATE hbr
  have hp : (init BYTE_RATE TRANSMITTER_PIN IS_LOW_ACTIVE s).prescaler
      = ((prescalerLoop 7 0 (1000000 / max BYTE_RATE 4)).getD (0, 0)).1 := rfl
  have ho : (init BYTE_RATE TRANSMITTER_PIN IS_LOW_ACTIVE s).OCR2A
      = sub32 ((prescalerLoop 7 0 (1000000 / max BYTE_RATE 4)).getD (0, 0)).2 1 % 256 := rfl
  rw [hp, ho]
  generalize hM : 1000000 / max BYTE_RATE 4 = M at *
  cases hr : prescalerLoop 7 0 M with
  | none => rw [hr] at h0; exact absurd h0 (by decide)
  | some r =>
    rw [hr] at h1 h2 h3 h4 h5 h6 h7
    simp only [Option.getD_some] at h1 h2 h3 h4 h5 h6 h7 ⊢
    have hN : 0 < timer2Divisor r.1 := by
      rw [← h5]
      exact Nat.pos_pow_of_pos _ (by decide)
    have hs : sub32 r.2 1 % 256 = r.2 - 1 := by
      unfold sub32
      omega
    have hs1 : r.2 - 1 + 1 = r.2 := by omega
    refine ⟨r.1, r.2, rfl, h1, h2, h3, h4, h5, ?_, rfl, hs, ?_, ?_, ?_⟩
    · symm
      apply Nat.div_eq_of_lt_le h6
      rw [Nat.succ_mul]
      exact h7
    · rw [hs]; omega
    · rw [hs, hs1]; exact h6
    · rw [hs, hs1]; exact h7

/-- C28, at the byte rate of the scenario: prescaler code and compare value
for `BYTE_RATE = 10`. -/
theorem init_timer_witness :
    ((10 : Nat) < 256) ∧
    (init 10 3 0 fresh).OCR2A ≤ 255 ∧
    ((init 10 3 0 fresh).OCR2A + 1) * timer2Divisor (init 10 3 0 fresh).prescaler
      ≤ 1000000 / max 10 4 :=
  ⟨by decide,
   match init_timer 10 3 0 fresh (by decide) with
   | ⟨_, _, _, _, _, _, _, _, _, hp, _, ho, hle, _⟩ => ⟨ho, by rw [hp]; exact hle⟩⟩

end DataTransmitterClass

/-! ## AD9850: clock calibration -/

namespace AD9850

/-- C21: with the 32-bit `unsigned long` operands of the target the product
`f_real*clock` is formed modulo `2^32`: the example of the documentation,
`calculateClockFrequency(10000000, 9999700, 125000000)`, returns 246 and not
124996250, the floor of the exact quotient; for every `f_set > 0` the function
returns `(f_real*clock mod 2^32) / f_set`. -/
theorem calculateClockFrequency_example :
    calculateClockFrequency 10000000 9999700 125000000 = some 246 ∧
    9999700 * 125000000 / 10000000 = 124996250 ∧
    9999700 * 125000000 % 4294967296 = 2462812416 ∧
    ∀ f_set f_real clock : Nat,
      calculateClockFrequency (f_set + 1) f_real clock
        = some (f_real * clock % 4294967296 / (f_set + 1)) := by
  refine ⟨by decide, by decide, by decide, fun f_set f_real clock => ?_⟩
  unfold calculateClockFrequency
  rw [if_neg (Nat.succ_ne_zero _)]
  simp only
  congr 1
  apply Nat.mod_eq_of_lt
  have : f_real * clock % 4294967296 < 4294967296 := Nat.mod_lt _ (by decide)
  exact lt_of_le_of_lt (Nat.div_le_self _ _) this

end AD9850

/-! ## WSPR: the symbol table -/

namespace WSPRClass

set_option maxRecDepth 100000 in
theorem bitReverse_involutive :
    ∀ i, i < 256 → bitReverse (bitReverse i) = i ∧ bitReverse i < 256 := by
  decide

set_option maxRecDepth 100000 in
theorem interleaveCount_full : interleaveCount 256 = 162 := by
  decide

set_option maxRecDepth 100000 in
theorem sync_vec_documented :
    ∀ k, k < 162 → (sync_vec.getD (k / 8) 0 >>> (k % 8)) &&& 1 = syncVector.getD k 0 := by
  decide

theorem interleaveCount_succ (n : Nat) :
    interleaveCount (n + 1) = interleaveCount n + (if bitReverse n < 162 then 1 else 0) := by
  unfold interleaveCount
  rw [List.range_succ, List.filter_append, List.length_append]
  by_cases h : bitReverse n < 162
  · simp [h]
  · simp [h]

theorem interleaveCount_le (n : Nat) (h : n ≤ 256) : interleaveCount n ≤ 162 := by
  rw [← interleaveCount_full]
  unfold interleaveCount
  exact List.Sublist.length_le
    (List.Sublist.filter _ (List.range_sublist.2 h))

theorem interleaveLoop_spec (getBit : List Nat → Nat → Nat)
    (setBit : List Nat → Nat → Nat → List Nat)
    (hget : ∀ (a : List Nat) (k v : Nat), a.length = 21 → k < 162 → v < 2 →
      getBit (setBit a k v) k = v)
    (hother : ∀ (a : List Nat) (k k' v : Nat), k ≠ k' → getBit (setBit a k v) k' = getBit a k')
    (hlen : ∀ (a : List Nat) (k v : Nat), (setBit a k v).length = a.length)
    (hbit : ∀ (a : List Nat) (k : Nat), getBit a k < 2) (strm : List Nat) (n : Nat) :
    ∀ (i : Nat) (st : SymTable × Nat), i + n ≤ 256 → st.1.sym_t_LSB.length = 21 →
      st.1.sym_t_MSB.length = 21 → st.2 = interleaveCount i →
      (interleaveLoop getBit setBit strm n i st).1.sym_t_LSB.length = 21 ∧
      (interleaveLoop getBit setBit strm n i st).1.sym_t_MSB.length = 21 ∧
      (interleaveLoop getBit setBit strm n i st).2 = interleaveCount (i + n) ∧
      ∀ pos, pos < 162 →
        getBit (interleaveLoop getBit setBit strm n i st).1.sym_t_LSB pos
          = (if i ≤ bitReverse pos ∧ bitReverse pos < i + n then getBit sync_vec pos
             else getBit st.1.sym_t_LSB pos) ∧
        getBit (interleaveLoop getBit setBit strm n i st).1.sym_t_MSB pos
          = (if i ≤ bitReverse pos ∧ bitReverse pos < i + n then
               getBit strm (interleaveCount (bitReverse pos))
             else getBit st.1.sym_t_MSB pos) := by
  induction n with
  | zero =>
    intro i st _ hL hM hip
    refine ⟨hL, hM, hip, fun pos _ => ?_⟩
    have c : ¬ (i ≤ bitReverse pos ∧ bitReverse pos < i + 0) := by omega
    rw [if_neg c, if_neg c]
    exact ⟨rfl, rfl⟩
  | succ n ih =>
    intro i st hi hL hM hip
    have hcs := interleaveCount_succ i
    have hcle := interleaveCount_le (i + 1) (by omega)
    have hrev : ∀ pos, pos < 162 → bitReverse pos = i → pos = bitReverse i := by
      intro pos hp he
      rw [← he]
      exact ((bitReverse_involutive pos (by omega)).1).symm
    unfold interleaveLoop
    simp only
    by_cases hj : bitReverse i < 162
    · rw [if_pos hj]
      rw [if_pos hj] at hcs
      obtain ⟨a1, a2, a3, a4⟩ := ih (i + 1)
        ({ sym_t_LSB := setBit st.1.sym_t_LSB (bitReverse i) (getBit sync_vec (bitReverse i))
           sym_t_MSB := setBit st.1.sym_t_MSB (bitReverse i) (getBit strm st.2) },
         (st.2 + 1) % 256) (by omega) (by rw [hlen]; exact hL) (by rw [hlen]; exact hM)
        (by
          show (st.2 + 1) % 256 = interleaveCount (i + 1)
          rw [hip, hcs]
          omega)
      refine ⟨a1, a2, by rw [a3]; congr 1; omega, fun pos hp => ?_⟩
      obtain ⟨b1, b2⟩ := a4 pos hp
      rw [b1, b2]
      by_cases he : bitReverse pos = i
      · have hpos := hrev pos hp he
        have c1 : ¬ (i + 1 ≤ bitReverse pos ∧ bitReverse pos < i + 1 + n) := by omega
        have c2 : i ≤ bitReverse pos ∧ bitReverse pos < i + (n + 1) := by omega
        rw [if_neg c1, if_neg c1, if_pos c2, if_pos c2]
        show getBit (setBit st.1.sym_t_LSB (bitReverse i) (getBit sync_vec (bitReverse i))) pos
            = getBit sync_vec pos ∧
          getBit (setBit st.1.sym_t_MSB (bitReverse i) (getBit strm st.2)) pos
            = getBit strm (interleaveCount (bitReverse pos))
        rw [hpos, hget _ _ _ hL hj (hbit _ _), hget _ _ _ hM hj (hbit _ _), hip]
        rw [hpos] at he
        rw [he]
        exact ⟨rfl, rfl⟩
      · have hne : bitReverse i ≠ pos := by
          intro h
          apply he
          rw [← h]
          exact (bitReverse_involutive i (by omega)).1
        by_cases c : i ≤ bitReverse pos ∧ bitReverse pos < i + (n + 1)
        · have c1 : i + 1 ≤ bitReverse pos ∧ bitReverse pos < i + 1 + n := by omega
          rw [if_pos c1, if_pos c1, if_pos c, if_pos c]
          exact ⟨rfl, rfl⟩
        · have c1 : ¬ (i + 1 ≤ bitReverse pos ∧ bitReverse pos < i + 1 + n) := by omega
          rw [if_neg c1, if_neg c1, if_neg c, if_neg c]
          exact ⟨hother _ _ _ _ hne, hother _ _ _ _ hne⟩
    · rw [if_neg hj]
      rw [if_neg hj] at hcs
      obtain ⟨a1, a2, a3, a4⟩ := ih (i + 1) st (by omega) hL hM (by rw [hip, hcs]; rfl)
      refine ⟨a1, a2, by rw [a3]; congr 1; omega, fun pos hp => ?_⟩
      obtain ⟨b1, b2⟩ := a4 pos hp
      rw [b1, b2]
      have he : bitReverse pos ≠ i := by
        intro he
        have := hrev pos hp he
        omega
      by_cases c : i ≤ bitReverse pos ∧ bitReverse pos < i + (n + 1)
      · have c1 : i + 1 ≤ bitReverse pos ∧ bitReverse pos < i + 1 + n := by omega
        rw [if_pos c1, if_pos c1, if_pos c, if_pos c]
        exact ⟨rfl, rfl⟩
      · have c1 : ¬ (i + 1 ≤ bitReverse pos ∧ bitReverse pos < i + 1 + n) := by omega
        rw [if_neg c1, if_neg c1, if_neg c, if_neg c]
        exact ⟨rfl, rfl⟩

theorem encodeMessage_is_valid (getBit : List Nat → Nat → Nat)
    (setBit : List Nat → Nat → Nat → List Nat) (fuel : Nat) (call locator : List Nat)
    (power : Nat) (symt : SymTable) (hfuel : 6 ≤ fuel) :
    (is_valid call locator power = 1 →
      dBm fuel power = some (dBmOf power) ∧
      encodeMessage getBit setBit fuel call locator power symt
        = some ((interleaveLoop getBit setBit
            (messageStream setBit call locator (dBmOf power)) 256 0 (symt, 0)).1, 1)) ∧
    (is_valid call locator power ≠ 1 →
      encodeMessage getBit setBit fuel call locator power symt = some (symt, 0)) := by
  unfold is_valid encodeMessage messageStream
  simp only
  by_cases hA : (normalizeCharacter ((List.range 6).map (fun i => call.getD i 0)) 6).2 ≠ 0
  · rw [if_pos hA, if_pos hA]
    split_ifs with hc
    · have hp : dBm fuel power = some (dBmOf power) :=
        dBm_eq power fuel (by omega) hc.2.2.2.2.2.2.2.2.2 hfuel
      refine ⟨fun _ => ⟨hp, ?_⟩, fun h => absurd rfl h⟩
      rw [hp]
    · exact ⟨fun h => absurd h (by decide), fun _ => rfl⟩
  · rw [if_neg hA, if_neg hA]
    exact ⟨fun h => absurd h (by decide), fun _ => rfl⟩

/-- C22: for any implementation of the bit array library in which `getBit`
after `setBit` at the same index of a 21-byte array returns the stored bit, a
`setBit` leaves the other bits and the length alone, `getBit` returns 0 or 1,
and the constant `sync_vec` is read with bit `k` as bit `k mod 8` of byte
`k div 8`: after a successful `encodeMessage` (6 units of fuel suffice for it
to return), for every position in 0..161 the bit of `sym_t_LSB` is the bit of
the synchronisation vector that the source comment writes out, the bit of
`sym_t_MSB` is the bit of the encoded stream `strm` that the interleaver stores
at that position, and `getSymbol(position)` is `sync + 2*data`, a value in
0..3. -/
theorem getSymbol_sync_data (getBit : List Nat → Nat → Nat)
    (setBit : List Nat → Nat → Nat → List Nat)
    (hget : ∀ (a : List Nat) (k v : Nat), a.length = 21 → k < 162 → v < 2 →
      getBit (setBit a k v) k = v)
    (hother : ∀ (a : List Nat) (k k' v : Nat), k ≠ k' → getBit (setBit a k v) k' = getBit a k')
    (hlen : ∀ (a : List Nat) (k v : Nat), (setBit a k v).length = a.length)
    (hbit : ∀ (a : List Nat) (k : Nat), getBit a k < 2)
    (hsync : ∀ k, k < 162 →
      getBit sync_vec k = (sync_vec.getD (k / 8) 0 >>> (k % 8)) &&& 1)
    (fuel : Nat) (call locator : List Nat) (power : Nat) (symt : SymTable) (hfuel : 6 ≤ fuel)
    (hL : symt.sym_t_LSB.length = 21) (hM : symt.sym_t_MSB.length = 21)
    (hvalid : is_valid call locator power = 1) :
    ∃ symt', encodeMessage getBit setBit fuel call locator power symt = some (symt', 1) ∧
      ∀ position, position < 162 →
        getBit symt'.sym_t_LSB position = syncVector.getD position 0 ∧
        getBit symt'.sym_t_MSB position
          = getBit (messageStream setBit call locator (dBmOf power)) (interleaveRank position) ∧
        getSymbol getBit symt' position
          = syncVector.getD position 0 + 2 * getBit symt'.sym_t_MSB position ∧
        getSymbol getBit symt' position ≤ 3 := by
  obtain ⟨-, he⟩ := (encodeMessage_is_valid getBit setBit fuel call locator power symt hfuel).1
    hvalid
  refine ⟨_, he, fun position hp => ?_⟩
  obtain ⟨-, -, -, a4⟩ := interleaveLoop_spec getBit setBit hget hother hlen hbit
    (messageStream setBit call locator (dBmOf power)) 256 0 (symt, 0) (by omega) hL hM
    (by show 0 = interleaveCount 0; rfl)
  obtain ⟨b1, b2⟩ := a4 position hp
  have hr := (bitReverse_involutive position (by omega)).2
  have c : 0 ≤ bitReverse position ∧ bitReverse position < 0 + 256 := by omega
  rw [if_pos c] at b1 b2
  have hs : getBit sync_vec position = syncVector.getD position 0 := by
    rw [hsync position hp]
    exact sync_vec_documented position hp
  have hx := hbit (interleaveLoop getBit setBit
    (messageStream setBit call locator (dBmOf power)) 256 0 (symt, 0)).1.sym_t_LSB position
  have hy := hbit (interleaveLoop getBit setBit
    (messageStream setBit call locator (dBmOf power)) 256 0 (symt, 0)).1.sym_t_MSB position
  have hsym : getSymbol getBit (interleaveLoop getBit setBit
      (messageStream setBit call locator (dBmOf power)) 256 0 (symt, 0)).1 position
      = syncVector.getD position 0 + 2 * getBit (interleaveLoop getBit setBit
        (messageStream setBit call locator (dBmOf power)) 256 0 (symt, 0)).1.sym_t_MSB
          position := by
    unfold getSymbol
    rw [Nat.shiftLeft_eq, ← hs, ← b1]
    omega
  refine ⟨b1.trans hs, b2, hsym, ?_⟩
  rw [hsym, ← hs, ← b1]
  omega

theorem bit_eq_testBit (x b : Nat) : (x >>> b) &&& 1 = (x.testBit b).toNat := by
  rw [Nat.toNat_testBit, Nat.shiftRight_eq_div_pow, Nat.and_one_is_mod]

theorem getBitLSB_lt (a : List Nat) (k : Nat) : getBitLSB a k < 2 := by
  unfold getBitLSB
  rw [Nat.and_one_is_mod]
  exact Nat.mod_lt _ (by decide)

theorem setBitLSB_length (a : List Nat) (k v : Nat) : (setBitLSB a k v).length = a.length := by
  unfold setBitLSB
  rw [List.length_set]

theorem mask_testBit : ∀ b, b < 8 → ∀ b', b' < 8 →
    (255 ^^^ (1 <<< b)).testBit b' = decide (b ≠ b') := by
  decide

theorem getBitLSB_setBitLSB_eq (a : List Nat) (k v : Nat) (hk : k < 8 * a.length) (hv : v < 2) :
    getBitLSB (setBitLSB a k v) k = v := by
  have hi : k / 8 < a.length := by omega
  have hb : k % 8 < 8 := Nat.mod_lt _ (by decide)
  unfold getBitLSB setBitLSB
  simp only [List.getD_eq_getElem?_getD]
  rw [List.getElem?_set_self hi, Option.getD_some, bit_eq_testBit]
  by_cases h0 : v = 0
  · have c : ¬ v ≠ 0 := fun h => h h0
    rw [if_neg c, Nat.testBit_and, mask_testBit _ hb _ hb, h0]
    simp
  · rw [if_pos h0, Nat.testBit_or, Nat.one_shiftLeft, Nat.testBit_two_pow_self]
    have : v = 1 := by omega
    rw [this]
    simp

theorem getBitLSB_setBitLSB_ne (a : List Nat) (k k' v : Nat) (h : k ≠ k') :
    getBitLSB (setBitLSB a k v) k' = getBitLSB a k' := by
  have hb : k % 8 < 8 := Nat.mod_lt _ (by decide)
  have hb' : k' % 8 < 8 := Nat.mod_lt _ (by decide)
  unfold getBitLSB setBitLSB
  simp only [List.getD_eq_getElem?_getD]
  by_cases hi : k / 8 = k' / 8
  · have hne : k % 8 ≠ k' % 8 := by omega
    by_cases hl : k / 8 < a.length
    · rw [← hi, List.getElem?_set_self hl, Option.getD_some, bit_eq_testBit, bit_eq_testBit]
      congr 1
      by_cases h0 : v = 0
      · have c : ¬ v ≠ 0 := fun h => h h0
        rw [if_neg c, Nat.testBit_and, mask_testBit _ hb _ hb']
        simp [hne]
      · rw [if_pos h0, Nat.testBit_or, Nat.one_shiftLeft, Nat.testBit_two_pow]
        simp [hne]
    · rw [List.set_eq_of_length_le (by omega)]
  · rw [List.getElem?_set_ne hi]

set_option maxRecDepth 1000000 in
/-- C22, at a concrete input: the callsign `" W1XY "`, the locator `"JO61"`
and 1000 mW on a new object, with the bit arrays stored least significant bit
first. -/
theorem getSymbol_sync_data_witness :
    ((6 : Nat) ≤ 6 ∧ fresh.sym_t_LSB.length = 21 ∧ fresh.sym_t_MSB.length = 21 ∧
      is_valid [32, 87, 49, 88, 89, 32] [74, 79, 54, 49] 1000 = 1) ∧
    ∃ symt', encodeMessage getBitLSB setBitLSB 6 [32, 87, 49, 88, 89, 32] [74, 79, 54, 49]
        1000 fresh = some (symt', 1) ∧
      getSymbol getBitLSB symt' 0 = syncVector.getD 0 0 + 2 * getBitLSB symt'.sym_t_MSB 0 ∧
      getSymbol getBitLSB symt' 0 ≤ 3 :=
  ⟨by decide,
   match getSymbol_sync_data getBitLSB setBitLSB
      (fun a k v ha hk hv => getBitLSB_setBitLSB_eq a k v (by omega) hv)
      getBitLSB_setBitLSB_ne setBitLSB_length getBitLSB_lt (fun _ _ => rfl) 6
      [32, 87, 49, 88, 89, 32] [74, 79, 54, 49] 1000 fresh (by decide) (by decide) (by decide)
      (by decide) with
   | ⟨symt', h1, h2⟩ => ⟨symt', h1, (h2 0 (by decide)).2.2.1, (h2 0 (by decide)).2.2.2⟩⟩

end WSPRClass

/-! ## The tick period and the receiver thresholds -/

set_option maxRecDepth 100000 in
theorem tickCycles_bands_aux :
    ∀ BR, BR < 256 → 4 ≤ BR →
      16 * (31250 / BR % 65536) ≤ tickCycles BR ∧
      tickCycles BR ≤ 16 * (3 * (31250 / BR % 65536) % 65536) ∧
      16 * (3 * (31250 / BR % 65536) % 65536) < 2 * tickCycles BR ∧
      2 * tickCycles BR ≤ 16 * (5 * (31250 / BR % 65536) % 65536) ∧
      16 * (5 * (31250 / BR % 65536) % 65536) < 4 * tickCycles BR := by
  decide

theorem tickCycles_init (BYTE_RATE TRANSMITTER_PIN IS_LOW_ACTIVE : Nat)
    (tx : DataTransmitterClass) :
    ((DataTransmitterClass.init BYTE_RATE TRANSMITTER_PIN IS_LOW_ACTIVE tx).OCR2A + 1) *
      timer2Divisor (DataTransmitterClass.init BYTE_RATE TRANSMITTER_PIN IS_LOW_ACTIVE tx).prescaler
      = tickCycles BYTE_RATE := rfl

theorem thresholds_exact (BYTE_RATE : Nat) (h4 : 4 ≤ BYTE_RATE) (h255 : BYTE_RATE ≤ 255) :
    31250 / BYTE_RATE % 65536 = 31250 / BYTE_RATE ∧
    3 * (31250 / BYTE_RATE % 65536) % 65536 = 3 * (31250 / BYTE_RATE) ∧
    5 * (31250 / BYTE_RATE % 65536) % 65536 = 5 * (31250 / BYTE_RATE) ∧
    1375 / BYTE_RATE % 65536 = 1375 / BYTE_RATE ∧
    0 < 31250 / BYTE_RATE ∧ 31250 / BYTE_RATE ≤ 7812 ∧ 1375 / BYTE_RATE ≤ 343 := by
  have h1 : 31250 / BYTE_RATE ≤ 31250 / 4 := Nat.div_le_div_left h4 (by decide)
  have h2 : 1375 / BYTE_RATE ≤ 1375 / 4 := Nat.div_le_div_left h4 (by decide)
  have h3 : 0 < 31250 / BYTE_RATE := Nat.div_pos (by omega) (by omega)
  have h1' : 31250 / BYTE_RATE ≤ 7812 := h1
  have h2' : 1375 / BYTE_RATE ≤ 343 := h2
  have e1 : 31250 / BYTE_RATE % 65536 = 31250 / BYTE_RATE := Nat.mod_eq_of_lt (by omega)
  have e4 : 1375 / BYTE_RATE % 65536 = 1375 / BYTE_RATE := Nat.mod_eq_of_lt (by omega)
  rw [e1, e4]
  exact ⟨rfl, Nat.mod_eq_of_lt (by omega), Nat.mod_eq_of_lt (by omega), rfl, h3, h1', h2'⟩

/-- C32: transmitter ticks fall in the receiver's bands.  For every byte rate
in 4..255, let `h` be the tick period that `DataTransmitterClass::init`
programs, `(OCR2A + 1) * divisor / 16` microseconds as an exact rational, and
`T1`, `T2`, `T3` the thresholds that a successful `DataReceiverClass::init`
stores for the same byte rate.  Then `T1 <= h <= T2` (one half-symbol is a
normal interval), `T2 < 2h <= T3` (two half-symbols are a long interval) and
`4h > T3` (the start pulse of four half-symbols is a violation). -/
theorem tick_in_receiver_bands (BYTE_RATE TRANSMITTER_PIN IS_LOW_ACTIVE RECEIVER_PIN : Nat)
    (dsets : List dset_r) (DATASET_COUNT : Nat) (f : Nat → Nat)
    (tx : DataTransmitterClass) (rx : DataReceiverClass)
    (h4 : 4 ≤ BYTE_RATE) (h255 : BYTE_RATE ≤ 255) (h0 : rx.is_initialized = 0)
    (hn : DATASET_COUNT ≠ 0) :
    ((DataReceiverClass.init BYTE_RATE RECEIVER_PIN dsets DATASET_COUNT (some f) rx).1.T1 : ℚ)
      ≤ ((((DataTransmitterClass.init BYTE_RATE TRANSMITTER_PIN IS_LOW_ACTIVE tx).OCR2A + 1) *
          timer2Divisor
            (DataTransmitterClass.init BYTE_RATE TRANSMITTER_PIN IS_LOW_ACTIVE tx).prescaler
          : Nat) : ℚ) / 16 ∧
    ((((DataTransmitterClass.init BYTE_RATE TRANSMITTER_PIN IS_LOW_ACTIVE tx).OCR2A + 1) *
          timer2Divisor
            (DataTransmitterClass.init BYTE_RATE TRANSMITTER_PIN IS_LOW_ACTIVE tx).prescaler
          : Nat) : ℚ) / 16
      ≤ ((DataReceiverClass.init BYTE_RATE RECEIVER_PIN dsets DATASET_COUNT (some f) rx).1.T2 : ℚ) ∧
    ((DataReceiverClass.init BYTE_RATE RECEIVER_PIN dsets DATASET_COUNT (some f) rx).1.T2 : ℚ)
      < 2 * (((((DataTransmitterClass.init BYTE_RATE TRANSMITTER_PIN IS_LOW_ACTIVE tx).OCR2A + 1) *
          timer2Divisor
            (DataTransmitterClass.init BYTE_RATE TRANSMITTER_PIN IS_LOW_ACTIVE tx).prescaler
          : Nat) : ℚ) / 16) ∧
    2 * (((((DataTransmitterClass.init BYTE_RATE TRANSMITTER_PIN IS_LOW_ACTIVE tx).OCR2A + 1) *
          timer2Divisor
            (DataTransmitterClass.init BYTE_RATE TRANSMITTER_PIN IS_LOW_ACTIVE tx).prescaler
          : Nat) : ℚ) / 16)
      ≤ ((DataReceiverClass.init BYTE_RATE RECEIVER_PIN dsets DATASET_COUNT (some f) rx).1.T3 : ℚ) ∧
    4 * (((((DataTransmitterClass.init BYTE_RATE TRANSMITTER_PIN IS_LOW_ACTIVE tx).OCR2A + 1) *
          timer2Divisor
            (DataTransmitterClass.init BYTE_RATE TRANSMITTER_PIN IS_LOW_ACTIVE tx).prescaler
          : Nat) : ℚ) / 16)
      > ((DataReceiverClass.init BYTE_RATE RECEIVER_PIN dsets DATASET_COUNT (some f) rx).1.T3 : ℚ) := by
  rw [tickCycles_init, DataReceiverClass.init_some BYTE_RATE RECEIVER_PIN dsets DATASET_COUNT f rx
    h0 (by omega) hn]
  obtain ⟨a1, a2, a3, a4, a5⟩ := tickCycles_bands_aux BYTE_RATE (by omega) h4
  have b1 : ((16 * (31250 / BYTE_RATE % 65536) : Nat) : ℚ) ≤ (tickCycles BYTE_RATE : ℚ) := by
    exact_mod_cast a1
  have b2 : (tickCycles BYTE_RATE : ℚ)
      ≤ ((16 * (3 * (31250 / BYTE_RATE % 65536) % 65536) : Nat) : ℚ) := by
    exact_mod_cast a2
  have b3 : ((16 * (3 * (31250 / BYTE_RATE % 65536) % 65536) : Nat) : ℚ)
      < ((2 * tickCycles BYTE_RATE : Nat) : ℚ) := by
    exact_mod_cast a3
  have b4 : ((2 * tickCycles BYTE_RATE : Nat) : ℚ)
      ≤ ((16 * (5 * (31250 / BYTE_RATE % 65536) % 65536) : Nat) : ℚ) := by
    exact_mod_cast a4
  have b5 : ((16 * (5 * (31250 / BYTE_RATE % 65536) % 65536) : Nat) : ℚ)
      < ((4 * tickCycles BYTE_RATE : Nat) : ℚ) := by
    exact_mod_cast a5
  simp only [Nat.cast_mul, Nat.cast_ofNat] at b1 b2 b3 b4 b5
  refine ⟨?_, ?_, ?_, ?_, ?_⟩ <;> show _ <;> linarith

/-- C32, at the scenario (byte rate 10): the tick period of 6208 microseconds
lies between `T1 = 3125` and `T2 = 9375`, twice the period between `T2` and
`T3 = 15625`, and four periods exceed `T3`. -/
theorem tick_in_receiver_bands_witness :
    ((DataReceiverClass.init 10 2 scenarioRegistry 1 (some (fun _ => 0))
        DataReceiverClass.fresh).1.T1 : ℚ)
      ≤ ((((DataTransmitterClass.init 10 3 0 DataTransmitterClass.fresh).OCR2A + 1) *
          timer2Divisor (DataTransmitterClass.init 10 3 0 DataTransmitterClass.fresh).prescaler
          : Nat) : ℚ) / 16 ∧
    4 * (((((DataTransmitterClass.init 10 3 0 DataTransmitterClass.fresh).OCR2A + 1) *
          timer2Divisor (DataTransmitterClass.init 10 3 0 DataTransmitterClass.fresh).prescaler
          : Nat) : ℚ) / 16)
      > ((DataReceiverClass.init 10 2 scenarioRegistry 1 (some (fun _ => 0))
        DataReceiverClass.fresh).1.T3 : ℚ) :=
  ⟨(tick_in_receiver_bands 10 3 0 2 scenarioRegistry 1 (fun _ => 0) DataTransmitterClass.fresh
      DataReceiverClass.fresh (by decide) (by decide) rfl (by decide)).1,
   (tick_in_receiver_bands 10 3 0 2 scenarioRegistry 1 (fun _ => 0) DataTransmitterClass.fresh
      DataReceiverClass.fresh (by decide) (by decide) rfl (by decide)).2.2.2.2⟩

/-- C35: the receiver thresholds are well formed.  For every byte rate in
4..255 a successful `DataReceiverClass::init` stores `T1 = 31250 / BYTE_RATE`
(integer division), `T2 = 3 * T1` and `T3 = 5 * T1`: no value wraps in its
16-bit storage, `T3 <= 39060`, `0 < T1 < T2 < T3`, and the latency constant is
`Tl = 1375 / BYTE_RATE`, at most 343. -/
theorem thresholds_well_formed (BYTE_RATE RECEIVER_PIN : Nat)
    (dsets : List dset_r) (DATASET_COUNT : Nat) (f : Nat → Nat) (rx : DataReceiverClass)
    (h4 : 4 ≤ BYTE_RATE) (h255 : BYTE_RATE ≤ 255) (h0 : rx.is_initialized = 0)
    (hn : DATASET_COUNT ≠ 0) :
    (DataReceiverClass.init BYTE_RATE RECEIVER_PIN dsets DATASET_COUNT (some f) rx).1.T1
      = 31250 / BYTE_RATE ∧
    (DataReceiverClass.init BYTE_RATE RECEIVER_PIN dsets DATASET_COUNT (some f) rx).1.T2
      = 3 * (31250 / BYTE_RATE) ∧
    (DataReceiverClass.init BYTE_RATE RECEIVER_PIN dsets DATASET_COUNT (some f) rx).1.T3
      = 5 * (31250 / BYTE_RATE) ∧
    5 * (31250 / BYTE_RATE) ≤ 39060 ∧
    0 < (DataReceiverClass.init BYTE_RATE RECEIVER_PIN dsets DATASET_COUNT (some f) rx).1.T1 ∧
    (DataReceiverClass.init BYTE_RATE RECEIVER_PIN dsets DATASET_COUNT (some f) rx).1.T1
      < (DataReceiverClass.init BYTE_RATE RECEIVER_PIN dsets DATASET_COUNT (some f) rx).1.T2 ∧
    (DataReceiverClass.init BYTE_RATE RECEIVER_PIN dsets DATASET_COUNT (some f) rx).1.T2
      < (DataReceiverClass.init BYTE_RATE RECEIVER_PIN dsets DATASET_COUNT (some f) rx).1.T3 ∧
    (DataReceiverClass.init BYTE_RATE RECEIVER_PIN dsets DATASET_COUNT (some f) rx).1.Tl
      = 1375 / BYTE_RATE ∧
    1375 / BYTE_RATE ≤ 343 := by
  rw [DataReceiverClass.init_some BYTE_RATE RECEIVER_PIN dsets DATASET_COUNT f rx
    h0 (by omega) hn]
  obtain ⟨e1, e2, e3, e4, p, q, r⟩ := thresholds_exact BYTE_RATE h4 h255
  show 31250 / BYTE_RATE % 65536 = _ ∧ 3 * (31250 / BYTE_RATE % 65536) % 65536 = _ ∧
    5 * (31250 / BYTE_RATE % 65536) % 65536 = _ ∧ _ ∧ 0 < 31250 / BYTE_RATE % 65536 ∧
    31250 / BYTE_RATE % 65536 < 3 * (31250 / BYTE_RATE % 65536) % 65536 ∧
    3 * (31250 / BYTE_RATE % 65536) % 65536 < 5 * (31250 / BYTE_RATE % 65536) % 65536 ∧
    1375 / BYTE_RATE % 65536 = _ ∧ _
  rw [e2, e3, e1, e4]
  refine ⟨rfl, rfl, rfl, ?_, ?_, ?_, ?_, rfl, r⟩ <;> omega

/-- C35, at the lowest byte rate 4: `T1 = 7812`, `T2 = 23436`, `T3 = 39060`
and `Tl = 343`. -/
theorem thresholds_well_formed_witness :
    (DataReceiverClass.init 4 2 scenarioRegistry 1 (some (fun _ => 0))
      DataReceiverClass.fresh).1.T1 = 31250 / 4 ∧
    (DataReceiverClass.init 4 2 scenarioRegistry 1 (some (fun _ => 0))
      DataReceiverClass.fresh).1.T3 = 5 * (31250 / 4) ∧
    (DataReceiverClass.init 4 2 scenarioRegistry 1 (some (fun _ => 0))
      DataReceiverClass.fresh).1.Tl = 1375 / 4 :=
  ⟨(thresholds_well_formed 4 2 scenarioRegistry 1 (fun _ => 0) DataReceiverClass.fresh
      (by decide) (by decide) rfl (by decide)).1,
   (thresholds_well_formed 4 2 scenarioRegistry 1 (fun _ => 0) DataReceiverClass.fresh
      (by decide) (by decide) rfl (by decide)).2.2.1,
   (thresholds_well_formed 4 2 scenarioRegistry 1 (fun _ => 0) DataReceiverClass.fresh
      (by decide) (by decide) rfl (by decide)).2.2.2.2.2.2.2.1⟩

/-! ## The receive engine: stores into the buffer -/

namespace DataReceiverClass

theorem bitDone_buffer (ms : Nat) (s : DataReceiverClass) :
    ((bitDone ms s).data_array = s.data_array ∧ (bitDone ms s).pos = s.pos) ∨
    ((bitDone ms s).data_array = s.data_array.set s.byte_counter s.byte_value ∧
      ((s.byte_counter ≠ 0 ∧ (bitDone ms s).pos = s.pos) ∨
       (s.byte_counter = 0 ∧ (bitDone ms s).pos < s.dataset_count))) := by
  unfold bitDone
  by_cases c1 : s.bit_value &&& 0x80 ≠ 0
  · rw [if_pos c1]
    by_cases c2 : s.byte_counter = 0
    · rw [if_pos c2]
      by_cases c3 : s.status = 0
      · rw [if_pos c3]
        cases hfind : idLoop s.dataset s.byte_value s.dataset_count 0 with
        | none => exact Or.inl ⟨rfl, rfl⟩
        | some i =>
          obtain ⟨_, hi, _⟩ := idLoop_spec _ _ _ _ _ hfind
          refine Or.inr ⟨rfl, Or.inr ⟨c2, ?_⟩⟩
          show i < s.dataset_count
          omega
      · rw [if_neg c3]
        exact Or.inl ⟨rfl, rfl⟩
    · rw [if_neg c2]
      refine Or.inr ⟨?_, Or.inl ⟨c2, ?_⟩⟩
      · simp only []
        split_ifs <;> rfl
      · simp only []
        split_ifs <;> rfl
  · rw [if_neg c1]
    exact Or.inl ⟨rfl, rfl⟩

theorem DRisr_buffer (us ms : Nat) (s : DataReceiverClass) :
    ((DRisr us ms s).data_array = s.data_array ∧ (DRisr us ms s).pos = s.pos) ∨
    ∃ v, (DRisr us ms s).data_array = s.data_array.set s.byte_counter v ∧
      ((s.byte_counter ≠ 0 ∧ (DRisr us ms s).pos = s.pos) ∨
       (s.byte_counter = 0 ∧ (DRisr us ms s).pos < s.dataset_count)) := by
  rw [DRisr_eq_window]
  by_cases c1 : sub32 us s.msl < s.T1 ∨ sub32 us s.msl > s.T3
  · rw [if_pos c1]
    exact Or.inl ⟨rfl, rfl⟩
  · rw [if_neg c1]
    by_cases c2 : sub32 us s.msl > s.T2 ∨ s.skip_next_short = 0
    · by_cases c3 : s.int_counter ≠ 0
      · have h1 : s.T1 ≤ sub32 us s.msl := by omega
        have h3 : sub32 us s.msl ≤ s.T3 := by omega
        have e := DRisr_data_edge us ms s h1 h3 (by omega) c3
        rw [DRisr_eq_window, if_neg c1] at e
        rw [e]
        rcases bitDone_buffer ms
          { s with msl := us
                   skip_next_short := 1
                   prev_bit := if sub32 us s.msl > s.T2 then lnot s.prev_bit else s.prev_bit
                   byte_value := assembledByte (sub32 us s.msl) s } with h | h
        · exact Or.inl h
        · exact Or.inr ⟨assembledByte (sub32 us s.msl) s, h⟩
      · have c3' : s.int_counter = 0 := by omega
        left
        unfold edgeInWindow
        rw [if_pos c2]
        simp only [c3', ne_eq, not_true_eq_false, if_false]
        split_ifs <;> exact ⟨rfl, rfl⟩
    · left
      unfold edgeInWindow
      rw [if_neg c2]
      exact ⟨rfl, rfl⟩

theorem wellFormed_bounds (s : DataReceiverClass) (h : WellFormed s) :
    (∀ i, i < s.dataset_count → (s.dataset.getD i default).SIZE + 1 < s.array_size + 2) ∧
    (s.byte_counter ≠ 0 →
      s.status = 1 ∧ s.pos < s.dataset_count ∧
      s.byte_counter ≤ (s.dataset.getD s.pos default).SIZE + 1 ∧
      (s.dataset.getD s.pos default).SIZE + 1 < s.array_size + 2) ∧
    s.byte_counter < s.data_array.length := by
  obtain ⟨a1, a2, a3, a4, a5, a6⟩ := h
  have hsz : ∀ i, i < s.dataset_count → (s.dataset.getD i default).SIZE + 1 < s.array_size + 2 := by
    intro i hi
    rw [a2] at hi
    have hm : s.dataset.getD i default ∈ s.dataset := by
      rw [List.getD_eq_getElem _ _ hi]
      exact List.getElem_mem hi
    have := (a3 _ hm).1
    omega
  have hb : s.byte_counter ≠ 0 →
      s.status = 1 ∧ s.pos < s.dataset_count ∧
      s.byte_counter ≤ (s.dataset.getD s.pos default).SIZE + 1 ∧
      (s.dataset.getD s.pos default).SIZE + 1 < s.array_size + 2 := by
    intro hc
    obtain ⟨b1, b2⟩ := a5 hc
    have hp := (a6 (Or.inl b1)).1
    exact ⟨b1, hp, b2, hsz _ hp⟩
  refine ⟨hsz, hb, ?_⟩
  by_cases hc : s.byte_counter = 0
  · rw [hc, a1]; omega
  · obtain ⟨_, _, b3, b4⟩ := hb hc
    rw [a1]; omega

/-- C31: receive buffer stores are in bounds.  In every state reachable from
a successful `init` through edge events and calls of `setStatus` made while the
status is not `Writing`: the buffer has `array_size + 2` bytes; `byte_counter
!= 0` implies that the status is `Writing` (1), that `pos < dataset_count` and
that `byte_counter <= registry[pos].SIZE + 1 < array_size + 2`; the write index
`byte_counter` lies inside the buffer; and at every edge the handler either
leaves the buffer as it is or stores one byte at the index `byte_counter`, and
then the bound index `pos` of that store (the index just found, for the
identifier byte) is below `dataset_count` with
`byte_counter <= registry[pos].SIZE + 1 < array_size + 2`. -/
theorem stores_in_bounds (s : DataReceiverClass) (h : Reachable s) :
    s.data_array.length = s.array_size + 2 ∧
    (s.byte_counter ≠ 0 →
      s.status = 1 ∧ s.pos < s.dataset_count ∧
      s.byte_counter ≤ (s.dataset.getD s.pos default).SIZE + 1 ∧
      (s.dataset.getD s.pos default).SIZE + 1 < s.array_size + 2) ∧
    s.byte_counter < s.data_array.length ∧
    ∀ us ms : Nat,
      (DRisr us ms s).data_array = s.data_array ∨
      ∃ v, (DRisr us ms s).data_array = s.data_array.set s.byte_counter v ∧
        (DRisr us ms s).pos < s.dataset_count ∧
        s.byte_counter ≤ (s.dataset.getD (DRisr us ms s).pos default).SIZE + 1 ∧
        (s.dataset.getD (DRisr us ms s).pos default).SIZE + 1 < s.array_size + 2 := by
  have hw := reachable_wellFormed s h
  obtain ⟨hsz, hb, hlt⟩ := wellFormed_bounds s hw
  refine ⟨hw.1, hb, hlt, ?_⟩
  intro us ms
  rcases DRisr_buffer us ms s with ⟨h1, _⟩ | ⟨v, h1, h2⟩
  · exact Or.inl h1
  · refine Or.inr ⟨v, h1, ?_⟩
    rcases h2 with ⟨hc, hp⟩ | ⟨hc, hp⟩
    · obtain ⟨_, b2, b3, b4⟩ := hb hc
      rw [hp]
      exact ⟨b2, b3, b4⟩
    · refine ⟨hp, ?_, hsz _ hp⟩
      rw [hc]; omega

set_option maxRecDepth 100000 in
/-- C31, at the scenario: the engine that has seven bits of the identifier in
is reachable, and the edge that completes the identifier stores it at index 0
of the six-byte buffer, for the dataset at index 0 of the registry. -/
theorem stores_in_bounds_witness :
    scenarioAcquiring.byte_counter = 0 ∧
    (DRisr 142784 1000 scenarioAcquiring).data_array ≠ scenarioAcquiring.data_array ∧
    ((DRisr 142784 1000 scenarioAcquiring).data_array = scenarioAcquiring.data_array ∨
      ∃ v, (DRisr 142784 1000 scenarioAcquiring).data_array
          = scenarioAcquiring.data_array.set scenarioAcquiring.byte_counter v ∧
        (DRisr 142784 1000 scenarioAcquiring).pos < scenarioAcquiring.dataset_count ∧
        scenarioAcquiring.byte_counter ≤
          (scenarioAcquiring.dataset.getD (DRisr 142784 1000 scenarioAcquiring).pos
            default).SIZE + 1 ∧
        (scenarioAcquiring.dataset.getD (DRisr 142784 1000 scenarioAcquiring).pos
            default).SIZE + 1 < scenarioAcquiring.array_size + 2) :=
  ⟨by decide, by decide,
   (stores_in_bounds scenarioAcquiring scenarioAcquiring_reachable).2.2.2 142784 1000⟩

end DataReceiverClass

/-! ## dataTransfer: write and read back -/

theorem getD_set (l : List Nat) (i j v : Nat) :
    (l.set i v).getD j 0 = if i = j ∧ j < l.length then v else l.getD j 0 := by
  rw [List.getD_eq_getElem?_getD, List.getD_eq_getElem?_getD, List.getElem?_set]
  by_cases h : i = j
  · subst h
    by_cases h2 : i < l.length
    · simp [h2]
    · have h3 : l[i]? = none := List.getElem?_eq_none (by omega)
      simp [h2, h3]
  · simp [h]

theorem copyLoop_write (WRITE POS off : Nat) (hW : WRITE ≠ 0) (X : List Nat) (n : Nat) :
    ∀ (i : Nat) (D : List Nat),
      (copyLoop WRITE POS off n i (X, D)).1 = X ∧
      (copyLoop WRITE POS off n i (X, D)).2.length = D.length ∧
      ∀ k, (copyLoop WRITE POS off n i (X, D)).2.getD k 0 =
        if POS + i + off ≤ k ∧ k < POS + i + off + n ∧ k < D.length then X.getD (k - POS - off) 0
        else D.getD k 0 := by
  induction n with
  | zero =>
    intro i D
    refine ⟨rfl, rfl, fun k => ?_⟩
    have c : ¬ (POS + i + off ≤ k ∧ k < POS + i + off + 0 ∧ k < D.length) := by omega
    rw [if_neg c]
    rfl
  | succ n ih =>
    intro i D
    simp only [copyLoop, if_pos hW]
    obtain ⟨a1, a2, a3⟩ := ih (i + 1) (D.set (POS + i + off) (X.getD i 0))
    refine ⟨a1, by rw [a2, List.length_set], fun k => ?_⟩
    rw [a3 k, List.length_set, getD_set]
    by_cases c1 : POS + i + off = k
    · have c2 : ¬ (POS + (i + 1) + off ≤ k ∧ k < POS + (i + 1) + off + n ∧ k < D.length) := by omega
      rw [if_neg c2]
      by_cases c3 : k < D.length
      · rw [if_pos ⟨c1, c3⟩, if_pos (by omega)]
        have : k - POS - off = i := by omega
        rw [this]
      · rw [if_neg (by omega), if_neg (by omega)]
    · have c5 : ¬ (POS + i + off = k ∧ k < D.length) := fun h => c1 h.1
      by_cases c4 : POS + (i + 1) + off ≤ k ∧ k < POS + (i + 1) + off + n ∧ k < D.length
      · rw [if_pos c4, if_pos (by omega)]
      · rw [if_neg c4, if_neg c5, if_neg (by omega)]

theorem copyLoop_read (POS off : Nat) (D : List Nat) (n : Nat) :
    ∀ (i : Nat) (X : List Nat),
      (copyLoop 0 POS off n i (X, D)).2 = D ∧
      (copyLoop 0 POS off n i (X, D)).1.length = X.length ∧
      ∀ k, (copyLoop 0 POS off n i (X, D)).1.getD k 0 =
        if i ≤ k ∧ k < i + n ∧ k < X.length then D.getD (POS + k + off) 0
        else X.getD k 0 := by
  induction n with
  | zero =>
    intro i X
    refine ⟨rfl, rfl, fun k => ?_⟩
    have c : ¬ (i ≤ k ∧ k < i + 0 ∧ k < X.length) := by omega
    rw [if_neg c]
    rfl
  | succ n ih =>
    intro i X
    have h0 : ¬ ((0 : Nat) ≠ 0) := by decide
    simp only [copyLoop, if_neg h0]
    obtain ⟨a1, a2, a3⟩ := ih (i + 1) (X.set i (D.getD (POS + i + off) 0))
    refine ⟨a1, by rw [a2, List.length_set], fun k => ?_⟩
    rw [a3 k, List.length_set, getD_set]
    by_cases c1 : i = k
    · have c2 : ¬ (i + 1 ≤ k ∧ k < i + 1 + n ∧ k < X.length) := by omega
      rw [if_neg c2]
      by_cases c3 : k < X.length
      · rw [if_pos ⟨c1, c3⟩, if_pos (by omega), c1]
      · rw [if_neg (by omega), if_neg (by omega)]
    · have c5 : ¬ (i = k ∧ k < X.length) := fun h => c1 h.1
      by_cases c4 : i + 1 ≤ k ∧ k < i + 1 + n ∧ k < X.length
      · rw [if_pos c4, if_pos (by omega)]
      · rw [if_neg c4, if_neg c5, if_neg (by omega)]

theorem remaining16_le (SIZE POS : Nat) (h : POS ≤ SIZE) (h255 : SIZE ≤ 255) :
    remaining16 SIZE POS = SIZE - POS := by
  unfold remaining16
  omega


/-- C34: write/read round trip of the two buffer accessors.  For `SCOPE >= 1`
and a caller's destination `Y` of at least `SCOPE` bytes: on the transmit side
for every dataset with `POS + SCOPE <= SIZE <= 255` whose memory holds at least
`SIZE` bytes, and on the receive side for every engine with
`POS + SCOPE <= array_size <= 255` and a buffer of `array_size + 2` bytes:
reading `SCOPE` bytes at `POS` after writing the bytes of `X` there returns the
bytes written; both calls return the same value, `0xFF` when `POS + SCOPE` is
the size and `POS + SCOPE` otherwise; the write keeps the length of the buffer,
stores `X[k]` at payload index `POS + k` (buffer index `POS + k + 2` in the
receiver), leaves every byte at another index and the caller's memory
unchanged; and a read leaves the buffer (the whole receive engine) unchanged. -/
theorem dataTransfer_round_trip (X Y : List Nat) (SCOPE POS : Nat) (h1 : 1 ≤ SCOPE)
    (hY : SCOPE ≤ Y.length) :
    (∀ DSET : dset_t, POS + SCOPE ≤ DSET.SIZE → DSET.SIZE ≤ 255 →
      DSET.SIZE ≤ DSET.data.length →
      (∀ k, k < SCOPE →
        (DataTransmitterClass.dataTransfer Y SCOPE
          { DSET with data := (DataTransmitterClass.dataTransfer X SCOPE DSET POS 1).2.1 }
          POS 0).1.getD k 0 = X.getD k 0) ∧
      (DataTransmitterClass.dataTransfer Y SCOPE
          { DSET with data := (DataTransmitterClass.dataTransfer X SCOPE DSET POS 1).2.1 }
          POS 0).2.2 = (DataTransmitterClass.dataTransfer X SCOPE DSET POS 1).2.2 ∧
      (DataTransmitterClass.dataTransfer X SCOPE DSET POS 1).2.2
        = (if POS + SCOPE = DSET.SIZE then 0xFF else POS + SCOPE) ∧
      (DataTransmitterClass.dataTransfer X SCOPE DSET POS 1).2.1.length = DSET.data.length ∧
      (∀ k, k < SCOPE →
        (DataTransmitterClass.dataTransfer X SCOPE DSET POS 1).2.1.getD (POS + k) 0
          = X.getD k 0) ∧
      (∀ k, ¬ (POS ≤ k ∧ k < POS + SCOPE) →
        (DataTransmitterClass.dataTransfer X SCOPE DSET POS 1).2.1.getD k 0
          = DSET.data.getD k 0) ∧
      (DataTransmitterClass.dataTransfer X SCOPE DSET POS 1).1 = X ∧
      (DataTransmitterClass.dataTransfer Y SCOPE DSET POS 0).2.1 = DSET.data) ∧
    (∀ s : DataReceiverClass, POS + SCOPE ≤ s.array_size → s.array_size ≤ 255 →
      s.data_array.length = s.array_size + 2 →
      (∀ k, k < SCOPE →
        (DataReceiverClass.dataTransfer Y SCOPE POS 0
          (DataReceiverClass.dataTransfer X SCOPE POS 1 s).2.1).1.getD k 0 = X.getD k 0) ∧
      (DataReceiverClass.dataTransfer Y SCOPE POS 0
          (DataReceiverClass.dataTransfer X SCOPE POS 1 s).2.1).2.2
        = (DataReceiverClass.dataTransfer X SCOPE POS 1 s).2.2 ∧
      (DataReceiverClass.dataTransfer X SCOPE POS 1 s).2.2
        = (if POS + SCOPE = s.array_size then 0xFF else POS + SCOPE) ∧
      (DataReceiverClass.dataTransfer X SCOPE POS 1 s).2.1.data_array.length
        = s.data_array.length ∧
      (∀ k, k < SCOPE →
        (DataReceiverClass.dataTransfer X SCOPE POS 1 s).2.1.data_array.getD (POS + k + 2) 0
          = X.getD k 0) ∧
      (∀ k, ¬ (POS + 2 ≤ k ∧ k < POS + SCOPE + 2) →
        (DataReceiverClass.dataTransfer X SCOPE POS 1 s).2.1.data_array.getD k 0
          = s.data_array.getD k 0) ∧
      (DataReceiverClass.dataTransfer X SCOPE POS 1 s).1 = X ∧
      (DataReceiverClass.dataTransfer Y SCOPE POS 0 s).2.1 = s) := by
  have hW : (1 : Nat) ≠ 0 := by decide
  have hS : SCOPE ≠ 0 := by omega
  constructor
  · intro DSET hsz h255 hlen
    have hrem : remaining16 DSET.SIZE POS = DSET.SIZE - POS := remaining16_le _ _ (by omega) h255
    have hc : SCOPE ≠ 0 ∧ SCOPE ≤ remaining16 DSET.SIZE POS := ⟨hS, by rw [hrem]; omega⟩
    have hm : (POS + SCOPE) % 256 = POS + SCOPE := Nat.mod_eq_of_lt (by omega)
    obtain ⟨w1, w2, w3⟩ := copyLoop_write 1 POS 0 hW X SCOPE 0 DSET.data
    have ew : DataTransmitterClass.dataTransfer X SCOPE DSET POS 1
        = (X, (copyLoop 1 POS 0 SCOPE 0 (X, DSET.data)).2,
            if POS + SCOPE = DSET.SIZE then 0xFF else POS + SCOPE) := by
      simp only [DataTransmitterClass.dataTransfer, if_pos hc, hm, w1]
    obtain ⟨r1, r2, r3⟩ := copyLoop_read POS 0 (copyLoop 1 POS 0 SCOPE 0 (X, DSET.data)).2 SCOPE 0 Y
    have er : DataTransmitterClass.dataTransfer Y SCOPE
        { DSET with data := (copyLoop 1 POS 0 SCOPE 0 (X, DSET.data)).2 } POS 0
        = ((copyLoop 0 POS 0 SCOPE 0 (Y, (copyLoop 1 POS 0 SCOPE 0 (X, DSET.data)).2)).1,
            (copyLoop 1 POS 0 SCOPE 0 (X, DSET.data)).2,
            if POS + SCOPE = DSET.SIZE then 0xFF else POS + SCOPE) := by
      simp only [DataTransmitterClass.dataTransfer, if_pos hc, hm, r1]
    obtain ⟨q1, -, -⟩ := copyLoop_read POS 0 DSET.data SCOPE 0 Y
    have er0 : (DataTransmitterClass.dataTransfer Y SCOPE DSET POS 0).2.1 = DSET.data := by
      simp only [DataTransmitterClass.dataTransfer, if_pos hc, q1]
    rw [ew]
    simp only []
    rw [er]
    simp only []
    have hwr : ∀ k, k < SCOPE →
        (copyLoop 1 POS 0 SCOPE 0 (X, DSET.data)).2.getD (POS + k) 0 = X.getD k 0 := by
      intro k hk
      rw [w3, if_pos (by omega)]
      have : POS + k - POS - 0 = k := by omega
      rw [this]
    refine ⟨fun k hk => ?_, trivial, trivial, w2, hwr, fun k hk => ?_, trivial, er0⟩
    · rw [r3, if_pos (by omega)]
      exact hwr k hk
    · rw [w3, if_neg (by omega)]
  · intro s hsz h255 hlen
    have hrem : remaining16 s.array_size POS = s.array_size - POS :=
      remaining16_le _ _ (by omega) h255
    have hc : SCOPE ≠ 0 ∧ SCOPE ≤ remaining16 s.array_size POS := ⟨hS, by rw [hrem]; omega⟩
    have hm : (POS + SCOPE) % 256 = POS + SCOPE := Nat.mod_eq_of_lt (by omega)
    obtain ⟨w1, w2, w3⟩ := copyLoop_write 1 POS 2 hW X SCOPE 0 s.data_array
    have ew : DataReceiverClass.dataTransfer X SCOPE POS 1 s
        = (X, { s with data_array := (copyLoop 1 POS 2 SCOPE 0 (X, s.data_array)).2 },
            if POS + SCOPE = s.array_size then 0xFF else POS + SCOPE) := by
      simp only [DataReceiverClass.dataTransfer, if_pos hc, hm, w1]
    obtain ⟨r1, r2, r3⟩ :=
      copyLoop_read POS 2 (copyLoop 1 POS 2 SCOPE 0 (X, s.data_array)).2 SCOPE 0 Y
    have er : DataReceiverClass.dataTransfer Y SCOPE POS 0
        { s with data_array := (copyLoop 1 POS 2 SCOPE 0 (X, s.data_array)).2 }
        = ((copyLoop 0 POS 2 SCOPE 0 (Y, (copyLoop 1 POS 2 SCOPE 0 (X, s.data_array)).2)).1,
            { s with data_array := (copyLoop 1 POS 2 SCOPE 0 (X, s.data_array)).2 },
            if POS + SCOPE = s.array_size then 0xFF else POS + SCOPE) := by
      have hc' : SCOPE ≠ 0 ∧ SCOPE ≤ remaining16
          ({ s with data_array := (copyLoop 1 POS 2 SCOPE 0 (X, s.data_array)).2 } :
            DataReceiverClass).array_size POS := hc
      simp only [DataReceiverClass.dataTransfer, if_pos hc', hm, r1]
    obtain ⟨q1, -, -⟩ := copyLoop_read POS 2 s.data_array SCOPE 0 Y
    have er0 : (DataReceiverClass.dataTransfer Y SCOPE POS 0 s).2.1 = s := by
      simp only [DataReceiverClass.dataTransfer, if_pos hc, q1]
    rw [ew]
    simp only []
    rw [er]
    simp only []
    have hwr : ∀ k, k < SCOPE →
        (copyLoop 1 POS 2 SCOPE 0 (X, s.data_array)).2.getD (POS + k + 2) 0 = X.getD k 0 := by
      intro k hk
      rw [w3, if_pos (by omega)]
      have : POS + k + 2 - POS - 2 = k := by omega
      rw [this]
    refine ⟨fun k hk => ?_, trivial, trivial, w2, hwr, fun k hk => ?_, trivial, er0⟩
    · rw [r3, if_pos (by omega)]
      exact hwr k hk
    · rw [w3, if_neg (by omega)]

/-- C34, at the scenario: the bytes `0xAA, 0xBB` written at position 1 of a
four-byte dataset, and of the receive buffer of the scenario, are read back. -/
theorem dataTransfer_round_trip_witness :
    (DataTransmitterClass.dataTransfer [0, 0] 2
      { DataTransmitterClass.createDataset [1, 2, 3, 4] 9 4 with
        data := (DataTransmitterClass.dataTransfer [0xAA, 0xBB] 2
          (DataTransmitterClass.createDataset [1, 2, 3, 4] 9 4) 1 1).2.1 } 1 0).1.getD 0 0 = 0xAA ∧
    (DataReceiverClass.dataTransfer [0, 0] 2 1 0
      (DataReceiverClass.dataTransfer [0xAA, 0xBB] 2 1 1 scenarioRx).2.1).1.getD 1 0 = 0xBB :=
  ⟨((dataTransfer_round_trip [0xAA, 0xBB] [0, 0] 2 1 (by decide) (by decide)).1
      (DataTransmitterClass.createDataset [1, 2, 3, 4] 9 4) (by decide) (by decide)
      (by decide)).1 0 (by decide),
   ((dataTransfer_round_trip [0xAA, 0xBB] [0, 0] 2 1 (by decide) (by decide)).2
      scenarioRx (by decide) (by decide) (by decide)).1 1 (by decide)⟩

/-! ## WSPR: the interleaver and the failing call -/

namespace WSPRClass

theorem bitReverse_injective (i i' : Nat) (hi : i < 256) (hi' : i' < 256)
    (h : bitReverse i = bitReverse i') : i = i' := by
  rw [← (bitReverse_involutive i hi).1, ← (bitReverse_involutive i' hi').1, h]

theorem interleaveLoop_trace (getBit : List Nat → Nat → Nat)
    (setBit : List Nat → Nat → Nat → List Nat) (strm : List Nat) (n : Nat) :
    ∀ (i : Nat) (st : SymTable × Nat),
      interleaveLoop getBit setBit strm n i st =
        (interleaveTrace n i st.2).foldl
          (fun (t : SymTable × Nat) (w : Nat × Nat) =>
            ({ sym_t_LSB := setBit t.1.sym_t_LSB w.1 (getBit sync_vec w.1)
               sym_t_MSB := setBit t.1.sym_t_MSB w.1 (getBit strm w.2) }, (w.2 + 1) % 256)) st := by
  induction n with
  | zero => intro i st; rfl
  | succ n ih =>
    intro i st
    simp only [interleaveLoop, interleaveTrace]
    by_cases h : bitReverse i < 162
    · rw [if_pos h, if_pos h, List.foldl_cons]
      exact ih _ _
    · rw [if_neg h, if_neg h]
      exact ih _ _

set_option maxRecDepth 1000000 in
theorem interleaveTrace_facts :
    (interleaveTrace 256 0 0).map Prod.snd = List.range 162 ∧
    ((interleaveTrace 256 0 0).map Prod.fst).Nodup ∧
    (∀ w ∈ interleaveTrace 256 0 0, w.1 < 162) ∧
    (∀ pos, pos < 162 → (pos, interleaveRank pos) ∈ interleaveTrace 256 0 0) := by
  decide

set_option maxRecDepth 1000000 in
theorem bitReverse_bits :
    ∀ i, i < 256 →
      bitReverse i = 128 * (i % 2) + 64 * (i / 2 % 2) + 32 * (i / 4 % 2) + 16 * (i / 8 % 2) +
        8 * (i / 16 % 2) + 4 * (i / 32 % 2) + 2 * (i / 64 % 2) + i / 128 % 2 ∧
      ∀ k, k < 8 → (bitReverse i).testBit k = i.testBit (7 - k) := by
  decide

set_option maxRecDepth 1000000 in
theorem interleaveRank_order :
    ∀ pos, pos < 162 →
      interleaveRank pos
        = ((List.range 162).filter (fun q => decide (bitReverse q < bitReverse pos))).length := by
  decide

set_option maxRecDepth 1000000 in
theorem interleave_examples :
    (List.range 8).map bitReverse = [0, 128, 64, 192, 32, 160, 96, 224] ∧
    (interleaveTrace 256 0 0).take 6 = [(0, 0), (128, 1), (64, 2), (32, 3), (160, 4), (96, 5)] ∧
    interleaveRank 1 = 81 := by
  decide

/-- C36: the interleaver of `encodeMessage` is a permutation.  The index `j`
that lines 141-146 compute for `i` in 0..255 is the 8-bit reversal of `i`: bit
`k` of `j` is bit `7 - k` of `i`, that is `j = 128*b0 + 64*b1 + ... + b7` for
the bits `b0` (lowest) to `b7` of `i`; so `i = 0, 1, ..., 7` give
`j = 0, 128, 64, 192, 32, 160, 96, 224`.  Bit reversal is injective on 0..255
and exactly 162 of the indices `i` in 0..255 have `j < 162`.  The loop of lines
140-153 performs, in order, the stores listed by `interleaveTrace 256 0 0`
(position `j`, source index `ip`), which begin `(0, 0), (128, 1), (64, 2),
(32, 3), (160, 4), (96, 5)`: the positions stored are pairwise distinct and
below 162, the source indices are 0, 1, ..., 161 in this order, and every
position below 162 is stored, with the source index `interleaveRank position`,
which is the number of positions below 162 whose reversal is smaller than the
reversal of `position` (position 1 receives stream bit 81). -/
theorem interleaver_permutation (getBit : List Nat → Nat → Nat)
    (setBit : List Nat → Nat → Nat → List Nat) (strm : List Nat) (symt : SymTable) :
    (∀ i, i < 256 →
      bitReverse i = 128 * (i % 2) + 64 * (i / 2 % 2) + 32 * (i / 4 % 2) + 16 * (i / 8 % 2) +
        8 * (i / 16 % 2) + 4 * (i / 32 % 2) + 2 * (i / 64 % 2) + i / 128 % 2 ∧
      ∀ k, k < 8 → (bitReverse i).testBit k = i.testBit (7 - k)) ∧
    (List.range 8).map bitReverse = [0, 128, 64, 192, 32, 160, 96, 224] ∧
    (∀ i i', i < 256 → i' < 256 → bitReverse i = bitReverse i' → i = i') ∧
    interleaveCount 256 = 162 ∧
    interleaveLoop getBit setBit strm 256 0 (symt, 0) =
      (interleaveTrace 256 0 0).foldl
        (fun (t : SymTable × Nat) (w : Nat × Nat) =>
          ({ sym_t_LSB := setBit t.1.sym_t_LSB w.1 (getBit sync_vec w.1)
             sym_t_MSB := setBit t.1.sym_t_MSB w.1 (getBit strm w.2) }, (w.2 + 1) % 256))
        (symt, 0) ∧
    (interleaveTrace 256 0 0).take 6 = [(0, 0), (128, 1), (64, 2), (32, 3), (160, 4), (96, 5)] ∧
    ((interleaveTrace 256 0 0).map Prod.fst).Nodup ∧
    (∀ w ∈ interleaveTrace 256 0 0, w.1 < 162) ∧
    (interleaveTrace 256 0 0).map Prod.snd = List.range 162 ∧
    (∀ pos, pos < 162 → (pos, interleaveRank pos) ∈ interleaveTrace 256 0 0) ∧
    (∀ pos, pos < 162 →
      interleaveRank pos
        = ((List.range 162).filter
            (fun q => decide (bitReverse q < bitReverse pos))).length) ∧
    interleaveRank 1 = 81 :=
  ⟨bitReverse_bits, interleave_examples.1, bitReverse_injective, interleaveCount_full,
   interleaveLoop_trace getBit setBit strm 256 0 (symt, 0), interleave_examples.2.1,
   interleaveTrace_facts.2.1, interleaveTrace_facts.2.2.1, interleaveTrace_facts.1,
   interleaveTrace_facts.2.2.2, interleaveRank_order, interleave_examples.2.2⟩

theorem encodeMessage_flag (getBit : List Nat → Nat → Nat)
    (setBit : List Nat → Nat → Nat → List Nat) (fuel : Nat) (call locator : List Nat)
    (power : Nat) (symt : SymTable) (r : SymTable × Nat)
    (h : encodeMessage getBit setBit fuel call locator power symt = some r) :
    (r.2 = 0 ∧ r.1 = symt ∧ is_valid call locator power = 0) ∨
    (r.2 = 1 ∧ is_valid call locator power = 1) := by
  unfold encodeMessage at h
  unfold is_valid
  simp only at h ⊢
  by_cases hA : (normalizeCharacter ((List.range 6).map (fun i => call.getD i 0)) 6).2 ≠ 0
  · rw [if_pos hA] at h
    rw [if_pos hA]
    split_ifs at h ⊢ with hc
    · right
      cases hp : dBm fuel power with
      | none => rw [hp] at h; exact absurd h (by simp)
      | some p =>
        rw [hp] at h
        simp only [Option.some.injEq] at h
        rw [← h]
        exact ⟨rfl, rfl⟩
    · left
      simp only [Option.some.injEq] at h
      rw [← h]
      exact ⟨rfl, rfl, rfl⟩
  · rw [if_neg hA] at h
    rw [if_neg hA]
    left
    simp only [Option.some.injEq] at h
    rw [← h]
    exact ⟨rfl, rfl, rfl⟩

/-- C37: `encodeMessage` is atomic on failure.  With 6 units of fuel the call
returns (the loop that scales the power ends); the returned flag is 0 or 1, and
it is 0 exactly when the input check fails; when it is 0 the symbol table after
the call is the table before it, so `getSymbol` returns the same value at every
position.  The strings `call` and `locator` are only read (the function works
on its copies `cl` and `lo`): the symbol table is the only memory the call
changes. -/
theorem encodeMessage_atomic (getBit : List Nat → Nat → Nat)
    (setBit : List Nat → Nat → Nat → List Nat) (fuel : Nat) (call locator : List Nat)
    (power : Nat) (symt : SymTable) (hfuel : 6 ≤ fuel) :
    ∃ r, encodeMessage getBit setBit fuel call locator power symt = some r ∧
      (r.2 = 0 ∨ r.2 = 1) ∧ (r.2 = 0 ↔ is_valid call locator power ≠ 1) ∧
      (r.2 = 0 → r.1 = symt ∧
        ∀ position, getSymbol getBit r.1 position = getSymbol getBit symt position) := by
  have hr : ∃ r, encodeMessage getBit setBit fuel call locator power symt = some r := by
    by_cases hv : is_valid call locator power = 1
    · exact ⟨_, ((encodeMessage_is_valid getBit setBit fuel call locator power symt hfuel).1
        hv).2⟩
    · exact ⟨_, (encodeMessage_is_valid getBit setBit fuel call locator power symt hfuel).2 hv⟩
  obtain ⟨r, hr⟩ := hr
  refine ⟨r, hr, ?_⟩
  rcases encodeMessage_flag getBit setBit fuel call locator power symt r hr with
    ⟨a1, a2, a3⟩ | ⟨a1, a3⟩
  · refine ⟨Or.inl a1, ⟨fun _ => by rw [a3]; decide, fun _ => a1⟩, fun _ => ⟨a2, ?_⟩⟩
    intro position
    rw [a2]
  · refine ⟨Or.inr a1, ⟨fun h => ?_, fun h => absurd a3 h⟩, fun h => ?_⟩
    · rw [a1] at h; exact absurd h (by decide)
    · rw [a1] at h; exact absurd h (by decide)

/-- C37, for the callsign " K1ABC", the locator "FN42" and the power 0 mW,
which the input check rejects: the call returns 0 and the symbol table of a new
object is as before. -/
theorem encodeMessage_atomic_witness :
    ∃ r, encodeMessage getBitLSB setBitLSB 6 [32, 75, 49, 65, 66, 67] [70, 78, 52, 50] 0 fresh
        = some r ∧
      (r.2 = 0 ∨ r.2 = 1) ∧
      (r.2 = 0 ↔ is_valid [32, 75, 49, 65, 66, 67] [70, 78, 52, 50] 0 ≠ 1) ∧
      (r.2 = 0 → r.1 = fresh ∧
        ∀ position, getSymbol getBitLSB r.1 position = getSymbol getBitLSB fresh position) :=
  encodeMessage_atomic getBitLSB setBitLSB 6 [32, 75, 49, 65, 66, 67] [70, 78, 52, 50] 0 fresh
    (by decide)

end WSPRClass

/-! ## The frame for an unregistered identifier -/

set_option maxRecDepth 1000000 in
/-- C33, counterexample: the registry of the scenario does not hold the
identifier 9, and the receive engine of the scenario is `Idle` after `init`.
After the edges of the well-formed frame for identifier 9 with the payload byte
`0xBF` (56 timer periods) its status is `Writing` (1) and the receive buffer has
changed: after the unknown identifier the decoder starts over inside the frame
and finds the registered identifier 7 in the bits that follow.  Also, the
engine that is `Idle` with seven bits of a registered identifier in is made
`Writing` by the first edge of that frame. -/
theorem unregistered_frame_disturbs :
    (∀ e ∈ scenarioRegistry, e.ID ≠ foreignDset.ID) ∧ scenarioRx.status = 0 ∧
    (linkReceive crc8Maxim (tickMicros 10) 0 (fun _ => 0) 56 scenarioTx foreignDset
      scenarioRx).status = 1 ∧
    (linkReceive crc8Maxim (tickMicros 10) 0 (fun _ => 0) 56 scenarioTx foreignDset
      scenarioRx).data_array ≠ scenarioRx.data_array ∧
    scenarioAcquiring.status = 0 ∧
    (feedEdges
      ((edgeEvents (linkClock (tickMicros 10) 136576 (fun _ => 0)) 0 scenarioTx.pin_level
        (DataTransmitterClass.levels 56
          (DataTransmitterClass.transmitData crc8Maxim scenarioTx foreignDset).1)).take 1)
      scenarioAcquiring).status = 1 := by
  decide

theorem feedEdges_append (x y : List (Nat × Nat)) : ∀ s : DataReceiverClass,
    feedEdges (x ++ y) s = feedEdges y (feedEdges x s) := by
  induction x with
  | nil => intro s; rfl
  | cons e es ih => intro s; rw [List.cons_append]; simp only [feedEdges]; exact ih _

theorem feedTrace_append (x y : List (Nat × Nat)) : ∀ s : DataReceiverClass,
    feedTrace (x ++ y) s = feedTrace x s ++ feedTrace y (feedEdges x s) := by
  induction x with
  | nil => intro s; rfl
  | cons e es ih =>
    intro s
    rw [List.cons_append]
    simp only [feedTrace, feedEdges]
    rw [ih, List.cons_append]

theorem edgeEvents_pair (clock : Nat → Nat × Nat) (k lvl l1 l2 : Nat) (rest : List Nat) :
    edgeEvents clock k lvl (l1 :: l2 :: rest)
      = edgeEvents clock k lvl [l1, l2] ++ edgeEvents clock (k + 2) l2 rest := by
  simp only [edgeEvents]
  split_ifs <;> simp

theorem edgeEvents_append (clock : Nat → Nat × Nat) (a b : List Nat) : ∀ (k lvl : Nat),
    edgeEvents clock k lvl (a ++ b)
      = edgeEvents clock k lvl a ++ edgeEvents clock (k + a.length) (a.getLastD lvl) b := by
  induction a with
  | nil => intro k lvl; simp [edgeEvents]
  | cons l ls ih =>
    intro k lvl
    have hk : k + 1 + ls.length = k + (ls.length + 1) := by omega
    rw [List.cons_append]
    simp only [edgeEvents, List.length_cons, List.getLastD_cons]
    rw [ih (k + 1) l, hk]
    split_ifs <;> simp

theorem lineCode_getLastD (l : List Nat) : ∀ (p lvl : Nat),
    (lineCode p lvl l).getLastD lvl = (lineEnd p lvl l).2 := by
  induction l with
  | nil => intro p lvl; rfl
  | cons b bs ih =>
    intro p lvl
    simp only [lineCode, lineEnd, List.getLastD_cons]
    exact ih _ _

theorem levels_length (n : Nat) : ∀ s : DataTransmitterClass,
    (DataTransmitterClass.levels n s).length = n := by
  induction n with
  | zero => intro s; rfl
  | succ n ih => intro s; simp [DataTransmitterClass.levels, ih]

theorem trace_symbol (P t0 : Nat) (ms : Nat → Nat) (k lvl p b : Nat)
    (s : DataReceiverClass) (hw : TickInWindow s.T1 s.T2 s.T3 P) (hlvl : lvl < 2) (hp : p < 2)
    (hb : b < 2) (hskip : s.skip_next_short = 1) (hint : s.int_counter ≠ 0)
    (hprev : s.prev_bit = p) (hmsl : s.msl = microsAt P t0 k) :
    ∀ t ∈ feedTrace (edgeEvents (linkClock P t0 ms) k lvl
        [lineLevel p lvl b, lnot (lineLevel p lvl b)]) s,
      t = { s with msl := microsAt P t0 (k + 1), skip_next_short := 0 } ∨
      t = DataReceiverClass.rxBit b (microsAt P t0 (k + 2)) (ms (k + 2)) s := by
  obtain ⟨w1, w2, w3, w4, w5, w6⟩ := hw
  by_cases hpb : p = b
  · subst hpb
    rw [lineLevel_same]
    have e1 : DataReceiverClass.DRisr (microsAt P t0 (k + 1)) (ms (k + 1)) s
        = { s with msl := microsAt P t0 (k + 1), skip_next_short := 0 } := by
      apply DataReceiverClass.DRisr_short_skip _ _ _ P
      · rw [hmsl]; simpa using sub32_microsAt P t0 k 1 (by omega)
      · exact w1
      · exact w2
      · omega
      · exact hskip
    have e2 : DataReceiverClass.DRisr (microsAt P t0 (k + 1 + 1)) (ms (k + 1 + 1))
          { s with msl := microsAt P t0 (k + 1), skip_next_short := 0 }
        = DataReceiverClass.rxBit p (microsAt P t0 (k + 1 + 1)) (ms (k + 1 + 1))
            { s with msl := microsAt P t0 (k + 1), skip_next_short := 0 } := by
      rw [← hprev]
      apply DataReceiverClass.DRisr_short_bit _ _ _ P
      · simpa using sub32_microsAt P t0 (k + 1) 1 (by omega)
      · exact w1
      · exact w2
      · show s.T2 ≤ s.T3
        omega
      · rfl
      · exact hint
    simp only [edgeEvents, feedTrace, linkClock, if_pos (lnot_ne_self lvl),
      if_pos (lnot_ne_self (lnot lvl)), e1, e2]
    intro t ht
    simp only [List.mem_cons, List.mem_nil_iff, or_false] at ht
    rcases ht with rfl | rfl
    · exact Or.inl rfl
    · exact Or.inr rfl
  · rw [lineLevel_diff p lvl b hpb hlvl]
    have hne : ¬ (lvl ≠ lvl) := fun h => h rfl
    have e2 : DataReceiverClass.DRisr (microsAt P t0 (k + 2)) (ms (k + 2)) s
        = DataReceiverClass.rxBit b (microsAt P t0 (k + 2)) (ms (k + 2)) s := by
      have hb' : lnot s.prev_bit = b := by
        rw [hprev]; unfold lnot; split_ifs <;> omega
      rw [← hb']
      apply DataReceiverClass.DRisr_long_bit _ _ _ (2 * P)
      · rw [hmsl]; exact sub32_microsAt P t0 k 2 (by omega)
      · omega
      · exact w3
      · exact w4
      · exact hint
    simp only [edgeEvents, feedTrace, linkClock, if_neg hne, if_pos (lnot_ne_self lvl), e2]
    intro t ht
    simp only [List.mem_cons, List.mem_nil_iff, or_false] at ht
    exact Or.inr ht

theorem trace_bits (P t0 : Nat) (ms : Nat → Nat) (n : Nat) :
    ∀ (k lvl p w i a : Nat) (s : DataReceiverClass),
      TickInWindow s.T1 s.T2 s.T3 P → lvl < 2 → p < 2 → s.skip_next_short = 1 →
      s.int_counter ≠ 0 → s.prev_bit = p → s.msl = microsAt P t0 k → s.bit_value = 2 ^ i →
      s.byte_value = a → a < 2 ^ i → i + n ≤ 7 →
      ∀ t ∈ feedTrace (edgeEvents (linkClock P t0 ms) k lvl (lineCode p lvl (bitsLSB n w))) s,
        t.status = s.status ∧ t.data_array = s.data_array := by
  induction n with
  | zero =>
    intro k lvl p w i a s _ _ _ _ _ _ _ _ _ _ _ t ht
    simp [bitsLSB, lineCode, edgeEvents, feedTrace] at ht
  | succ n ih =>
    intro k lvl p w i a s hw hlvl hp hskip hint hprev hmsl hbit hval ha hin t ht
    have hb : w % 2 < 2 := Nat.mod_lt _ (by decide)
    have hs1 := rxBit_shift (w % 2) (microsAt P t0 (k + 2)) (ms (k + 2)) s i a hb hskip hbit
      hval ha (by omega)
    have h64 := pow_le_64 i (by omega)
    simp only [bitsLSB, lineCode] at ht
    rw [edgeEvents_pair, feedTrace_append] at ht
    have hfe : feedEdges (edgeEvents (linkClock P t0 ms) k lvl
          [lineLevel p lvl (w % 2), lnot (lineLevel p lvl (w % 2))]) s
        = { s with msl := microsAt P t0 (k + 2), prev_bit := w % 2, bit_value := 2 ^ (i + 1),
                   byte_value := a + 2 ^ i * (w % 2) } := by
      rw [feed_symbol P t0 ms k lvl p (w % 2) [] s hw hlvl hp hb hskip hint hprev hmsl, hs1]
      rfl
    rcases List.mem_append.1 ht with h | h
    · rcases trace_symbol P t0 ms k lvl p (w % 2) s hw hlvl hp hb hskip hint hprev hmsl t h
        with rfl | rfl
      · exact ⟨rfl, rfl⟩
      · rw [hs1]; exact ⟨rfl, rfl⟩
    · rw [hfe] at h
      exact ih (k + 2) (lnot (lineLevel p lvl (w % 2))) (w % 2) (w / 2) (i + 1)
        (a + 2 ^ i * (w % 2))
        { s with msl := microsAt P t0 (k + 2), prev_bit := w % 2, bit_value := 2 ^ (i + 1),
                 byte_value := a + 2 ^ i * (w % 2) }
        hw (lnot_lt_two _) hb hskip hint rfl rfl rfl rfl
        (by rw [pow_succ]; nlinarith) (by omega) t h

namespace DataReceiverClass

theorem bitDone_unknown (ms : Nat) (s : DataReceiverClass) (hbit : s.bit_value = 128)
    (hc : s.byte_counter = 0) (hst : s.status = 0)
    (hid : idLoop s.dataset s.byte_value s.dataset_count 0 = none) :
    bitDone ms s = resetReception s := by
  simp [bitDone, hbit, hc, hst, hid]

end DataReceiverClass

theorem feedEdges_no_events (clock : Nat → Nat × Nat) (k lvl : Nat) (s : DataReceiverClass) :
    feedEdges (edgeEvents clock k lvl []) s = s := rfl

theorem trace_byte_unknown (P t0 : Nat) (ms : Nat → Nat) (k lvl p v : Nat)
    (s : DataReceiverClass) (hw : TickInWindow s.T1 s.T2 s.T3 P) (hlvl : lvl < 2) (hp : p < 2)
    (hskip : s.skip_next_short = 1) (hint : s.int_counter ≠ 0) (hprev : s.prev_bit = p)
    (hmsl : s.msl = microsAt P t0 k) (hbit : s.bit_value = 1) (hval : s.byte_value = 0)
    (hv : v < 256) (hc : s.byte_counter = 0) (hst : s.status = 0)
    (hid : DataReceiverClass.idLoop s.dataset v s.dataset_count 0 = none) :
    (∀ t ∈ feedTrace (edgeEvents (linkClock P t0 ms) k lvl (lineCode p lvl (bitsLSB 8 v))) s,
      t.status = 0 ∧ t.data_array = s.data_array) ∧
    feedEdges (edgeEvents (linkClock P t0 ms) k lvl (lineCode p lvl (bitsLSB 8 v))) s
      = DataReceiverClass.resetReception
          { s with msl := microsAt P t0 (k + 16)
                   prev_bit := (lineEnd p lvl (bitsLSB 8 v)).1
                   bit_value := 128
                   byte_value := v } := by
  have hfin : feedEdges (edgeEvents (linkClock P t0 ms) k lvl (lineCode p lvl (bitsLSB 8 v))) s
      = DataReceiverClass.resetReception
          { s with msl := microsAt P t0 (k + 16)
                   prev_bit := (lineEnd p lvl (bitsLSB 8 v)).1
                   bit_value := 128
                   byte_value := v } := by
    have f := feed_byte P t0 ms k lvl p v [] s hw hlvl hp hskip hint hprev hmsl hbit hval hv
    rw [List.append_nil] at f
    rw [f, feedEdges_no_events]
    exact DataReceiverClass.bitDone_unknown _ _ rfl hc hst hid
  refine ⟨?_, hfin⟩
  intro t ht
  have h8 : bitsLSB 8 v = bitsLSB 7 v ++ [v / 2 ^ 7 % 2] := bitsLSB_succ_last 7 v
  obtain ⟨q1, q2⟩ := lineEnd_lt (bitsLSB 7 v) (bitsLSB_lt 7 v) p lvl hp hlvl
  have hb : v / 2 ^ 7 % 2 < 2 := Nat.mod_lt _ (by decide)
  have f7 := feed_bits P t0 ms 7 k lvl p v 0 0 [] s hw hlvl hp hskip hint hprev hmsl hbit hval
    (by norm_num) (by norm_num)
  rw [List.append_nil, feedEdges_no_events] at f7
  have hf8 := hfin
  rw [h8, lineCode_append, edgeEvents_append, feedEdges_append, f7] at hf8
  rw [h8, lineCode_append, edgeEvents_append, feedTrace_append, f7] at ht
  rw [lineCode_getLastD, lineCode_length, bitsLSB_length] at ht hf8
  rcases List.mem_append.1 ht with h | h
  · obtain ⟨a1, a2⟩ := trace_bits P t0 ms 7 k lvl p v 0 0 s hw hlvl hp hskip hint hprev hmsl hbit
      hval (by norm_num) (by norm_num) t h
    exact ⟨by rw [a1, hst], a2⟩
  · simp only [lineCode] at h hf8
    have f1 := feed_symbol P t0 ms (k + 2 * 7) (lineEnd p lvl (bitsLSB 7 v)).2
      (lineEnd p lvl (bitsLSB 7 v)).1 (v / 2 ^ 7 % 2) []
      { s with msl := microsAt P t0 (k + 2 * 7)
               prev_bit := (lineEnd p lvl (bitsLSB 7 v)).1
               bit_value := 2 ^ (0 + 7)
               byte_value := 0 + 2 ^ 0 * (v % 2 ^ 7) }
      hw q2 q1 hb hskip hint rfl rfl
    rw [feedEdges_no_events] at f1
    rcases trace_symbol P t0 ms (k + 2 * 7) (lineEnd p lvl (bitsLSB 7 v)).2
      (lineEnd p lvl (bitsLSB 7 v)).1 (v / 2 ^ 7 % 2)
      { s with msl := microsAt P t0 (k + 2 * 7)
               prev_bit := (lineEnd p lvl (bitsLSB 7 v)).1
               bit_value := 2 ^ (0 + 7)
               byte_value := 0 + 2 ^ 0 * (v % 2 ^ 7) }
      hw q2 q1 hb hskip hint rfl rfl t h with rfl | rfl
    · exact ⟨hst, rfl⟩
    · rw [← f1, hf8]
      refine ⟨?_, rfl⟩
      show (if s.status &&& 1 ≠ 0 then 0 else s.status) = 0
      rw [hst]
      rfl

theorem trace_start (P t0 : Nat) (ms : Nat → Nat) (s : DataReceiverClass)
    (hw : TickInWindow s.T1 s.T2 s.T3 P) (h1 : s.int_counter = 0) (h2 : s.byte_counter = 0)
    (h3 : s.bit_value = 1) (h4 : s.byte_value = 0) (h5 : s.prev_bit = 1)
    (h6 : s.skip_next_short = 1) (hst : s.status = 0) :
    ∀ t ∈ feedTrace (edgeEvents (linkClock P t0 ms) 0 0 [1, 1, 1, 1, 0, 1, 0]) s,
      t.status = s.status ∧ t.data_array = s.data_array := by
  obtain ⟨w1, w2, w3, w4, w5, w6⟩ := hw
  obtain ⟨sk, e1⟩ := DataReceiverClass.DRisr_first_edge (microsAt P t0 1) (ms 1) s h1 h2 h3 h4
    h5 h6 hst
  have d5 : sub32 (microsAt P t0 5) (microsAt P t0 1) = 4 * P :=
    sub32_microsAt P t0 1 4 (by omega)
  have d6 : sub32 (microsAt P t0 6) (microsAt P t0 5) = P := by
    simpa using sub32_microsAt P t0 5 1 (by omega)
  have d7 : sub32 (microsAt P t0 7) (microsAt P t0 6) = P := by
    simpa using sub32_microsAt P t0 6 1 (by omega)
  have e5 : DataReceiverClass.DRisr (microsAt P t0 5) (ms 5)
        { s with msl := microsAt P t0 1, skip_next_short := sk }
      = { s with msl := microsAt P t0 5 } := by
    rw [DataReceiverClass.DRisr_violation (microsAt P t0 5) (ms 5)
      { s with msl := microsAt P t0 1, skip_next_short := sk } (4 * P) d5 (Or.inr w5)]
    simp [DataReceiverClass.resetReception, h1, h2, h3, h4, h5, h6, hst]
  have e6 : DataReceiverClass.DRisr (microsAt P t0 6) (ms 6) { s with msl := microsAt P t0 5 }
      = { s with msl := microsAt P t0 6, skip_next_short := 0 } := by
    rw [DataReceiverClass.DRisr_short_skip (microsAt P t0 6) (ms 6)
      { s with msl := microsAt P t0 5 } P d6 w1 w2 (by show s.T2 ≤ s.T3; omega) h6]
  have e7 : DataReceiverClass.DRisr (microsAt P t0 7) (ms 7)
        { s with msl := microsAt P t0 6, skip_next_short := 0 }
      = { s with msl := microsAt P t0 7, int_counter := 1 } := by
    rw [DataReceiverClass.DRisr_short_preamble (microsAt P t0 7) (ms 7)
      { s with msl := microsAt P t0 6, skip_next_short := 0 } P d7 w1 w2
      (by show s.T2 ≤ s.T3; omega) rfl h1]
    simp [h6]
  intro t ht
  simp only [edgeEvents, feedTrace, linkClock, e1, e5, e6, e7, ne_eq, not_true_eq_false,
    if_false, one_ne_zero, not_false_eq_true, if_true, zero_ne_one, List.mem_cons,
    List.mem_nil_iff, or_false] at ht
  rcases ht with rfl | rfl | rfl | rfl <;> exact ⟨rfl, rfl⟩

theorem header_levels (crc : Nat → List Nat → Nat) (tx : DataTransmitterClass) (ID SIZE : Nat)
    (payload : List Nat) (htx : tx.bytes = 0) (hpre : tx.prescaler ≠ 0) (hid : ID < 256)
    (hsize1 : 1 ≤ SIZE) (hsize : SIZE ≤ 255) (hlen : SIZE ≤ payload.length) :
    DataTransmitterClass.levels 23
        (DataTransmitterClass.transmitData crc tx
          (DataTransmitterClass.createDataset payload ID SIZE)).1
      = 1 :: 1 :: 1 :: 1 :: 0 :: 1 :: 0 :: lineCode 1 0 (bitsLSB 8 ID) := by
  have e := DataTransmitterClass.transmitData_started crc tx
    (DataTransmitterClass.createDataset payload ID SIZE) htx hsize1 hid
  simp only [DataTransmitterClass.createDataset] at e
  simp only [DataTransmitterClass.createDataset]
  generalize (DataTransmitterClass.transmitData crc tx ⟨payload, ID, SIZE⟩).1 = st at e
  have hb : st.bytes = SIZE := by rw [e]
  have hd : st.data = payload := by rw [e]
  have hcb : st.curr_byte = 3 + 4 * ID + 1024 * checksum8 crc ID payload SIZE := by
    rw [e]
  obtain ⟨-, -, L, -⟩ := DataTransmitterClass.session_run st (by rw [e]; exact hpre)
    (by rw [e]) (by rw [e]) (by rw [e]) (by rw [e]) (by rw [e]) (by rw [hb]; exact hsize1)
    (by rw [hb]; exact hsize) (by rw [hb, hd]; exact hlen) 0
  rw [hb, hd, hcb, bitsLSB_header _ _ hid] at L
  have hsplit : 40 + 16 * SIZE + 0 = 23 + (17 + 16 * SIZE) := by omega
  rw [hsplit, DataTransmitterClass.levels_add] at L
  have ht := congrArg (List.take 23) L
  rw [List.take_left' (levels_length 23 st)] at ht
  rw [ht]
  have hr : [1, 1] ++ bitsLSB 8 ID ++ bitsLSB 8 (checksum8 crc ID payload SIZE) ++
        bytesBits (payload.take SIZE)
      = 1 :: 1 :: (bitsLSB 8 ID ++ (bitsLSB 8 (checksum8 crc ID payload SIZE) ++
          bytesBits (payload.take SIZE))) := by
    simp only [List.cons_append, List.nil_append, List.append_assoc]
  rw [hr, lineCode_sync, lineCode_append]
  have h16 : (lineCode 1 0 (bitsLSB 8 ID)).length = 16 := by
    rw [lineCode_length, bitsLSB_length]
  simp only [List.cons_append, List.nil_append, List.append_assoc, List.take_succ_cons]
  rw [List.take_left' h16]

/-- C33, amended: the header of a frame for an unregistered identifier.  For
every byte rate in 4..255, every registry (as the handler scans it) that does
not hold the identifier, and every size in 1..255 and payload: the edges of the
first 23 timer periods of the frame (start pulse, two sync symbols and the
identifier byte) are delivered, at any start time, to a receive engine with the
thresholds of that byte rate whose status is `Idle` and whose decoder is in the
reset state.  Then after every one of these edges the status is `Idle` and the
receive buffer is as before, and after the last of them, which completes the
identifier byte, the engine is in the state it had before the frame, the time
of the last edge apart: the decoder is reset and takes the rest of the frame
for the start of a new one. -/
theorem unregistered_header_ignored (crc : Nat → List Nat → Nat) (BYTE_RATE ID SIZE : Nat)
    (payload : List Nat) (tx : DataTransmitterClass) (rx : DataReceiverClass) (t0 : Nat)
    (ms : Nat → Nat)
    (hrate : 4 ≤ BYTE_RATE) (hrate' : BYTE_RATE ≤ 255) (hid : ID < 256) (hsize1 : 1 ≤ SIZE)
    (hsize : SIZE ≤ 255) (hlen : payload.length = SIZE)
    (htx : tx.bytes = 0) (hpre : tx.prescaler ≠ 0) (hlevel : tx.pin_level = 0)
    (hT1 : rx.T1 = 31250 / BYTE_RATE % 65536) (hT2 : rx.T2 = 3 * rx.T1 % 65536)
    (hT3 : rx.T3 = 5 * rx.T1 % 65536)
    (h1 : rx.int_counter = 0) (h2 : rx.byte_counter = 0) (h3 : rx.bit_value = 1)
    (h4 : rx.byte_value = 0) (h5 : rx.prev_bit = 1) (h6 : rx.skip_next_short = 1)
    (hst : rx.status = 0)
    (hunreg : ∀ j, j < rx.dataset_count → (rx.dataset.getD j default).ID ≠ ID) :
    (∀ t ∈ feedTrace
        (edgeEvents (linkClock (tickMicros BYTE_RATE) t0 ms) 0 tx.pin_level
          (DataTransmitterClass.levels 23
            (DataTransmitterClass.transmitData crc tx
              (DataTransmitterClass.createDataset payload ID SIZE)).1)) rx,
      t.status = 0 ∧ t.data_array = rx.data_array) ∧
    feedEdges
        (edgeEvents (linkClock (tickMicros BYTE_RATE) t0 ms) 0 tx.pin_level
          (DataTransmitterClass.levels 23
            (DataTransmitterClass.transmitData crc tx
              (DataTransmitterClass.createDataset payload ID SIZE)).1)) rx
      = { rx with msl := microsAt (tickMicros BYTE_RATE) t0 23 } := by
  have hw : TickInWindow rx.T1 rx.T2 rx.T3 (tickMicros BYTE_RATE) := by
    rw [hT3, hT2, hT1]
    exact tickMicros_inWindow BYTE_RATE hrate hrate'
  rw [header_levels crc tx ID SIZE payload htx hpre hid hsize1 hsize (by omega), hlevel]
  have hsp : (1 :: 1 :: 1 :: 1 :: 0 :: 1 :: 0 :: lineCode 1 0 (bitsLSB 8 ID) : List Nat)
      = [1, 1, 1, 1, 0, 1, 0] ++ lineCode 1 0 (bitsLSB 8 ID) := rfl
  have hs7 : feedEdges (edgeEvents (linkClock (tickMicros BYTE_RATE) t0 ms) 0 0
        [1, 1, 1, 1, 0, 1, 0]) rx
      = { rx with msl := microsAt (tickMicros BYTE_RATE) t0 7, int_counter := 1 } := by
    rw [feed_start (tickMicros BYTE_RATE) t0 ms [] rx hw h1 h2 h3 h4 h5 h6 hst,
      feedEdges_no_events]
  have hnone : DataReceiverClass.idLoop rx.dataset ID rx.dataset_count 0 = none :=
    DataReceiverClass.idLoop_none _ _ _ _ (fun j _ hj => hunreg j (by omega))
  obtain ⟨b1, b2⟩ := trace_byte_unknown (tickMicros BYTE_RATE) t0 ms 7 0 1 ID
    { rx with msl := microsAt (tickMicros BYTE_RATE) t0 7, int_counter := 1 }
    hw (by decide) (by decide) h6 Nat.one_ne_zero h5 rfl h3 h4 hid h2 hst hnone
  have hk : (0 : Nat) + ([1, 1, 1, 1, 0, 1, 0] : List Nat).length = 7 := rfl
  have hl : ([1, 1, 1, 1, 0, 1, 0] : List Nat).getLastD 0 = 0 := rfl
  rw [hsp, edgeEvents_append, hk, hl, feedTrace_append, feedEdges_append, hs7]
  constructor
  · intro t ht
    rcases List.mem_append.1 ht with h | h
    · obtain ⟨a1, a2⟩ := trace_start (tickMicros BYTE_RATE) t0 ms rx hw h1 h2 h3 h4 h5 h6 hst t h
      exact ⟨by rw [a1, hst], a2⟩
    · exact b1 t h
  · rw [b2]
    simp [DataReceiverClass.resetReception, h1, h2, h3, h4, h5, h6, hst]

set_option maxRecDepth 100000 in
/-- C33, amended, at the scenario: after the header of the frame for the
identifier 9 the receive engine of the scenario is as it was, the time of the
last edge apart. -/
theorem unregistered_header_ignored_witness :
    feedEdges
        (edgeEvents (linkClock (tickMicros 10) 0 (fun _ => 0)) 0 scenarioTx.pin_level
          (DataTransmitterClass.levels 23
            (DataTransmitterClass.transmitData crc8Maxim scenarioTx
              (DataTransmitterClass.createDataset [0xBF] 9 1)).1)) scenarioRx
      = { scenarioRx with msl := microsAt (tickMicros 10) 0 23 } :=
  (unregistered_header_ignored crc8Maxim 10 9 1 [0xBF] scenarioTx scenarioRx 0 (fun _ => 0)
    (by decide) (by decide) (by decide) (by decide) (by decide) rfl (by decide) (by decide)
    (by decide) (by decide) (by decide) (by decide) (by decide) (by decide) (by decide)
    (by decide) (by decide) (by decide) (by decide) (by decide)).2

end WSPRduino
